import Mathlib

/-!
# NOVA block allocator (balloc.c): shallow embedding and verified properties

The per-CPU free lists of `balloc.c` are embedded as explicit state passing.

* `unsigned long` values are natural numbers; every arithmetic result is reduced
  modulo `2^64` (`ul`, `ul_sub`), `int` and `long` results are signed integers obtained
  by `int_of_ulong` and `long_of_ulong`.
* A pointer to a `struct nova_range_node` is the address of the node (a natural number),
  `NULL` is `none`.  The red-black tree of a free list is a binary tree whose nodes carry
  their address; its shape is kept because `nova_find_range_node` and
  `nova_insert_range_node` walk it from the root.
* The kernel routines `rb_insert_color` and `rb_erase` (lib/rbtree.c, not part of the
  repository) re-shape the tree.  They are fields of `kernel_env`, constrained only by
  what they guarantee: the in-order sequence of nodes is kept, respectively loses the
  erased node.  Every statement is therefore proved for every tree shape.
-/

namespace Nova

/-! ## Machine integers and error numbers -/

/-- Value of an arithmetic expression stored in an `unsigned long` (64 bits). -/
def ul (x : Nat) : Nat := x % 18446744073709551616

/-- Difference `a - b` of two `unsigned long` values, computed modulo `2^64`. -/
def ul_sub (a b : Nat) : Nat :=
  (a + 18446744073709551616 - b % 18446744073709551616) % 18446744073709551616

/-- Conversion of an `unsigned long` to `int` (32 bits, two's complement). -/
def int_of_ulong (x : Nat) : Int :=
  if x % 4294967296 < 2147483648 then ((x % 4294967296 : Nat) : Int)
  else ((x % 4294967296 : Nat) : Int) - 4294967296

/-- Conversion of an `unsigned long` to `long` (64 bits, two's complement). -/
def long_of_ulong (x : Nat) : Int :=
  if x % 18446744073709551616 < 9223372036854775808 then
    ((x % 18446744073709551616 : Nat) : Int)
  else ((x % 18446744073709551616 : Nat) : Int) - 18446744073709551616

/-- Conversion of an `int` to `unsigned long` (sign extension). -/
def ulong_of_int (v : Int) : Nat := (v % 18446744073709551616).toNat

def EIO : Int := 5

def ENOMEM : Int := 12

def EINVAL : Int := 22

def ENOSPC : Int := 28

/-- Modelled from the spec: the block type tags are declared in nova_def.h, which is not
among the sources; the 4K type is the only one that is not a super-page type, and
`nova_alloc_blocks_in_free_list` tests super-page types by `btype > 0`. -/
def NOVA_BLOCK_TYPE_4K : Nat := 0

/-- Modelled from the spec: see `NOVA_BLOCK_TYPE_4K`. -/
def NOVA_BLOCK_TYPE_2M : Nat := 1

/-- Modelled from the spec: see `NOVA_BLOCK_TYPE_4K`. -/
def NOVA_BLOCK_TYPE_1G : Nat := 2

/-- nova.h 1239-1253. -/
def nova_get_numblocks (btype : Nat) : Nat :=
  if btype = NOVA_BLOCK_TYPE_4K then 1
  else if btype = NOVA_BLOCK_TYPE_2M then 512
  else 262144

/-! ## Range nodes and the search tree -/

/-- The fields of `struct nova_range_node` used by the block allocator (nova.h 520-527). -/
structure nova_range_node where
  range_low : Nat
  range_high : Nat
  csum : Nat
deriving DecidableEq, Repr

/-- A search tree of range nodes; `addr` is the address of the node. -/
inductive rb_root where
  | nil : rb_root
  | node (rb_left : rb_root) (addr : Nat) (item : nova_range_node) (rb_right : rb_root) : rb_root
deriving DecidableEq, Repr

/-- A non-NULL node pointer together with the node it points to. -/
abbrev node_ptr : Type := Nat × nova_range_node

/-- In-order sequence of the nodes of a tree. -/
def rb_root.inorder : rb_root → List node_ptr
  | .nil => []
  | .node l a n r => l.inorder ++ (a, n) :: r.inorder

/-- Successor of the node at address `a` in a sequence of nodes. -/
def list_next : List node_ptr → Nat → Option node_ptr
  | [], _ => none
  | [_], _ => none
  | x :: y :: rest, a => if x.1 = a then some y else list_next (y :: rest) a

/-- Predecessor of the node at address `a` in a sequence of nodes. -/
def list_prev : List node_ptr → Nat → Option node_ptr
  | [], _ => none
  | [_], _ => none
  | x :: y :: rest, a =>
    if x.1 = a then none else if y.1 = a then some x else list_prev (y :: rest) a

/-- Kernel `rb_next`: the in-order successor of a node, NULL for the last node. -/
def rb_next (tree : rb_root) (a : Nat) : Option node_ptr := list_next tree.inorder a

/-- Kernel `rb_prev`: the in-order predecessor of a node, NULL for the first node. -/
def rb_prev (tree : rb_root) (a : Nat) : Option node_ptr := list_prev tree.inorder a

/-- Kernel `rb_first`: the leftmost node, NULL for the empty tree. -/
def rb_first (tree : rb_root) : Option node_ptr := tree.inorder.head?

/-- Read through a node pointer. -/
def rb_root.deref (tree : rb_root) (a : Nat) : Option node_ptr :=
  tree.inorder.find? (fun p => p.1 == a)

/-- Write through a node pointer: the node at address `a` becomes `f` of itself. -/
def rb_root.update (f : nova_range_node → nova_range_node) (a : Nat) : rb_root → rb_root
  | .nil => .nil
  | .node l b n r =>
    .node (rb_root.update f a l) b (if b = a then f n else n) (rb_root.update f a r)

/-- What the allocator takes from outside balloc.c and nova.h. -/
structure kernel_env where
  /-- the global flag `dram_struct_csum` -/
  dram_struct_csum : Int
  /-- `nova_calculate_range_node_csum`: CRC32C over the protected fields of a node -/
  nova_calculate_range_node_csum : Nat → Nat → Nat
  /-- the macro `ANY_CPU`, declared outside the sources -/
  ANY_CPU : Int
  /-- the macro `NOVA_STRIPE_SIZE`, declared outside the sources -/
  NOVA_STRIPE_SIZE : Nat
  /-- number of blocks `nova_data_csum_init_free_list` reserves in one free list -/
  data_csum_blocks_per_list : Nat
  /-- kernel `rb_insert_color`, called after the node at the given address was linked -/
  rb_insert_color : Nat → rb_root → rb_root
  /-- kernel `rb_erase` of the node at the given address -/
  rb_erase : Nat → rb_root → rb_root
  rb_insert_color_inorder : ∀ a t, (rb_insert_color a t).inorder = t.inorder
  rb_erase_inorder : ∀ a t, (rb_erase a t).inorder = t.inorder.filter (fun p => p.1 != a)

/-- nova.h 546-552. -/
def nova_update_range_node_checksum (E : kernel_env) (node : nova_range_node) :
    nova_range_node :=
  if E.dram_struct_csum ≠ 0 then
    { node with csum := E.nova_calculate_range_node_csum node.range_low node.range_high }
  else node

/-- nova.h 554-570. -/
def nova_range_node_checksum_ok (E : kernel_env) (node : nova_range_node) : Bool :=
  if E.dram_struct_csum = 0 then true
  else decide (node.csum = E.nova_calculate_range_node_csum node.range_low node.range_high)

/-- balloc.c 125-134. -/
def nova_rbtree_compare_rangenode (curr : nova_range_node) (range_low : Nat) : Int :=
  if range_low < curr.range_low then -1
  else if range_low > curr.range_high then 1
  else 0

/-- The `while (temp)` loop of `nova_find_range_node` (balloc.c 147-159): returns `ret`
and `curr`. -/
def nova_find_range_node_loop : rb_root → Nat → Option node_ptr → Int × Option node_ptr
  | .nil, _, curr => (0, curr)
  | .node l a n r, range_low, _ =>
    if nova_rbtree_compare_rangenode n range_low = -1 then
      nova_find_range_node_loop l range_low (some (a, n))
    else if nova_rbtree_compare_rangenode n range_low = 1 then
      nova_find_range_node_loop r range_low (some (a, n))
    else (1, some (a, n))

/-- balloc.c 136-168.  `ret_node` is the value the caller left in `*ret_node`; the result is
the return value and the final `*ret_node`. -/
def nova_find_range_node (E : kernel_env) (tree : rb_root) (range_low : Nat)
    (ret_node : Option node_ptr) : Int × Option node_ptr :=
  let r := nova_find_range_node_loop tree range_low none
  match r.2 with
  | some curr =>
    if nova_range_node_checksum_ok E curr.2 = false then (0, ret_node) else (r.1, some curr)
  | none => (r.1, none)

/-- The descent of `nova_insert_range_node` followed by `rb_link_node` (balloc.c 190-214);
`none` when the descent meets a node containing the new `range_low`. -/
def nova_insert_range_node_link : rb_root → Nat → nova_range_node → Option rb_root
  | .nil, a, n => some (.node .nil a n .nil)
  | .node l b m r, a, n =>
    if nova_rbtree_compare_rangenode m n.range_low = -1 then
      (nova_insert_range_node_link l a n).map (fun l2 => .node l2 b m r)
    else if nova_rbtree_compare_rangenode m n.range_low = 1 then
      (nova_insert_range_node_link r a n).map (fun r2 => .node l b m r2)
    else none

/-- balloc.c 183-218. -/
def nova_insert_range_node (E : kernel_env) (tree : rb_root) (a : Nat)
    (new_node : nova_range_node) : Int × rb_root :=
  match nova_insert_range_node_link tree a new_node with
  | none => (-EINVAL, tree)
  | some t => (0, E.rb_insert_color a t)

/-- balloc.c 220-230. -/
def nova_insert_blocktree (E : kernel_env) (tree : rb_root) (a : Nat)
    (new_node : nova_range_node) : Int × rb_root :=
  nova_insert_range_node E tree a new_node

/-- Result of `nova_find_free_slot`: return value, `*prev`, `*next`. -/
structure free_slot where
  ret : Int
  prev : Option node_ptr
  next : Option node_ptr
deriving DecidableEq, Repr

/-- balloc.c 247-303; the caller passes `*prev = *next = NULL`. -/
def nova_find_free_slot (E : kernel_env) (tree : rb_root) (range_low range_high : Nat) :
    free_slot :=
  let r := nova_find_range_node E tree range_low none
  if r.1 ≠ 0 then ⟨-EINVAL, none, none⟩
  else
    match r.2 with
    | none => ⟨0, none, none⟩
    | some ret_node =>
      if ret_node.2.range_high < range_low then
        match rb_next tree ret_node.1 with
        | some nx =>
          if nova_range_node_checksum_ok E nx.2 = false then ⟨- EIO, some ret_node, some nx⟩
          else ⟨0, some ret_node, some nx⟩
        | none => ⟨0, some ret_node, none⟩
      else if ret_node.2.range_low > range_high then
        match rb_prev tree ret_node.1 with
        | some pv =>
          if nova_range_node_checksum_ok E pv.2 = false then ⟨- EIO, some pv, some ret_node⟩
          else ⟨0, some pv, some ret_node⟩
        | none => ⟨0, none, some ret_node⟩
      else ⟨-EINVAL, none, none⟩

/-! ## Free lists -/

/-- The fields of `struct free_list` (nova.h 636-661) read or written by balloc.c, with
the cached `last_node` pointer that balloc.c uses next to `first_node`. -/
structure free_list where
  block_free_tree : rb_root
  first_node : Option Nat
  last_node : Option Nat
  index : Int
  csum_start : Nat
  parity_start : Nat
  block_start : Nat
  block_end : Nat
  num_free_blocks : Nat
  num_blocknode : Nat
  num_csum_blocks : Nat
  num_parity_blocks : Nat
  alloc_log_count : Nat
  alloc_data_count : Nat
  free_log_count : Nat
  free_data_count : Nat
  alloc_log_pages : Nat
  alloc_data_pages : Nat
  freed_log_pages : Nat
  freed_data_pages : Nat
deriving DecidableEq, Repr

/-- A zero-filled `struct free_list` with an empty tree (balloc.c 36-47). -/
def free_list.zero (i : Int) : free_list :=
  { block_free_tree := .nil, first_node := none, last_node := none, index := i,
    csum_start := 0, parity_start := 0, block_start := 0, block_end := 0,
    num_free_blocks := 0, num_blocknode := 0, num_csum_blocks := 0, num_parity_blocks := 0,
    alloc_log_count := 0, alloc_data_count := 0, free_log_count := 0, free_data_count := 0,
    alloc_log_pages := 0, alloc_data_pages := 0, freed_log_pages := 0,
    freed_data_pages := 0 }

/-- The label `block_found` of `nova_free_blocks` (balloc.c 399-408). -/
def nova_free_blocks_block_found (fl : free_list) (num_blocks : Nat) (log_page : Int) :
    free_list :=
  let fl1 := { fl with num_free_blocks := ul (fl.num_free_blocks + num_blocks) }
  if log_page ≠ 0 then
    { fl1 with free_log_count := ul (fl1.free_log_count + 1),
               freed_log_pages := ul (fl1.freed_log_pages + num_blocks) }
  else
    { fl1 with free_data_count := ul (fl1.free_data_count + 1),
               freed_data_pages := ul (fl1.freed_data_pages + num_blocks) }

/-- The part of `nova_free_blocks` that runs under the lock of the free list
(balloc.c 341-410).  `curr_node` is the address of the node pre-allocated by
`nova_alloc_blocknode`; the result is `ret` and the free list after the call. -/
def nova_free_blocks_locked (E : kernel_env) (fl : free_list) (curr_node : Nat)
    (blocknr num_blocks : Nat) (log_page : Int) : Int × free_list :=
  let tree := fl.block_free_tree
  let block_low := blocknr
  let block_high := ul_sub (ul (blocknr + num_blocks)) 1
  let slot := nova_find_free_slot E tree block_low block_high
  if slot.ret ≠ 0 then (slot.ret, fl)
  else
    match (slot.prev.bind fun prev => slot.next.bind fun next =>
            if block_low = ul (prev.2.range_high + 1) ∧ ul (block_high + 1) = next.2.range_low
            then some (prev, next) else none) with
    | some (prev, next) =>
      /- fits the hole -/
      let tree1 := E.rb_erase next.1 tree
      let tree2 := rb_root.update (fun n => nova_update_range_node_checksum E
                      { n with range_high := next.2.range_high }) prev.1 tree1
      let fl1 := { fl with
                    block_free_tree := tree2,
                    num_blocknode := ul_sub fl.num_blocknode 1,
                    last_node := if fl.last_node = some next.1 then some prev.1
                                 else fl.last_node }
      (0, nova_free_blocks_block_found fl1 num_blocks log_page)
    | none =>
    match (slot.prev.bind fun prev =>
            if block_low = ul (prev.2.range_high + 1) then some prev else none) with
    | some prev =>
      /- Aligns left -/
      let tree1 := rb_root.update (fun n => nova_update_range_node_checksum E
                      { n with range_high := ul (n.range_high + num_blocks) }) prev.1 tree
      (0, nova_free_blocks_block_found { fl with block_free_tree := tree1 }
            num_blocks log_page)
    | none =>
    match (slot.next.bind fun next =>
            if ul (block_high + 1) = next.2.range_low then some next else none) with
    | some next =>
      /- Aligns right -/
      let tree1 := rb_root.update (fun n => nova_update_range_node_checksum E
                      { n with range_low := ul_sub n.range_low num_blocks }) next.1 tree
      (0, nova_free_blocks_block_found { fl with block_free_tree := tree1 }
            num_blocks log_page)
    | none =>
      /- Aligns somewhere in the middle -/
      let node := nova_update_range_node_checksum E
                    { range_low := block_low, range_high := block_high, csum := 0 }
      let ins := nova_insert_blocktree E tree curr_node node
      if ins.1 ≠ 0 then (ins.1, fl)
      else
        let fl1 := { fl with
                      block_free_tree := ins.2,
                      first_node := if slot.prev = none then some curr_node
                                    else fl.first_node,
                      last_node := if slot.next = none then some curr_node
                                   else fl.last_node,
                      num_blocknode := ul (fl.num_blocknode + 1) }
        (0, nova_free_blocks_block_found fl1 num_blocks log_page)

/-! ## The super block -/

/-- The fields of `struct nova_sb_info` (nova.h 700-756) and of the super block used by
the allocator. -/
structure nova_sb_info where
  s_blocksize : Nat
  initsize : Nat
  num_blocks : Nat
  reserved_blocks : Nat
  cpus : Int
  per_list_blocks : Nat
  free_lists : List free_list
  shared_free_list : free_list
deriving DecidableEq, Repr

/-- nova.h 837-846. -/
def nova_get_free_list (sbi : nova_sb_info) (cpu : Int) : free_list :=
  if cpu < sbi.cpus then sbi.free_lists.getD cpu.toNat sbi.shared_free_list
  else sbi.shared_free_list

/-- Store through the pointer returned by `nova_get_free_list`. -/
def nova_set_free_list (sbi : nova_sb_info) (cpu : Int) (fl : free_list) : nova_sb_info :=
  if cpu < sbi.cpus then { sbi with free_lists := sbi.free_lists.set cpu.toNat fl }
  else { sbi with shared_free_list := fl }

/-- balloc.c 305-417.  `curr_node` is the result of `nova_alloc_blocknode` (`none` when
the allocation of the node fails). -/
def nova_free_blocks (E : kernel_env) (sbi : nova_sb_info) (curr_node : Option Nat)
    (blocknr : Nat) (num : Int) (btype : Nat) (log_page : Int) : Int × nova_sb_info :=
  if num ≤ 0 then (-EINVAL, sbi)
  else
    let cpuid := int_of_ulong (blocknr / sbi.per_list_blocks)
    match curr_node with
    | none => (-ENOMEM, sbi)
    | some curr =>
      let fl := nova_get_free_list sbi cpuid
      let num_blocks := ul (nova_get_numblocks btype * ulong_of_int num)
      let r := nova_free_blocks_locked E fl curr blocknr num_blocks log_page
      (r.1, nova_set_free_list sbi cpuid r.2)

/-! ## Allocation -/

/-- Nodes visited by the loop of `nova_alloc_blocks_in_free_list`, in order: from the node
`temp` on, by `rb_next` when `from_tail` is 0 and by `rb_prev` otherwise.  A pointer that is
NULL or not in the tree gives no node. -/
def alloc_walk (tree : rb_root) (from_tail : Int) (temp : Option Nat) : List node_ptr :=
  match temp with
  | none => []
  | some a =>
    if from_tail = 0 then tree.inorder.dropWhile (fun p => p.1 != a)
    else tree.inorder.reverse.dropWhile (fun p => p.1 != a)

/-- The variables carried by the loop of `nova_alloc_blocks_in_free_list`. -/
structure alloc_state where
  fl : free_list
  num_blocks : Nat
  new_blocknr : Nat
  found : Bool
deriving DecidableEq, Repr

/-- The `while (temp)` loop of `nova_alloc_blocks_in_free_list` (balloc.c 490-549) over the
nodes it visits. -/
def nova_alloc_blocks_loop (E : kernel_env) (btype : Nat) (from_tail : Int) :
    List node_ptr → alloc_state → alloc_state
  | [], st => st
  | curr :: rest, st =>
    if nova_range_node_checksum_ok E curr.2 = false then
      nova_alloc_blocks_loop E btype from_tail rest st
    else
      let curr_blocks := ul (ul_sub curr.2.range_high curr.2.range_low + 1)
      if st.num_blocks ≥ curr_blocks then
        /- Superpage allocation must succeed -/
        if btype > 0 ∧ st.num_blocks > curr_blocks then
          nova_alloc_blocks_loop E btype from_tail rest st
        else
          /- Otherwise, allocate the whole blocknode -/
          let tree := st.fl.block_free_tree
          let fl1 := { st.fl with
            first_node := if some curr.1 = st.fl.first_node then
                            (rb_next tree curr.1).map (fun p => p.1)
                          else st.fl.first_node,
            last_node := if some curr.1 = st.fl.last_node then
                           (rb_prev tree curr.1).map (fun p => p.1)
                         else st.fl.last_node,
            block_free_tree := E.rb_erase curr.1 tree,
            num_blocknode := ul_sub st.fl.num_blocknode 1 }
          { fl := fl1, num_blocks := curr_blocks, new_blocknr := curr.2.range_low,
            found := true }
      else
        /- Allocate partial blocknode -/
        if from_tail = 0 then
          let tree1 := rb_root.update (fun n => nova_update_range_node_checksum E
                          { n with range_low := ul (n.range_low + st.num_blocks) })
                          curr.1 st.fl.block_free_tree
          { fl := { st.fl with block_free_tree := tree1 }, num_blocks := st.num_blocks,
            new_blocknr := curr.2.range_low, found := true }
        else
          let tree1 := rb_root.update (fun n => nova_update_range_node_checksum E
                          { n with range_high := ul_sub n.range_high st.num_blocks })
                          curr.1 st.fl.block_free_tree
          { fl := { st.fl with block_free_tree := tree1 }, num_blocks := st.num_blocks,
            new_blocknr := ul_sub (ul (curr.2.range_high + 1)) st.num_blocks, found := true }

/-- Result of `nova_alloc_blocks_in_free_list`: return value, the free list and
`*new_blocknr` after the call. -/
structure alloc_result where
  ret : Int
  fl : free_list
  new_blocknr : Nat
deriving DecidableEq, Repr

/-- balloc.c 469-567. -/
def nova_alloc_blocks_in_free_list (E : kernel_env) (fl : free_list) (btype : Nat)
    (num_blocks : Nat) (new_blocknr : Nat) (from_tail : Int) : alloc_result :=
  if fl.first_node = none ∨ fl.num_free_blocks = 0 then ⟨-ENOSPC, fl, new_blocknr⟩
  else
    let temp := if from_tail = 0 then fl.first_node else fl.last_node
    let st := nova_alloc_blocks_loop E btype from_tail
                (alloc_walk fl.block_free_tree from_tail temp) ⟨fl, num_blocks, new_blocknr, false⟩
    if st.fl.num_free_blocks < st.num_blocks then ⟨-ENOSPC, st.fl, st.new_blocknr⟩
    else if st.found = true then
      ⟨long_of_ulong st.num_blocks,
        { st.fl with num_free_blocks := ul_sub st.fl.num_free_blocks st.num_blocks },
        st.new_blocknr⟩
    else ⟨-ENOSPC, st.fl, st.new_blocknr⟩

/-- balloc.c 569-587: the loop state is `(cpuid, num_free_blocks)`, both of type `int`. -/
def nova_get_candidate_free_list (sbi : nova_sb_info) : Int :=
  ((List.range sbi.cpus.toNat).foldl
    (fun (acc : Int × Int) (i : Nat) =>
      let fl := nova_get_free_list sbi i
      if fl.num_free_blocks > ulong_of_int acc.2 then
        ((i : Int), int_of_ulong fl.num_free_blocks)
      else acc)
    (0, 0)).1

/-- The label `retry` of `nova_new_blocks` (balloc.c 612-639) with `2 - retried` retries
left: returns the `cpuid` reached at the label `alloc` and the super block (the branch that
finds `first_node` NULL re-reads it with `rb_first`). -/
def nova_new_blocks_retry (sbi : nova_sb_info) (num_blocks : Nat) : Nat → Int → Int × nova_sb_info
  | left, cpuid =>
    let fl := nova_get_free_list sbi cpuid
    if fl.num_free_blocks < num_blocks ∨ fl.first_node = none then
      if fl.num_free_blocks ≥ num_blocks then
        (cpuid, nova_set_free_list sbi cpuid
                  { fl with first_node := (rb_first fl.block_free_tree).map (fun p => p.1) })
      else
        match left with
        | 0 => (cpuid, sbi)
        | n + 1 => nova_new_blocks_retry sbi num_blocks n (nova_get_candidate_free_list sbi)
    else (cpuid, sbi)

/-- `enum alloc_type` (nova.h 356-359). -/
def LOG : Int := 1

/-- `enum alloc_type` (nova.h 356-359). -/
def DATA : Int := 2

/-- Result of `nova_new_blocks`: return value, the super block and `*blocknr` after the
call. -/
structure new_blocks_result where
  ret : Int
  sbi : nova_sb_info
  blocknr : Nat
deriving DecidableEq, Repr

/-- balloc.c 589-671.  `blocknr` is the value of `*blocknr` before the call, `num` the
`unsigned int` request, `processor_id` the result of `smp_processor_id()`.  The zero fill
of the blocks (balloc.c 660-666) writes block contents only and is not part of the state. -/
def nova_new_blocks (E : kernel_env) (sbi : nova_sb_info) (blocknr : Nat) (num : Nat)
    (btype : Nat) (atype : Int) (cpuid : Int) (from_tail : Int) (processor_id : Int) :
    new_blocks_result :=
  let num_blocks := ul (num * nova_get_numblocks btype)
  if num_blocks = 0 then ⟨-EINVAL, sbi, blocknr⟩
  else
    let cpuid1 := if cpuid = E.ANY_CPU then processor_id else cpuid
    let r := nova_new_blocks_retry sbi num_blocks 2 cpuid1
    let a := nova_alloc_blocks_in_free_list E (nova_get_free_list r.2 r.1) btype num_blocks
               0 from_tail
    let fl1 :=
      if a.ret > 0 then
        if atype = LOG then
          { a.fl with alloc_log_count := ul (a.fl.alloc_log_count + 1),
                      alloc_log_pages := ul (a.fl.alloc_log_pages + a.ret.toNat) }
        else if atype = DATA then
          { a.fl with alloc_data_count := ul (a.fl.alloc_data_count + 1),
                      alloc_data_pages := ul (a.fl.alloc_data_pages + a.ret.toNat) }
        else a.fl
      else a.fl
    let sbi1 := nova_set_free_list r.2 r.1 fl1
    if a.ret ≤ 0 ∨ a.new_blocknr = 0 then ⟨-ENOSPC, sbi1, blocknr⟩
    else ⟨int_of_ulong (a.ret.toNat / nova_get_numblocks btype), sbi1, a.new_blocknr⟩

/-- balloc.c 708-721. -/
def nova_count_free_blocks (sbi : nova_sb_info) : Nat :=
  (List.range sbi.cpus.toNat).foldl
    (fun (num_free_blocks : Nat) (i : Nat) =>
      ul (num_free_blocks + (nova_get_free_list sbi i).num_free_blocks)) 0

/-! ## Initialisation -/

/-- Modelled from the spec: `nova_data_csum_init_free_list` is defined in checksum.c, which
is not among the sources.  It reserves the checksum blocks of the partition at its front:
`csum_start` takes the old `block_start` and `block_start` advances by the reservation. -/
def nova_data_csum_init_free_list (E : kernel_env) (fl : free_list) : free_list :=
  let fl1 := { fl with csum_start := fl.block_start }
  let fl2 := { fl1 with block_start := ul (fl1.block_start + E.data_csum_blocks_per_list) }
  { fl2 with num_csum_blocks := ul_sub fl2.block_start fl2.csum_start }

/-- parity.c 266-291. -/
def nova_data_parity_init_free_list (E : kernel_env) (sbi : nova_sb_info) (fl : free_list) :
    free_list :=
  let strp_size := E.NOVA_STRIPE_SIZE
  let blocksize := sbi.s_blocksize
  let total_blocks := sbi.initsize / blocksize
  let parity_blocks0 := total_blocks / ul (blocksize / strp_size + 1)
  let parity_blocks :=
    if total_blocks % ul (blocksize / strp_size + 1) ≠ 0 then ul (parity_blocks0 + 1)
    else parity_blocks0
  let fl1 := { fl with parity_start := fl.block_start }
  let fl2 := { fl1 with block_start := ul (fl1.block_start + parity_blocks / ulong_of_int sbi.cpus) }
  let fl3 := if parity_blocks % ulong_of_int sbi.cpus ≠ 0 then
               { fl2 with block_start := ul (fl2.block_start + 1) }
             else fl2
  { fl3 with num_parity_blocks := ul_sub fl3.block_start fl3.parity_start }

/-- balloc.c 61-77. -/
def nova_init_free_list (E : kernel_env) (sbi : nova_sb_info) (fl : free_list) (index : Int) :
    free_list :=
  let per_list_blocks := sbi.num_blocks / ulong_of_int sbi.cpus
  let fl1 := { fl with block_start := ul (per_list_blocks * ulong_of_int index) }
  let fl2 := { fl1 with block_end := ul_sub (ul (fl1.block_start + per_list_blocks)) 1 }
  let fl3 := if index = 0 then
               { fl2 with block_start := ul (fl2.block_start + sbi.reserved_blocks) }
             else fl2
  nova_data_parity_init_free_list E sbi (nova_data_csum_init_free_list E fl3)

/-- The `for` loop of `nova_init_blockmap` (balloc.c 90-122) with `n` iterations left at
index `i`; `blknode i` is the address returned by `nova_alloc_blocknode` in iteration `i`. -/
def nova_init_blockmap_loop (E : kernel_env) (recovery : Int) (blknode : Int → Nat) :
    Nat → Int → nova_sb_info → nova_sb_info
  | 0, _, sbi => sbi
  | n + 1, i, sbi =>
    let fl1 := nova_init_free_list E sbi (nova_get_free_list sbi i) i
    /- For recovery, update these fields later -/
    if recovery = 0 then
      let fl2 := { fl1 with
        num_free_blocks := ul (ul_sub fl1.block_end fl1.block_start + 1) }
      let node := nova_update_range_node_checksum E
                    { range_low := fl2.block_start, range_high := fl2.block_end, csum := 0 }
      let ins := nova_insert_blocktree E fl2.block_free_tree (blknode i) node
      if ins.1 ≠ 0 then nova_set_free_list sbi i fl2
      else
        nova_init_blockmap_loop E recovery blknode n (i + 1)
          (nova_set_free_list sbi i
            { fl2 with block_free_tree := ins.2, first_node := some (blknode i),
                       last_node := some (blknode i), num_blocknode := 1 })
    else
      nova_init_blockmap_loop E recovery blknode n (i + 1) (nova_set_free_list sbi i fl1)

/-- balloc.c 79-123. -/
def nova_init_blockmap (E : kernel_env) (sbi : nova_sb_info) (recovery : Int)
    (blknode : Int → Nat) : nova_sb_info :=
  nova_init_blockmap_loop E recovery blknode sbi.cpus.toNat 0
    { sbi with per_list_blocks := sbi.num_blocks / ulong_of_int sbi.cpus }

/-- balloc.c 30-50: the array of `cpus` zero-filled free lists with empty trees. -/
def nova_alloc_block_free_lists (sbi : nova_sb_info) : nova_sb_info :=
  { sbi with free_lists := (List.range sbi.cpus.toNat).map (fun (i : Nat) => free_list.zero i) }

/-! ## An instance of the kernel interface

`rb_erase` unlinks a node without rotations and `rb_insert_color` leaves the tree as
linked; used to evaluate the model on concrete states. -/

/-- Append the tree `r` below the rightmost node of the first tree. -/
def rb_root.join : rb_root → rb_root → rb_root
  | .nil, r => r
  | .node l b n r1, r => .node l b n (rb_root.join r1 r)

/-- Unlink the node at address `a`. -/
def rb_root.remove (a : Nat) : rb_root → rb_root
  | .nil => .nil
  | .node l b n r =>
    if b = a then rb_root.join (rb_root.remove a l) (rb_root.remove a r)
    else .node (rb_root.remove a l) b n (rb_root.remove a r)

/-- The kernel interface without rotations, with checksum flag `csum` and a simple
stand-in for CRC32C. -/
def unbalanced_env (csum : Int) : kernel_env where
  dram_struct_csum := csum
  nova_calculate_range_node_csum := fun lo hi => (lo * 31 + hi + 7) % 4294967296
  ANY_CPU := 65536
  NOVA_STRIPE_SIZE := 512
  data_csum_blocks_per_list := 0
  rb_insert_color := fun _ t => t
  rb_erase := fun a t => rb_root.remove a t
  rb_insert_color_inorder := fun _ _ => rfl
  rb_erase_inorder := by
    have hj : ∀ l r : rb_root, (rb_root.join l r).inorder = l.inorder ++ r.inorder := by
      intro l r
      induction l with
      | nil => simp [rb_root.join, rb_root.inorder]
      | node l b n r1 ihl ihr => simp [rb_root.join, rb_root.inorder, ihr]
    intro a t
    induction t with
    | nil => simp [rb_root.remove, rb_root.inorder]
    | node l b n r ihl ihr =>
      by_cases h : b = a
      · simp [rb_root.remove, rb_root.inorder, hj, h, ihl, ihr, List.filter_cons]
      · simp [rb_root.remove, rb_root.inorder, h, ihl, ihr, List.filter_cons]

/-! ## Well-formed indices -/

/-- The extent of `p` lies entirely below the extent of `q`. -/
def ext_lt (p q : node_ptr) : Prop := p.2.range_high < q.2.range_low

/-- Pairwise-disjoint extents in ascending order, each with `range_low ≤ range_high`. -/
def sorted_exts (l : List node_ptr) : Prop :=
  l.Pairwise ext_lt ∧ ∀ p ∈ l, p.2.range_low ≤ p.2.range_high

/-- The block `b` lies in an extent of `l`. -/
def blk_in (l : List node_ptr) (b : Nat) : Prop :=
  ∃ p ∈ l, p.2.range_low ≤ b ∧ b ≤ p.2.range_high

/-- Nodes lying entirely below block `k`. -/
def below (k : Nat) (l : List node_ptr) : List node_ptr :=
  l.filter (fun p => decide (p.2.range_high < k))

/-- Nodes lying entirely above block `k`. -/
def above (k : Nat) (l : List node_ptr) : List node_ptr :=
  l.filter (fun p => decide (k < p.2.range_low))

/-- A well-formed index: disjoint ascending extents of `unsigned long` block numbers, one
address per node, every node passing `nova_range_node_checksum_ok`. -/
structure wf_nodes (E : kernel_env) (l : List node_ptr) : Prop where
  sorted : sorted_exts l
  nodup : (l.map Prod.fst).Nodup
  csum : ∀ p ∈ l, nova_range_node_checksum_ok E p.2 = true
  bound : ∀ p ∈ l, p.2.range_high < 18446744073709551616

/-- Which of the four cases of `nova_free_blocks` applies. -/
inductive free_kind where
  | hole
  | left
  | right
  | middle
deriving DecidableEq, Repr

/-- The four cases of `nova_free_blocks` in priority order, on the nodes `l1` below the
freed run `[lo, lo + nb - 1]` and the nodes `l2` above it: predecessor and successor are
the last node of `l1` and the first node of `l2`; `c` is the address of the node inserted
in the last case. -/
def free_merge (E : kernel_env) (c lo nb : Nat) (l1 l2 : List node_ptr) :
    free_kind × List node_ptr :=
  let hi := lo + nb - 1
  let fresh : node_ptr :=
    (c, nova_update_range_node_checksum E { range_low := lo, range_high := hi, csum := 0 })
  match l1.getLast?, l2.head? with
  | some p, some s =>
    if lo = p.2.range_high + 1 ∧ hi + 1 = s.2.range_low then
      (.hole, l1.dropLast ++ (p.1, nova_update_range_node_checksum E
                { p.2 with range_high := s.2.range_high }) :: l2.tail)
    else if lo = p.2.range_high + 1 then
      (.left, l1.dropLast ++ (p.1, nova_update_range_node_checksum E
                { p.2 with range_high := p.2.range_high + nb }) :: l2)
    else if hi + 1 = s.2.range_low then
      (.right, l1 ++ (s.1, nova_update_range_node_checksum E
                { s.2 with range_low := s.2.range_low - nb }) :: l2.tail)
    else (.middle, l1 ++ fresh :: l2)
  | some p, none =>
    if lo = p.2.range_high + 1 then
      (.left, l1.dropLast ++ [(p.1, nova_update_range_node_checksum E
                { p.2 with range_high := p.2.range_high + nb })])
    else (.middle, l1 ++ [fresh])
  | none, some s =>
    if hi + 1 = s.2.range_low then
      (.right, (s.1, nova_update_range_node_checksum E
                { s.2 with range_low := s.2.range_low - nb }) :: l2.tail)
    else (.middle, fresh :: l2)
  | none, none => (.middle, [fresh])

/-- The index after freeing `[lo, lo + nb - 1]`, on the in-order sequence. -/
def free_nodes (E : kernel_env) (l : List node_ptr) (c lo nb : Nat) :
    free_kind × List node_ptr :=
  free_merge E c lo nb (below lo l) (above (lo + nb - 1) l)

/-- The cached `first_node` after a free of kind `k`. -/
def free_first_node (k : free_kind) (l : List node_ptr) (c lo : Nat) (old : Option Nat) :
    Option Nat :=
  if k = .middle ∧ below lo l = [] then some c else old

/-- The cached `last_node` after a free of kind `k`. -/
def free_last_node (k : free_kind) (l : List node_ptr) (c lo nb : Nat) (old : Option Nat) :
    Option Nat :=
  match k with
  | .hole =>
    if old = (above (lo + nb - 1) l).head?.map Prod.fst then
      (below lo l).getLast?.map Prod.fst
    else old
  | .middle => if above (lo + nb - 1) l = [] then some c else old
  | _ => old

/-- The counter `num_blocknode` after a free of kind `k`. -/
def free_num_blocknode (k : free_kind) (old : Nat) : Nat :=
  match k with
  | .hole => ul_sub old 1
  | .middle => ul (old + 1)
  | _ => old

/-- The nodes replaced by a free of kind `k` and the node that replaces them. -/
def free_mid (E : kernel_env) (c lo nb : Nat) :
    free_kind → List node_ptr → List node_ptr → Prop
  | .hole, m, m1 => ∃ p s : node_ptr, m = [p, s] ∧ p.2.range_high + 1 = lo ∧
      lo + nb = s.2.range_low ∧
      m1 = [(p.1, nova_update_range_node_checksum E { p.2 with range_high := s.2.range_high })]
  | .left, m, m1 => ∃ p : node_ptr, m = [p] ∧ p.2.range_high + 1 = lo ∧
      m1 = [(p.1, nova_update_range_node_checksum E
              { p.2 with range_high := p.2.range_high + nb })]
  | .right, m, m1 => ∃ s : node_ptr, m = [s] ∧ lo + nb = s.2.range_low ∧
      m1 = [(s.1, nova_update_range_node_checksum E
              { s.2 with range_low := s.2.range_low - nb })]
  | .middle, m, m1 => m = [] ∧
      m1 = [(c, nova_update_range_node_checksum E
              { range_low := lo, range_high := lo + nb - 1, csum := 0 })]

/-- Number of blocks of an extent. -/
def node_blocks (p : node_ptr) : Nat := p.2.range_high - p.2.range_low + 1

/-- Number of blocks in the extents of an index. -/
def total_blocks (l : List node_ptr) : Nat := (l.map node_blocks).sum

/-- No two extents of the index are adjacent: between consecutive extents at least one
block is not free. -/
def coalesced (l : List node_ptr) : Prop :=
  l.Pairwise (fun p q => p.2.range_high + 1 < q.2.range_low)

/-- The free list that `nova_free_blocks` resolves from `blocknr`. -/
def free_cpu (sbi : nova_sb_info) (blocknr : Nat) : Int :=
  ((blocknr / sbi.per_list_blocks : Nat) : Int)

/-- The in-order sequence of nodes of the free list `cpu`. -/
def index_of (sbi : nova_sb_info) (cpu : Int) : List node_ptr :=
  (nova_get_free_list sbi cpu).block_free_tree.inorder

/-- The extents of an index, as pairs `(range_low, range_high)`. -/
def extents (l : List node_ptr) : List (Nat × Nat) :=
  l.map (fun p => (p.2.range_low, p.2.range_high))

/-- Number of blocks `nova_free_blocks` releases for a count `num` of type `btype`. -/
def free_count (btype : Nat) (num : Int) : Nat := nova_get_numblocks btype * num.toNat

/-! ## A concrete run: an accepted double free -/

/-- A 100-block device with one CPU before `nova_init_blockmap`. -/
def example_sbi0 : nova_sb_info :=
  nova_alloc_block_free_lists
    { s_blocksize := 4096, initsize := 409600, num_blocks := 100, reserved_blocks := 1,
      cpus := 1, per_list_blocks := 0, free_lists := [],
      shared_free_list := free_list.zero 0 }

/-- After `nova_init_blockmap`: the free list holds the extent `[13, 99]`. -/
def example_sbi1 : nova_sb_info :=
  nova_init_blockmap (unbalanced_env 0) example_sbi0 0 (fun _ => 1000)

/-- After allocating 30 blocks, `[13, 42]`: the free list holds `[43, 99]`. -/
def example_sbi2 : nova_sb_info :=
  (nova_new_blocks (unbalanced_env 0) example_sbi1 0 30 NOVA_BLOCK_TYPE_4K DATA 0 0 0).sbi

/-- After freeing `[13, 18]`: the node `[43, 99]` is the root of the tree and the new node
`[13, 18]` its left child. -/
def example_sbi3 : nova_sb_info :=
  (nova_free_blocks (unbalanced_env 0) example_sbi2 (some 1001) 13 6 NOVA_BLOCK_TYPE_4K 0).2

/-! ## Allocation on the in-order sequence -/

/-- `curr_blocks` as `nova_alloc_blocks_in_free_list` computes it (balloc.c 499). -/
def curr_blocks (p : node_ptr) : Nat := ul (ul_sub p.2.range_high p.2.range_low + 1)

/-- The loop of `nova_alloc_blocks_in_free_list` stops at this node: it passes the checksum
test and is not skipped by the super-page rule. -/
def alloc_takes (E : kernel_env) (btype nb : Nat) (p : node_ptr) : Bool :=
  nova_range_node_checksum_ok E p.2 && !(decide (btype > 0) && decide (nb > curr_blocks p))

/-- What the loop of `nova_alloc_blocks_in_free_list` does at the node where it stops. -/
def alloc_take (E : kernel_env) (from_tail : Int) (curr : node_ptr) (st : alloc_state) :
    alloc_state :=
  if st.num_blocks ≥ curr_blocks curr then
    { fl := { st.fl with
        first_node := if some curr.1 = st.fl.first_node then
                        (rb_next st.fl.block_free_tree curr.1).map (fun p => p.1)
                      else st.fl.first_node,
        last_node := if some curr.1 = st.fl.last_node then
                       (rb_prev st.fl.block_free_tree curr.1).map (fun p => p.1)
                     else st.fl.last_node,
        block_free_tree := E.rb_erase curr.1 st.fl.block_free_tree,
        num_blocknode := ul_sub st.fl.num_blocknode 1 },
      num_blocks := curr_blocks curr, new_blocknr := curr.2.range_low, found := true }
  else if from_tail = 0 then
    let tree1 := rb_root.update (fun n => nova_update_range_node_checksum E
                    { n with range_low := ul (n.range_low + st.num_blocks) })
                    curr.1 st.fl.block_free_tree
    { fl := { st.fl with block_free_tree := tree1 }, num_blocks := st.num_blocks,
      new_blocknr := curr.2.range_low, found := true }
  else
    let tree1 := rb_root.update (fun n => nova_update_range_node_checksum E
                    { n with range_high := ul_sub n.range_high st.num_blocks })
                    curr.1 st.fl.block_free_tree
    { fl := { st.fl with block_free_tree := tree1 }, num_blocks := st.num_blocks,
      new_blocknr := ul_sub (ul (curr.2.range_high + 1)) st.num_blocks, found := true }

/-- How the chosen extent is consumed: entirely, from its low end, or from its high end. -/
inductive alloc_kind where
  | whole
  | head
  | tail
deriving DecidableEq, Repr

/-- The case of `nova_alloc_blocks_in_free_list` for a request of `nb` blocks at the chosen
node. -/
def alloc_kind_of (from_tail : Int) (nb : Nat) (curr : node_ptr) : alloc_kind :=
  if nb ≥ curr_blocks curr then .whole else if from_tail = 0 then .head else .tail

/-- What replaces the chosen node in the index. -/
def alloc_mid (E : kernel_env) (nb : Nat) (curr : node_ptr) : alloc_kind → List node_ptr
  | .whole => []
  | .head => [(curr.1, nova_update_range_node_checksum E
      { curr.2 with range_low := curr.2.range_low + nb })]
  | .tail => [(curr.1, nova_update_range_node_checksum E
      { curr.2 with range_high := curr.2.range_high - nb })]

/-- First block of the allocated run. -/
def alloc_blocknr (nb : Nat) (curr : node_ptr) : alloc_kind → Nat
  | .whole => curr.2.range_low
  | .head => curr.2.range_low
  | .tail => curr.2.range_high + 1 - nb

/-- Number of blocks of the allocated run. -/
def alloc_count (nb : Nat) (curr : node_ptr) : alloc_kind → Nat
  | .whole => curr_blocks curr
  | .head => nb
  | .tail => nb

/-- The free list after a successful `nova_alloc_blocks_in_free_list` that stopped at
`curr`, which lies between `d` and `r` in the index that `t` holds afterwards. -/
def alloc_result_fl (fl : free_list) (t : rb_root) (from_tail : Int) (nb : Nat)
    (curr : node_ptr) (d r : List node_ptr) : free_list :=
  { fl with
    block_free_tree := t,
    first_node :=
      if alloc_kind_of from_tail nb curr = .whole ∧ some curr.1 = fl.first_node then
        r.head?.map Prod.fst
      else fl.first_node,
    last_node :=
      if alloc_kind_of from_tail nb curr = .whole ∧ some curr.1 = fl.last_node then
        d.getLast?.map Prod.fst
      else fl.last_node,
    num_blocknode :=
      if alloc_kind_of from_tail nb curr = .whole then ul_sub fl.num_blocknode 1
      else fl.num_blocknode,
    num_free_blocks :=
      ul_sub fl.num_free_blocks (alloc_count nb curr (alloc_kind_of from_tail nb curr)) }

/-- Number of blocks requested from `nova_new_blocks`. -/
def new_count (num btype : Nat) : Nat := num * nova_get_numblocks btype

/-- The CPU number `nova_new_blocks` reaches at its label `alloc`. -/
def serving_cpu (E : kernel_env) (sbi : nova_sb_info) (num btype : Nat) (cpuid pid : Int) :
    Int :=
  (nova_new_blocks_retry sbi (new_count num btype) 2
    (if cpuid = E.ANY_CPU then pid else cpuid)).1

/-- The statistics update of `nova_new_blocks` (balloc.c 644-652). -/
def new_blocks_stats (atype : Int) (a : alloc_result) : free_list :=
  if a.ret > 0 then
    if atype = LOG then
      { a.fl with alloc_log_count := ul (a.fl.alloc_log_count + 1),
                  alloc_log_pages := ul (a.fl.alloc_log_pages + a.ret.toNat) }
    else if atype = DATA then
      { a.fl with alloc_data_count := ul (a.fl.alloc_data_count + 1),
                  alloc_data_pages := ul (a.fl.alloc_data_pages + a.ret.toNat) }
    else a.fl
  else a.fl

/-- The order in which `nova_alloc_blocks_in_free_list` searches a whole index: ascending,
or descending when `from_tail` is set. -/
def search_order (tree : rb_root) (from_tail : Int) : List node_ptr :=
  if from_tail = 0 then tree.inorder else tree.inorder.reverse

/-- After freeing `[13, 14]`: the free list holds `[13, 14]` and `[43, 99]`. -/
def example_sbi4 : nova_sb_info :=
  (nova_free_blocks (unbalanced_env 0) example_sbi2 (some 1001) 13 2 NOVA_BLOCK_TYPE_4K 0).2

/-- A one-CPU super block whose free list holds the single extent `[lo, hi]` at node
address 1000, with cached pointers and counter consistent with it. -/
def single_extent_sbi (lo hi : Nat) : nova_sb_info :=
  { s_blocksize := 4096, initsize := 0, num_blocks := hi + 1, reserved_blocks := 0,
    cpus := 1, per_list_blocks := hi + 1,
    free_lists := [{ free_list.zero 0 with
      block_free_tree := .node .nil 1000 ⟨lo, hi, 0⟩ .nil,
      first_node := some 1000, last_node := some 1000,
      block_start := 0, block_end := hi,
      num_free_blocks := hi - lo + 1, num_blocknode := 1 }],
    shared_free_list := free_list.zero 1 }

/-- The partition invariant: every per-CPU list has a well-formed index whose blocks,
together with the blocks `A i` handed out from it and not yet freed, are exactly
`[block_start, block_end]`, no block being in both; the shared list holds nothing. -/
structure part_inv (E : kernel_env) (s : nova_sb_info) (A : Int → Nat → Prop) : Prop where
  len : s.free_lists.length = s.cpus.toNat
  cpus_lt : s.cpus < 2147483648
  plb : 1 ≤ s.per_list_blocks
  shared : s.shared_free_list.block_free_tree.inorder = []
  owner : ∀ i b, A i b → 0 ≤ i ∧ i < s.cpus
  parts : ∀ i : Int, 0 ≤ i → i < s.cpus →
    wf_nodes E (index_of s i) ∧
    (nova_get_free_list s i).block_end < 18446744073709551616 ∧
    (∀ b, (blk_in (index_of s i) b ∨ A i b) ↔
      ((nova_get_free_list s i).block_start ≤ b ∧ b ≤ (nova_get_free_list s i).block_end)) ∧
    (∀ b, blk_in (index_of s i) b → ¬ A i b)

/-- States reached from `s0` by successful `nova_new_blocks` calls and by `nova_free_blocks`
calls that release a run allocated in the partition the call works on, together with the
blocks `A i` handed out from partition `i` and not yet freed. -/
inductive reachable (E : kernel_env) (s0 : nova_sb_info) :
    nova_sb_info → (Int → Nat → Prop) → Prop
  | init : reachable E s0 s0 (fun _ _ => False)
  | alloc (s : nova_sb_info) (A : Int → Nat → Prop) (blocknr num btype : Nat)
      (atype cpuid from_tail pid : Int) :
      reachable E s0 s A → 0 ≤ cpuid → 0 ≤ pid → num < 4294967296 →
      0 < (nova_new_blocks E s blocknr num btype atype cpuid from_tail pid).ret →
      reachable E s0 (nova_new_blocks E s blocknr num btype atype cpuid from_tail pid).sbi
        (fun i b => A i b ∨ (i = serving_cpu E s num btype cpuid pid ∧
          (nova_new_blocks E s blocknr num btype atype cpuid from_tail pid).blocknr ≤ b ∧
          b < (nova_new_blocks E s blocknr num btype atype cpuid from_tail pid).blocknr +
            (nova_new_blocks E s blocknr num btype atype cpuid from_tail pid).ret.toNat *
              nova_get_numblocks btype))
  | free (s : nova_sb_info) (A : Int → Nat → Prop) (c blocknr : Nat) (num : Int)
      (btype : Nat) (lp : Int) :
      reachable E s0 s A → 0 < num → num < 2147483648 →
      (∀ b, blocknr ≤ b → b < blocknr + free_count btype num → A (free_cpu s blocknr) b) →
      c ∉ (index_of s (free_cpu s blocknr)).map Prod.fst →
      reachable E s0 (nova_free_blocks E s (some c) blocknr num btype lp).2
        (fun i b => A i b ∧ ¬ (i = free_cpu s blocknr ∧ blocknr ≤ b ∧
          b < blocknr + free_count btype num))

/-- A file system of 8 blocks on 2 CPUs with 6 reserved blocks: the reserved and parity
blocks of the first partition do not fit in its 4 blocks. -/
def degenerate_sbi0 : nova_sb_info :=
  nova_alloc_block_free_lists
    { s_blocksize := 4096, initsize := 32768, num_blocks := 8, reserved_blocks := 6,
      cpus := 2, per_list_blocks := 0, free_lists := [],
      shared_free_list := free_list.zero 2 }

/-- The state after `nova_init_blockmap` on `degenerate_sbi0`. -/
def degenerate_sbi1 : nova_sb_info :=
  nova_init_blockmap (unbalanced_env 0) degenerate_sbi0 0 (fun i => 1000 + i.toNat)

/-- The free list that one iteration of the loop of `nova_init_blockmap` (without recovery,
on an empty tree) stores for CPU `j`; `blknode j` is the address of the node it inserts. -/
def init_list (E : kernel_env) (s : nova_sb_info) (blknode : Int → Nat) (j : Int) : free_list :=
  { nova_init_free_list E s (nova_get_free_list s j) j with
    num_free_blocks := ul (ul_sub (nova_init_free_list E s (nova_get_free_list s j) j).block_end
      (nova_init_free_list E s (nova_get_free_list s j) j).block_start + 1),
    block_free_tree := E.rb_insert_color (blknode j)
      (.node .nil (blknode j) (nova_update_range_node_checksum E
        { range_low := (nova_init_free_list E s (nova_get_free_list s j) j).block_start,
          range_high := (nova_init_free_list E s (nova_get_free_list s j) j).block_end,
          csum := 0 }) .nil),
    first_node := some (blknode j), last_node := some (blknode j),
    num_blocknode := 1 }

/-- Number of blocks `nova_data_parity_init_free_list` reserves in one free list
(parity.c 276-286). -/
def parity_blocks_per_list (E : kernel_env) (sbi : nova_sb_info) : Nat :=
  let total_blocks := sbi.initsize / sbi.s_blocksize
  let parity_blocks0 := total_blocks / ul (sbi.s_blocksize / E.NOVA_STRIPE_SIZE + 1)
  let parity_blocks :=
    if total_blocks % ul (sbi.s_blocksize / E.NOVA_STRIPE_SIZE + 1) ≠ 0 then
      ul (parity_blocks0 + 1)
    else parity_blocks0
  parity_blocks / ulong_of_int sbi.cpus +
    (if parity_blocks % ulong_of_int sbi.cpus ≠ 0 then 1 else 0)

/-- The counters of every per-CPU list agree with its index, and its boundaries are those of
the state `s0`. -/
structure count_inv (s0 s : nova_sb_info) : Prop where
  parts : ∀ i : Int, 0 ≤ i → i < s.cpus →
    (nova_get_free_list s i).num_free_blocks = total_blocks (index_of s i) ∧
    (nova_get_free_list s i).num_blocknode = (index_of s i).length ∧
    (nova_get_free_list s i).block_start = (nova_get_free_list s0 i).block_start ∧
    (nova_get_free_list s i).block_end = (nova_get_free_list s0 i).block_end

/-! ## Data parity (parity.c) -/

/-- Conversion to `unsigned int` (32 bits). -/
def uint (x : Nat) : Nat := x % 4294967296

/-- Byte-addressed memory: the byte stored at each address. -/
abbrev memory : Type := Nat → Nat

/-- The little-endian value of the `n` bytes at address `a`. -/
def load (m : memory) : Nat → Nat → Nat
  | _, 0 => 0
  | a, n + 1 => m a % 256 + 256 * load m (a + 1) n

/-- Memory after the `n` low bytes of `v` were stored at address `a`, little-endian. -/
def store (m : memory) (a n v : Nat) : memory :=
  fun x => if a ≤ x ∧ x < a + n then v / 256 ^ (x - a) % 256 else m x

/-- Memory after `memcpy(dst, src, n)`. -/
def memcpy (m : memory) (dst src n : Nat) : memory :=
  fun x => if dst ≤ x ∧ x < dst + n then m (src + (x - dst)) else m x

/-- How a call ends: it returns, it stops the kernel (`BUG()`, NULL pointer dereference),
or it is still running when the fuel of the model is used up. -/
inductive outcome (α : Type) where
  | ret : α → outcome α
  | crash : outcome α
  | timeout : outcome α
deriving DecidableEq, Repr

/-- What parity.c and the checksum helpers of nova.h take from outside the sources, beside
the allocator's interface. -/
structure data_env extends kernel_env where
  /-- the macro `NOVA_STRIPE_SHIFT` -/
  NOVA_STRIPE_SHIFT : Nat
  /-- the kernel macro `PAGE_SHIFT` -/
  PAGE_SHIFT : Nat
  /-- the macro `NOVA_DATA_CSUM_LEN` -/
  NOVA_DATA_CSUM_LEN : Nat
  /-- the macro `NOVA_INIT_CSUM` -/
  NOVA_INIT_CSUM : Nat
  /-- `static_cpu_has(X86_FEATURE_XMM2)` -/
  X86_FEATURE_XMM2 : Bool
  /-- `static_cpu_has(X86_FEATURE_XMM4_2)` -/
  X86_FEATURE_XMM4_2 : Bool
  /-- the global flag `data_csum` -/
  data_csum : Int
  /-- the global flag `data_parity` -/
  data_parity : Int
  /-- the instruction `crc32q`: accumulator and quad word -/
  crc32q : Nat → Nat → Nat
  /-- the instruction `crc32b`: accumulator and byte -/
  crc32b : Nat → Nat → Nat
  /-- the kernel function `crc32c`: seed and bytes -/
  crc32c : Nat → List Nat → Nat

/-- The inner loop of `nova_calculate_block_parity` (parity.c 43-51 and 56-60) at offset
`i`, with words of `w` bytes: XOR of `x` with the word at offset `i` of every stripe but
`strp_skip`.  `j` is an `unsigned int`. -/
def parity_strps (D : data_env) (m : memory) (strp_ptr w strp_skip i : Nat)
    (strps : List Nat) (x : Nat) : Nat :=
  strps.foldl (fun (acc : Nat) (strp : Nat) =>
    if strp = strp_skip then acc
    else acc ^^^ load m (strp_ptr + uint (uint (strp * 2 ^ D.NOVA_STRIPE_SHIFT) + i)) w) x

/-- The outer loop of `nova_calculate_block_parity` (parity.c 41-53 and 55-62), `i` being
an `unsigned int` advanced by the word size `w`. -/
def parity_words (D : data_env) (w init_ptr par_ptr strp_ptr strp_skip num_strps : Nat) :
    Nat → Nat → memory → Option memory
  | 0, _, _ => none
  | fuel + 1, i, m =>
    if i < D.NOVA_STRIPE_SIZE then
      parity_words D w init_ptr par_ptr strp_ptr strp_skip num_strps fuel (uint (i + w))
        (store m (par_ptr + i) w
          (parity_strps D m strp_ptr w strp_skip i (List.range num_strps)
            (load m (init_ptr + i) w)))
    else some m

/-- parity.c 20-66.  The SSE2 branch works on 16 bytes at a time (`movdqa`, `pxor`,
`movntdq`; the alignment these instructions require is not modelled), the common branch
on `u64` words.  `parity` and `block` are addresses. -/
def nova_calculate_block_parity (D : data_env) (fuel : Nat) (sbi : nova_sb_info)
    (m : memory) (parity block : Nat) (strp_skip : Int) : outcome (Int × memory) :=
  let init_ptr := if strp_skip < 0 then block else parity
  let strp_skip := if strp_skip < 0 then 0 else strp_skip
  let num_strps := uint (sbi.s_blocksize / 2 ^ D.NOVA_STRIPE_SHIFT)
  match parity_words D (if D.X86_FEATURE_XMM2 then 16 else 8) init_ptr parity block
      strp_skip.toNat num_strps fuel 0 m with
  | some m1 => .ret (0, m1)
  | none => .timeout

/-- Modelled from the spec: byte `k` of the byte-wise XOR of the stripes of `size` bytes
with index in `strps` of the block at address `block`. -/
def xor_of_stripes (m : memory) (block size : Nat) (strps : List Nat) (k : Nat) : Nat :=
  strps.foldl (fun (acc : Nat) (s : Nat) => acc ^^^ m (block + s * size + k)) 0

/-- Modelled from the spec: the reference definition of the parity stripe, byte `k`.  With
`strp_skip < 0` it is the XOR of all `num_strps` stripes of the block, otherwise the XOR
of the incoming parity buffer with every stripe of the block except stripe `strp_skip`. -/
def parity_reference (m : memory) (parity block size num_strps : Nat) (strp_skip : Int)
    (k : Nat) : Nat :=
  if strp_skip < 0 then xor_of_stripes m block size (List.range num_strps) k
  else m (parity + k) ^^^
    xor_of_stripes m block size
      ((List.range num_strps).filter (fun (s : Nat) => s ≠ strp_skip.toNat)) k

/-- Byte-wise XOR of `x` with byte `k` of every stripe with index in `strps` but `skip`. -/
def xor_skip (m : memory) (block size skip : Nat) (strps : List Nat) (k : Nat) (x : Nat) :
    Nat :=
  strps.foldl (fun (acc : Nat) (s : Nat) =>
    if s = skip then acc else acc ^^^ m (block + s * size + k)) x

/-- A small configuration: stripes of 16 bytes, pages of 64 bytes, no SSE2, with simple
stand-ins for the CRC32C primitives. -/
def example_data_env : data_env :=
  { unbalanced_env 0 with
    NOVA_STRIPE_SIZE := 16, NOVA_STRIPE_SHIFT := 4, PAGE_SHIFT := 6,
    NOVA_DATA_CSUM_LEN := 4, NOVA_INIT_CSUM := 1, X86_FEATURE_XMM2 := false,
    X86_FEATURE_XMM4_2 := false, data_csum := 1, data_parity := 1,
    crc32q := fun acc v => (acc * 31 + v) % 4294967296,
    crc32b := fun acc v => (acc * 31 + v) % 4294967296,
    crc32c := fun crc data => data.foldl (fun acc v => (acc * 31 + v) % 4294967296) crc }

/-- A memory image whose byte at address `a` is `(3 * a + 1) mod 256`. -/
def example_mem : memory := fun a => (3 * a + 1) % 256

/-- A super block with blocks of 64 bytes: 4 stripes of 16 bytes. -/
def example_sbi_blk : nova_sb_info :=
  { s_blocksize := 64, initsize := 2048, num_blocks := 32, reserved_blocks := 1, cpus := 1,
    per_list_blocks := 32, free_lists := [], shared_free_list := free_list.zero 0 }

/-- The fields of `struct nova_sb_info` read by parity.c and rebuild.c beside the
allocator's: `sbi` holds the allocator's fields, `virt_addr` is the address at which the
device is mapped and `mount_snapshot` the snapshot-mount flag. -/
structure super_block where
  sbi : nova_sb_info
  virt_addr : Nat
  mount_snapshot : Int

/-- nova.h 786-791: the address of the byte at offset `block` of the device, NULL (0) for
offset 0. -/
def nova_get_block (sb : super_block) (block : Nat) : Nat :=
  if block ≠ 0 then sb.virt_addr + block else 0

/-- nova.h 830-835: `(u64)blocknr << PAGE_SHIFT`. -/
def nova_get_block_off (D : data_env) (blocknr : Nat) (_btype : Nat) : Nat :=
  ul (blocknr * 2 ^ D.PAGE_SHIFT)

/-- nova.h 1451-1490.  Returns the address of the checksum of stripe `strp_nr`, or NULL
(0).  `BLOCK_SHIFT` is taken as a natural number. -/
def nova_get_data_csum_addr (D : data_env) (sb : super_block) (strp_nr : Nat) : Nat :=
  let BLOCK_SHIFT := D.PAGE_SHIFT - D.NOVA_STRIPE_SHIFT
  if D.data_csum = 0 then 0
  else
    let blocknr := strp_nr / 2 ^ BLOCK_SHIFT
    let index := int_of_ulong (blocknr / sb.sbi.per_list_blocks)
    if index ≥ sb.sbi.cpus then 0
    else
      let strp_nr := ul_sub strp_nr
        (ul (ul (ulong_of_int index * sb.sbi.per_list_blocks) * 2 ^ BLOCK_SHIFT))
      let free_list := nova_get_free_list sb.sbi index
      let blockoff := ul (free_list.csum_start * 2 ^ D.PAGE_SHIFT)
      if ul (D.NOVA_DATA_CSUM_LEN * strp_nr) / 2 ^ D.PAGE_SHIFT ≥ free_list.num_csum_blocks
      then 0
      else nova_get_block sb blockoff + ul (D.NOVA_DATA_CSUM_LEN * strp_nr)

/-- nova.h 1492-1529.  Returns the address of the parity stripe of block `blocknr`, or
NULL (0). -/
def nova_get_parity_addr (D : data_env) (sb : super_block) (blocknr : Nat) : Nat :=
  let BLOCK_SHIFT := D.PAGE_SHIFT - D.NOVA_STRIPE_SHIFT
  if D.data_parity = 0 then 0
  else
    let index := int_of_ulong (blocknr / sb.sbi.per_list_blocks)
    if index ≥ sb.sbi.cpus then 0
    else
      let free_list := nova_get_free_list sb.sbi index
      let blockoff := ul (free_list.parity_start * 2 ^ D.PAGE_SHIFT)
      if ul_sub blocknr free_list.block_start / 2 ^ BLOCK_SHIFT ≥ free_list.num_parity_blocks
      then 0
      else nova_get_block sb blockoff +
        ul (ul_sub blocknr free_list.block_start * 2 ^ D.NOVA_STRIPE_SHIFT)

/-- The loop `while (len > 8)` of `nova_crc32c` (nova.h 435-443); it runs at most `len`
times, which is the fuel it is given. -/
def crc32q_loop (D : data_env) (m : memory) : Nat → Nat → Nat → Nat → Nat × Nat × Nat
  | 0, acc, ptr, len => (acc, ptr, len)
  | fuel + 1, acc, ptr, len =>
    if len > 8 then crc32q_loop D m fuel (D.crc32q acc (load m ptr 8)) (ptr + 8) (len - 8)
    else (acc, ptr, len)

/-- The loop `while (len > 0)` of `nova_crc32c` (nova.h 445-453). -/
def crc32b_loop (D : data_env) (m : memory) : Nat → Nat → Nat → Nat → Nat
  | 0, acc, _, _ => acc
  | fuel + 1, acc, ptr, len =>
    if len > 0 then crc32b_loop D m fuel (D.crc32b acc (load m ptr 1)) (ptr + 1) (len - 1)
    else acc

/-- nova.h 424-463: CRC32C of the `len` bytes at address `data`, seeded with `crc`. -/
def nova_crc32c (D : data_env) (m : memory) (crc data len : Nat) : Nat :=
  if D.X86_FEATURE_XMM4_2 then
    let r := crc32q_loop D m len crc data len
    uint (crc32b_loop D m r.2.2 r.1 r.2.1 r.2.2)
  else D.crc32c crc ((List.range len).map (fun (k : Nat) => m (data + k)))

/-- parity.c 168-219.  `strp_buf` is the result of `kmalloc` (0 when it fails).  The block
is read through `blockptr` and the stored checksum through `csum_addr`: the kernel stops
when one of them is NULL. -/
def nova_restore_data (D : data_env) (fuel : Nat) (sb : super_block) (m : memory)
    (strp_buf : Nat) (blocknr bad_strp_id : Nat) : outcome (Int × memory) :=
  let strp_size := D.NOVA_STRIPE_SIZE
  let strp_shift := D.NOVA_STRIPE_SHIFT
  let blockoff := nova_get_block_off D blocknr NOVA_BLOCK_TYPE_4K
  let blockptr := nova_get_block sb blockoff
  let bad_strp := blockptr + ul (bad_strp_id * strp_size)
  let bad_strp_nr := ul (blockoff + ul (bad_strp_id * strp_size)) / 2 ^ strp_shift
  if strp_buf = 0 then .ret (-ENOMEM, m)
  else
    let par_addr := nova_get_parity_addr D sb blocknr
    if par_addr = 0 then .ret (- EIO, m)
    else
      let m1 := memcpy m strp_buf par_addr strp_size
      if blockptr = 0 then .crash
      else
        match nova_calculate_block_parity D fuel sb.sbi m1 strp_buf blockptr
            (int_of_ulong bad_strp_id) with
        | .crash => .crash
        | .timeout => .timeout
        | .ret (_, m2) =>
          let csum_calc := nova_crc32c D m2 D.NOVA_INIT_CSUM strp_buf strp_size
          let csum_addr := nova_get_data_csum_addr D sb bad_strp_nr
          if csum_addr = 0 then .crash
          else
            let csum_nvmm := load m2 csum_addr 4
            let csum_match := decide (csum_calc = csum_nvmm)
            let m3 := if csum_match then memcpy m2 bad_strp strp_buf strp_size else m2
            if !csum_match then .ret (- EIO, m3) else .ret (0, m3)

/-- A device of 32 blocks of 64 bytes mapped at address 10000, with one partition whose
checksum area starts at block 1, parity area at block 9 and data at block 16. -/
def example_sb : super_block :=
  { sbi :=
      { s_blocksize := 64, initsize := 2048, num_blocks := 32, reserved_blocks := 1,
        cpus := 1, per_list_blocks := 32,
        free_lists := [{ free_list.zero 0 with
          csum_start := 1, num_csum_blocks := 8, parity_start := 9, num_parity_blocks := 4,
          block_start := 16, block_end := 31 }],
        shared_free_list := free_list.zero 0 },
    virt_addr := 10000, mount_snapshot := 0 }

/-! ## Inode rebuild (rebuild.c) -/

/-- Log entry type tags (nova.h 200-208). -/
def FILE_WRITE : Nat := 1

/-- nova.h 202. -/
def DIR_LOG : Nat := 2

/-- nova.h 203. -/
def SET_ATTR : Nat := 3

/-- nova.h 204. -/
def LINK_CHANGE : Nat := 4

/-- nova.h 205. -/
def MMAP_WRITE : Nat := 5

/-- nova.h 206. -/
def SNAPSHOT_INFO : Nat := 6

/-- nova.h 207. -/
def NEXT_PAGE : Nat := 7

/-- nova.h 178: `(p) & ~INVALID_MASK` with `INVALID_MASK = 4095`. -/
def BLOCK_OFF (p : Nat) : Nat := p / 4096 * 4096

/-- nova.h 180: `(p) & INVALID_MASK`. -/
def ENTRY_LOC (p : Nat) : Nat := p % 4096

/-- nova.h 182. -/
def LAST_ENTRY : Nat := 4064

/-- The kernel macro `S_ISREG`: `(m & S_IFMT) == S_IFREG`, with `S_IFMT = 0170000` and
`S_IFREG = 0100000`. -/
def S_ISREG (m : Nat) : Bool := m / 4096 % 16 = 8

/-- `struct nova_file_write_entry` (nova.h 227-241), 56 bytes.  rebuild.c reads the field
that nova.h declares as `epoch_id` under the name `trans_id`; that name is kept for all
entries. -/
structure nova_file_write_entry where
  entry_type : Nat
  reassigned : Nat
  updating : Nat
  num_pages : Nat
  block : Nat
  pgoff : Nat
  invalid_pages : Nat
  mtime : Nat
  size : Nat
  trans_id : Nat
deriving DecidableEq, Repr

/-- `struct nova_dentry` (nova.h 247-260). -/
structure nova_dentry where
  entry_type : Nat
  name_len : Nat
  reassigned : Nat
  invalid : Nat
  de_len : Nat
  links_count : Nat
  mtime : Nat
  ino : Nat
  size : Nat
  trans_id : Nat
  name : List Nat
deriving DecidableEq, Repr

/-- `struct nova_setattr_logentry` (nova.h 270-284), 48 bytes. -/
structure nova_setattr_logentry where
  entry_type : Nat
  attr : Nat
  mode : Nat
  uid : Nat
  gid : Nat
  atime : Nat
  mtime : Nat
  ctime : Nat
  size : Nat
  trans_id : Nat
  invalid : Nat
deriving DecidableEq, Repr

/-- `struct nova_link_change_entry` (nova.h 287-297), 32 bytes. -/
structure nova_link_change_entry where
  entry_type : Nat
  invalid : Nat
  links : Nat
  ctime : Nat
  flags : Nat
  generation : Nat
  trans_id : Nat
deriving DecidableEq, Repr

/-- `struct nova_mmap_entry` (nova.h 299-308), 40 bytes. -/
structure nova_mmap_entry where
  entry_type : Nat
  invalid : Nat
  trans_id : Nat
  pgoff : Nat
  num_pages : Nat
deriving DecidableEq, Repr

/-- The fields of the persistent `struct nova_inode` that rebuild.c and `nova_get_head_tail`
read or write. -/
structure nova_inode where
  i_blk_type : Nat
  log_head : Nat
  log_tail : Nat
  alter_log_head : Nat
  alter_log_tail : Nat
  i_size : Nat
  i_flags : Nat
  i_uid : Nat
  i_gid : Nat
  i_atime : Nat
  i_ctime : Nat
  i_mtime : Nat
  i_generation : Nat
  i_links_count : Nat
  i_mode : Nat
  nova_ino : Nat
  csum : Nat
deriving DecidableEq, Repr

/-- `struct nova_inode_rebuild` (nova.h 601-612). -/
structure nova_inode_rebuild where
  i_size : Nat
  i_flags : Nat
  i_ctime : Nat
  i_mtime : Nat
  i_atime : Nat
  i_uid : Nat
  i_gid : Nat
  i_generation : Nat
  i_links_count : Nat
  i_mode : Nat
deriving DecidableEq, Repr

/-- The scalar fields of `struct nova_inode_info_header` (nova.h 573-598) used by
rebuild.c; its radix trees are part of the state acted on by the index functions. -/
structure nova_inode_info_header where
  i_mode : Nat
  log_pages : Nat
  i_size : Nat
  i_blocks : Nat
  pi_addr : Nat
  alter_pi_addr : Nat
  last_setattr : Nat
  last_link_change : Nat
  last_dentry : Nat
  log_head : Nat
  log_tail : Nat
  alter_log_head : Nat
  alter_log_tail : Nat
  i_blk_type : Nat
deriving DecidableEq, Repr

/-- The inode logs in persistent memory as the replay reads them, indexed by the offset
into the device: the type byte of the entry at an offset, the result of
`nova_verify_entry_csum` on it, the bytes at the offset read as each entry structure, and
the `next_page` field of the tail of the log page at a page offset.  The replay itself
writes to log entries only inside functions that are outside the sources
(`nova_assign_write_entry`, `nova_set_write_entry_updating`, `nova_invalidate_logentry`);
these writes change fields of entries that were dispatched already, and the log is read as
it was when the replay started. -/
structure nova_log where
  entry_type : Nat → Nat
  nova_verify_entry_csum : Nat → Bool
  file_write : Nat → nova_file_write_entry
  setattr : Nat → nova_setattr_logentry
  link_change : Nat → nova_link_change_entry
  mmap : Nat → nova_mmap_entry
  dentry : Nat → nova_dentry
  next_page : Nat → Nat
  setattr_type : ∀ p, (setattr p).entry_type = entry_type p
  link_change_type : ∀ p, (link_change p).entry_type = entry_type p

/-- What rebuild.c takes from outside the sources.  `W` is the state that the functions
outside the sources act on: the radix trees of the inode, the allocator and the data
checksum and parity areas. -/
structure rebuild_env (W : Type) extends data_env where
  /-- the global flag `replica_metadata` -/
  replica_metadata : Int
  /-- the global flag `metadata_csum` -/
  metadata_csum : Int
  /-- the array `blk_type_to_shift` -/
  blk_type_to_shift : Nat → Nat
  /-- the return code of `memcpy_from_pmem` for a read at the given offset of the device -/
  memcpy_from_pmem : Nat → Int
  /-- `nova_encounter_mount_snapshot` on the entry at an offset and its type -/
  nova_encounter_mount_snapshot : Nat → Nat → Int
  /-- `nova_crc32c(~0, pi, sizeof(struct nova_inode) - sizeof(__le32))` -/
  nova_inode_crc : nova_inode → Nat
  /-- `nova_assign_write_entry(sb, sih, entry, false)` for the entry at an offset -/
  nova_assign_write_entry : W → Nat → W
  /-- `nova_delete_file_tree(sb, sih, first_blocknr, last_blocknr, false, false, false, 0)` -/
  nova_delete_file_tree : W → Nat → Nat → W
  /-- `radix_tree_lookup(&sih->tree, blocknr)`: the offset of the entry found, 0 for NULL -/
  radix_tree_lookup : W → Nat → Nat
  /-- `nova_update_block_csum(sb, sih, entry, pgoff)` -/
  nova_update_block_csum : W → Nat → Nat → W
  /-- `nova_update_pgoff_parity(sb, sih, entry, pgoff, 0)`, acting on the data area -/
  nova_update_pgoff_parity : W → Nat → Nat → W
  /-- `nova_set_write_entry_updating(sb, entry, 0)` -/
  nova_set_write_entry_updating : W → Nat → W
  /-- `nova_invalidate_logentry(sb, entry, MMAP_WRITE, 0)` -/
  nova_invalidate_logentry : W → Nat → Int × W
  /-- `nova_insert_dir_radix_tree(sb, sih, name, name_len, entry)` -/
  nova_insert_dir_radix_tree : W → List Nat → Nat → Nat → Int × W
  /-- `nova_remove_dir_radix_tree(sb, sih, name, name_len, 1, NULL)` -/
  nova_remove_dir_radix_tree : W → List Nat → Nat → W

/-- The state of a rebuild: the persistent inode, the in-memory header, the attributes
being rebuilt, the highest transaction id seen, the log cursor, the state of the
functions outside the sources and the copy written to the replica inode, if any. -/
structure rebuild_state (W : Type) where
  pi : nova_inode
  sih : nova_inode_info_header
  reb : nova_inode_rebuild
  curr_trans_id : Nat
  curr_p : Nat
  world : W
  alter_pi : Option (Nat × nova_inode)

/-- nova.h 210-220, for the entry at offset `p`. -/
def nova_get_entry_type {W : Type} (R : rebuild_env W) (L : nova_log) (p : Nat) : Nat :=
  if R.memcpy_from_pmem p ≠ 0 then (R.memcpy_from_pmem p % 256).toNat else L.entry_type p

/-- nova.h 1294-1308.  The page tail is read through `nova_get_block`, which is NULL for
the page at offset 0. -/
def next_log_page {W : Type} (R : rebuild_env W) (L : nova_log) (curr : Nat) : outcome Nat :=
  if BLOCK_OFF curr = 0 then .crash
  else if R.memcpy_from_pmem (BLOCK_OFF curr + LAST_ENTRY + 24) ≠ 0 then
    .ret (ulong_of_int (R.memcpy_from_pmem (BLOCK_OFF curr + LAST_ENTRY + 24)))
  else .ret (L.next_page (BLOCK_OFF curr))

/-- nova.h 1417-1436.  The type byte is read through `nova_get_block`, which is NULL for
offset 0. -/
def goto_next_page {W : Type} (R : rebuild_env W) (L : nova_log) (curr_p : Nat) :
    outcome Bool :=
  if ENTRY_LOC curr_p + 32 > LAST_ENTRY then .ret true
  else if curr_p = 0 then .crash
  else if R.memcpy_from_pmem curr_p < 0 then .ret true
  else if L.entry_type curr_p = NEXT_PAGE then .ret true
  else .ret false

/-- nova.h 803-820; `pi` is the inode at offset `pi_addr`. -/
def nova_get_head_tail {W : Type} (R : rebuild_env W) (pi : nova_inode) (pi_addr : Nat)
    (sih : nova_inode_info_header) : Int × nova_inode_info_header :=
  if R.memcpy_from_pmem pi_addr ≠ 0 then (R.memcpy_from_pmem pi_addr, sih)
  else (0, { sih with
    i_blk_type := pi.i_blk_type, log_head := pi.log_head,
    log_tail := pi.log_tail, alter_log_head := pi.alter_log_head,
    alter_log_tail := pi.alter_log_tail })

/-- rebuild.c 20-51. -/
def nova_apply_setattr_entry {W : Type} (R : rebuild_env W) (L : nova_log)
    (st : rebuild_state W) (p : Nat) : outcome (rebuild_state W) :=
  let entry := L.setattr p
  let data_bits := R.blk_type_to_shift st.sih.i_blk_type
  if entry.entry_type ≠ SET_ATTR then .crash
  else
    let reb := { st.reb with
      i_mode := entry.mode, i_uid := entry.uid, i_gid := entry.gid,
      i_atime := entry.atime }
    if S_ISREG reb.i_mode then
      let start := entry.size
      let end_ := reb.i_size
      let first_blocknr := ul_sub (ul (start + ul (2 ^ data_bits))) 1 / 2 ^ data_bits
      let last_blocknr :=
        if long_of_ulong end_ > 0 then ul_sub end_ 1 / 2 ^ data_bits else 0
      .ret { st with
        reb := reb,
        world := R.nova_delete_file_tree st.world first_blocknr last_blocknr }
    else .ret { st with reb := reb }

/-- rebuild.c 53-65. -/
def nova_apply_link_change_entry (L : nova_log) (reb : nova_inode_rebuild) (p : Nat) :
    outcome nova_inode_rebuild :=
  let entry := L.link_change p
  if entry.entry_type ≠ LINK_CHANGE then .crash
  else .ret { reb with
    i_links_count := entry.links, i_ctime := entry.ctime,
    i_flags := entry.flags, i_generation := entry.generation }

/-- rebuild.c 67-80. -/
def nova_update_inode_with_rebuild (reb : nova_inode_rebuild) (pi : nova_inode) : nova_inode :=
  { pi with
    i_size := reb.i_size, i_flags := reb.i_flags, i_uid := reb.i_uid,
    i_gid := reb.i_gid, i_atime := reb.i_atime, i_ctime := reb.i_ctime,
    i_mtime := reb.i_mtime, i_generation := reb.i_generation,
    i_links_count := reb.i_links_count, i_mode := reb.i_mode }

/-- rebuild.c 82-104: the return code and the attributes read from the inode. -/
def nova_init_inode_rebuild {W : Type} (R : rebuild_env W) (reb : nova_inode_rebuild)
    (pi : nova_inode) (pi_addr : Nat) : Int × nova_inode_rebuild :=
  if R.memcpy_from_pmem pi_addr ≠ 0 then (R.memcpy_from_pmem pi_addr, reb)
  else (0, {
    i_size := pi.i_size, i_flags := pi.i_flags, i_uid := pi.i_uid,
    i_gid := pi.i_gid, i_atime := pi.i_atime, i_ctime := pi.i_ctime, i_mtime := pi.i_mtime,
    i_generation := pi.i_generation, i_links_count := pi.i_links_count,
    i_mode := pi.i_mode })

/-- rebuild.c 106-112. -/
def nova_rebuild_file_time_and_size (reb : nova_inode_rebuild) (mtime ctime size : Nat) :
    nova_inode_rebuild :=
  { reb with i_mtime := mtime, i_ctime := ctime, i_size := size }

/-- rebuild.c 114-135. -/
def nova_rebuild_inode_start {W : Type} (R : rebuild_env W) (pi : nova_inode)
    (sih : nova_inode_info_header) (reb : nova_inode_rebuild) (pi_addr : Nat) :
    Int × nova_inode_info_header × nova_inode_rebuild :=
  let r1 := nova_get_head_tail R pi pi_addr sih
  if r1.1 ≠ 0 then (r1.1, r1.2, reb)
  else
    let r2 := nova_init_inode_rebuild R reb pi pi_addr
    if r2.1 ≠ 0 then (r2.1, r1.2, r2.2)
    else (r2.1, { r1.2 with pi_addr := pi_addr, log_pages := 1 }, r2.2)

/-- nova.h 478-494. -/
def nova_update_inode_checksum {W : Type} (R : rebuild_env W) (pi : nova_inode) :
    nova_inode :=
  if R.replica_metadata = 0 ∨ R.metadata_csum = 0 then pi
  else { pi with csum := R.nova_inode_crc pi }

/-- The loop of `nova_rebuild_inode_finish` (rebuild.c 159-162): follows the page chain
from `curr_p` and counts the pages. -/
def log_pages_loop {W : Type} (R : rebuild_env W) (L : nova_log) :
    Nat → Nat → Nat → outcome Nat
  | 0, _, _ => .timeout
  | fuel + 1, curr_p, log_pages =>
    match next_log_page R L curr_p with
    | .ret next =>
      if next > 0 then log_pages_loop R L fuel next (ul (log_pages + 1))
      else .ret log_pages
    | .crash => .crash
    | .timeout => .timeout

/-- rebuild.c 137-168.  `PAGE_MASK` is the kernel's, for pages of `2 ^ PAGE_SHIFT`
bytes.  The replica inode is written through `nova_get_block`, which is NULL for offset
0. -/
def nova_rebuild_inode_finish {W : Type} (R : rebuild_env W) (L : nova_log) (fuel : Nat)
    (st : rebuild_state W) : outcome (Int × rebuild_state W) :=
  let sih := { st.sih with i_size := st.reb.i_size, i_mode := st.reb.i_mode }
  let pi := nova_update_inode_checksum R (nova_update_inode_with_rebuild st.reb st.pi)
  if R.replica_metadata ≠ 0 ∧ sih.alter_pi_addr = 0 then .crash
  else
    let alter := if R.replica_metadata ≠ 0 then some (sih.alter_pi_addr, pi) else st.alter_pi
    let curr_p := st.curr_p / 2 ^ R.PAGE_SHIFT * 2 ^ R.PAGE_SHIFT
    match log_pages_loop R L fuel curr_p sih.log_pages with
    | .ret n =>
      let n := if R.replica_metadata ≠ 0 then ul (n * 2) else n
      .ret (0, { st with pi := pi, sih := { sih with log_pages := n }, alter_pi := alter })
    | .crash => .crash
    | .timeout => .timeout

/-- rebuild.c 170-181. -/
def nova_reset_csum_parity_page {W : Type} (R : rebuild_env W) (w : W) (entry pgoff : Nat) :
    W :=
  let w1 := if R.data_csum ≠ 0 then R.nova_update_block_csum w entry pgoff else w
  if R.data_parity ≠ 0 then R.nova_update_pgoff_parity w1 entry pgoff else w1

/-- rebuild.c 183-203; `entry` is 0 for a NULL pointer. -/
def nova_reset_csum_parity_range {W : Type} (R : rebuild_env W) (w : W)
    (entry start_pgoff end_pgoff : Nat) : W :=
  (List.range (end_pgoff - start_pgoff)).foldl (fun (w : W) (k : Nat) =>
    if entry ≠ 0 ∧ R.radix_tree_lookup w (start_pgoff + k) ≠ entry then w
    else nova_reset_csum_parity_page R w entry (start_pgoff + k)) w

/-- rebuild.c 205-234, for the write entry at offset `p`. -/
def nova_reset_data_csum_parity {W : Type} (R : rebuild_env W) (L : nova_log) (w : W)
    (p : Nat) : Int × W :=
  if R.data_csum = 0 ∧ R.data_parity = 0 then (0, R.nova_set_write_entry_updating w p)
  else if R.memcpy_from_pmem p < 0 then (R.memcpy_from_pmem p, w)
  else
    let w1 :=
      if (L.file_write p).invalid_pages = (L.file_write p).num_pages then w
      else nova_reset_csum_parity_range R w p (L.file_write p).pgoff
        (ul ((L.file_write p).pgoff + (L.file_write p).num_pages))
    if R.memcpy_from_pmem p = 0 then (0, R.nova_set_write_entry_updating w1 p)
    else (R.memcpy_from_pmem p, w1)

/-- rebuild.c 236-266, for the mmap entry at offset `p`. -/
def nova_reset_mmap_csum_parity {W : Type} (R : rebuild_env W) (L : nova_log) (w : W)
    (p : Nat) : Int × W :=
  if R.data_csum = 0 ∧ R.data_parity = 0 then R.nova_invalidate_logentry w p
  else if R.memcpy_from_pmem p < 0 then (R.memcpy_from_pmem p, w)
  else
    let w1 :=
      if (L.mmap p).invalid = 1 then w
      else nova_reset_csum_parity_range R w 0 (L.mmap p).pgoff
        (ul ((L.mmap p).pgoff + (L.mmap p).num_pages))
    if R.memcpy_from_pmem p = 0 then R.nova_invalidate_logentry w1 p
    else (R.memcpy_from_pmem p, w1)

/-- rebuild.c 289-314, for the write entry at offset `p`. -/
def nova_rebuild_handle_write_entry {W : Type} (R : rebuild_env W) (L : nova_log)
    (st : rebuild_state W) (p : Nat) : rebuild_state W :=
  let entry := L.file_write p
  let w1 :=
    if entry.num_pages ≠ entry.invalid_pages then R.nova_assign_write_entry st.world p
    else st.world
  let reb :=
    if entry.trans_id ≥ st.curr_trans_id then
      nova_rebuild_file_time_and_size st.reb entry.mtime entry.mtime entry.size
    else st.reb
  let curr_trans_id :=
    if entry.trans_id ≥ st.curr_trans_id then entry.trans_id else st.curr_trans_id
  let w2 := if entry.updating ≠ 0 then (nova_reset_data_csum_parity R L w1 p).2 else w1
  { st with
    world := w2, reb := reb, curr_trans_id := curr_trans_id,
    sih := { st.sih with i_size := reb.i_size } }

/-- How one pass through a scan loop ends: the loop goes on, it is left by `break`, or
the function is left by `goto out` with a return value. -/
inductive scan_step (W : Type) where
  | next : rebuild_state W → scan_step W
  | stop : rebuild_state W → scan_step W
  | out : Int → rebuild_state W → scan_step W

/-- The head of the scan loops (rebuild.c 348-351 and 549-552): the cursor moves to the
next page when `goto_next_page` says so. -/
def scan_advance {W : Type} (R : rebuild_env W) (L : nova_log) (st : rebuild_state W) :
    outcome (rebuild_state W) :=
  match goto_next_page R L st.curr_p with
  | .ret true =>
    match next_log_page R L st.curr_p with
    | .ret next =>
      .ret { st with
        sih := { st.sih with log_pages := ul (st.sih.log_pages + 1) }, curr_p := next }
    | .crash => .crash
    | .timeout => .timeout
  | .ret false => .ret st
  | .crash => .crash
  | .timeout => .timeout

/-- One pass through a scan loop (rebuild.c 348-417 and 549-602) with the `switch` given
by `dispatch`: page advance, `BUG()` on a NULL cursor, checksum verification, the
snapshot test, and the `switch` on the entry type. -/
def scan_body {W : Type} (R : rebuild_env W) (L : nova_log) (sb : super_block)
    (dispatch : rebuild_state W → Nat → outcome (scan_step W)) (st : rebuild_state W) :
    outcome (scan_step W) :=
  match scan_advance R L st with
  | .ret st1 =>
    if st1.curr_p = 0 then .crash
    else if L.nova_verify_entry_csum st1.curr_p = false then .ret (.stop st1)
    else if sb.mount_snapshot ≠ 0 ∧
        R.nova_encounter_mount_snapshot st1.curr_p (nova_get_entry_type R L st1.curr_p) ≠ 0
    then .ret (.stop st1)
    else dispatch st1 (nova_get_entry_type R L st1.curr_p)
  | .crash => .crash
  | .timeout => .timeout

/-- The scan loops `while (curr_p != sih->log_tail)` (rebuild.c 347-419 and 548-603).  The
result is the state with `none` when the loop was left at the tail or by `break`, and with
the return value when it was left by `goto out`. -/
def scan_loop {W : Type} (R : rebuild_env W) (L : nova_log) (sb : super_block)
    (dispatch : rebuild_state W → Nat → outcome (scan_step W)) :
    Nat → rebuild_state W → outcome (Option Int × rebuild_state W)
  | 0, _ => .timeout
  | fuel + 1, st =>
    if st.curr_p ≠ st.sih.log_tail then
      match scan_body R L sb dispatch st with
      | .ret (.next st1) => scan_loop R L sb dispatch fuel st1
      | .ret (.stop st1) => .ret (none, st1)
      | .ret (.out ret st1) => .ret (some ret, st1)
      | .crash => .crash
      | .timeout => .timeout
    else .ret (none, st)

/-- The `switch` of `nova_rebuild_file_inode_tree` (rebuild.c 373-415) on the entry at the
cursor.  The sizes are those of the packed structures of nova.h. -/
def file_switch {W : Type} (R : rebuild_env W) (L : nova_log) (st : rebuild_state W)
    (type : Nat) : outcome (scan_step W) :=
  if type = SET_ATTR then
    match nova_apply_setattr_entry R L st st.curr_p with
    | .ret st1 =>
      let attr_entry := L.setattr st.curr_p
      let reb :=
        if attr_entry.trans_id ≥ st1.curr_trans_id then
          nova_rebuild_file_time_and_size st1.reb attr_entry.mtime attr_entry.ctime
            attr_entry.size
        else st1.reb
      let curr_trans_id :=
        if attr_entry.trans_id ≥ st1.curr_trans_id then attr_entry.trans_id
        else st1.curr_trans_id
      .ret (.next { st1 with
        reb := reb, curr_trans_id := curr_trans_id,
        sih := { st1.sih with last_setattr := st.curr_p, i_size := reb.i_size },
        curr_p := ul (st.curr_p + 48) })
    | .crash => .crash
    | .timeout => .timeout
  else if type = LINK_CHANGE then
    match nova_apply_link_change_entry L st.reb st.curr_p with
    | .ret reb =>
      .ret (.next { st with
        reb := reb, sih := { st.sih with last_link_change := st.curr_p },
        curr_p := ul (st.curr_p + 32) })
    | .crash => .crash
    | .timeout => .timeout
  else if type = FILE_WRITE then
    .ret (.next { nova_rebuild_handle_write_entry R L st st.curr_p with
      curr_p := ul (st.curr_p + 56) })
  else if type = MMAP_WRITE then
    .ret (.next { st with
      world := (nova_reset_mmap_csum_parity R L st.world st.curr_p).2,
      curr_p := ul (st.curr_p + 40) })
  else .ret (.next { st with curr_p := ul (st.curr_p + 56) })

/-- rebuild.c 316-429.  `rebuild` is the local of that name, not initialised by the
caller, and `w` the state of the functions outside the sources.  `data_bits` is computed
from the header as it is on entry. -/
def nova_rebuild_file_inode_tree {W : Type} (R : rebuild_env W) (L : nova_log)
    (sb : super_block) (fuel : Nat) (pi : nova_inode) (pi_addr : Nat)
    (sih : nova_inode_info_header) (rebuild : nova_inode_rebuild) (w : W) :
    outcome (Int × rebuild_state W) :=
  let data_bits := R.blk_type_to_shift sih.i_blk_type
  let r := nova_rebuild_inode_start R pi sih rebuild pi_addr
  let st : rebuild_state W :=
    { pi := pi, sih := r.2.1, reb := r.2.2, curr_trans_id := 0, curr_p := r.2.1.log_head,
      world := w, alter_pi := none }
  if r.1 ≠ 0 then .ret (r.1, st)
  else if st.curr_p = 0 ∧ st.sih.log_tail = 0 then .ret (r.1, st)
  else
    match scan_loop R L sb (file_switch R L) fuel st with
    | .ret (_, st1) =>
      match nova_rebuild_inode_finish R L fuel st1 with
      | .ret (ret, st2) =>
        .ret (ret, { st2 with
          sih := { st2.sih with
            i_blocks := ul (st2.sih.log_pages + st2.sih.i_size / 2 ^ data_bits) } })
      | .crash => .crash
      | .timeout => .timeout
    | .crash => .crash
    | .timeout => .timeout

/-- rebuild.c 432-442. -/
def nova_rebuild_dir_time_and_size (reb : nova_inode_rebuild) (entry : nova_dentry) :
    nova_inode_rebuild :=
  { reb with
    i_ctime := entry.mtime, i_mtime := entry.mtime, i_links_count := entry.links_count,
    i_size := entry.size }

/-- rebuild.c 444-457. -/
def nova_reassign_last_dentry (L : nova_log) (sih : nova_inode_info_header) (curr_p : Nat) :
    nova_inode_info_header :=
  if sih.last_dentry = 0 then { sih with last_dentry := curr_p }
  else if (L.dentry curr_p).trans_id ≥ (L.dentry sih.last_dentry).trans_id then
    { sih with last_dentry := curr_p }
  else sih

/-- rebuild.c 459-469, for the dentry at offset `p`. -/
def nova_replay_add_dentry {W : Type} (R : rebuild_env W) (L : nova_log) (w : W) (p : Nat) :
    Int × W :=
  if (L.dentry p).name_len = 0 then (-EINVAL, w)
  else R.nova_insert_dir_radix_tree w (L.dentry p).name (L.dentry p).name_len p

/-- rebuild.c 471-479. -/
def nova_replay_remove_dentry {W : Type} (R : rebuild_env W) (L : nova_log) (w : W)
    (p : Nat) : Int × W :=
  (0, R.nova_remove_dir_radix_tree w (L.dentry p).name (L.dentry p).name_len)

/-- rebuild.c 481-513, for the dentry at offset `curr_p`. -/
def nova_rebuild_handle_dentry {W : Type} (R : rebuild_env W) (L : nova_log)
    (st : rebuild_state W) (curr_p : Nat) : Int × rebuild_state W :=
  let entry := L.dentry curr_p
  let sih := nova_reassign_last_dentry L st.sih curr_p
  let r : Int × W :=
    if entry.invalid = 0 then
      if entry.ino > 0 then nova_replay_add_dentry R L st.world curr_p
      else nova_replay_remove_dentry R L st.world curr_p
    else (0, st.world)
  if r.1 ≠ 0 then (r.1, { st with sih := sih, world := r.2 })
  else if entry.trans_id ≥ st.curr_trans_id then
    (r.1, { st with
      sih := sih, world := r.2, reb := nova_rebuild_dir_time_and_size st.reb entry,
      curr_trans_id := entry.trans_id })
  else (r.1, { st with sih := sih, world := r.2 })

/-- The `switch` of `nova_rebuild_dir_inode_tree` (rebuild.c 574-602) on the entry at the
cursor. -/
def dir_switch {W : Type} (R : rebuild_env W) (L : nova_log) (st : rebuild_state W)
    (type : Nat) : outcome (scan_step W) :=
  if type = SET_ATTR then
    match nova_apply_setattr_entry R L st st.curr_p with
    | .ret st1 =>
      .ret (.next { st1 with
        sih := { st1.sih with last_setattr := st.curr_p },
        curr_p := ul (st.curr_p + 48) })
    | .crash => .crash
    | .timeout => .timeout
  else if type = LINK_CHANGE then
    if (L.link_change st.curr_p).trans_id ≥ st.curr_trans_id then
      match nova_apply_link_change_entry L st.reb st.curr_p with
      | .ret reb =>
        .ret (.next { st with
          reb := reb, curr_trans_id := (L.link_change st.curr_p).trans_id,
          sih := { st.sih with last_link_change := st.curr_p },
          curr_p := ul (st.curr_p + 32) })
      | .crash => .crash
      | .timeout => .timeout
    else
      .ret (.next { st with
        sih := { st.sih with last_link_change := st.curr_p },
        curr_p := ul (st.curr_p + 32) })
  else if type = DIR_LOG then
    let r := nova_rebuild_handle_dentry R L st st.curr_p
    if r.1 ≠ 0 then .ret (.out r.1 r.2)
    else .ret (.next { r.2 with curr_p := ul (st.curr_p + (L.dentry st.curr_p).de_len) })
  else .ret (.next st)

/-- rebuild.c 515-611. -/
def nova_rebuild_dir_inode_tree {W : Type} (R : rebuild_env W) (L : nova_log)
    (sb : super_block) (fuel : Nat) (pi : nova_inode) (pi_addr : Nat)
    (sih : nova_inode_info_header) (rebuild : nova_inode_rebuild) (w : W) :
    outcome (Int × rebuild_state W) :=
  let r := nova_rebuild_inode_start R pi sih rebuild pi_addr
  let st : rebuild_state W :=
    { pi := pi, sih := r.2.1, reb := r.2.2, curr_trans_id := 0, curr_p := r.2.1.log_head,
      world := w, alter_pi := none }
  if r.1 ≠ 0 then .ret (r.1, st)
  else if st.curr_p = 0 then .crash
  else
    match scan_loop R L sb (dir_switch R L) fuel st with
    | .ret (some ret, st1) => .ret (ret, st1)
    | .ret (none, st1) =>
      match nova_rebuild_inode_finish R L fuel st1 with
      | .ret (ret, st2) =>
        .ret (ret, { st2 with sih := { st2.sih with i_blocks := st2.sih.log_pages } })
      | .crash => .crash
      | .timeout => .timeout
    | .crash => .crash
    | .timeout => .timeout

/-- The entry that a scan loop reads when its cursor is `p`: the offset of the entry and
whether the cursor moved to the next page first.  `none` when the kernel stops there (the
cursor or the page read is at offset 0). -/
def log_slot (L : nova_log) (p : Nat) : Option (Nat × Bool) :=
  if ENTRY_LOC p + 32 > LAST_ENTRY ∨ L.entry_type p = NEXT_PAGE then
    if BLOCK_OFF p = 0 ∨ L.next_page (BLOCK_OFF p) = 0 then none
    else some (L.next_page (BLOCK_OFF p), true)
  else if p = 0 then none
  else some (p, false)

/-- Log order: the first `n` entries of the log read from cursor `p`, each with the flag
of `log_slot`, and the cursor after them, for entries of the sizes given by `size`.
`none` when the cursor reaches `tail` or the kernel stops before `n` entries were read. -/
def log_entries (L : nova_log) (size : Nat → Nat) (tail : Nat) :
    Nat → Nat → Option (List (Nat × Bool) × Nat)
  | 0, p => some ([], p)
  | n + 1, p =>
    if p = tail then none
    else
      match log_slot L p with
      | none => none
      | some e =>
        match log_entries L size tail n (ul (e.1 + size e.1)) with
        | none => none
        | some r => some (e :: r.1, r.2)

/-- The size of the entry at offset `p` of a file log, by its type byte. -/
def file_entry_size (L : nova_log) (p : Nat) : Nat :=
  if L.entry_type p = SET_ATTR then 48
  else if L.entry_type p = LINK_CHANGE then 32
  else if L.entry_type p = FILE_WRITE then 56
  else if L.entry_type p = MMAP_WRITE then 40
  else 56

/-- The distance to the next entry from the entry at offset `p` of a directory log. -/
def dir_entry_size (L : nova_log) (p : Nat) : Nat :=
  if L.entry_type p = SET_ATTR then 48
  else if L.entry_type p = LINK_CHANGE then 32
  else if L.entry_type p = DIR_LOG then (L.dentry p).de_len
  else 0

/-- The state of a scan loop when it reads the entry `e` of `log_entries`. -/
def at_entry {W : Type} (st : rebuild_state W) (e : Nat × Bool) : rebuild_state W :=
  if e.2 then
    { st with sih := { st.sih with log_pages := ul (st.sih.log_pages + 1) }, curr_p := e.1 }
  else { st with curr_p := e.1 }

/-- Replay of the listed entries only: each entry is dispatched in order, whatever the
log holds elsewhere. -/
def replay_entries {W : Type} (L : nova_log)
    (dispatch : rebuild_state W → Nat → outcome (scan_step W)) :
    List (Nat × Bool) → rebuild_state W → outcome (scan_step W)
  | [], st => .ret (.next st)
  | e :: es, st =>
    match dispatch (at_entry st e) (L.entry_type e.1) with
    | .ret (.next st1) => replay_entries L dispatch es st1
    | r => r

/-- Transaction id, mtime and size of the file-write or setattr entry at offset `p` of a
file log; `none` for an entry of another type. -/
def timed_entry (L : nova_log) (p : Nat) : Option (Nat × Nat × Nat) :=
  if L.entry_type p = FILE_WRITE then
    some ((L.file_write p).trans_id, (L.file_write p).mtime, (L.file_write p).size)
  else if L.entry_type p = SET_ATTR then
    some ((L.setattr p).trans_id, (L.setattr p).mtime, (L.setattr p).size)
  else none

/-- The highest transaction id of a list of (transaction id, mtime, size). -/
def max_trans_id (l : List (Nat × Nat × Nat)) : Nat :=
  l.foldl (fun (m : Nat) (e : Nat × Nat × Nat) => max m e.1) 0

/-- The last element of the list among those carrying the highest transaction id. -/
def last_with_max (l : List (Nat × Nat × Nat)) : Option (Nat × Nat × Nat) :=
  (l.filter (fun (e : Nat × Nat × Nat) => e.1 = max_trans_id l)).getLast?

/-- The gate of rebuild.c 300-305 and 381-387 on (transaction id, mtime, size). -/
def time_step (a e : Nat × Nat × Nat) : Nat × Nat × Nat := if e.1 ≥ a.1 then e else a

/-- A rebuild configuration with pages of 4096 bytes, no replica metadata, reads that
succeed and no snapshot; the index functions record in a list the offsets of the entries
they are called with. -/
def example_rebuild_env : rebuild_env (List Nat) :=
  { example_data_env with
    PAGE_SHIFT := 12, replica_metadata := 0, metadata_csum := 0,
    blk_type_to_shift := fun t => if t = 0 then 12 else if t = 1 then 21 else 30,
    memcpy_from_pmem := fun _ => 0,
    nova_encounter_mount_snapshot := fun _ _ => 0,
    nova_inode_crc := fun _ => 0,
    nova_assign_write_entry := fun w p => p :: w,
    nova_delete_file_tree := fun w _ _ => w,
    radix_tree_lookup := fun _ _ => 0,
    nova_update_block_csum := fun w _ _ => w,
    nova_update_pgoff_parity := fun w _ _ => w,
    nova_set_write_entry_updating := fun w _ => w,
    nova_invalidate_logentry := fun w _ => (0, w),
    nova_insert_dir_radix_tree := fun w _ _ p => (0, p :: w),
    nova_remove_dir_radix_tree := fun w _ _ => w }

/-- A file-write entry of one page with the given transaction id, mtime and size. -/
def example_write_entry (trans_id mtime size : Nat) : nova_file_write_entry :=
  { entry_type := FILE_WRITE, reassigned := 0, updating := 0, num_pages := 1, block := 0,
    pgoff := 0, invalid_pages := 0, mtime := mtime, size := size, trans_id := trans_id }

/-- A log whose type bytes, checksum results, file-write entries and page links are the
given ones, and whose other structures are zero. -/
def example_log (entry_type : Nat → Nat) (csum_ok : Nat → Bool)
    (file_write : Nat → nova_file_write_entry) (dentry : Nat → nova_dentry)
    (next_page : Nat → Nat) : nova_log :=
  { entry_type := entry_type, nova_verify_entry_csum := csum_ok, file_write := file_write,
    setattr := fun p =>
      { entry_type := entry_type p, attr := 0, mode := 0, uid := 0, gid := 0, atime := 0,
        mtime := 0, ctime := 0, size := 0, trans_id := 0, invalid := 0 },
    link_change := fun p =>
      { entry_type := entry_type p, invalid := 0, links := 0, ctime := 0, flags := 0,
        generation := 0, trans_id := 0 },
    mmap := fun _ => { entry_type := 0, invalid := 0, trans_id := 0, pgoff := 0, num_pages := 0 },
    dentry := dentry, next_page := next_page,
    setattr_type := fun _ => rfl, link_change_type := fun _ => rfl }

/-- A dentry with the given name length and inode number. -/
def example_dentry (name_len ino : Nat) : nova_dentry :=
  { entry_type := DIR_LOG, name_len := name_len, reassigned := 0, invalid := 0, de_len := 48,
    links_count := 2, mtime := 3, ino := ino, size := 4096, trans_id := 1, name := [97] }

/-- A file log of one page at offset 4096 with two file-write entries: transaction id 5
(mtime 7, size 100) at offset 4096 and transaction id 3 (mtime 9, size 50) at offset 4152;
the tail is 4208. -/
def example_file_log : nova_log :=
  example_log (fun p => if p = 4096 ∨ p = 4152 then FILE_WRITE else 0) (fun _ => true)
    (fun p => if p = 4096 then example_write_entry 5 7 100 else example_write_entry 3 9 50)
    (fun _ => example_dentry 1 0) (fun _ => 0)

/-- An inode record with the given log head and tail and all attributes zero. -/
def example_pi (head tail : Nat) : nova_inode :=
  { i_blk_type := 0, log_head := head, log_tail := tail, alter_log_head := 0,
    alter_log_tail := 0, i_size := 0, i_flags := 0, i_uid := 0, i_gid := 0, i_atime := 0,
    i_ctime := 0, i_mtime := 0, i_generation := 0, i_links_count := 0, i_mode := 0,
    nova_ino := 33, csum := 0 }

/-- A zero-filled inode header. -/
def example_sih : nova_inode_info_header :=
  { i_mode := 0, log_pages := 0, i_size := 0, i_blocks := 0, pi_addr := 0,
    alter_pi_addr := 0, last_setattr := 0, last_link_change := 0, last_dentry := 0,
    log_head := 0, log_tail := 0, alter_log_head := 0, alter_log_tail := 0, i_blk_type := 0 }

/-- A zero-filled rebuild record. -/
def example_reb : nova_inode_rebuild :=
  { i_size := 0, i_flags := 0, i_ctime := 0, i_mtime := 0, i_atime := 0, i_uid := 0,
    i_gid := 0, i_generation := 0, i_links_count := 0, i_mode := 0 }

/-- Return value, rebuilt size and rebuilt mtime of a rebuild that returned. -/
def rebuilt_attrs {W : Type} : outcome (Int × rebuild_state W) → Option (Int × Nat × Nat)
  | .ret (ret, st) => some (ret, st.pi.i_size, st.pi.i_mtime)
  | .crash => none
  | .timeout => none

/-- The state in which `nova_rebuild_file_inode_tree` and `nova_rebuild_dir_inode_tree`
enter their scan loop. -/
def scan_start {W : Type} (R : rebuild_env W) (pi : nova_inode) (pi_addr : Nat)
    (sih : nova_inode_info_header) (rebuild : nova_inode_rebuild) (w : W) : rebuild_state W :=
  { pi := pi, sih := (nova_rebuild_inode_start R pi sih rebuild pi_addr).2.1,
    reb := (nova_rebuild_inode_start R pi sih rebuild pi_addr).2.2, curr_trans_id := 0,
    curr_p := (nova_rebuild_inode_start R pi sih rebuild pi_addr).2.1.log_head, world := w,
    alter_pi := none }

/-- A log with a slot at offset 4096 whose checksum fails and whose type byte is
`type0`, linked to a second page at offset 8192 that starts with a valid file-write entry
(transaction id 1, mtime 7, size 100). -/
def example_corrupt_log (type0 : Nat) : nova_log :=
  example_log (fun p => if p = 4096 then type0 else if p = 8192 then FILE_WRITE else 0)
    (fun p => decide (p = 8192)) (fun _ => example_write_entry 1 7 100)
    (fun _ => example_dentry 1 0) (fun p => if p = 4096 then 8192 else 0)

/-- A directory log whose first entry, at offset 4096, is a valid dentry with an empty
name for inode 5, followed at offset 4144 by an entry whose checksum fails. -/
def example_bad_dentry_log : nova_log :=
  example_log (fun p => if p = 4096 then DIR_LOG else 0) (fun p => decide (p = 4096))
    (fun _ => example_write_entry 1 7 100) (fun _ => example_dentry 0 5) (fun _ => 0)

/-- A log that reads the same as a file log and as a directory log: a valid setattr entry
at offset 4096, followed at offset 4144 by an entry whose checksum fails. -/
def example_truncated_log : nova_log :=
  example_log (fun p => if p = 4096 then SET_ATTR else 0) (fun p => decide (p = 4096))
    (fun _ => example_write_entry 1 7 100) (fun _ => example_dentry 1 0) (fun _ => 0)

/-- Return value and rebuilt link count, flags and generation of a rebuild that returned. -/
def rebuilt_links {W : Type} :
    outcome (Int × rebuild_state W) → Option (Int × Nat × Nat × Nat)
  | .ret (ret, st) => some (ret, st.reb.i_links_count, st.reb.i_flags, st.reb.i_generation)
  | .crash => none
  | .timeout => none

/-- A log of one page at offset 4096 that starts with an entry of type `type0` carrying
transaction id 5 (a file-write entry of 56 bytes or a dentry of 48 bytes), followed by a
link-change entry with transaction id 3, link count 7, flags 3 and generation 2. -/
def example_link_log (type0 : Nat) : nova_log :=
  { entry_type := fun p =>
      if p = 4096 then type0 else if p = 4144 ∨ p = 4152 then LINK_CHANGE else 0,
    nova_verify_entry_csum := fun _ => true,
    file_write := fun _ => example_write_entry 5 7 100,
    setattr := fun p =>
      { entry_type :=
          if p = 4096 then type0 else if p = 4144 ∨ p = 4152 then LINK_CHANGE else 0,
        attr := 0, mode := 0, uid := 0, gid := 0, atime := 0, mtime := 0, ctime := 0,
        size := 0, trans_id := 0, invalid := 0 },
    link_change := fun p =>
      { entry_type :=
          if p = 4096 then type0 else if p = 4144 ∨ p = 4152 then LINK_CHANGE else 0,
        invalid := 0, links := 7, ctime := 9, flags := 3, generation := 2, trans_id := 3 },
    mmap := fun _ => { entry_type := 0, invalid := 0, trans_id := 0, pgoff := 0, num_pages := 0 },
    dentry := fun _ => { example_dentry 1 5 with trans_id := 5 },
    next_page := fun _ => 0,
    setattr_type := fun _ => rfl, link_change_type := fun _ => rfl }

/-- A log of one page at offset 4096 whose first entry verifies and has the type tag 9,
which no rebuild handles, followed at offset 4152 by a valid file-write entry (transaction
id 1, mtime 7, size 100). -/
def example_unknown_log : nova_log :=
  example_log (fun p => if p = 4096 then 9 else if p = 4152 then FILE_WRITE else 0)
    (fun _ => true) (fun _ => example_write_entry 1 7 100) (fun _ => example_dentry 1 5)
    (fun _ => 0)

/-- A log of two pages: a valid file-write entry (size 100) at offset 4096, a `NEXT_PAGE`
marker at 4152, and the page at 8192 linked after it.  The slot at 8192 holds a
checksum-valid file-write entry (transaction id 2, mtime 8, size 999); the slot after it
fails the checksum. -/
def example_tail_log : nova_log :=
  example_log
    (fun p => if p = 4096 ∨ p = 8192 then FILE_WRITE else if p = 4152 then NEXT_PAGE else 0)
    (fun p => decide (p = 4096 ∨ p = 8192))
    (fun p => if p = 4096 then example_write_entry 1 7 100 else example_write_entry 2 8 999)
    (fun _ => example_dentry 1 5) (fun p => if p = 4096 then 8192 else 0)

/-- The example environment with a block index that records each release request: the
last and the first block number of the released range are pushed on the world. -/
def example_trace_env : rebuild_env (List Nat) :=
  { example_rebuild_env with nova_delete_file_tree := fun w a b => b :: a :: w }

/-- A log whose entry at offset 4096 is a set-attribute entry of a regular file (mode
0100644, uid and gid 1000, atime 11, mtime 12, ctime 13, size 5000, transaction id 4). -/
def example_setattr_log : nova_log :=
  { entry_type := fun p => if p = 4096 then SET_ATTR else 0,
    nova_verify_entry_csum := fun _ => true,
    file_write := fun _ => example_write_entry 5 7 100,
    setattr := fun p =>
      { entry_type := if p = 4096 then SET_ATTR else 0,
        attr := 0, mode := 33188, uid := 1000, gid := 1000, atime := 11, mtime := 12,
        ctime := 13, size := 5000, trans_id := 4, invalid := 0 },
    link_change := fun p =>
      { entry_type := if p = 4096 then SET_ATTR else 0,
        invalid := 0, links := 0, ctime := 0, flags := 0, generation := 0, trans_id := 0 },
    mmap := fun _ => { entry_type := 0, invalid := 0, trans_id := 0, pgoff := 0, num_pages := 0 },
    dentry := fun _ => example_dentry 1 5,
    next_page := fun _ => 0,
    setattr_type := fun _ => rfl, link_change_type := fun _ => rfl }

/-- A replay state at offset 4096 whose size so far is 20000 and whose highest
transaction id so far is 2. -/
def example_setattr_state : rebuild_state (List Nat) :=
  { pi := example_pi 4096 8000, sih := example_sih,
    reb := { example_reb with i_size := 20000 },
    curr_trans_id := 2, curr_p := 4096, world := [], alter_pi := none }

/-- Modelled from the spec: the number of pages in the linked chain that starts at the
page at offset `c` and ends at the page whose next pointer is 0.  `none` when the chain
does not end within `n` pages or leads to offset 0, which is no page of a log. -/
def chain_length (L : nova_log) : Nat → Nat → Option Nat
  | 0, _ => none
  | n + 1, c =>
    if c = 0 then none
    else if L.next_page c = 0 then some 1
    else
      match chain_length L n (BLOCK_OFF (L.next_page c)) with
      | some k => some (k + 1)
      | none => none

/-- Two rebuild records agree in an attribute, or the second holds there the value of the
record `A`. -/
def reb_rel (A : Option nova_inode_rebuild) (s t : nova_inode_rebuild) : Prop :=
  (t.i_size = s.i_size ∨ ∃ a, A = some a ∧ t.i_size = a.i_size) ∧
  (t.i_flags = s.i_flags ∨ ∃ a, A = some a ∧ t.i_flags = a.i_flags) ∧
  (t.i_ctime = s.i_ctime ∨ ∃ a, A = some a ∧ t.i_ctime = a.i_ctime) ∧
  (t.i_mtime = s.i_mtime ∨ ∃ a, A = some a ∧ t.i_mtime = a.i_mtime) ∧
  (t.i_atime = s.i_atime ∨ ∃ a, A = some a ∧ t.i_atime = a.i_atime) ∧
  (t.i_uid = s.i_uid ∨ ∃ a, A = some a ∧ t.i_uid = a.i_uid) ∧
  (t.i_gid = s.i_gid ∨ ∃ a, A = some a ∧ t.i_gid = a.i_gid) ∧
  (t.i_generation = s.i_generation ∨ ∃ a, A = some a ∧ t.i_generation = a.i_generation) ∧
  (t.i_links_count = s.i_links_count ∨
    ∃ a, A = some a ∧ t.i_links_count = a.i_links_count) ∧
  (t.i_mode = s.i_mode ∨ ∃ a, A = some a ∧ t.i_mode = a.i_mode)

/-- Two replays of one log in step: the first works on the inode `P0`, the second on a
header with replica address `Q0`; they have the same cursor, highest transaction id and
tail, and rebuild records related by `reb_rel`. -/
def replay_sim {W : Type} (P0 : nova_inode) (Q0 : Nat) (A : Option nova_inode_rebuild)
    (s t : rebuild_state W) : Prop :=
  s.pi = P0 ∧ t.sih.alter_pi_addr = Q0 ∧ t.curr_p = s.curr_p ∧
  t.curr_trans_id = s.curr_trans_id ∧ t.sih.log_tail = s.sih.log_tail ∧
  reb_rel A s.reb t.reb

/-- Two outcomes of the same kind, with related results. -/
def out_rel {α : Type} (P : α → α → Prop) : outcome α → outcome α → Prop
  | .ret a, .ret b => P a b
  | .crash, .crash => True
  | .timeout, .timeout => True
  | _, _ => False

/-- Two ends of a pass through a scan loop of the same kind, with related states. -/
def step_rel {W : Type} (P : rebuild_state W → rebuild_state W → Prop) :
    scan_step W → scan_step W → Prop
  | .next a, .next b => P a b
  | .stop a, .stop b => P a b
  | .out r a, .out r2 b => r = r2 ∧ P a b
  | _, _ => False

/-- A super block with two per-CPU free lists whose `num_free_blocks` counters are `a` and
`b`; the other fields are zero. -/
def two_counter_sbi (a b : Nat) : nova_sb_info :=
  { s_blocksize := 4096, initsize := 0, num_blocks := 0, reserved_blocks := 0, cpus := 2,
    per_list_blocks := 0,
    free_lists := [{ free_list.zero 0 with num_free_blocks := a },
      { free_list.zero 1 with num_free_blocks := b }],
    shared_free_list := free_list.zero 2 }

/-- A directory log of one page whose entry at offset 4096 is a checksum-valid directory
entry (a removal, `ino = 0`) with record length `de_len = 0`; the tail is 4144. -/
def example_zero_len_log : nova_log :=
  example_log (fun p => if p = 4096 then DIR_LOG else 0) (fun _ => true)
    (fun _ => example_write_entry 1 7 100) (fun _ => { example_dentry 1 0 with de_len := 0 })
    (fun _ => 0)

/-- A super block with two partitions of 100 blocks: the first holds the free extent
`[10, 12]` (3 blocks), the second the free extent `[100, 104]` (5 blocks). -/
def example_two_list_sbi : nova_sb_info :=
  { s_blocksize := 4096, initsize := 0, num_blocks := 200, reserved_blocks := 1, cpus := 2,
    per_list_blocks := 100,
    free_lists := [
      { free_list.zero 0 with
        block_free_tree := .node .nil 1000 ⟨10, 12, 0⟩ .nil,
        first_node := some 1000, last_node := some 1000, block_start := 1, block_end := 99,
        num_free_blocks := 3, num_blocknode := 1 },
      { free_list.zero 1 with
        block_free_tree := .node .nil 1001 ⟨100, 104, 0⟩ .nil,
        first_node := some 1001, last_node := some 1001, block_start := 100,
        block_end := 199, num_free_blocks := 5, num_blocknode := 1 }],
    shared_free_list := free_list.zero 2 }

/-- The device of `example_sbi_blk` (32 blocks of 64 bytes, one CPU, one reserved block)
before `nova_init_blockmap`. -/
def example_parity_base : nova_sb_info :=
  { s_blocksize := 64, initsize := 2048, num_blocks := 32, reserved_blocks := 1, cpus := 1,
    per_list_blocks := 0, free_lists := [], shared_free_list := free_list.zero 0 }

/-- The super block of `example_parity_base` after `nova_init_blockmap`, mapped at address
10000: the parity area is blocks 1..7 and the usable range is `[8, 31]`. -/
def example_parity_sb : super_block :=
  { sbi := nova_init_blockmap example_data_env.tokernel_env
      (nova_alloc_block_free_lists example_parity_base) 0 (fun _ => 1000),
    virt_addr := 10000, mount_snapshot := 0 }

/-- The cached pointers of a free list are exact: `first_node` and `last_node` are the
addresses of the first and of the last node of the index in order, NULL when the index is
empty. -/
def cache_exact (fl : free_list) : Prop :=
  fl.first_node = fl.block_free_tree.inorder.head?.map Prod.fst ∧
  fl.last_node = fl.block_free_tree.inorder.getLast?.map Prod.fst

/-- The cached pointers of every per-CPU list are exact. -/
def cache_inv (s : nova_sb_info) : Prop :=
  ∀ i : Int, 0 ≤ i → i < s.cpus → cache_exact (nova_get_free_list s i)

/-- The super block of `degenerate_sbi1` after two blocks were allocated from the tail of
partition 0 (blocks 2 and 3) and block 3 was freed again. -/
def degenerate_sbi3 : nova_sb_info :=
  (nova_free_blocks (unbalanced_env 0)
    (nova_new_blocks (unbalanced_env 0) degenerate_sbi1 0 2 NOVA_BLOCK_TYPE_4K DATA 0 1 0).sbi
    (some 2000) 3 1 NOVA_BLOCK_TYPE_4K 0).2

/-- A device of 200 blocks on 2 CPUs with one reserved block, before `nova_init_blockmap`;
each partition reserves 12 parity blocks, so the usable ranges are `[13, 99]` and
`[112, 199]`. -/
def example_two_cpu_base : nova_sb_info :=
  { s_blocksize := 4096, initsize := 819200, num_blocks := 200, reserved_blocks := 1,
    cpus := 2, per_list_blocks := 0, free_lists := [], shared_free_list := free_list.zero 2 }

/-- The branch of `nova_alloc_blocks_in_free_list` that reports more allocated blocks than
the free counter holds (balloc.c 549-555) is taken: the early return is passed and the loop
ends with `num_free_blocks < num_blocks`. -/
def alloc_counter_branch (E : kernel_env) (fl : free_list) (btype num_blocks new_blocknr : Nat)
    (from_tail : Int) : Prop :=
  ¬ (fl.first_node = none ∨ fl.num_free_blocks = 0) ∧
  (nova_alloc_blocks_loop E btype from_tail
    (alloc_walk fl.block_free_tree from_tail
      (if from_tail = 0 then fl.first_node else fl.last_node))
    ⟨fl, num_blocks, new_blocknr, false⟩).fl.num_free_blocks <
  (nova_alloc_blocks_loop E btype from_tail
    (alloc_walk fl.block_free_tree from_tail
      (if from_tail = 0 then fl.first_node else fl.last_node))
    ⟨fl, num_blocks, new_blocknr, false⟩).num_blocks

/-- A one-CPU super block whose free list holds the extents `[1, 300]` and `[400, 700]` with
a consistent counter, but whose cached `first_node` is NULL. -/
def example_null_first_sbi : nova_sb_info :=
  { s_blocksize := 4096, initsize := 0, num_blocks := 701, reserved_blocks := 0,
    cpus := 1, per_list_blocks := 701,
    free_lists := [{ free_list.zero 0 with
      block_free_tree := .node .nil 1000 ⟨1, 300, 0⟩ (.node .nil 1001 ⟨400, 700, 0⟩ .nil),
      first_node := none, last_node := some 1001,
      block_start := 0, block_end := 700,
      num_free_blocks := 601, num_blocknode := 2 }],
    shared_free_list := free_list.zero 1 }

/-- Modelled from the spec: the entries of a log between head and tail, in log order.
Read from cursor `p` with at most `n` steps: the offsets of the entries that lie strictly
before `tail`, where an entry reached by moving to the next page counts as the tail when
its offset is `tail`.  `none` when the log ends before the tail or `n` steps do not reach
it. -/
def spec_entries_before_tail (L : nova_log) (size : Nat → Nat) (tail : Nat) :
    Nat → Nat → Option (List Nat)
  | 0, _ => none
  | n + 1, p =>
    if p = tail then some []
    else
      match log_slot L p with
      | none => none
      | some e =>
        if e.1 = tail then some []
        else
          match spec_entries_before_tail L size tail n (ul (e.1 + size e.1)) with
          | none => none
          | some r => some (e.1 :: r)

/-! ## Theorems -/

theorem compare_eq_neg_one (n : nova_range_node) (k : Nat) :
    nova_rbtree_compare_rangenode n k = -1 ↔ k < n.range_low := by
  unfold nova_rbtree_compare_rangenode
  split_ifs <;> simp_all

theorem compare_eq_one (n : nova_range_node) (k : Nat) :
    nova_rbtree_compare_rangenode n k = 1 ↔ ¬ k < n.range_low ∧ n.range_high < k := by
  unfold nova_rbtree_compare_rangenode
  split_ifs <;> simp_all

theorem sorted_exts_node {l r : rb_root} {a : Nat} {n : nova_range_node}
    (h : sorted_exts (rb_root.node l a n r).inorder) :
    sorted_exts l.inorder ∧ sorted_exts r.inorder ∧ n.range_low ≤ n.range_high ∧
    (∀ p ∈ l.inorder, p.2.range_high < n.range_low) ∧
    (∀ p ∈ r.inorder, n.range_high < p.2.range_low) := by
  obtain ⟨hp, hl⟩ := h
  simp only [rb_root.inorder, List.pairwise_append, List.pairwise_cons, List.mem_cons,
    List.mem_append] at hp hl
  obtain ⟨hpl, ⟨hnr, hpr⟩, hlr⟩ := hp
  refine ⟨⟨hpl, fun p hp => hl p (Or.inl hp)⟩, ⟨hpr, fun p hp => hl p (Or.inr (Or.inr hp))⟩,
    hl (a, n) (Or.inr (Or.inl rfl)), ?_, ?_⟩
  · intro p hp
    exact hlr p hp (a, n) (Or.inl rfl)
  · intro p hp
    exact hnr p hp

/-- The descent of `nova_find_range_node` in a tree of disjoint extents: a hit on the
extent containing the key, or a miss that ends on a neighbour of the key. -/
theorem find_loop_spec (t : rb_root) (k : Nat) (c : Option node_ptr)
    (hs : sorted_exts t.inorder) :
    (∃ p ∈ t.inorder, p.2.range_low ≤ k ∧ k ≤ p.2.range_high ∧
        nova_find_range_node_loop t k c = (1, some p)) ∨
    (∃ l1 l2 c1, t.inorder = l1 ++ l2 ∧ (∀ p ∈ l1, p.2.range_high < k) ∧
        (∀ p ∈ l2, k < p.2.range_low) ∧ nova_find_range_node_loop t k c = (0, c1) ∧
        (t.inorder = [] → c1 = c) ∧
        (t.inorder ≠ [] → ∃ p, c1 = some p ∧ (l1.getLast? = some p ∨ l2.head? = some p))) := by
  induction t generalizing c with
  | nil =>
    right
    exact ⟨[], [], c, by simp [rb_root.inorder], by simp, by simp,
      by simp [nova_find_range_node_loop], fun _ => rfl, fun h => absurd rfl h⟩
  | node l a n r ihl ihr =>
    obtain ⟨hsl, hsr, hn, hL, hR⟩ := sorted_exts_node hs
    by_cases h1 : k < n.range_low
    · have hc := (compare_eq_neg_one n k).2 h1
      rcases ihl (some (a, n)) hsl with ⟨p, hp, h2, h3, h4⟩ | ⟨l1, l2, c1, he, hb, ha, hr, hn1, hn2⟩
      · left
        refine ⟨p, by simp [rb_root.inorder, hp], h2, h3, ?_⟩
        simp [nova_find_range_node_loop, hc, h4]
      · right
        refine ⟨l1, l2 ++ (a, n) :: r.inorder, c1, by simp [rb_root.inorder, he], hb, ?_, ?_,
          by simp [rb_root.inorder], ?_⟩
        · intro p hp
          simp only [List.mem_append, List.mem_cons] at hp
          rcases hp with hp | hp | hp
          · exact ha p hp
          · subst hp; exact h1
          · have := hR p hp; omega
        · simp [nova_find_range_node_loop, hc, hr]
        · intro _
          by_cases hle : l.inorder = []
          · have hc1 := hn1 hle
            rw [hle] at he
            have h12 : l1 = [] ∧ l2 = [] := by simpa using he.symm
            refine ⟨(a, n), hc1, Or.inr ?_⟩
            simp [h12.2]
          · obtain ⟨p, hp1, hp2⟩ := hn2 hle
            refine ⟨p, hp1, ?_⟩
            rcases hp2 with hp2 | hp2
            · exact Or.inl hp2
            · right
              cases l2 with
              | nil => simp at hp2
              | cons x xs => simpa using hp2
    · by_cases h2 : n.range_high < k
      · have hc : nova_rbtree_compare_rangenode n k = 1 := (compare_eq_one n k).2 ⟨h1, h2⟩
        have hc0 : ¬ nova_rbtree_compare_rangenode n k = -1 := by rw [hc]; decide
        rcases ihr (some (a, n)) hsr with ⟨p, hp, h3, h4, h5⟩ | ⟨l1, l2, c1, he, hb, ha, hr, hn1, hn2⟩
        · left
          refine ⟨p, by simp [rb_root.inorder, hp], h3, h4, ?_⟩
          simp [nova_find_range_node_loop, hc, h5]
        · right
          refine ⟨l.inorder ++ (a, n) :: l1, l2, c1, by simp [rb_root.inorder, he], ?_, ha, ?_,
            by simp [rb_root.inorder], ?_⟩
          · intro p hp
            simp only [List.mem_append, List.mem_cons] at hp
            rcases hp with hp | hp | hp
            · have := hL p hp; omega
            · subst hp; exact h2
            · exact hb p hp
          · simp [nova_find_range_node_loop, hc, hr]
          · intro _
            by_cases hre : r.inorder = []
            · have hc1 := hn1 hre
              rw [hre] at he
              have h12 : l1 = [] ∧ l2 = [] := by simpa using he.symm
              refine ⟨(a, n), hc1, Or.inl ?_⟩
              simp [h12.1]
            · obtain ⟨p, hp1, hp2⟩ := hn2 hre
              refine ⟨p, hp1, ?_⟩
              rcases hp2 with hp2 | hp2
              · left
                cases l1 with
                | nil => simp at hp2
                | cons x xs =>
                  rw [List.getLast?_append_of_ne_nil _ (by simp),
                    List.getLast?_cons_cons]
                  exact hp2
              · exact Or.inr hp2
      · left
        have hc0 : ¬ nova_rbtree_compare_rangenode n k = -1 := by
          rw [compare_eq_neg_one]; exact h1
        have hc1 : ¬ nova_rbtree_compare_rangenode n k = 1 := by
          rw [compare_eq_one]; tauto
        refine ⟨(a, n), by simp [rb_root.inorder], by simpa using h1, by simpa using h2, ?_⟩
        simp [nova_find_range_node_loop, hc0, hc1]

theorem split_unique {l l1 l2 : List node_ptr} {k : Nat} (he : l = l1 ++ l2)
    (hb : ∀ p ∈ l1, p.2.range_high < k) (ha : ∀ p ∈ l2, k < p.2.range_low)
    (hl : ∀ p ∈ l, p.2.range_low ≤ p.2.range_high) :
    l1 = below k l ∧ l2 = above k l := by
  subst he
  have hl1 : ∀ p ∈ l1, p.2.range_low ≤ p.2.range_high := fun p hp =>
    hl p (List.mem_append_left _ hp)
  have hl2 : ∀ p ∈ l2, p.2.range_low ≤ p.2.range_high := fun p hp =>
    hl p (List.mem_append_right _ hp)
  constructor
  · unfold below
    rw [List.filter_append]
    have h1 : l1.filter (fun p => decide (p.2.range_high < k)) = l1 :=
      List.filter_eq_self.2 (fun p hp => by simpa using hb p hp)
    have h2 : l2.filter (fun p => decide (p.2.range_high < k)) = [] :=
      List.filter_eq_nil_iff.2 (fun p hp => by
        have := ha p hp; have := hl2 p hp; simp; omega)
    rw [h1, h2, List.append_nil]
  · unfold above
    rw [List.filter_append]
    have h1 : l1.filter (fun p => decide (k < p.2.range_low)) = [] :=
      List.filter_eq_nil_iff.2 (fun p hp => by
        have := hb p hp; have := hl1 p hp; simp; omega)
    have h2 : l2.filter (fun p => decide (k < p.2.range_low)) = l2 :=
      List.filter_eq_self.2 (fun p hp => by simpa using ha p hp)
    rw [h1, h2, List.nil_append]

theorem mem_below {k : Nat} {l : List node_ptr} {p : node_ptr} :
    p ∈ below k l ↔ p ∈ l ∧ p.2.range_high < k := by
  simp [below]

theorem mem_above {k : Nat} {l : List node_ptr} {p : node_ptr} :
    p ∈ above k l ↔ p ∈ l ∧ k < p.2.range_low := by
  simp [above]

theorem sorted_exts_unique {l : List node_ptr} (hs : sorted_exts l) {p q : node_ptr}
    (hp : p ∈ l) (hq : q ∈ l) {k : Nat} (hpk : p.2.range_low ≤ k ∧ k ≤ p.2.range_high)
    (hqk : q.2.range_low ≤ k ∧ k ≤ q.2.range_high) : p = q := by
  by_contra hne
  have hsym : Symmetric (fun a b : node_ptr => ext_lt a b ∨ ext_lt b a) :=
    fun a b h => h.symm
  have hpw : l.Pairwise (fun a b : node_ptr => ext_lt a b ∨ ext_lt b a) :=
    hs.1.imp (fun h => Or.inl h)
  have := hpw.forall hsym hp hq hne
  unfold ext_lt at this
  omega

/-- A key outside every extent splits a sorted index into the nodes below and above. -/
theorem below_append_above {l : List node_ptr} (hs : sorted_exts l) {k : Nat}
    (hk : ¬ blk_in l k) : l = below k l ++ above k l := by
  obtain ⟨hp, hl⟩ := hs
  induction l with
  | nil => simp [below, above]
  | cons x xs ih =>
    have hx := hl x (List.mem_cons_self _ _)
    have hk2 : ¬ blk_in xs k := fun ⟨p, hp1, hp2⟩ => hk ⟨p, List.mem_cons_of_mem _ hp1, hp2⟩
    have hkx : k < x.2.range_low ∨ x.2.range_high < k := by
      by_contra hc
      exact hk ⟨x, List.mem_cons_self _ _, by omega⟩
    rw [List.pairwise_cons] at hp
    have ih2 := ih hk2 hp.2 (fun p hp1 => hl p (List.mem_cons_of_mem _ hp1))
    rcases hkx with h | h
    · have hb : below k xs = [] := by
        unfold below
        refine List.filter_eq_nil_iff.2 (fun p hp1 => ?_)
        have h1 := hp.1 p hp1
        have h2 := hl p (List.mem_cons_of_mem _ hp1)
        unfold ext_lt at h1
        simp; omega
      have ha : above k xs = xs := by rw [hb] at ih2; simpa using ih2.symm
      have h3 : ¬ x.2.range_high < k := by omega
      have e1 : below k (x :: xs) = below k xs := by simp [below, h3]
      have e2 : above k (x :: xs) = x :: above k xs := by simp [above, h]
      rw [e1, e2, hb, ha]
      rfl
    · have h3 : ¬ k < x.2.range_low := by omega
      simp only [below, above, List.filter_cons, h, h3, decide_True, decide_False, if_true,
        if_false, List.cons_append, Bool.false_eq_true]
      congr 1

theorem find_loop_hit (t : rb_root) (k : Nat) (c : Option node_ptr)
    (hs : sorted_exts t.inorder) {p : node_ptr} (hp : p ∈ t.inorder)
    (hk : p.2.range_low ≤ k ∧ k ≤ p.2.range_high) :
    nova_find_range_node_loop t k c = (1, some p) := by
  rcases find_loop_spec t k c hs with ⟨q, hq, h1, h2, h3⟩ | ⟨l1, l2, c1, he, hb, ha, _, _, _⟩
  · rw [h3, sorted_exts_unique hs hp hq hk ⟨h1, h2⟩]
  · exfalso
    rw [he, List.mem_append] at hp
    rcases hp with hp | hp
    · have := hb p hp; omega
    · have := ha p hp; omega

theorem find_loop_miss (t : rb_root) (k : Nat) (c : Option node_ptr)
    (hs : sorted_exts t.inorder) (hk : ¬ blk_in t.inorder k) :
    ∃ c1, nova_find_range_node_loop t k c = (0, c1) ∧ (t.inorder = [] → c1 = c) ∧
      (t.inorder ≠ [] → ∃ p, c1 = some p ∧
        ((below k t.inorder).getLast? = some p ∨ (above k t.inorder).head? = some p)) := by
  rcases find_loop_spec t k c hs with ⟨q, hq, h1, h2, _⟩ | ⟨l1, l2, c1, he, hb, ha, hr, hn1, hn2⟩
  · exact absurd ⟨q, hq, h1, h2⟩ hk
  · obtain ⟨e1, e2⟩ := split_unique he hb ha hs.2
    subst e1 e2
    exact ⟨c1, hr, hn1, hn2⟩

/-! ### Pointer operations on the in-order sequence -/

theorem list_next_cons (x : node_ptr) (l : List node_ptr) (a : Nat) :
    list_next (x :: l) a = if x.1 = a then l.head? else list_next l a := by
  cases l with
  | nil => simp [list_next]
  | cons y ys => simp [list_next]

theorem list_prev_cons (x : node_ptr) (l : List node_ptr) (a : Nat) :
    list_prev (x :: l) a =
      if x.1 = a then none
      else match l.head? with
        | some y => if y.1 = a then some x else list_prev l a
        | none => none := by
  cases l with
  | nil => simp [list_prev]
  | cons y ys => simp [list_prev]

theorem list_next_not_mem (l : List node_ptr) (a : Nat) (h : a ∉ l.map Prod.fst) :
    list_next l a = none := by
  induction l with
  | nil => simp [list_next]
  | cons x xs ih =>
    simp only [List.map_cons, List.mem_cons, not_or] at h
    rw [list_next_cons, if_neg (fun e => h.1 e.symm), ih h.2]

theorem list_prev_not_mem (l : List node_ptr) (a : Nat) (h : a ∉ l.map Prod.fst) :
    list_prev l a = none := by
  induction l with
  | nil => simp [list_prev]
  | cons x xs ih =>
    simp only [List.map_cons, List.mem_cons, not_or] at h
    rw [list_prev_cons, if_neg (fun e => h.1 e.symm)]
    cases xs with
    | nil => simp
    | cons y ys =>
      simp only [List.map_cons, List.mem_cons, not_or] at h
      simp only [List.head?_cons]
      rw [if_neg (fun e => h.2.1 e.symm)]
      exact ih (by simp only [List.map_cons, List.mem_cons, not_or]; exact ⟨h.2.1, h.2.2⟩)

theorem list_next_split (l1 l2 : List node_ptr) (p : node_ptr)
    (hn : (List.map Prod.fst (l1 ++ p :: l2)).Nodup) :
    list_next (l1 ++ p :: l2) p.1 = l2.head? := by
  induction l1 with
  | nil => simp [list_next_cons]
  | cons x xs ih =>
    simp only [List.cons_append, List.map_cons, List.nodup_cons, List.map_append,
      List.mem_append, List.mem_cons, List.mem_map, not_or] at hn
    have hx : x.1 ≠ p.1 := fun e => hn.1.2.1 e
    rw [List.cons_append, list_next_cons, if_neg hx]
    exact ih (by simpa using hn.2)

theorem list_prev_split (l1 l2 : List node_ptr) (p : node_ptr)
    (hn : (List.map Prod.fst (l1 ++ p :: l2)).Nodup) :
    list_prev (l1 ++ p :: l2) p.1 = l1.getLast? := by
  induction l1 with
  | nil => simp [list_prev_cons]
  | cons x xs ih =>
    simp only [List.cons_append, List.map_cons, List.nodup_cons, List.map_append,
      List.mem_append, List.mem_cons, List.mem_map, not_or] at hn
    have hx : x.1 ≠ p.1 := fun e => hn.1.2.1 e
    rw [List.cons_append, list_prev_cons, if_neg hx]
    cases xs with
    | nil => simp
    | cons y ys =>
      have hy : y.1 ≠ p.1 := by
        intro e
        have := hn.2
        simp [e] at this
      simp only [List.cons_append, List.head?_cons, if_neg hy]
      rw [List.getLast?_cons_cons]
      exact ih (by simpa using hn.2)

theorem rb_root.inorder_update (f : nova_range_node → nova_range_node) (a : Nat)
    (t : rb_root) :
    (rb_root.update f a t).inorder =
      t.inorder.map (fun p => if p.1 = a then (p.1, f p.2) else p) := by
  induction t with
  | nil => simp [rb_root.update, rb_root.inorder]
  | node l b n r ihl ihr =>
    by_cases h : b = a <;> simp [rb_root.update, rb_root.inorder, ihl, ihr, h]

/-- Linking a node whose `range_low` lies in no extent puts it between the nodes below and
the nodes above. -/
theorem insert_link_spec (t : rb_root) (a : Nat) (n : nova_range_node)
    (hs : sorted_exts t.inorder) (hk : ¬ blk_in t.inorder n.range_low) :
    ∃ t1, nova_insert_range_node_link t a n = some t1 ∧
      t1.inorder = below n.range_low t.inorder ++ (a, n) :: above n.range_low t.inorder := by
  induction t with
  | nil => exact ⟨_, rfl, by simp [rb_root.inorder, below, above]⟩
  | node l b m r ihl ihr =>
    obtain ⟨hsl, hsr, hm, hL, hR⟩ := sorted_exts_node hs
    have hkl : ¬ blk_in l.inorder n.range_low := fun ⟨p, hp1, hp2⟩ =>
      hk ⟨p, by simp [rb_root.inorder, hp1], hp2⟩
    have hkr : ¬ blk_in r.inorder n.range_low := fun ⟨p, hp1, hp2⟩ =>
      hk ⟨p, by simp [rb_root.inorder, hp1], hp2⟩
    have hkm : n.range_low < m.range_low ∨ m.range_high < n.range_low := by
      by_contra hc
      exact hk ⟨(b, m), by simp [rb_root.inorder], by simp only; omega⟩
    rcases hkm with h | h
    · have hc := (compare_eq_neg_one m n.range_low).2 h
      obtain ⟨t1, ht1, hi1⟩ := ihl hsl hkl
      refine ⟨.node t1 b m r, by simp [nova_insert_range_node_link, hc, ht1], ?_⟩
      have hbr : below n.range_low r.inorder = [] :=
        List.filter_eq_nil_iff.2 (fun p hp => by
          have := hR p hp; have := hsr.2 p hp; simp; omega)
      have har : above n.range_low r.inorder = r.inorder :=
        List.filter_eq_self.2 (fun p hp => by have := hR p hp; simp; omega)
      have h3 : ¬ m.range_high < n.range_low := by omega
      unfold below above at *
      simp [rb_root.inorder, hi1, List.filter_append, List.filter_cons, h, h3, hbr, har]
    · have h3 : ¬ n.range_low < m.range_low := by omega
      have hc : nova_rbtree_compare_rangenode m n.range_low = 1 :=
        (compare_eq_one m n.range_low).2 ⟨h3, h⟩
      have hc0 : ¬ nova_rbtree_compare_rangenode m n.range_low = -1 := by rw [hc]; decide
      obtain ⟨t1, ht1, hi1⟩ := ihr hsr hkr
      refine ⟨.node l b m t1, by simp [nova_insert_range_node_link, hc, ht1], ?_⟩
      have hbl : below n.range_low l.inorder = l.inorder :=
        List.filter_eq_self.2 (fun p hp => by have := hL p hp; simp; omega)
      have hal : above n.range_low l.inorder = [] :=
        List.filter_eq_nil_iff.2 (fun p hp => by
          have := hL p hp; have := hsl.2 p hp; simp; omega)
      unfold below above at *
      simp [rb_root.inorder, hi1, List.filter_append, List.filter_cons, h, h3, hbl, hal]

theorem getLast?_eq_some_split {α : Type} {l : List α} {p : α} (h : l.getLast? = some p) :
    l = l.dropLast ++ [p] := by
  have hne : l ≠ [] := by rintro rfl; simp at h
  have h2 := List.dropLast_append_getLast hne
  rw [List.getLast?_eq_getLast _ hne] at h
  injection h with h
  rw [h] at h2
  exact h2.symm

theorem head?_eq_some_split {α : Type} {l : List α} {p : α} (h : l.head? = some p) :
    l = p :: l.tail := by
  cases l with
  | nil => simp at h
  | cons x xs => simp at h; simp [h]

theorem mem_of_getLast? {α : Type} {l : List α} {p : α} (h : l.getLast? = some p) : p ∈ l := by
  rw [getLast?_eq_some_split h]; simp

theorem mem_of_head? {α : Type} {l : List α} {p : α} (h : l.head? = some p) : p ∈ l := by
  rw [head?_eq_some_split h]; simp

/-- On a well-formed index and a candidate range that meets no extent,
`nova_find_free_slot` succeeds with the last node below and the first node above. -/
theorem find_free_slot_valid (E : kernel_env) (t : rb_root) (lo hi : Nat)
    (hw : wf_nodes E t.inorder) (hlo : ¬ blk_in t.inorder lo)
    (habove : ∀ p ∈ above lo t.inorder, hi < p.2.range_low) :
    nova_find_free_slot E t lo hi =
      ⟨0, (below lo t.inorder).getLast?, (above lo t.inorder).head?⟩ := by
  have hsplit := below_append_above hw.sorted hlo
  obtain ⟨c1, hloop, hn1, hn2⟩ := find_loop_miss t lo none hw.sorted hlo
  by_cases hemp : t.inorder = []
  · have hc1 := hn1 hemp
    subst hc1
    simp [nova_find_free_slot, nova_find_range_node, hloop, hemp, below, above]
  · obtain ⟨p, hp, hp2⟩ := hn2 hemp
    subst hp
    have hpm : p ∈ t.inorder := by
      rcases hp2 with h | h
      · exact (mem_below.1 (mem_of_getLast? h)).1
      · exact (mem_above.1 (mem_of_head? h)).1
    have hck := hw.csum p hpm
    have hfind : nova_find_range_node E t lo none = (0, some p) := by
      simp [nova_find_range_node, hloop, hck]
    rcases hp2 with h | h
    · have hb := (mem_below.1 (mem_of_getLast? h)).2
      have e1 := getLast?_eq_some_split h
      have hnext : rb_next t p.1 = (above lo t.inorder).head? := by
        unfold rb_next
        have hnd := hw.nodup
        have e : t.inorder = (below lo t.inorder).dropLast ++ p :: above lo t.inorder := by
          conv_lhs => rw [hsplit, e1]
          simp
        rw [e] at hnd
        have h3 := list_next_split _ _ _ hnd
        rw [← e] at h3
        exact h3
      simp only [nova_find_free_slot, hfind, hnext, h]
      cases hh : (above lo t.inorder).head? with
      | none => simp [hb]
      | some nx =>
        have := hw.csum nx (mem_above.1 (mem_of_head? hh)).1
        simp [hb, this]
    · have ha := (mem_above.1 (mem_of_head? h)).2
      have hpl := hw.sorted.2 p hpm
      have hnb : ¬ p.2.range_high < lo := by omega
      have hhi := habove p (mem_of_head? h)
      have e2 := head?_eq_some_split h
      have hprev : rb_prev t p.1 = (below lo t.inorder).getLast? := by
        unfold rb_prev
        have hnd := hw.nodup
        have e : t.inorder = below lo t.inorder ++ p :: (above lo t.inorder).tail := by
          conv_lhs => rw [hsplit, e2]
        rw [e] at hnd
        have h3 := list_prev_split _ _ _ hnd
        rw [← e] at h3
        exact h3
      simp only [nova_find_free_slot, hfind, hprev, h]
      cases hh : (below lo t.inorder).getLast? with
      | none => simp [hnb, hhi]
      | some pv =>
        have := hw.csum pv (mem_below.1 (mem_of_getLast? hh)).1
        simp [hnb, hhi, this]

theorem nodup_split_ne {l1 l2 : List node_ptr} {p : node_ptr}
    (hn : (List.map Prod.fst (l1 ++ p :: l2)).Nodup) :
    (∀ q ∈ l1, q.1 ≠ p.1) ∧ (∀ q ∈ l2, q.1 ≠ p.1) := by
  rw [List.map_append, List.map_cons, List.nodup_append] at hn
  obtain ⟨_, h2, h3⟩ := hn
  rw [List.nodup_cons] at h2
  constructor
  · intro q hq e
    exact h3 (List.mem_map_of_mem Prod.fst hq) (by rw [e]; exact List.mem_cons_self _ _)
  · intro q hq e
    exact h2.1 (by rw [← e]; exact List.mem_map_of_mem Prod.fst hq)

theorem filter_addr_split {l1 l2 : List node_ptr} {p : node_ptr}
    (hn : (List.map Prod.fst (l1 ++ p :: l2)).Nodup) :
    (l1 ++ p :: l2).filter (fun q => q.1 != p.1) = l1 ++ l2 := by
  obtain ⟨h1, h2⟩ := nodup_split_ne hn
  rw [List.filter_append, List.filter_cons]
  have e1 : l1.filter (fun q => q.1 != p.1) = l1 :=
    List.filter_eq_self.2 (fun q hq => by simpa using h1 q hq)
  have e2 : l2.filter (fun q => q.1 != p.1) = l2 :=
    List.filter_eq_self.2 (fun q hq => by simpa using h2 q hq)
  simp [e1, e2]

theorem map_addr_split {l1 l2 : List node_ptr} {p : node_ptr}
    (f : nova_range_node → nova_range_node)
    (hn : (List.map Prod.fst (l1 ++ p :: l2)).Nodup) :
    (l1 ++ p :: l2).map (fun q => if q.1 = p.1 then (q.1, f q.2) else q) =
      l1 ++ (p.1, f p.2) :: l2 := by
  obtain ⟨h1, h2⟩ := nodup_split_ne hn
  rw [List.map_append, List.map_cons]
  have e1 : l1.map (fun q => if q.1 = p.1 then (q.1, f q.2) else q) = l1 := by
    conv_rhs => rw [← List.map_id l1]
    exact List.map_congr_left (fun q hq => by simp [h1 q hq])
  have e2 : l2.map (fun q => if q.1 = p.1 then (q.1, f q.2) else q) = l2 := by
    conv_rhs => rw [← List.map_id l2]
    exact List.map_congr_left (fun q hq => by simp [h2 q hq])
  simp [e1, e2]

theorem not_blk_in_range {l : List node_ptr} {lo nb : Nat} (hnb : 1 ≤ nb)
    (hfree : ∀ b, lo ≤ b → b < lo + nb → ¬ blk_in l b) {p : node_ptr} (hp : p ∈ l)
    (hpl : p.2.range_low ≤ p.2.range_high) :
    p.2.range_high < lo ∨ lo + nb - 1 < p.2.range_low := by
  by_contra hc
  have hc1 : lo ≤ p.2.range_high := by omega
  have hc2 : p.2.range_low < lo + nb := by omega
  have h1 : lo ≤ max lo p.2.range_low := le_max_left _ _
  have h2 : max lo p.2.range_low < lo + nb := max_lt (by omega) hc2
  exact hfree _ h1 h2 ⟨p, hp, le_max_right _ _, max_le hc1 hpl⟩

theorem above_eq_of_free {l : List node_ptr} {lo nb : Nat} (hs : sorted_exts l)
    (hnb : 1 ≤ nb) (hfree : ∀ b, lo ≤ b → b < lo + nb → ¬ blk_in l b) :
    above (lo + nb - 1) l = above lo l := by
  unfold above
  apply List.filter_congr
  intro p hp
  have h1 := hs.2 p hp
  have h2 := not_blk_in_range hnb hfree hp h1
  simp only [decide_eq_decide]
  omega

theorem ul_of_lt {x : Nat} (h : x < 18446744073709551616) : ul x = x := by
  unfold ul; omega

theorem update_checksum_low (E : kernel_env) (n : nova_range_node) :
    (nova_update_range_node_checksum E n).range_low = n.range_low := by
  unfold nova_update_range_node_checksum; split_ifs <;> rfl

theorem update_checksum_high (E : kernel_env) (n : nova_range_node) :
    (nova_update_range_node_checksum E n).range_high = n.range_high := by
  unfold nova_update_range_node_checksum; split_ifs <;> rfl

theorem update_checksum_ok (E : kernel_env) (n : nova_range_node) :
    nova_range_node_checksum_ok E (nova_update_range_node_checksum E n) = true := by
  unfold nova_range_node_checksum_ok nova_update_range_node_checksum
  by_cases h : E.dram_struct_csum = 0 <;> simp [h]

/-- `nova_free_blocks` under the lock, on a well-formed index and a run that meets no
extent: it returns 0 and leaves the index described by `free_nodes`. -/
theorem free_locked_valid (E : kernel_env) (fl : free_list) (c lo nb : Nat) (lp : Int)
    (hw : wf_nodes E fl.block_free_tree.inorder) (hnb : 1 ≤ nb)
    (hbd : lo + nb ≤ 18446744073709551616)
    (hfree : ∀ b, lo ≤ b → b < lo + nb → ¬ blk_in fl.block_free_tree.inorder b) :
    ∃ T : rb_root,
      T.inorder = (free_nodes E fl.block_free_tree.inorder c lo nb).2 ∧
      nova_free_blocks_locked E fl c lo nb lp =
        (0, nova_free_blocks_block_found
          { fl with
            block_free_tree := T,
            first_node := free_first_node (free_nodes E fl.block_free_tree.inorder c lo nb).1
              fl.block_free_tree.inorder c lo fl.first_node,
            last_node := free_last_node (free_nodes E fl.block_free_tree.inorder c lo nb).1
              fl.block_free_tree.inorder c lo nb fl.last_node,
            num_blocknode := free_num_blocknode
              (free_nodes E fl.block_free_tree.inorder c lo nb).1 fl.num_blocknode } nb lp) := by
  have hhi : ul_sub (ul (lo + nb)) 1 = lo + nb - 1 := by unfold ul ul_sub; omega
  have hulo : ul lo = lo := ul_of_lt (by omega)
  have habove := above_eq_of_free hw.sorted hnb hfree
  have hlo : ¬ blk_in fl.block_free_tree.inorder lo := hfree lo le_rfl (by omega)
  have hslot := find_free_slot_valid E fl.block_free_tree lo (lo + nb - 1) hw hlo
    (fun p hp => by rw [← habove] at hp; exact (mem_above.1 hp).2)
  have hsplit := below_append_above hw.sorted hlo
  have hnd := hw.nodup
  have hins : ∃ T : rb_root,
      nova_insert_blocktree E fl.block_free_tree c (nova_update_range_node_checksum E
        { range_low := lo, range_high := lo + nb - 1, csum := 0 }) = (0, T) ∧
      T.inorder = below lo fl.block_free_tree.inorder ++
        (c, nova_update_range_node_checksum E
          { range_low := lo, range_high := lo + nb - 1, csum := 0 }) ::
        above lo fl.block_free_tree.inorder := by
    have hk : ¬ blk_in fl.block_free_tree.inorder (nova_update_range_node_checksum E
        { range_low := lo, range_high := lo + nb - 1, csum := 0 }).range_low := by
      rw [update_checksum_low]; exact hlo
    obtain ⟨t1, ht1, hi1⟩ := insert_link_spec fl.block_free_tree c _ hw.sorted hk
    refine ⟨E.rb_insert_color c t1, ?_, ?_⟩
    · simp [nova_insert_blocktree, nova_insert_range_node, ht1]
    · rw [E.rb_insert_color_inorder, hi1, update_checksum_low]
  obtain ⟨Tm, hTm1, hTm2⟩ := hins
  unfold nova_free_blocks_locked free_nodes free_merge
  simp only [hhi, hslot, habove]
  cases e1 : (below lo fl.block_free_tree.inorder).getLast? with
  | none =>
    have hb : below lo fl.block_free_tree.inorder = [] := List.getLast?_eq_none_iff.1 e1
    cases e2 : (above lo fl.block_free_tree.inorder).head? with
    | none =>
      have ha : above lo fl.block_free_tree.inorder = [] := List.head?_eq_none_iff.1 e2
      refine ⟨Tm, by simp [hTm2, hb, ha], ?_⟩
      simp [hTm1, free_first_node, free_last_node, free_num_blocknode, hb, ha, habove]
    | some s =>
      have hsm := mem_above.1 (mem_of_head? e2)
      have hs1 := hw.sorted.2 s hsm.1
      have hs2 := hw.bound s hsm.1
      have hs3 : lo + nb - 1 < s.2.range_low := by
        have := mem_of_head? e2; rw [← habove] at this; exact (mem_above.1 this).2
      have hne : above lo fl.block_free_tree.inorder ≠ [] := by
        intro h; rw [h] at e2; simp at e2
      have hul : ul (lo + nb - 1 + 1) = lo + nb - 1 + 1 := ul_of_lt (by omega)
      have hul2 : ul s.2.range_low = s.2.range_low := ul_of_lt (by omega)
      by_cases h2 : lo + nb - 1 + 1 = s.2.range_low
      · refine ⟨rb_root.update (fun n => nova_update_range_node_checksum E
          { n with range_low := ul_sub n.range_low nb }) s.1 fl.block_free_tree, ?_, ?_⟩
        · rw [rb_root.inorder_update]
          have e := head?_eq_some_split e2
          have hl : fl.block_free_tree.inorder =
              [] ++ s :: (above lo fl.block_free_tree.inorder).tail := by
            conv_lhs => rw [hsplit, hb, e]
          rw [hl] at hnd
          have h3 := map_addr_split (fun n => nova_update_range_node_checksum E
            { n with range_low := ul_sub n.range_low nb }) hnd
          rw [← hl] at h3
          rw [h3]
          have h4 : ul_sub s.2.range_low nb = s.2.range_low - nb := by
            unfold ul_sub; omega
          simp [h2, h4]
        · simp [hul2, h2, free_first_node, free_last_node, free_num_blocknode]
      · refine ⟨Tm, by simp [hTm2, hb, h2], ?_⟩
        simp [hTm1, hul, h2, free_first_node, free_last_node, free_num_blocknode, hb, hne,
          habove]
  | some p =>
    have hpm := mem_below.1 (mem_of_getLast? e1)
    have hp1 := hw.sorted.2 p hpm.1
    have hulp : ul (p.2.range_high + 1) = p.2.range_high + 1 := ul_of_lt (by omega)
    have hbne : below lo fl.block_free_tree.inorder ≠ [] := by
      intro h; rw [h] at e1; simp at e1
    have eL := getLast?_eq_some_split e1
    cases e2 : (above lo fl.block_free_tree.inorder).head? with
    | none =>
      have ha : above lo fl.block_free_tree.inorder = [] := List.head?_eq_none_iff.1 e2
      have hl : fl.block_free_tree.inorder =
          (below lo fl.block_free_tree.inorder).dropLast ++ p :: [] := by
        conv_lhs => rw [hsplit, ha, eL]
        simp
      by_cases h1 : p.2.range_high + 1 = lo
      · have hul3 : ul (p.2.range_high + nb) = p.2.range_high + nb := ul_of_lt (by omega)
        refine ⟨rb_root.update (fun n => nova_update_range_node_checksum E
          { n with range_high := ul (n.range_high + nb) }) p.1 fl.block_free_tree, ?_, ?_⟩
        · rw [rb_root.inorder_update]
          rw [hl] at hnd
          have h3 := map_addr_split (fun n => nova_update_range_node_checksum E
            { n with range_high := ul (n.range_high + nb) }) hnd
          rw [← hl] at h3
          rw [h3]
          simp [h1, hul3]
        · simp [hulp, hulo, h1, free_first_node, free_last_node, free_num_blocknode]
      · have h1b : ¬ lo = p.2.range_high + 1 := fun h => h1 h.symm
        refine ⟨Tm, by simp [hTm2, ha, h1b], ?_⟩
        simp [hTm1, hulp, h1b, free_first_node, free_last_node, free_num_blocknode, hbne, ha,
          habove]
    | some s =>
      have hsm := mem_above.1 (mem_of_head? e2)
      have hs1 := hw.sorted.2 s hsm.1
      have hs2 := hw.bound s hsm.1
      have hs3 : lo + nb - 1 < s.2.range_low := by
        have := mem_of_head? e2; rw [← habove] at this; exact (mem_above.1 this).2
      have hne : above lo fl.block_free_tree.inorder ≠ [] := by
        intro h; rw [h] at e2; simp at e2
      have hul : ul (lo + nb - 1 + 1) = lo + nb - 1 + 1 := ul_of_lt (by omega)
      have hul2 : ul s.2.range_low = s.2.range_low := ul_of_lt (by omega)
      have eR := head?_eq_some_split e2
      have hl : fl.block_free_tree.inorder =
          (below lo fl.block_free_tree.inorder).dropLast ++ p ::
            s :: (above lo fl.block_free_tree.inorder).tail := by
        conv_lhs => rw [hsplit, eL, eR]
        simp
      by_cases h1 : p.2.range_high + 1 = lo
      · have hul3 : ul (p.2.range_high + nb) = p.2.range_high + nb := ul_of_lt (by omega)
        by_cases h2 : lo + nb - 1 + 1 = s.2.range_low
        · refine ⟨rb_root.update (fun n => nova_update_range_node_checksum E
            { n with range_high := s.2.range_high }) p.1 (E.rb_erase s.1 fl.block_free_tree),
            ?_, ?_⟩
          · rw [rb_root.inorder_update, E.rb_erase_inorder]
            have hl2 : fl.block_free_tree.inorder =
                ((below lo fl.block_free_tree.inorder).dropLast ++ [p]) ++
                  s :: (above lo fl.block_free_tree.inorder).tail := by
              conv_lhs => rw [hl]
              simp
            have hnd2 := hnd
            rw [hl2] at hnd2
            have h4 := filter_addr_split hnd2
            rw [← hl2] at h4
            rw [h4]
            have hnd3 : (List.map Prod.fst ((below lo fl.block_free_tree.inorder).dropLast ++
                p :: (above lo fl.block_free_tree.inorder).tail)).Nodup := by
              rw [hl] at hnd
              refine hnd.sublist (List.Sublist.map _ ?_)
              exact List.Sublist.append (List.Sublist.refl _)
                ((List.sublist_cons_self s _).cons₂ p)
            have h3 := map_addr_split (fun n => nova_update_range_node_checksum E
              { n with range_high := s.2.range_high }) hnd3
            simp only [List.append_assoc, List.singleton_append]
            rw [h3]
            simp [h1, h2]
          · simp [hulp, hulo, hul, hul2, h1, h2, free_first_node, free_last_node,
              free_num_blocknode, habove, e1, e2]
        · have hc : ¬ (lo = p.2.range_high + 1 ∧ lo + nb - 1 + 1 = s.2.range_low) :=
            fun h => h2 h.2
          refine ⟨rb_root.update (fun n => nova_update_range_node_checksum E
            { n with range_high := ul (n.range_high + nb) }) p.1 fl.block_free_tree, ?_, ?_⟩
          · rw [rb_root.inorder_update]
            rw [hl] at hnd
            have h3 := map_addr_split (fun n => nova_update_range_node_checksum E
              { n with range_high := ul (n.range_high + nb) }) hnd
            rw [← hl] at h3
            rw [h3]
            have e3 : s :: (above lo fl.block_free_tree.inorder).tail =
                above lo fl.block_free_tree.inorder := eR.symm
            simp [h1, h2, hul3, e3]
          · simp [hulp, hulo, hul, hul2, h1, h2, free_first_node, free_last_node,
              free_num_blocknode]
      · have h1b : ¬ lo = p.2.range_high + 1 := fun h => h1 h.symm
        by_cases h2 : lo + nb - 1 + 1 = s.2.range_low
        · refine ⟨rb_root.update (fun n => nova_update_range_node_checksum E
            { n with range_low := ul_sub n.range_low nb }) s.1 fl.block_free_tree, ?_, ?_⟩
          · rw [rb_root.inorder_update]
            have hl2 : fl.block_free_tree.inorder =
                below lo fl.block_free_tree.inorder ++
                  s :: (above lo fl.block_free_tree.inorder).tail := by
              conv_lhs => rw [hsplit, eR]
            rw [hl2] at hnd
            have h3 := map_addr_split (fun n => nova_update_range_node_checksum E
              { n with range_low := ul_sub n.range_low nb }) hnd
            rw [← hl2] at h3
            rw [h3]
            have h4 : ul_sub s.2.range_low nb = s.2.range_low - nb := by
              unfold ul_sub; omega
            simp [h1b, h2, h4]
          · simp [hulp, hulo, hul, hul2, h1b, h2, free_first_node, free_last_node,
              free_num_blocknode]
        · refine ⟨Tm, by simp [hTm2, h1b, h2], ?_⟩
          simp [hTm1, hulp, hulo, hul, hul2, h1b, h2, free_first_node, free_last_node,
            free_num_blocknode, hbne, hne, habove]

theorem sorted_below_of_getLast {l : List node_ptr} (hs : sorted_exts l) {p : node_ptr}
    {d : List node_ptr} {r : List node_ptr} (he : l = d ++ p :: r) :
    ∀ q ∈ d, q.2.range_high < p.2.range_low := by
  intro q hq
  have := hs.1
  rw [he, List.pairwise_append] at this
  exact this.2.2 q hq p (List.mem_cons_self _ _)

theorem sorted_above_of_head {l : List node_ptr} (hs : sorted_exts l) {p : node_ptr}
    {d : List node_ptr} {r : List node_ptr} (he : l = d ++ p :: r) :
    ∀ q ∈ r, p.2.range_high < q.2.range_low := by
  intro q hq
  have := hs.1
  rw [he, List.pairwise_append, List.pairwise_cons] at this
  exact this.2.1.1 q hq

/-- Shape of `free_merge` on a sorted index split around the freed run. -/
theorem free_merge_shape (E : kernel_env) (c lo nb : Nat) (l1 l2 : List node_ptr)
    (hs : sorted_exts (l1 ++ l2)) (hnb : 1 ≤ nb)
    (hB : ∀ q ∈ l1, q.2.range_high < lo) (hA : ∀ q ∈ l2, lo + nb - 1 < q.2.range_low) :
    ∃ d m m1 r, l1 ++ l2 = d ++ m ++ r ∧ (free_merge E c lo nb l1 l2).2 = d ++ m1 ++ r ∧
      (∀ q ∈ d, q.2.range_high + 1 < lo) ∧ (∀ q ∈ r, lo + nb < q.2.range_low) ∧
      free_mid E c lo nb (free_merge E c lo nb l1 l2).1 m m1 := by
  have hlow : ∀ q ∈ l1 ++ l2, q.2.range_low ≤ q.2.range_high := hs.2
  unfold free_merge
  cases e1 : l1.getLast? with
  | none =>
    have hb : l1 = [] := List.getLast?_eq_none_iff.1 e1
    subst hb
    cases e2 : l2.head? with
    | none =>
      have ha : l2 = [] := List.head?_eq_none_iff.1 e2
      subst ha
      exact ⟨[], [], [(c, nova_update_range_node_checksum E
        { range_low := lo, range_high := lo + nb - 1, csum := 0 })], [], by simp, by simp,
        by simp, by simp, by simp [free_mid]⟩
    | some s =>
      have eR := head?_eq_some_split e2
      have hs3 := hA s (mem_of_head? e2)
      have hl : [] ++ l2 = [] ++ s :: l2.tail := by
        conv_lhs => rw [eR]
      have hT := sorted_above_of_head hs hl
      have hsl := hlow s (by rw [hl]; simp)
      by_cases h2 : lo + nb - 1 + 1 = s.2.range_low
      · refine ⟨[], [s], [(s.1, nova_update_range_node_checksum E
          { s.2 with range_low := s.2.range_low - nb })], l2.tail, by simpa using hl,
          by simp [h2], by simp, ?_, ?_⟩
        · intro q hq; have := hT q hq; omega
        · simp only [h2, if_true, free_mid]
          exact ⟨s, rfl, by omega, rfl⟩
      · refine ⟨[], [], [(c, nova_update_range_node_checksum E
          { range_low := lo, range_high := lo + nb - 1, csum := 0 })], l2, by simp,
          by simp [h2], by simp, ?_, ?_⟩
        · intro q hq; have := hA q hq; rw [eR, List.mem_cons] at hq
          rcases hq with hq | hq
          · subst hq; omega
          · have := hT q hq; omega
        · simp [h2, free_mid]
  | some p =>
    have eL := getLast?_eq_some_split e1
    have hp3 := hB p (mem_of_getLast? e1)
    cases e2 : l2.head? with
    | none =>
      have ha : l2 = [] := List.head?_eq_none_iff.1 e2
      subst ha
      have hl : l1 ++ [] = l1.dropLast ++ p :: [] := by
        conv_lhs => rw [eL]
        simp
      have hD := sorted_below_of_getLast hs hl
      have hpl := hlow p (by rw [hl]; simp)
      by_cases h1 : p.2.range_high + 1 = lo
      · refine ⟨l1.dropLast, [p], [(p.1, nova_update_range_node_checksum E
          { p.2 with range_high := p.2.range_high + nb })], [], by simpa using hl,
          by simp [h1], ?_, by simp, ?_⟩
        · intro q hq; have := hD q hq; omega
        · simp only [h1, if_true, free_mid]
          exact ⟨p, rfl, h1, rfl⟩
      · have h1b : ¬ lo = p.2.range_high + 1 := fun h => h1 h.symm
        refine ⟨l1, [], [(c, nova_update_range_node_checksum E
          { range_low := lo, range_high := lo + nb - 1, csum := 0 })], [], by simp,
          by simp [h1b], ?_, by simp, ?_⟩
        · intro q hq; have := hB q hq; rw [eL, List.mem_append, List.mem_singleton] at hq
          rcases hq with hq | hq
          · have := hD q hq; omega
          · subst hq; omega
        · simp [h1b, free_mid]
    | some s =>
      have eR := head?_eq_some_split e2
      have hs3 := hA s (mem_of_head? e2)
      have hl : l1 ++ l2 = l1.dropLast ++ p :: s :: l2.tail := by
        conv_lhs => rw [eL, eR]
        simp
      have hl2 : l1 ++ l2 = (l1.dropLast ++ [p]) ++ s :: l2.tail := by
        conv_lhs => rw [hl]
        simp
      have hD := sorted_below_of_getLast hs hl
      have hT := sorted_above_of_head hs hl2
      have hpl := hlow p (by rw [hl]; simp)
      have hsl := hlow s (by rw [hl]; simp)
      have hDlo : ∀ q ∈ l1.dropLast, q.2.range_high + 1 < lo := by
        intro q hq; have := hD q hq; omega
      have hTlo : ∀ q ∈ l2.tail, lo + nb < q.2.range_low := by
        intro q hq; have := hT q hq; omega
      have hAlo : ¬ lo + nb - 1 + 1 = s.2.range_low → ∀ q ∈ l2, lo + nb < q.2.range_low := by
        intro h2 q hq; have := hA q hq; rw [eR, List.mem_cons] at hq
        rcases hq with hq | hq
        · subst hq; omega
        · have := hT q hq; omega
      have hBlo : ¬ p.2.range_high + 1 = lo → ∀ q ∈ l1, q.2.range_high + 1 < lo := by
        intro h1 q hq; have := hB q hq; rw [eL, List.mem_append, List.mem_singleton] at hq
        rcases hq with hq | hq
        · have := hD q hq; omega
        · subst hq; omega
      by_cases h1 : p.2.range_high + 1 = lo
      · by_cases h2 : lo + nb - 1 + 1 = s.2.range_low
        · refine ⟨l1.dropLast, [p, s], [(p.1, nova_update_range_node_checksum E
            { p.2 with range_high := s.2.range_high })], l2.tail, by simpa using hl,
            by simp [h1, h2], hDlo, hTlo, ?_⟩
          simp only [h1, h2, and_self, if_true, free_mid]
          exact ⟨p, s, rfl, h1, by omega, rfl⟩
        · refine ⟨l1.dropLast, [p], [(p.1, nova_update_range_node_checksum E
            { p.2 with range_high := p.2.range_high + nb })], l2, ?_, by simp [h1, h2], hDlo,
            hAlo h2, ?_⟩
          · conv_lhs => rw [eL]
          · simp only [h1, h2, and_false, if_false, if_true, free_mid]
            exact ⟨p, rfl, h1, rfl⟩
      · have h1b : ¬ lo = p.2.range_high + 1 := fun h => h1 h.symm
        by_cases h2 : lo + nb - 1 + 1 = s.2.range_low
        · refine ⟨l1, [s], [(s.1, nova_update_range_node_checksum E
            { s.2 with range_low := s.2.range_low - nb })], l2.tail, ?_, by simp [h1b, h2],
            hBlo h1, hTlo, ?_⟩
          · conv_lhs => rw [eR]
            simp
          · simp only [h1b, h2, false_and, if_false, if_true, free_mid]
            exact ⟨s, rfl, by omega, rfl⟩
        · refine ⟨l1, [], [(c, nova_update_range_node_checksum E
            { range_low := lo, range_high := lo + nb - 1, csum := 0 })], l2, by simp,
            by simp [h1b, h2], hBlo h1, hAlo h2, ?_⟩
          simp [h1b, h2, free_mid]

/-- Shape of the index around a freed run: the nodes strictly below and strictly above
stay, the nodes touching the run are replaced by one node. -/
theorem free_nodes_shape (E : kernel_env) (l : List node_ptr) (c lo nb : Nat)
    (hw : wf_nodes E l) (hnb : 1 ≤ nb)
    (hfree : ∀ b, lo ≤ b → b < lo + nb → ¬ blk_in l b) :
    ∃ d m m1 r, l = d ++ m ++ r ∧ (free_nodes E l c lo nb).2 = d ++ m1 ++ r ∧
      (∀ q ∈ d, q.2.range_high + 1 < lo) ∧ (∀ q ∈ r, lo + nb < q.2.range_low) ∧
      free_mid E c lo nb (free_nodes E l c lo nb).1 m m1 := by
  have habove := above_eq_of_free hw.sorted hnb hfree
  have hlo : ¬ blk_in l lo := hfree lo le_rfl (by omega)
  have hsplit := below_append_above hw.sorted hlo
  have hB : ∀ q ∈ below lo l, q.2.range_high < lo := fun q hq => (mem_below.1 hq).2
  have hA : ∀ q ∈ above lo l, lo + nb - 1 < q.2.range_low := fun q hq => by
    rw [← habove] at hq; exact (mem_above.1 hq).2
  have hs : sorted_exts (below lo l ++ above lo l) := by rw [← hsplit]; exact hw.sorted
  obtain ⟨d, m, m1, r, h1, h2, h3, h4, h5⟩ :=
    free_merge_shape E c lo nb (below lo l) (above lo l) hs hnb hB hA
  refine ⟨d, m, m1, r, by rw [← h1]; exact hsplit, ?_, h3, h4, ?_⟩
  · unfold free_nodes; rw [habove]; exact h2
  · unfold free_nodes; rw [habove]; exact h5

/-- What the node written by a free has to do with the nodes it replaces. -/
theorem free_mid_facts (E : kernel_env) (c lo nb : Nat) (k : free_kind)
    (m m1 : List node_ptr) (h : free_mid E c lo nb k m m1) (hs : sorted_exts m)
    (hnb : 1 ≤ nb) :
    ∃ x : node_ptr, m1 = [x] ∧ nova_range_node_checksum_ok E x.2 = true ∧
      (x.1 = c ∧ k = .middle ∨ x.1 ∈ m.map Prod.fst) ∧
      x.2.range_low ≤ lo ∧ lo + nb - 1 ≤ x.2.range_high ∧
      (∀ b, (x.2.range_low ≤ b ∧ b ≤ x.2.range_high) ↔
        (blk_in m b ∨ (lo ≤ b ∧ b < lo + nb))) ∧
      node_blocks x = total_blocks m + nb ∧
      (x.2.range_low = lo ∨ ∃ q ∈ m, x.2.range_low = q.2.range_low) ∧
      (x.2.range_high = lo + nb - 1 ∨ ∃ q ∈ m, x.2.range_high = q.2.range_high) := by
  cases k with
  | hole =>
    obtain ⟨p, s, hm, h1, h2, hm1⟩ := h
    subst hm hm1
    have hp := hs.2 p (by simp)
    have hss := hs.2 s (by simp)
    refine ⟨_, rfl, update_checksum_ok E _, Or.inr (by simp), ?_, ?_, ?_, ?_, ?_, ?_⟩
    · simp only [update_checksum_low]; omega
    · simp only [update_checksum_high]; omega
    · intro b
      simp only [update_checksum_low, update_checksum_high, blk_in, List.mem_cons,
        List.mem_singleton, List.not_mem_nil, or_false, exists_eq_or_imp, exists_eq_left]
      omega
    · simp only [node_blocks, total_blocks, update_checksum_low, update_checksum_high,
        List.map_cons, List.map_nil, List.sum_cons, List.sum_nil]
      omega
    · right; exact ⟨p, by simp, by simp [update_checksum_low]⟩
    · right; exact ⟨s, by simp, by simp [update_checksum_high]⟩
  | left =>
    obtain ⟨p, hm, h1, hm1⟩ := h
    subst hm hm1
    have hp := hs.2 p (by simp)
    refine ⟨_, rfl, update_checksum_ok E _, Or.inr (by simp), ?_, ?_, ?_, ?_, ?_, ?_⟩
    · simp only [update_checksum_low]; omega
    · simp only [update_checksum_high]; omega
    · intro b
      simp only [update_checksum_low, update_checksum_high, blk_in, List.mem_singleton,
        exists_eq_left]
      omega
    · simp only [node_blocks, total_blocks, update_checksum_low, update_checksum_high,
        List.map_cons, List.map_nil, List.sum_cons, List.sum_nil]
      omega
    · right; exact ⟨p, by simp, by simp [update_checksum_low]⟩
    · left; simp only [update_checksum_high]; omega
  | right =>
    obtain ⟨s, hm, h2, hm1⟩ := h
    subst hm hm1
    have hss := hs.2 s (by simp)
    refine ⟨_, rfl, update_checksum_ok E _, Or.inr (by simp), ?_, ?_, ?_, ?_, ?_, ?_⟩
    · simp only [update_checksum_low]; omega
    · simp only [update_checksum_high]; omega
    · intro b
      simp only [update_checksum_low, update_checksum_high, blk_in, List.mem_singleton,
        exists_eq_left]
      omega
    · simp only [node_blocks, total_blocks, update_checksum_low, update_checksum_high,
        List.map_cons, List.map_nil, List.sum_cons, List.sum_nil]
      omega
    · left; simp only [update_checksum_low]; omega
    · right; exact ⟨s, by simp, by simp [update_checksum_high]⟩
  | middle =>
    obtain ⟨hm, hm1⟩ := h
    subst hm hm1
    refine ⟨_, rfl, update_checksum_ok E _, Or.inl ⟨rfl, rfl⟩, ?_, ?_, ?_, ?_, ?_, ?_⟩
    · simp only [update_checksum_low]; omega
    · simp only [update_checksum_high]; omega
    · intro b
      simp only [update_checksum_low, update_checksum_high, blk_in, List.not_mem_nil,
        false_and, exists_false, false_or]
      omega
    · simp only [node_blocks, total_blocks, update_checksum_low, update_checksum_high,
        List.map_nil, List.sum_nil]
      omega
    · left; simp only [update_checksum_low]
    · left; simp only [update_checksum_high]

theorem pairwise_replace_mid {α : Type} {R : α → α → Prop} {d m r : List α} {x : α}
    (h : (d ++ m ++ r).Pairwise R) (hd : ∀ q ∈ d, R q x) (hr : ∀ q ∈ r, R x q) :
    (d ++ [x] ++ r).Pairwise R := by
  simp only [List.pairwise_append, List.mem_append, List.pairwise_cons, List.mem_singleton,
    List.not_mem_nil, List.Pairwise.nil] at h ⊢
  obtain ⟨⟨h1, h2, h3⟩, h4, h5⟩ := h
  refine ⟨⟨h1, ⟨by simp, by simp⟩, ?_⟩, h4, ?_⟩
  · intro a ha b hb; subst hb; exact hd a ha
  · intro a ha b hb
    rcases ha with ha | ha
    · exact h5 a (Or.inl ha) b hb
    · subst ha; exact hr b hb

theorem blk_in_append (l1 l2 : List node_ptr) (b : Nat) :
    blk_in (l1 ++ l2) b ↔ blk_in l1 b ∨ blk_in l2 b := by
  unfold blk_in
  constructor
  · rintro ⟨p, hp, h⟩
    rw [List.mem_append] at hp
    rcases hp with hp | hp
    · exact Or.inl ⟨p, hp, h⟩
    · exact Or.inr ⟨p, hp, h⟩
  · rintro (⟨p, hp, h⟩ | ⟨p, hp, h⟩)
    · exact ⟨p, List.mem_append_left _ hp, h⟩
    · exact ⟨p, List.mem_append_right _ hp, h⟩

theorem blk_in_singleton (x : node_ptr) (b : Nat) :
    blk_in [x] b ↔ x.2.range_low ≤ b ∧ b ≤ x.2.range_high := by
  simp [blk_in]

theorem total_blocks_append (l1 l2 : List node_ptr) :
    total_blocks (l1 ++ l2) = total_blocks l1 + total_blocks l2 := by
  simp [total_blocks]

/-- Freeing a run that meets no extent keeps the index well formed (when the inserted node
is a new one), adds exactly the blocks of the run, and keeps it free of adjacent
extents. -/
theorem free_nodes_props (E : kernel_env) (l : List node_ptr) (c lo nb : Nat)
    (hw : wf_nodes E l) (hnb : 1 ≤ nb) (hbd : lo + nb ≤ 18446744073709551616)
    (hfree : ∀ b, lo ≤ b → b < lo + nb → ¬ blk_in l b) :
    (c ∉ l.map Prod.fst → wf_nodes E (free_nodes E l c lo nb).2) ∧
    (∀ b, blk_in (free_nodes E l c lo nb).2 b ↔ (blk_in l b ∨ (lo ≤ b ∧ b < lo + nb))) ∧
    total_blocks (free_nodes E l c lo nb).2 = total_blocks l + nb ∧
    (coalesced l → coalesced (free_nodes E l c lo nb).2) := by
  obtain ⟨d, m, m1, r, hl, hl1, hd, hr, hmid⟩ := free_nodes_shape E l c lo nb hw hnb hfree
  have hsm : sorted_exts m := by
    obtain ⟨h1, h2⟩ := hw.sorted
    rw [hl] at h1 h2
    simp only [List.pairwise_append, List.mem_append] at h1
    exact ⟨h1.1.2.1, fun q hq => h2 q (by simp [hq])⟩
  obtain ⟨x, hx1, hxc, hxa, hxlo, hxhi, hxb, hxn, hxl, hxh⟩ :=
    free_mid_facts E c lo nb _ m m1 hmid hsm hnb
  rw [hl1, hx1]
  have hmem : ∀ q, q ∈ m → q ∈ l := fun q hq => by rw [hl]; simp [hq]
  have hmemd : ∀ q, q ∈ d → q ∈ l := fun q hq => by rw [hl]; simp [hq]
  have hmemr : ∀ q, q ∈ r → q ∈ l := fun q hq => by rw [hl]; simp [hq]
  have hpw := hw.sorted.1
  rw [hl] at hpw
  have hcross : ∀ a ∈ d, ∀ q ∈ m, ext_lt a q := by
    intro a ha q hq
    simp only [List.pairwise_append, List.mem_append] at hpw
    exact hpw.1.2.2 a ha q hq
  have hcross2 : ∀ q ∈ m, ∀ a ∈ r, ext_lt q a := by
    intro q hq a ha
    simp only [List.pairwise_append, List.mem_append] at hpw
    exact hpw.2.2 q (Or.inr hq) a ha
  refine ⟨fun hc => ⟨⟨?_, ?_⟩, ?_, ?_, ?_⟩, ?_, ?_, ?_⟩
  · refine pairwise_replace_mid hpw ?_ ?_
    · intro q hq
      unfold ext_lt
      rcases hxl with e | ⟨q1, hq1, e⟩
      · have := hd q hq; omega
      · have := hcross q hq q1 hq1; unfold ext_lt at this; omega
    · intro q hq
      unfold ext_lt
      rcases hxh with e | ⟨q1, hq1, e⟩
      · have := hr q hq; omega
      · have := hcross2 q1 hq1 q hq; unfold ext_lt at this; omega
  · intro q hq
    simp only [List.mem_append, List.mem_singleton] at hq
    rcases hq with (hq | hq) | hq
    · exact hw.sorted.2 q (hmemd q hq)
    · subst hq; clear hxl hxh hxb hxa; omega
    · exact hw.sorted.2 q (hmemr q hq)
  · have hnd := hw.nodup
    rw [hl] at hnd hc
    simp only [List.map_append, List.nodup_append, List.mem_append, List.map_cons,
      List.map_nil, List.nodup_cons, List.not_mem_nil, not_false_eq_true, List.nodup_nil,
      and_true, List.mem_singleton, List.Disjoint, List.mem_cons, or_false, true_and,
      not_or] at hnd hc ⊢
    obtain ⟨⟨hnd1, hnd2, hnd3⟩, hnd4, hnd5⟩ := hnd
    refine ⟨⟨hnd1, ?_⟩, hnd4, ?_⟩
    · intro a ha e
      subst e
      rcases hxa with ⟨e, _⟩ | e
      · rw [e] at ha; exact hc.1.1 ha
      · exact hnd3 ha e
    · intro a ha hra
      rcases ha with ha | ha
      · exact hnd5 (Or.inl ha) hra
      · subst ha
        rcases hxa with ⟨e, _⟩ | e
        · rw [e] at hra; exact hc.2 hra
        · exact hnd5 (Or.inr e) hra
  · intro q hq
    simp only [List.mem_append, List.mem_singleton] at hq
    rcases hq with (hq | hq) | hq
    · exact hw.csum q (hmemd q hq)
    · subst hq; exact hxc
    · exact hw.csum q (hmemr q hq)
  · intro q hq
    simp only [List.mem_append, List.mem_singleton] at hq
    rcases hq with (hq | hq) | hq
    · exact hw.bound q (hmemd q hq)
    · subst hq
      rcases hxh with e | ⟨q1, hq1, e⟩
      · omega
      · have := hw.bound q1 (hmem q1 hq1); omega
    · exact hw.bound q (hmemr q hq)
  · intro b
    rw [hl]
    simp only [blk_in_append, blk_in_singleton, hxb]
    tauto
  · rw [hl]
    simp only [total_blocks_append]
    have : total_blocks [x] = node_blocks x := by simp [total_blocks]
    rw [this, hxn]
    omega
  · intro hco
    unfold coalesced at hco ⊢
    rw [hl] at hco
    have hco1 : ∀ a ∈ d, ∀ q ∈ m, a.2.range_high + 1 < q.2.range_low := by
      intro a ha q hq
      simp only [List.pairwise_append, List.mem_append] at hco
      exact hco.1.2.2 a ha q hq
    have hco2 : ∀ q ∈ m, ∀ a ∈ r, q.2.range_high + 1 < a.2.range_low := by
      intro q hq a ha
      simp only [List.pairwise_append, List.mem_append] at hco
      exact hco.2.2 q (Or.inr hq) a ha
    refine pairwise_replace_mid hco ?_ ?_
    · intro q hq
      rcases hxl with e | ⟨q1, hq1, e⟩
      · have := hd q hq; omega
      · have := hco1 q hq q1 hq1; omega
    · intro q hq
      rcases hxh with e | ⟨q1, hq1, e⟩
      · have := hr q hq; omega
      · have := hco2 q1 hq1 q hq; omega

/-! ## The super block level -/

theorem nova_get_numblocks_pos (btype : Nat) : 1 ≤ nova_get_numblocks btype := by
  unfold nova_get_numblocks; split_ifs <;> omega

theorem nova_get_numblocks_le (btype : Nat) : nova_get_numblocks btype ≤ 262144 := by
  unfold nova_get_numblocks; split_ifs <;> omega

theorem int_of_ulong_small {x : Nat} (h : x < 2147483648) : int_of_ulong x = (x : Int) := by
  unfold int_of_ulong
  have h1 : x % 4294967296 = x := Nat.mod_eq_of_lt (by omega)
  rw [h1, if_pos h]

theorem ulong_of_int_nonneg {v : Int} (h0 : 0 ≤ v) (h1 : v < 18446744073709551616) :
    ulong_of_int v = v.toNat := by
  unfold ulong_of_int
  rw [Int.emod_eq_of_lt h0 h1]

theorem get_set_free_list (sbi : nova_sb_info) (cpu : Int) (fl : free_list) (h0 : 0 ≤ cpu)
    (hlen : sbi.free_lists.length = sbi.cpus.toNat) :
    nova_get_free_list (nova_set_free_list sbi cpu fl) cpu = fl := by
  unfold nova_get_free_list nova_set_free_list
  by_cases h : cpu < sbi.cpus
  · have hlt : cpu.toNat < sbi.free_lists.length := by rw [hlen]; omega
    simp [h, List.getD_eq_getElem?_getD, List.getElem?_set, hlt]
  · simp [h]

/-- `nova_free_blocks` with a positive count and a pre-allocated node runs the locked part
on the free list `blocknr / per_list_blocks`. -/
theorem nova_free_blocks_eq (E : kernel_env) (sbi : nova_sb_info) (c blocknr : Nat)
    (num : Int) (btype : Nat) (lp : Int) (hnum : 0 < num) (hnum2 : num < 2147483648)
    (hcpu : blocknr / sbi.per_list_blocks < 2147483648) :
    nova_free_blocks E sbi (some c) blocknr num btype lp =
      ((nova_free_blocks_locked E (nova_get_free_list sbi (free_cpu sbi blocknr)) c blocknr
          (nova_get_numblocks btype * num.toNat) lp).1,
        nova_set_free_list sbi (free_cpu sbi blocknr)
          (nova_free_blocks_locked E (nova_get_free_list sbi (free_cpu sbi blocknr)) c blocknr
            (nova_get_numblocks btype * num.toNat) lp).2) := by
  have h1 : ¬ num ≤ 0 := by omega
  have h2 := int_of_ulong_small hcpu
  have h3 : ulong_of_int num = num.toNat := ulong_of_int_nonneg (by omega) (by omega)
  have h4 : ul (nova_get_numblocks btype * num.toNat) = nova_get_numblocks btype * num.toNat := by
    apply ul_of_lt
    have := nova_get_numblocks_le btype
    have h5 : num.toNat < 2147483648 := by omega
    calc nova_get_numblocks btype * num.toNat ≤ 262144 * num.toNat :=
          Nat.mul_le_mul_right _ this
      _ < 18446744073709551616 := by omega
  simp only [nova_free_blocks, h1, if_false, h2, h3, h4, free_cpu]

theorem free_count_pos {btype : Nat} {num : Int} (hnum : 0 < num) :
    1 ≤ free_count btype num := by
  unfold free_count
  have := nova_get_numblocks_pos btype
  have h2 : 1 ≤ num.toNat := by omega
  exact Nat.mul_pos this h2

theorem block_found_fields (fl : free_list) (nb : Nat) (lp : Int) :
    (nova_free_blocks_block_found fl nb lp).block_free_tree = fl.block_free_tree ∧
    (nova_free_blocks_block_found fl nb lp).first_node = fl.first_node ∧
    (nova_free_blocks_block_found fl nb lp).last_node = fl.last_node ∧
    (nova_free_blocks_block_found fl nb lp).num_blocknode = fl.num_blocknode ∧
    (nova_free_blocks_block_found fl nb lp).num_free_blocks = ul (fl.num_free_blocks + nb) ∧
    (nova_free_blocks_block_found fl nb lp).block_start = fl.block_start ∧
    (nova_free_blocks_block_found fl nb lp).block_end = fl.block_end := by
  unfold nova_free_blocks_block_found
  split_ifs <;> simp

/-- A successful `nova_free_blocks` of a run that meets no extent, seen from the super
block: the return value and the fields of the free list it worked on. -/
theorem free_blocks_valid (E : kernel_env) (sbi : nova_sb_info) (c blocknr : Nat)
    (num : Int) (btype : Nat) (lp : Int)
    (hlen : sbi.free_lists.length = sbi.cpus.toNat)
    (hnum : 0 < num) (hnum2 : num < 2147483648)
    (hcpu : blocknr / sbi.per_list_blocks < 2147483648)
    (hw : wf_nodes E (index_of sbi (free_cpu sbi blocknr)))
    (hbd : blocknr + free_count btype num ≤ 18446744073709551616)
    (hfree : ∀ b, blocknr ≤ b → b < blocknr + free_count btype num →
      ¬ blk_in (index_of sbi (free_cpu sbi blocknr)) b) :
    ∃ fl1 : free_list,
      nova_free_blocks E sbi (some c) blocknr num btype lp =
        (0, nova_set_free_list sbi (free_cpu sbi blocknr) fl1) ∧
      nova_get_free_list (nova_free_blocks E sbi (some c) blocknr num btype lp).2
        (free_cpu sbi blocknr) = fl1 ∧
      fl1.block_free_tree.inorder =
        (free_nodes E (index_of sbi (free_cpu sbi blocknr)) c blocknr
          (free_count btype num)).2 ∧
      fl1.first_node = free_first_node
        (free_nodes E (index_of sbi (free_cpu sbi blocknr)) c blocknr (free_count btype num)).1
        (index_of sbi (free_cpu sbi blocknr)) c blocknr
        (nova_get_free_list sbi (free_cpu sbi blocknr)).first_node ∧
      fl1.last_node = free_last_node
        (free_nodes E (index_of sbi (free_cpu sbi blocknr)) c blocknr (free_count btype num)).1
        (index_of sbi (free_cpu sbi blocknr)) c blocknr (free_count btype num)
        (nova_get_free_list sbi (free_cpu sbi blocknr)).last_node ∧
      fl1.num_blocknode = free_num_blocknode
        (free_nodes E (index_of sbi (free_cpu sbi blocknr)) c blocknr (free_count btype num)).1
        (nova_get_free_list sbi (free_cpu sbi blocknr)).num_blocknode ∧
      fl1.num_free_blocks =
        ul ((nova_get_free_list sbi (free_cpu sbi blocknr)).num_free_blocks +
          free_count btype num) ∧
      fl1.block_start = (nova_get_free_list sbi (free_cpu sbi blocknr)).block_start ∧
      fl1.block_end = (nova_get_free_list sbi (free_cpu sbi blocknr)).block_end := by
  have hnb := @free_count_pos btype num hnum
  have h0 : (0 : Int) ≤ free_cpu sbi blocknr := Int.natCast_nonneg _
  obtain ⟨T, hT, heq⟩ := free_locked_valid E (nova_get_free_list sbi (free_cpu sbi blocknr))
    c blocknr (free_count btype num) lp hw hnb hbd hfree
  have hrun := nova_free_blocks_eq E sbi c blocknr num btype lp hnum hnum2 hcpu
  rw [← free_count.eq_1, heq] at hrun
  refine ⟨_, hrun, ?_, ?_⟩
  · rw [hrun]; exact get_set_free_list _ _ _ h0 hlen
  · refine ⟨?_, ?_, ?_, ?_, ?_, ?_, ?_⟩
    · rw [(block_found_fields _ _ _).1]; exact hT
    · rw [(block_found_fields _ _ _).2.1]; rfl
    · rw [(block_found_fields _ _ _).2.2.1]; rfl
    · rw [(block_found_fields _ _ _).2.2.2.1]; rfl
    · rw [(block_found_fields _ _ _).2.2.2.2.1]
    · rw [(block_found_fields _ _ _).2.2.2.2.2.1]
    · rw [(block_found_fields _ _ _).2.2.2.2.2.2]

/-- C3: a free of a run `[blocknr, blocknr + nb - 1]` that meets no extent of a well-formed
index returns 0, makes exactly the blocks of the run free in addition to the old ones,
raises `num_free_blocks` by `nb`, and changes the index by the first applicable of the
four cases: the run fills the gap between predecessor `p` and successor `s` (both are
replaced by one extent, one extent less), it abuts only `p` (`range_high` of `p` grows by
`nb`), it abuts only `s` (`range_low` of `s` shrinks by `nb`), or a new extent is inserted
(one extent more). -/
theorem C3_free_blocks_four_cases (E : kernel_env) (sbi : nova_sb_info) (c blocknr : Nat)
    (num : Int) (btype : Nat) (lp : Int)
    (hlen : sbi.free_lists.length = sbi.cpus.toNat)
    (hnum : 0 < num) (hnum2 : num < 2147483648)
    (hcpu : blocknr / sbi.per_list_blocks < 2147483648)
    (hw : wf_nodes E (index_of sbi (free_cpu sbi blocknr)))
    (hbd : blocknr + free_count btype num ≤ 18446744073709551616)
    (hfree : ∀ b, blocknr ≤ b → b < blocknr + free_count btype num →
      ¬ blk_in (index_of sbi (free_cpu sbi blocknr)) b)
    (hcnt : (nova_get_free_list sbi (free_cpu sbi blocknr)).num_free_blocks +
      free_count btype num < 18446744073709551616) :
    (nova_free_blocks E sbi (some c) blocknr num btype lp).1 = 0 ∧
    (∀ b, blk_in (index_of (nova_free_blocks E sbi (some c) blocknr num btype lp).2
        (free_cpu sbi blocknr)) b ↔
      (blk_in (index_of sbi (free_cpu sbi blocknr)) b ∨
        (blocknr ≤ b ∧ b < blocknr + free_count btype num))) ∧
    (nova_get_free_list (nova_free_blocks E sbi (some c) blocknr num btype lp).2
        (free_cpu sbi blocknr)).num_free_blocks =
      (nova_get_free_list sbi (free_cpu sbi blocknr)).num_free_blocks + free_count btype num ∧
    ∃ d t : List node_ptr,
      (∀ q ∈ d, q.2.range_high + 1 < blocknr) ∧
      (∀ q ∈ t, blocknr + free_count btype num < q.2.range_low) ∧
      ((∃ p s : node_ptr, index_of sbi (free_cpu sbi blocknr) = d ++ [p, s] ++ t ∧
          p.2.range_high + 1 = blocknr ∧ blocknr + free_count btype num = s.2.range_low ∧
          extents (index_of (nova_free_blocks E sbi (some c) blocknr num btype lp).2
            (free_cpu sbi blocknr)) =
            extents d ++ [(p.2.range_low, s.2.range_high)] ++ extents t ∧
          (nova_get_free_list (nova_free_blocks E sbi (some c) blocknr num btype lp).2
            (free_cpu sbi blocknr)).num_blocknode =
            ul_sub (nova_get_free_list sbi (free_cpu sbi blocknr)).num_blocknode 1) ∨
       (∃ p : node_ptr, index_of sbi (free_cpu sbi blocknr) = d ++ [p] ++ t ∧
          p.2.range_high + 1 = blocknr ∧
          extents (index_of (nova_free_blocks E sbi (some c) blocknr num btype lp).2
            (free_cpu sbi blocknr)) =
            extents d ++ [(p.2.range_low, p.2.range_high + free_count btype num)] ++
              extents t ∧
          (nova_get_free_list (nova_free_blocks E sbi (some c) blocknr num btype lp).2
            (free_cpu sbi blocknr)).num_blocknode =
            (nova_get_free_list sbi (free_cpu sbi blocknr)).num_blocknode) ∨
       (∃ s : node_ptr, index_of sbi (free_cpu sbi blocknr) = d ++ [s] ++ t ∧
          blocknr + free_count btype num = s.2.range_low ∧
          extents (index_of (nova_free_blocks E sbi (some c) blocknr num btype lp).2
            (free_cpu sbi blocknr)) =
            extents d ++ [(s.2.range_low - free_count btype num, s.2.range_high)] ++
              extents t ∧
          (nova_get_free_list (nova_free_blocks E sbi (some c) blocknr num btype lp).2
            (free_cpu sbi blocknr)).num_blocknode =
            (nova_get_free_list sbi (free_cpu sbi blocknr)).num_blocknode) ∨
       (index_of sbi (free_cpu sbi blocknr) = d ++ t ∧
          extents (index_of (nova_free_blocks E sbi (some c) blocknr num btype lp).2
            (free_cpu sbi blocknr)) =
            extents d ++ [(blocknr, blocknr + free_count btype num - 1)] ++ extents t ∧
          (nova_get_free_list (nova_free_blocks E sbi (some c) blocknr num btype lp).2
            (free_cpu sbi blocknr)).num_blocknode =
            ul ((nova_get_free_list sbi (free_cpu sbi blocknr)).num_blocknode + 1))) := by
  have hnb := @free_count_pos btype num hnum
  obtain ⟨fl1, hrun, hget, hidx1, _, _, hnbn, hnfb, _, _⟩ :=
    free_blocks_valid E sbi c blocknr num btype lp hlen hnum hnum2 hcpu hw hbd hfree
  obtain ⟨_, hblk, _, _⟩ := free_nodes_props E _ c blocknr (free_count btype num) hw hnb hbd
    hfree
  obtain ⟨d, m, m1, r, hl, hl1, hd, hr, hmid⟩ :=
    free_nodes_shape E _ c blocknr (free_count btype num) hw hnb hfree
  have hidx : index_of (nova_free_blocks E sbi (some c) blocknr num btype lp).2
      (free_cpu sbi blocknr) =
      (free_nodes E (index_of sbi (free_cpu sbi blocknr)) c blocknr (free_count btype num)).2 := by
    unfold index_of at hidx1 ⊢
    rw [hget]; exact hidx1
  refine ⟨by rw [hrun], ?_, ?_, d, r, hd, hr, ?_⟩
  · intro b; rw [hidx]; exact hblk b
  · rw [hget, hnfb]; exact ul_of_lt hcnt
  · rw [hidx, hget, hnbn, hl1]
    generalize (free_nodes E (index_of sbi (free_cpu sbi blocknr))
      c blocknr (free_count btype num)).1 = k at hmid
    cases k with
    | hole =>
      obtain ⟨p, s, hm, h1, h2, hm1⟩ := hmid
      left
      refine ⟨p, s, by rw [hl, hm], h1, h2, ?_, rfl⟩
      simp [hm1, extents, update_checksum_low, update_checksum_high]
    | left =>
      obtain ⟨p, hm, h1, hm1⟩ := hmid
      right; left
      refine ⟨p, by rw [hl, hm], h1, ?_, rfl⟩
      simp [hm1, extents, update_checksum_low, update_checksum_high]
    | right =>
      obtain ⟨s, hm, h2, hm1⟩ := hmid
      right; right; left
      refine ⟨s, by rw [hl, hm], h2, ?_, rfl⟩
      simp [hm1, extents, update_checksum_low, update_checksum_high]
    | middle =>
      obtain ⟨hm, hm1⟩ := hmid
      right; right; right
      refine ⟨by rw [hl, hm]; simp, ?_, rfl⟩
      simp [hm1, extents, update_checksum_low, update_checksum_high]

theorem example_sbi3_tree :
    (nova_get_free_list example_sbi3 0).block_free_tree =
      .node (.node .nil 1001 ⟨13, 18, 0⟩ .nil) 1000 ⟨43, 99, 0⟩ .nil := by
  decide

/-- C2 (evaluation at the failing input): with `[13, 18]` and `[43, 99]` free and `[43, 99]`
at the root, freeing `[20, 49]`, whose blocks 43..49 are already free, returns 0, inserts
the overlapping extent and raises `num_free_blocks` from 63 to 93. -/
theorem C2_double_free_accepted :
    blk_in (index_of example_sbi3 0) 43 ∧
    (nova_get_free_list example_sbi3 0).num_free_blocks = 63 ∧
    (nova_free_blocks (unbalanced_env 0) example_sbi3 (some 1002) 20 30
      NOVA_BLOCK_TYPE_4K 0).1 = 0 ∧
    extents (index_of (nova_free_blocks (unbalanced_env 0) example_sbi3 (some 1002) 20 30
      NOVA_BLOCK_TYPE_4K 0).2 0) = [(13, 18), (20, 49), (43, 99)] ∧
    (nova_get_free_list (nova_free_blocks (unbalanced_env 0) example_sbi3 (some 1002) 20 30
      NOVA_BLOCK_TYPE_4K 0).2 0).num_free_blocks = 93 := by
  refine ⟨⟨(1000, ⟨43, 99, 0⟩), by decide, by decide⟩, by decide, by decide, by decide,
    by decide⟩

/-- C4 (evaluation at the failing input): the index `[13, 18], [43, 99]` has no two
adjacent extents, the free of `[20, 49]` succeeds, and afterwards the consecutive extents
`[20, 49]` and `[43, 99]` are not separated. -/
theorem C4_coalescing_broken_by_double_free :
    coalesced (index_of example_sbi3 0) ∧
    (nova_free_blocks (unbalanced_env 0) example_sbi3 (some 1002) 20 30
      NOVA_BLOCK_TYPE_4K 0).1 = 0 ∧
    ¬ coalesced (index_of (nova_free_blocks (unbalanced_env 0) example_sbi3 (some 1002) 20 30
      NOVA_BLOCK_TYPE_4K 0).2 0) := by
  refine ⟨?_, by decide, ?_⟩
  · unfold coalesced; decide
  · unfold coalesced; decide

/-- C3 at a concrete input: freeing the allocated run `[13, 18]` next to the free extent
`[43, 99]` succeeds. -/
theorem C3_free_blocks_four_cases_witness :
    (nova_free_blocks (unbalanced_env 0) example_sbi2 (some 1001) 13 6 NOVA_BLOCK_TYPE_4K 0).1 = 0 ∧
    (nova_get_free_list (nova_free_blocks (unbalanced_env 0) example_sbi2 (some 1001) 13 6
      NOVA_BLOCK_TYPE_4K 0).2 (free_cpu example_sbi2 13)).num_free_blocks =
      (nova_get_free_list example_sbi2 (free_cpu example_sbi2 13)).num_free_blocks +
        free_count NOVA_BLOCK_TYPE_4K 6 := by
  have h := C3_free_blocks_four_cases (unbalanced_env 0) example_sbi2 1001 13 6
    NOVA_BLOCK_TYPE_4K 0 (by decide) (by decide) (by decide) (by decide)
    ⟨⟨by unfold ext_lt; decide, by decide⟩, by decide, by decide, by decide⟩
    (by decide)
    (by
      intro b h1 h2
      have e : index_of example_sbi2 (free_cpu example_sbi2 13) = [(1000, ⟨43, 99, 0⟩)] := by
        decide
      rw [e]
      rintro ⟨p, hp, h3, h4⟩
      simp only [List.mem_singleton] at hp
      subst hp
      have e2 : free_count NOVA_BLOCK_TYPE_4K 6 = 6 := by decide
      have h5 : 43 ≤ b := h3
      simp only [e2] at h2
      omega)
    (by decide)
  exact ⟨h.1, h.2.2.1⟩

/-- The loop stops at the first node of its walk that `alloc_takes`, or runs to the end. -/
theorem alloc_loop_find (E : kernel_env) (btype : Nat) (from_tail : Int)
    (walk : List node_ptr) (st : alloc_state) :
    nova_alloc_blocks_loop E btype from_tail walk st =
      match walk.find? (alloc_takes E btype st.num_blocks) with
      | none => st
      | some curr => alloc_take E from_tail curr st := by
  induction walk with
  | nil => simp [nova_alloc_blocks_loop]
  | cons x xs ih =>
    unfold nova_alloc_blocks_loop
    by_cases h1 : nova_range_node_checksum_ok E x.2 = false
    · have h2 : alloc_takes E btype st.num_blocks x = false := by simp [alloc_takes, h1]
      simp only [h1, if_true, List.find?_cons, h2]
      exact ih
    · have h1b : nova_range_node_checksum_ok E x.2 = true := by simpa using h1
      simp only [h1b, Bool.true_eq_false, if_false]
      by_cases h3 : btype > 0 ∧ st.num_blocks > curr_blocks x
      · have h2 : alloc_takes E btype st.num_blocks x = false := by
          simp [alloc_takes, h3.1, h3.2]
        have h4 : st.num_blocks ≥ curr_blocks x := le_of_lt h3.2
        simp only [List.find?_cons, h2]
        rw [← ih]
        simp only [curr_blocks] at h3 h4
        simp only [h4, if_true, h3, and_self]
      · have h2 : alloc_takes E btype st.num_blocks x = true := by
          simp only [alloc_takes, h1b, Bool.true_and, Bool.not_eq_true', Bool.and_eq_false_imp,
            decide_eq_true_eq, decide_eq_false_iff_not]
          intro hb hn
          exact h3 ⟨hb, hn⟩
        simp only [List.find?_cons, h2]
        unfold alloc_take
        simp only [curr_blocks] at h3 ⊢
        by_cases h4 : st.num_blocks ≥ ul (ul_sub x.2.range_high x.2.range_low + 1)
        · simp only [h4, if_true, h3, if_false]
        · simp only [h4, if_false]

/-- `nova_alloc_blocks_in_free_list` in terms of the node where its loop stops. -/
theorem alloc_in_free_list_eq (E : kernel_env) (fl : free_list) (btype nb nbr : Nat)
    (from_tail : Int) :
    nova_alloc_blocks_in_free_list E fl btype nb nbr from_tail =
      if fl.first_node = none ∨ fl.num_free_blocks = 0 then ⟨-ENOSPC, fl, nbr⟩
      else
        match (alloc_walk fl.block_free_tree from_tail
            (if from_tail = 0 then fl.first_node else fl.last_node)).find?
            (alloc_takes E btype nb) with
        | none => ⟨-ENOSPC, fl, nbr⟩
        | some curr =>
          if (alloc_take E from_tail curr ⟨fl, nb, nbr, false⟩).fl.num_free_blocks <
              (alloc_take E from_tail curr ⟨fl, nb, nbr, false⟩).num_blocks then
            ⟨-ENOSPC, (alloc_take E from_tail curr ⟨fl, nb, nbr, false⟩).fl,
              (alloc_take E from_tail curr ⟨fl, nb, nbr, false⟩).new_blocknr⟩
          else
            ⟨long_of_ulong (alloc_take E from_tail curr ⟨fl, nb, nbr, false⟩).num_blocks,
              { (alloc_take E from_tail curr ⟨fl, nb, nbr, false⟩).fl with
                num_free_blocks :=
                  ul_sub (alloc_take E from_tail curr ⟨fl, nb, nbr, false⟩).fl.num_free_blocks
                    (alloc_take E from_tail curr ⟨fl, nb, nbr, false⟩).num_blocks },
              (alloc_take E from_tail curr ⟨fl, nb, nbr, false⟩).new_blocknr⟩ := by
  unfold nova_alloc_blocks_in_free_list
  by_cases h : fl.first_node = none ∨ fl.num_free_blocks = 0
  · simp only [h, if_true]
  · simp only [h, if_false]
    rw [alloc_loop_find]
    cases hf : (alloc_walk fl.block_free_tree from_tail
        (if from_tail = 0 then fl.first_node else fl.last_node)).find?
        (alloc_takes E btype nb) with
    | none =>
      simp only []
      split_ifs with h1 h2
      · rfl
      · exact absurd h2 (by simp)
      · rfl
    | some curr =>
      simp only []
      have hfound : (alloc_take E from_tail curr ⟨fl, nb, nbr, false⟩).found = true := by
        unfold alloc_take; split_ifs <;> rfl
      simp only [hfound, if_true]

theorem curr_blocks_le {p : node_ptr} (h1 : p.2.range_low ≤ p.2.range_high)
    (h2 : p.2.range_high < 18446744073709551616) :
    curr_blocks p ≤ node_blocks p ∧ (1 ≤ curr_blocks p → curr_blocks p = node_blocks p) := by
  unfold curr_blocks node_blocks ul ul_sub
  omega

theorem ul_sub_tail (hi nb : Nat) (h1 : hi < 18446744073709551616) (h2 : nb ≤ hi)
    (h0 : 1 ≤ nb) :
    ul_sub (ul (hi + 1)) nb = hi + 1 - nb := by
  have h3 : nb % 18446744073709551616 = nb := Nat.mod_eq_of_lt (by omega)
  unfold ul_sub ul
  rw [h3]
  omega

theorem ul_sub_of_le (a b : Nat) (h1 : a < 18446744073709551616) (h2 : b ≤ a) :
    ul_sub a b = a - b := by
  have h3 : b % 18446744073709551616 = b := Nat.mod_eq_of_lt (by omega)
  unfold ul_sub
  rw [h3]
  omega

/-- The step of the allocation loop at the chosen node of a well-formed index, on the
in-order sequence. -/
theorem alloc_take_valid (E : kernel_env) (from_tail : Int) (curr : node_ptr)
    (st : alloc_state) (hw : wf_nodes E st.fl.block_free_tree.inorder)
    (hc : curr ∈ st.fl.block_free_tree.inorder) (hnb : 1 ≤ st.num_blocks) :
    ∃ (d r : List node_ptr) (T : rb_root),
      st.fl.block_free_tree.inorder = d ++ curr :: r ∧
      T.inorder = d ++ alloc_mid E st.num_blocks curr
        (alloc_kind_of from_tail st.num_blocks curr) ++ r ∧
      alloc_take E from_tail curr st =
        { fl := { st.fl with
            block_free_tree := T,
            first_node :=
              if alloc_kind_of from_tail st.num_blocks curr = .whole ∧
                  some curr.1 = st.fl.first_node then r.head?.map Prod.fst
              else st.fl.first_node,
            last_node :=
              if alloc_kind_of from_tail st.num_blocks curr = .whole ∧
                  some curr.1 = st.fl.last_node then d.getLast?.map Prod.fst
              else st.fl.last_node,
            num_blocknode :=
              if alloc_kind_of from_tail st.num_blocks curr = .whole then
                ul_sub st.fl.num_blocknode 1
              else st.fl.num_blocknode },
          num_blocks := alloc_count st.num_blocks curr
            (alloc_kind_of from_tail st.num_blocks curr),
          new_blocknr := alloc_blocknr st.num_blocks curr
            (alloc_kind_of from_tail st.num_blocks curr),
          found := true } := by
  obtain ⟨d, r, hl⟩ := List.append_of_mem hc
  have hnd := hw.nodup
  rw [hl] at hnd
  have hlow := hw.sorted.2 curr hc
  have hbd := hw.bound curr hc
  have hcb := curr_blocks_le hlow hbd
  have hnb_le : node_blocks curr = curr.2.range_high - curr.2.range_low + 1 := rfl
  by_cases h1 : st.num_blocks ≥ curr_blocks curr
  · have hk : alloc_kind_of from_tail st.num_blocks curr = .whole := by
      simp [alloc_kind_of, h1]
    refine ⟨d, r, E.rb_erase curr.1 st.fl.block_free_tree, hl, ?_, ?_⟩
    · rw [E.rb_erase_inorder, hl, filter_addr_split hnd, hk]
      simp [alloc_mid]
    · have hn : rb_next st.fl.block_free_tree curr.1 = r.head? := by
        unfold rb_next; rw [hl]; exact list_next_split _ _ _ hnd
      have hp : rb_prev st.fl.block_free_tree curr.1 = d.getLast? := by
        unfold rb_prev; rw [hl]; exact list_prev_split _ _ _ hnd
      simp [alloc_take, h1, hk, hn, hp, alloc_count, alloc_blocknr]
  · have h1b : st.num_blocks < curr_blocks curr := by omega
    have hnb2 : st.num_blocks ≤ curr.2.range_high - curr.2.range_low := by omega
    by_cases h2 : from_tail = 0
    · subst h2
      have hk : alloc_kind_of 0 st.num_blocks curr = .head := by
        simp [alloc_kind_of, h1]
      refine ⟨d, r, rb_root.update (fun n => nova_update_range_node_checksum E
        { n with range_low := ul (n.range_low + st.num_blocks) }) curr.1
        st.fl.block_free_tree, hl, ?_, ?_⟩
      · rw [rb_root.inorder_update]
        have h3 := map_addr_split (fun n => nova_update_range_node_checksum E
          { n with range_low := ul (n.range_low + st.num_blocks) }) hnd
        rw [← hl] at h3
        rw [h3, hk]
        have : ul (curr.2.range_low + st.num_blocks) = curr.2.range_low + st.num_blocks :=
          ul_of_lt (by omega)
        simp [alloc_mid, this]
      · simp [alloc_take, h1, hk, alloc_count, alloc_blocknr]
    · have hk : alloc_kind_of from_tail st.num_blocks curr = .tail := by
        simp [alloc_kind_of, h1, h2]
      refine ⟨d, r, rb_root.update (fun n => nova_update_range_node_checksum E
        { n with range_high := ul_sub n.range_high st.num_blocks }) curr.1
        st.fl.block_free_tree, hl, ?_, ?_⟩
      · rw [rb_root.inorder_update]
        have h3 := map_addr_split (fun n => nova_update_range_node_checksum E
          { n with range_high := ul_sub n.range_high st.num_blocks }) hnd
        rw [← hl] at h3
        rw [h3, hk]
        have : ul_sub curr.2.range_high st.num_blocks = curr.2.range_high - st.num_blocks :=
          ul_sub_of_le _ _ hbd (by omega)
        simp [alloc_mid, this]
      · have : ul_sub (ul (curr.2.range_high + 1)) st.num_blocks =
            curr.2.range_high + 1 - st.num_blocks := ul_sub_tail _ _ hbd (by omega) hnb
        simp [alloc_take, h1, h2, hk, alloc_count, alloc_blocknr, this]

theorem wf_nodes_remove (E : kernel_env) (d r : List node_ptr) (curr : node_ptr)
    (hw : wf_nodes E (d ++ curr :: r)) : wf_nodes E (d ++ r) := by
  have hsub : (d ++ r).Sublist (d ++ curr :: r) :=
    List.Sublist.append (List.Sublist.refl _) (List.sublist_cons_self _ _)
  have hmem : ∀ q, q ∈ d ++ r → q ∈ d ++ curr :: r := fun q hq => hsub.subset hq
  exact ⟨⟨hw.sorted.1.sublist hsub, fun q hq => hw.sorted.2 q (hmem q hq)⟩,
    hw.nodup.sublist (hsub.map _), fun q hq => hw.csum q (hmem q hq),
    fun q hq => hw.bound q (hmem q hq)⟩

theorem wf_nodes_replace (E : kernel_env) (d r : List node_ptr) (curr x : node_ptr)
    (hw : wf_nodes E (d ++ curr :: r)) (hx1 : x.1 = curr.1)
    (hlo : curr.2.range_low ≤ x.2.range_low) (hhi : x.2.range_high ≤ curr.2.range_high)
    (hxx : x.2.range_low ≤ x.2.range_high)
    (hck : nova_range_node_checksum_ok E x.2 = true) : wf_nodes E (d ++ x :: r) := by
  have hD := sorted_below_of_getLast hw.sorted (rfl : d ++ curr :: r = d ++ curr :: r)
  have hR := sorted_above_of_head hw.sorted (rfl : d ++ curr :: r = d ++ curr :: r)
  have hbc := hw.bound curr (by simp)
  have hpw : (d ++ [curr] ++ r).Pairwise ext_lt := by simpa using hw.sorted.1
  have hpw2 : (d ++ [x] ++ r).Pairwise ext_lt := by
    refine pairwise_replace_mid hpw ?_ ?_
    · intro q hq; have := hD q hq; unfold ext_lt; omega
    · intro q hq; have := hR q hq; unfold ext_lt; omega
  refine ⟨⟨by simpa using hpw2, ?_⟩, ?_, ?_, ?_⟩
  · intro q hq
    simp only [List.mem_append, List.mem_cons] at hq
    rcases hq with hq | hq | hq
    · exact hw.sorted.2 q (by simp [hq])
    · subst hq; exact hxx
    · exact hw.sorted.2 q (by simp [hq])
  · have := hw.nodup
    simpa [hx1] using this
  · intro q hq
    simp only [List.mem_append, List.mem_cons] at hq
    rcases hq with hq | hq | hq
    · exact hw.csum q (by simp [hq])
    · subst hq; exact hck
    · exact hw.csum q (by simp [hq])
  · intro q hq
    simp only [List.mem_append, List.mem_cons] at hq
    rcases hq with hq | hq | hq
    · exact hw.bound q (by simp [hq])
    · subst hq; omega
    · exact hw.bound q (by simp [hq])

theorem blk_in_cons (x : node_ptr) (l : List node_ptr) (b : Nat) :
    blk_in (x :: l) b ↔ ((x.2.range_low ≤ b ∧ b ≤ x.2.range_high) ∨ blk_in l b) := by
  simp [blk_in]

theorem total_blocks_cons (x : node_ptr) (l : List node_ptr) :
    total_blocks (x :: l) = node_blocks x + total_blocks l := by
  simp [total_blocks]

/-- In a sorted index a block of one extent lies in no other extent. -/
theorem blk_in_split_disjoint {d r : List node_ptr} {curr : node_ptr}
    (hs : sorted_exts (d ++ curr :: r)) {b : Nat}
    (hb : curr.2.range_low ≤ b ∧ b ≤ curr.2.range_high) : ¬ blk_in d b ∧ ¬ blk_in r b := by
  have hD := sorted_below_of_getLast hs (rfl : d ++ curr :: r = d ++ curr :: r)
  have hR := sorted_above_of_head hs (rfl : d ++ curr :: r = d ++ curr :: r)
  constructor
  · rintro ⟨q, hq, h1, h2⟩; have := hD q hq; omega
  · rintro ⟨q, hq, h1, h2⟩; have := hR q hq; omega

/-- Effect of an allocation step on a well-formed index: the run lies in the chosen
extent, exactly its blocks leave the free set, and well-formedness and the absence of
adjacent extents are kept. -/
theorem alloc_mid_props (E : kernel_env) (d r : List node_ptr) (curr : node_ptr) (nb : Nat)
    (k : alloc_kind) (hw : wf_nodes E (d ++ curr :: r)) (hnb : 1 ≤ nb)
    (hk1 : k = .whole → 1 ≤ curr_blocks curr)
    (hk2 : k ≠ .whole → nb < curr_blocks curr) :
    wf_nodes E (d ++ alloc_mid E nb curr k ++ r) ∧
    curr.2.range_low ≤ alloc_blocknr nb curr k ∧
    alloc_blocknr nb curr k + alloc_count nb curr k ≤ curr.2.range_high + 1 ∧
    (∀ b, blk_in (d ++ alloc_mid E nb curr k ++ r) b ↔
      (blk_in (d ++ curr :: r) b ∧
        ¬ (alloc_blocknr nb curr k ≤ b ∧ b < alloc_blocknr nb curr k + alloc_count nb curr k))) ∧
    total_blocks (d ++ curr :: r) =
      total_blocks (d ++ alloc_mid E nb curr k ++ r) + alloc_count nb curr k ∧
    (coalesced (d ++ curr :: r) → coalesced (d ++ alloc_mid E nb curr k ++ r)) := by
  have hlow := hw.sorted.2 curr (by simp)
  have hbd := hw.bound curr (by simp)
  have hcb := curr_blocks_le hlow hbd
  have hnbdef : node_blocks curr = curr.2.range_high - curr.2.range_low + 1 := rfl
  have hdis := fun b hb => @blk_in_split_disjoint d r curr hw.sorted b hb
  cases k with
  | whole =>
    have h1 := hk1 rfl
    have h2 := hcb.2 h1
    simp only [alloc_mid, alloc_blocknr, alloc_count, List.append_nil]
    refine ⟨wf_nodes_remove E d r curr hw, le_refl _, by omega, ?_, ?_, ?_⟩
    · intro b
      simp only [blk_in_append, blk_in_cons]
      constructor
      · rintro (h | h)
        · refine ⟨Or.inl h, fun hc => ?_⟩
          exact (hdis b ⟨hc.1, by omega⟩).1 h
        · refine ⟨Or.inr (Or.inr h), fun hc => ?_⟩
          exact (hdis b ⟨hc.1, by omega⟩).2 h
      · rintro ⟨h | h | h, hn⟩
        · exact Or.inl h
        · exact absurd ⟨h.1, by omega⟩ hn
        · exact Or.inr h
    · simp only [total_blocks_append, total_blocks_cons]; omega
    · intro hco
      unfold coalesced at hco ⊢
      exact hco.sublist (List.Sublist.append (List.Sublist.refl _)
        (List.sublist_cons_self _ _))
  | head =>
    have h1 := hk2 (by simp)
    simp only [alloc_mid, alloc_blocknr, alloc_count]
    have hx : wf_nodes E (d ++ (curr.1, nova_update_range_node_checksum E
        { curr.2 with range_low := curr.2.range_low + nb }) :: r) :=
      wf_nodes_replace E d r curr _ hw rfl (by simp [update_checksum_low])
        (by simp [update_checksum_high])
        (by simp only [update_checksum_low, update_checksum_high]; omega)
        (update_checksum_ok E _)
    refine ⟨by simpa using hx, le_refl _, by omega, ?_, ?_, ?_⟩
    · intro b
      simp only [List.append_assoc, List.singleton_append, blk_in_append, blk_in_cons,
        update_checksum_low, update_checksum_high]
      constructor
      · rintro (h | h | h)
        · refine ⟨Or.inl h, fun hc => ?_⟩
          exact (hdis b ⟨hc.1, by omega⟩).1 h
        · exact ⟨Or.inr (Or.inl ⟨by omega, h.2⟩), by omega⟩
        · refine ⟨Or.inr (Or.inr h), fun hc => ?_⟩
          exact (hdis b ⟨hc.1, by omega⟩).2 h
      · rintro ⟨h | h | h, hn⟩
        · exact Or.inl h
        · exact Or.inr (Or.inl ⟨by omega, h.2⟩)
        · exact Or.inr (Or.inr h)
    · simp only [List.append_assoc, List.singleton_append, total_blocks_append,
        total_blocks_cons, node_blocks, update_checksum_low, update_checksum_high]
      omega
    · intro hco
      unfold coalesced at hco ⊢
      have hco2 : (d ++ [curr] ++ r).Pairwise
          (fun p q => p.2.range_high + 1 < q.2.range_low) := by simpa using hco
      have hco3 := hco2
      simp only [List.pairwise_append, List.mem_append, List.mem_singleton] at hco3
      refine pairwise_replace_mid hco2 ?_ ?_
      · intro q hq
        have := hco3.1.2.2 q hq curr rfl
        simp only [update_checksum_low]; omega
      · intro q hq
        have := hco3.2.2 curr (Or.inr rfl) q hq
        simp only [update_checksum_high]; omega
  | tail =>
    have h1 := hk2 (by simp)
    simp only [alloc_mid, alloc_blocknr, alloc_count]
    have hx : wf_nodes E (d ++ (curr.1, nova_update_range_node_checksum E
        { curr.2 with range_high := curr.2.range_high - nb }) :: r) :=
      wf_nodes_replace E d r curr _ hw rfl (by simp [update_checksum_low])
        (by simp [update_checksum_high])
        (by simp only [update_checksum_low, update_checksum_high]; omega)
        (update_checksum_ok E _)
    refine ⟨by simpa using hx, by omega, by omega, ?_, ?_, ?_⟩
    · intro b
      simp only [List.append_assoc, List.singleton_append, blk_in_append, blk_in_cons,
        update_checksum_low, update_checksum_high]
      constructor
      · rintro (h | h | h)
        · refine ⟨Or.inl h, fun hc => ?_⟩
          exact (hdis b ⟨by omega, by omega⟩).1 h
        · exact ⟨Or.inr (Or.inl ⟨h.1, by omega⟩), by omega⟩
        · refine ⟨Or.inr (Or.inr h), fun hc => ?_⟩
          exact (hdis b ⟨by omega, by omega⟩).2 h
      · rintro ⟨h | h | h, hn⟩
        · exact Or.inl h
        · exact Or.inr (Or.inl ⟨h.1, by omega⟩)
        · exact Or.inr (Or.inr h)
    · simp only [List.append_assoc, List.singleton_append, total_blocks_append,
        total_blocks_cons, node_blocks, update_checksum_low, update_checksum_high]
      omega
    · intro hco
      unfold coalesced at hco ⊢
      have hco2 : (d ++ [curr] ++ r).Pairwise
          (fun p q => p.2.range_high + 1 < q.2.range_low) := by simpa using hco
      have hco3 := hco2
      simp only [List.pairwise_append, List.mem_append, List.mem_singleton] at hco3
      refine pairwise_replace_mid hco2 ?_ ?_
      · intro q hq
        have := hco3.1.2.2 q hq curr rfl
        simp only [update_checksum_low]; omega
      · intro q hq
        have := hco3.2.2 curr (Or.inr rfl) q hq
        simp only [update_checksum_high]; omega

theorem alloc_count_le (from_tail : Int) (nb : Nat) (curr : node_ptr) :
    alloc_count nb curr (alloc_kind_of from_tail nb curr) ≤ nb := by
  unfold alloc_kind_of
  split_ifs with h1 h2
  · exact h1
  · exact le_refl _
  · exact le_refl _

theorem long_of_ulong_small {x : Nat} (h : x < 9223372036854775808) :
    long_of_ulong x = (x : Int) := by
  unfold long_of_ulong
  have h1 : x % 18446744073709551616 = x := Nat.mod_eq_of_lt (by omega)
  rw [h1, if_pos h]

theorem alloc_walk_subset (tree : rb_root) (from_tail : Int) (temp : Option Nat)
    (p : node_ptr) (h : p ∈ alloc_walk tree from_tail temp) : p ∈ tree.inorder := by
  unfold alloc_walk at h
  cases temp with
  | none => simp at h
  | some a =>
    simp only [] at h
    split_ifs at h
    · exact (List.dropWhile_sublist _).subset h
    · exact List.mem_reverse.1 ((List.dropWhile_sublist _).subset h)

/-- `nova_alloc_blocks_in_free_list` on a well-formed index when its loop stops at `curr`:
the index loses the run; the call fails only if the counter is below the run length, and
then the index has been changed all the same. -/
theorem alloc_in_free_list_found (E : kernel_env) (fl : free_list) (btype nb nbr : Nat)
    (from_tail : Int) (hw : wf_nodes E fl.block_free_tree.inorder) (hnb : 1 ≤ nb)
    (hearly : ¬ (fl.first_node = none ∨ fl.num_free_blocks = 0)) (curr : node_ptr)
    (hf : (alloc_walk fl.block_free_tree from_tail
        (if from_tail = 0 then fl.first_node else fl.last_node)).find?
        (alloc_takes E btype nb) = some curr) :
    ∃ (d r : List node_ptr) (t : rb_root),
      fl.block_free_tree.inorder = d ++ curr :: r ∧
      t.inorder = d ++ alloc_mid E nb curr (alloc_kind_of from_tail nb curr) ++ r ∧
      nova_alloc_blocks_in_free_list E fl btype nb nbr from_tail =
        if fl.num_free_blocks < alloc_count nb curr (alloc_kind_of from_tail nb curr) then
          ⟨-ENOSPC,
            { alloc_result_fl fl t from_tail nb curr d r with
              num_free_blocks := fl.num_free_blocks },
            alloc_blocknr nb curr (alloc_kind_of from_tail nb curr)⟩
        else
          ⟨long_of_ulong (alloc_count nb curr (alloc_kind_of from_tail nb curr)),
            alloc_result_fl fl t from_tail nb curr d r,
            alloc_blocknr nb curr (alloc_kind_of from_tail nb curr)⟩ := by
  rw [alloc_in_free_list_eq]
  simp only [hearly, if_false, hf]
  have hc : curr ∈ fl.block_free_tree.inorder :=
    alloc_walk_subset _ _ _ _ (List.mem_of_find?_eq_some hf)
  obtain ⟨d, r, t, hl, ht, htake⟩ :=
    alloc_take_valid E from_tail curr ⟨fl, nb, nbr, false⟩ hw hc hnb
  simp only [] at hl ht htake
  refine ⟨d, r, t, hl, ht, ?_⟩
  rw [htake]
  simp only [alloc_result_fl]

/-- A positive return value of `nova_alloc_blocks_in_free_list` on a well-formed index:
the loop stopped at a node `curr` of the index, the run starts at `alloc_blocknr` and has
`alloc_count` blocks, and the counter covered it. -/
theorem alloc_in_free_list_pos (E : kernel_env) (fl : free_list) (btype nb nbr : Nat)
    (from_tail : Int) (hw : wf_nodes E fl.block_free_tree.inorder) (hnb : 1 ≤ nb)
    (hnb2 : nb < 9223372036854775808)
    (hret : 0 < (nova_alloc_blocks_in_free_list E fl btype nb nbr from_tail).ret) :
    ∃ (curr : node_ptr) (d r : List node_ptr) (t : rb_root),
      (alloc_walk fl.block_free_tree from_tail
        (if from_tail = 0 then fl.first_node else fl.last_node)).find?
        (alloc_takes E btype nb) = some curr ∧
      fl.block_free_tree.inorder = d ++ curr :: r ∧
      t.inorder = d ++ alloc_mid E nb curr (alloc_kind_of from_tail nb curr) ++ r ∧
      1 ≤ alloc_count nb curr (alloc_kind_of from_tail nb curr) ∧
      alloc_count nb curr (alloc_kind_of from_tail nb curr) ≤ fl.num_free_blocks ∧
      nova_alloc_blocks_in_free_list E fl btype nb nbr from_tail =
        ⟨(alloc_count nb curr (alloc_kind_of from_tail nb curr) : Nat),
          alloc_result_fl fl t from_tail nb curr d r,
          alloc_blocknr nb curr (alloc_kind_of from_tail nb curr)⟩ := by
  have hneg : ¬ (0 : Int) < -ENOSPC := by decide
  by_cases h : fl.first_node = none ∨ fl.num_free_blocks = 0
  · rw [alloc_in_free_list_eq] at hret
    simp only [h, if_true] at hret
    exact absurd hret hneg
  · cases hf : (alloc_walk fl.block_free_tree from_tail
        (if from_tail = 0 then fl.first_node else fl.last_node)).find?
        (alloc_takes E btype nb) with
    | none =>
      rw [alloc_in_free_list_eq] at hret
      simp only [h, if_false, hf] at hret
      exact absurd hret hneg
    | some curr =>
      obtain ⟨d, r, t, hl, ht, heq⟩ :=
        alloc_in_free_list_found E fl btype nb nbr from_tail hw hnb h curr hf
      have hle := alloc_count_le from_tail nb curr
      rw [heq] at hret ⊢
      by_cases h2 : fl.num_free_blocks < alloc_count nb curr (alloc_kind_of from_tail nb curr)
      · simp only [h2, if_true] at hret
        exact absurd hret hneg
      · simp only [h2, if_false] at hret ⊢
        have hlong := @long_of_ulong_small
          (alloc_count nb curr (alloc_kind_of from_tail nb curr)) (by omega)
        rw [hlong] at hret ⊢
        exact ⟨curr, d, r, t, rfl, hl, ht, by omega, by omega, rfl⟩

theorem candidate_nonneg (sbi : nova_sb_info) : 0 ≤ nova_get_candidate_free_list sbi := by
  unfold nova_get_candidate_free_list
  have key : ∀ (l : List Nat) (acc : Int × Int), 0 ≤ acc.1 →
      0 ≤ (l.foldl (fun (acc : Int × Int) (i : Nat) =>
        if (nova_get_free_list sbi i).num_free_blocks > ulong_of_int acc.2 then
          ((i : Int), int_of_ulong (nova_get_free_list sbi i).num_free_blocks)
        else acc) acc).1 := by
    intro l
    induction l with
    | nil => intro acc h; simpa using h
    | cons x xs ih =>
      intro acc h
      simp only [List.foldl_cons]
      apply ih
      split_ifs
      · exact Int.natCast_nonneg _
      · exact h
  exact key _ _ (le_refl _)

theorem retry_zero (sbi : nova_sb_info) (nb : Nat) (cpuid : Int) :
    nova_new_blocks_retry sbi nb 0 cpuid =
      if (nova_get_free_list sbi cpuid).num_free_blocks < nb ∨
          (nova_get_free_list sbi cpuid).first_node = none then
        if (nova_get_free_list sbi cpuid).num_free_blocks ≥ nb then
          (cpuid, nova_set_free_list sbi cpuid
            { nova_get_free_list sbi cpuid with
              first_node := (rb_first (nova_get_free_list sbi cpuid).block_free_tree).map
                (fun p => p.1) })
        else (cpuid, sbi)
      else (cpuid, sbi) := by
  unfold nova_new_blocks_retry
  rfl

theorem retry_succ (sbi : nova_sb_info) (nb n : Nat) (cpuid : Int) :
    nova_new_blocks_retry sbi nb (n + 1) cpuid =
      if (nova_get_free_list sbi cpuid).num_free_blocks < nb ∨
          (nova_get_free_list sbi cpuid).first_node = none then
        if (nova_get_free_list sbi cpuid).num_free_blocks ≥ nb then
          (cpuid, nova_set_free_list sbi cpuid
            { nova_get_free_list sbi cpuid with
              first_node := (rb_first (nova_get_free_list sbi cpuid).block_free_tree).map
                (fun p => p.1) })
        else nova_new_blocks_retry sbi nb n (nova_get_candidate_free_list sbi)
      else (cpuid, sbi) := by
  conv_lhs => unfold nova_new_blocks_retry

/-- The retry loop of `nova_new_blocks` ends on a non-negative CPU number and changes at
most the cached `first_node` of the list it ends on, and that only when it was NULL. -/
theorem retry_spec (sbi : nova_sb_info) (nb : Nat) (left : Nat) (cpuid : Int)
    (h0 : 0 ≤ cpuid) :
    0 ≤ (nova_new_blocks_retry sbi nb left cpuid).1 ∧
    ((nova_new_blocks_retry sbi nb left cpuid).2 = sbi ∨
     ((nova_get_free_list sbi (nova_new_blocks_retry sbi nb left cpuid).1).first_node = none ∧
      (nova_new_blocks_retry sbi nb left cpuid).2 =
        nova_set_free_list sbi (nova_new_blocks_retry sbi nb left cpuid).1
          { nova_get_free_list sbi (nova_new_blocks_retry sbi nb left cpuid).1 with
            first_node := (rb_first (nova_get_free_list sbi
              (nova_new_blocks_retry sbi nb left cpuid).1).block_free_tree).map
                (fun p => p.1) })) := by
  induction left generalizing cpuid with
  | zero =>
    rw [retry_zero]
    split_ifs with h1 h2
    · refine ⟨h0, Or.inr ⟨?_, rfl⟩⟩
      rcases h1 with h1 | h1
      · omega
      · exact h1
    · exact ⟨h0, Or.inl rfl⟩
    · exact ⟨h0, Or.inl rfl⟩
  | succ n ih =>
    rw [retry_succ]
    split_ifs with h1 h2
    · refine ⟨h0, Or.inr ⟨?_, rfl⟩⟩
      rcases h1 with h1 | h1
      · omega
      · exact h1
    · exact ih _ (candidate_nonneg sbi)
    · exact ⟨h0, Or.inl rfl⟩

theorem set_set_free_list (sbi : nova_sb_info) (cpu : Int) (f1 f2 : free_list) :
    nova_set_free_list (nova_set_free_list sbi cpu f1) cpu f2 = nova_set_free_list sbi cpu f2 := by
  unfold nova_set_free_list
  by_cases h : cpu < sbi.cpus <;> simp [h]

theorem get_set_free_list_ne (sbi : nova_sb_info) (cpu j : Int) (fl : free_list)
    (h0 : 0 ≤ cpu) (hj : 0 ≤ j) (hne : j ≠ cpu) (hlt : j < sbi.cpus ∨ cpu < sbi.cpus)
    (hlen : sbi.free_lists.length = sbi.cpus.toNat) :
    nova_get_free_list (nova_set_free_list sbi cpu fl) j = nova_get_free_list sbi j := by
  unfold nova_get_free_list nova_set_free_list
  by_cases h : cpu < sbi.cpus
  · by_cases h2 : j < sbi.cpus
    · have hne2 : cpu.toNat ≠ j.toNat := by omega
      simp [h, h2, List.getD_eq_getElem?_getD, List.getElem?_set, hne2]
    · simp [h, h2]
  · have h2 : j < sbi.cpus := by tauto
    have h3 : j.toNat < sbi.free_lists.length := by omega
    simp [h, h2, List.getD_eq_getElem?_getD, List.getElem?_eq_getElem h3]

theorem set_free_list_fields (sbi : nova_sb_info) (cpu : Int) (fl : free_list) :
    (nova_set_free_list sbi cpu fl).cpus = sbi.cpus ∧
    (nova_set_free_list sbi cpu fl).per_list_blocks = sbi.per_list_blocks ∧
    (nova_set_free_list sbi cpu fl).free_lists.length = sbi.free_lists.length := by
  unfold nova_set_free_list
  by_cases h : cpu < sbi.cpus <;> simp [h]

theorem new_blocks_stats_fields (atype : Int) (a : alloc_result) :
    (new_blocks_stats atype a).block_free_tree = a.fl.block_free_tree ∧
    (new_blocks_stats atype a).first_node = a.fl.first_node ∧
    (new_blocks_stats atype a).last_node = a.fl.last_node ∧
    (new_blocks_stats atype a).num_blocknode = a.fl.num_blocknode ∧
    (new_blocks_stats atype a).num_free_blocks = a.fl.num_free_blocks ∧
    (new_blocks_stats atype a).block_start = a.fl.block_start ∧
    (new_blocks_stats atype a).block_end = a.fl.block_end := by
  unfold new_blocks_stats
  split_ifs <;> simp

theorem new_count_bounds {num btype : Nat} (h0 : 1 ≤ num) (h1 : num < 4294967296) :
    1 ≤ new_count num btype ∧ new_count num btype < 1125899906842624 := by
  unfold new_count
  have h2 := nova_get_numblocks_pos btype
  have h3 := nova_get_numblocks_le btype
  constructor
  · exact Nat.mul_pos h0 h2
  · calc num * nova_get_numblocks btype ≤ num * 262144 := Nat.mul_le_mul_left _ h3
      _ < 1125899906842624 := by omega

/-- `nova_new_blocks` for a request of at least one block: the retry loop picks the list
`serving_cpu`, possibly re-reads its `first_node`, and the allocation runs on that list. -/
theorem new_blocks_eq (E : kernel_env) (sbi : nova_sb_info) (blocknr num btype : Nat)
    (atype cpuid from_tail pid : Int)
    (hlen : sbi.free_lists.length = sbi.cpus.toNat) (hcpu0 : 0 ≤ cpuid) (hpid0 : 0 ≤ pid)
    (hnum0 : 1 ≤ num) (hnum : num < 4294967296) :
    ∃ fl0 : free_list,
      0 ≤ serving_cpu E sbi num btype cpuid pid ∧
      (fl0 = nova_get_free_list sbi (serving_cpu E sbi num btype cpuid pid) ∨
        ((nova_get_free_list sbi (serving_cpu E sbi num btype cpuid pid)).first_node = none ∧
         fl0 = { nova_get_free_list sbi (serving_cpu E sbi num btype cpuid pid) with
            first_node := (rb_first (nova_get_free_list sbi
              (serving_cpu E sbi num btype cpuid pid)).block_free_tree).map (fun p => p.1) })) ∧
      nova_new_blocks E sbi blocknr num btype atype cpuid from_tail pid =
        if (nova_alloc_blocks_in_free_list E fl0 btype (new_count num btype) 0 from_tail).ret ≤ 0 ∨
            (nova_alloc_blocks_in_free_list E fl0 btype (new_count num btype) 0
              from_tail).new_blocknr = 0 then
          ⟨-ENOSPC, nova_set_free_list sbi (serving_cpu E sbi num btype cpuid pid)
            (new_blocks_stats atype
              (nova_alloc_blocks_in_free_list E fl0 btype (new_count num btype) 0 from_tail)),
            blocknr⟩
        else
          ⟨int_of_ulong ((nova_alloc_blocks_in_free_list E fl0 btype (new_count num btype) 0
              from_tail).ret.toNat / nova_get_numblocks btype),
            nova_set_free_list sbi (serving_cpu E sbi num btype cpuid pid)
              (new_blocks_stats atype
                (nova_alloc_blocks_in_free_list E fl0 btype (new_count num btype) 0 from_tail)),
            (nova_alloc_blocks_in_free_list E fl0 btype (new_count num btype) 0
              from_tail).new_blocknr⟩ := by
  obtain ⟨hnb1, hnb2⟩ := @new_count_bounds num btype hnum0 hnum
  have hul : ul (num * nova_get_numblocks btype) = new_count num btype :=
    ul_of_lt (by unfold new_count at hnb2; omega)
  have hne : ¬ new_count num btype = 0 := by omega
  have hc1 : 0 ≤ (if cpuid = E.ANY_CPU then pid else cpuid) := by split_ifs <;> assumption
  obtain ⟨hr0, hr⟩ := retry_spec sbi (new_count num btype) 2 _ hc1
  refine ⟨nova_get_free_list (nova_new_blocks_retry sbi (new_count num btype) 2
    (if cpuid = E.ANY_CPU then pid else cpuid)).2 (serving_cpu E sbi num btype cpuid pid),
    hr0, ?_, ?_⟩
  · rcases hr with hr | ⟨hr1, hr2⟩
    · left; rw [hr]
    · right
      refine ⟨hr1, ?_⟩
      unfold serving_cpu
      rw [hr2, get_set_free_list _ _ _ hr0 hlen]
  · have hset : ∀ f, nova_set_free_list (nova_new_blocks_retry sbi (new_count num btype) 2
        (if cpuid = E.ANY_CPU then pid else cpuid)).2 (serving_cpu E sbi num btype cpuid pid) f =
        nova_set_free_list sbi (serving_cpu E sbi num btype cpuid pid) f := by
      intro f
      rcases hr with hr | ⟨_, hr2⟩
      · rw [hr]
      · unfold serving_cpu
        rw [hr2, set_set_free_list]
    unfold nova_new_blocks
    simp only [hul, hne, if_false]
    rw [← hset]
    unfold serving_cpu new_blocks_stats
    rfl

theorem alloc_count_super {E : kernel_env} {btype nb : Nat} {curr : node_ptr}
    (from_tail : Int) (ht : alloc_takes E btype nb curr = true) (hb : 0 < btype) :
    alloc_count nb curr (alloc_kind_of from_tail nb curr) = nb := by
  simp only [alloc_takes, Bool.and_eq_true, Bool.not_eq_true', Bool.and_eq_false_imp,
    decide_eq_true_eq, decide_eq_false_iff_not] at ht
  have h1 := ht.2 hb
  unfold alloc_kind_of
  split_ifs with h2 h3
  · simp only [alloc_count]; omega
  · rfl
  · rfl

/-- A successful `nova_new_blocks` on a well-formed serving list: the node `curr` at which
the loop stopped, the index before and after, the run and the counters. -/
theorem new_blocks_pos (E : kernel_env) (sbi : nova_sb_info) (blocknr num btype : Nat)
    (atype cpuid from_tail pid : Int)
    (hlen : sbi.free_lists.length = sbi.cpus.toNat) (hcpu0 : 0 ≤ cpuid) (hpid0 : 0 ≤ pid)
    (hnum0 : 1 ≤ num) (hnum : num < 4294967296)
    (hw : wf_nodes E (index_of sbi (serving_cpu E sbi num btype cpuid pid)))
    (hret : 0 < (nova_new_blocks E sbi blocknr num btype atype cpuid from_tail pid).ret) :
    ∃ (fl0 : free_list) (curr : node_ptr) (d r : List node_ptr) (t : rb_root),
      0 ≤ serving_cpu E sbi num btype cpuid pid ∧
      (fl0 = nova_get_free_list sbi (serving_cpu E sbi num btype cpuid pid) ∨
        ((nova_get_free_list sbi (serving_cpu E sbi num btype cpuid pid)).first_node = none ∧
         fl0 = { nova_get_free_list sbi (serving_cpu E sbi num btype cpuid pid) with
            first_node := (rb_first (nova_get_free_list sbi
              (serving_cpu E sbi num btype cpuid pid)).block_free_tree).map (fun p => p.1) })) ∧
      (alloc_walk fl0.block_free_tree from_tail
        (if from_tail = 0 then fl0.first_node else fl0.last_node)).find?
        (alloc_takes E btype (new_count num btype)) = some curr ∧
      index_of sbi (serving_cpu E sbi num btype cpuid pid) = d ++ curr :: r ∧
      t.inorder = d ++ alloc_mid E (new_count num btype) curr
        (alloc_kind_of from_tail (new_count num btype) curr) ++ r ∧
      1 ≤ alloc_count (new_count num btype) curr
        (alloc_kind_of from_tail (new_count num btype) curr) ∧
      alloc_count (new_count num btype) curr
        (alloc_kind_of from_tail (new_count num btype) curr) ≤
        (nova_get_free_list sbi (serving_cpu E sbi num btype cpuid pid)).num_free_blocks ∧
      alloc_blocknr (new_count num btype) curr
        (alloc_kind_of from_tail (new_count num btype) curr) ≠ 0 ∧
      nova_new_blocks E sbi blocknr num btype atype cpuid from_tail pid =
        ⟨int_of_ulong (alloc_count (new_count num btype) curr
            (alloc_kind_of from_tail (new_count num btype) curr) / nova_get_numblocks btype),
          nova_set_free_list sbi (serving_cpu E sbi num btype cpuid pid)
            (new_blocks_stats atype
              ⟨(alloc_count (new_count num btype) curr
                  (alloc_kind_of from_tail (new_count num btype) curr) : Nat),
                alloc_result_fl fl0 t from_tail (new_count num btype) curr d r,
                alloc_blocknr (new_count num btype) curr
                  (alloc_kind_of from_tail (new_count num btype) curr)⟩),
          alloc_blocknr (new_count num btype) curr
            (alloc_kind_of from_tail (new_count num btype) curr)⟩ := by
  obtain ⟨hnb1, hnb2⟩ := @new_count_bounds num btype hnum0 hnum
  obtain ⟨fl0, hc0, hfl0, heq⟩ := new_blocks_eq E sbi blocknr num btype atype cpuid from_tail
    pid hlen hcpu0 hpid0 hnum0 hnum
  have htree : fl0.block_free_tree =
      (nova_get_free_list sbi (serving_cpu E sbi num btype cpuid pid)).block_free_tree := by
    rcases hfl0 with h | ⟨_, h⟩ <;> rw [h]
  have hnfb : fl0.num_free_blocks =
      (nova_get_free_list sbi (serving_cpu E sbi num btype cpuid pid)).num_free_blocks := by
    rcases hfl0 with h | ⟨_, h⟩ <;> rw [h]
  have hw0 : wf_nodes E fl0.block_free_tree.inorder := by rw [htree]; exact hw
  rw [heq] at hret ⊢
  have hneg : ¬ (0 : Int) < -ENOSPC := by decide
  by_cases hc : (nova_alloc_blocks_in_free_list E fl0 btype (new_count num btype) 0
      from_tail).ret ≤ 0 ∨
      (nova_alloc_blocks_in_free_list E fl0 btype (new_count num btype) 0
        from_tail).new_blocknr = 0
  · simp only [hc, if_true] at hret
    exact absurd hret hneg
  · simp only [hc, if_false]
    rw [not_or] at hc
    obtain ⟨curr, d, r, t, hf, hl, ht, hc1, hc2, ha⟩ :=
      alloc_in_free_list_pos E fl0 btype (new_count num btype) 0 from_tail hw0 hnb1
        (by omega) (by omega)
    rw [ha] at hc ⊢
    simp only [] at hc ⊢
    refine ⟨fl0, curr, d, r, t, hc0, hfl0, hf, ?_, ht, hc1, by omega, hc.2, ?_⟩
    · unfold index_of; rw [← htree]; exact hl
    · simp only [Int.toNat_ofNat]

theorem int_of_ulong_pos {x : Nat} (hx : x < 4294967296) (h : 0 < int_of_ulong x) :
    int_of_ulong x = (x : Int) ∧ x < 2147483648 := by
  unfold int_of_ulong at h ⊢
  have h1 : x % 4294967296 = x := Nat.mod_eq_of_lt hx
  rw [h1] at h ⊢
  split_ifs at h ⊢ with h2
  · exact ⟨rfl, h2⟩
  · omega

theorem new_blocks_zero (E : kernel_env) (sbi : nova_sb_info) (blocknr btype : Nat)
    (atype cpuid from_tail pid : Int) :
    nova_new_blocks E sbi blocknr 0 btype atype cpuid from_tail pid = ⟨-EINVAL, sbi, blocknr⟩ := by
  simp [nova_new_blocks, ul]

/-- The count returned by a successful `nova_new_blocks`, in blocks: the length of the run
taken from the index. -/
theorem new_blocks_ret_count {E : kernel_env} {btype num : Nat} {curr : node_ptr}
    (from_tail : Int) (hnum : num < 4294967296)
    (ht : alloc_takes E btype (new_count num btype) curr = true)
    (hpos : 0 < int_of_ulong (alloc_count (new_count num btype) curr
      (alloc_kind_of from_tail (new_count num btype) curr) / nova_get_numblocks btype)) :
    (int_of_ulong (alloc_count (new_count num btype) curr
      (alloc_kind_of from_tail (new_count num btype) curr) /
        nova_get_numblocks btype)).toNat * nova_get_numblocks btype =
      alloc_count (new_count num btype) curr
        (alloc_kind_of from_tail (new_count num btype) curr) ∧
    (int_of_ulong (alloc_count (new_count num btype) curr
      (alloc_kind_of from_tail (new_count num btype) curr) /
        nova_get_numblocks btype)).toNat ≤ num ∧
    (0 < btype → (int_of_ulong (alloc_count (new_count num btype) curr
      (alloc_kind_of from_tail (new_count num btype) curr) /
        nova_get_numblocks btype)) = (num : Int)) := by
  have hle := alloc_count_le from_tail (new_count num btype) curr
  have hnbpos := nova_get_numblocks_pos btype
  have hdiv : alloc_count (new_count num btype) curr
      (alloc_kind_of from_tail (new_count num btype) curr) / nova_get_numblocks btype ≤ num := by
    calc _ ≤ new_count num btype / nova_get_numblocks btype := Nat.div_le_div_right hle
      _ = num := by unfold new_count; exact Nat.mul_div_cancel _ hnbpos
  obtain ⟨h1, h2⟩ := int_of_ulong_pos (by omega) hpos
  rw [h1]
  simp only [Int.toNat_ofNat]
  refine ⟨?_, hdiv, ?_⟩
  · by_cases hb : 0 < btype
    · rw [alloc_count_super from_tail ht hb]
      unfold new_count
      rw [Nat.mul_div_cancel _ hnbpos]
    · have hb0 : btype = 0 := by omega
      subst hb0
      simp [nova_get_numblocks, NOVA_BLOCK_TYPE_4K]
  · intro hb
    rw [alloc_count_super from_tail ht hb]
    unfold new_count
    rw [Nat.mul_div_cancel _ hnbpos]

/-- C6: when `nova_new_blocks` returns a count `n > 0` and the first block `f` from a
well-formed serving list, the run `[f, f + n * nova_get_numblocks btype - 1]` lay inside one
free extent of that list before the call, afterwards exactly the blocks of the run have left
its free set, its `num_free_blocks` has dropped by the length of the run, and the other
per-CPU lists are untouched. -/
theorem C6_new_blocks_run (E : kernel_env) (sbi : nova_sb_info) (blocknr num btype : Nat)
    (atype cpuid from_tail pid : Int)
    (hlen : sbi.free_lists.length = sbi.cpus.toNat) (hcpu0 : 0 ≤ cpuid) (hpid0 : 0 ≤ pid)
    (hnum : num < 4294967296)
    (hw : wf_nodes E (index_of sbi (serving_cpu E sbi num btype cpuid pid)))
    (hnfb : (nova_get_free_list sbi (serving_cpu E sbi num btype cpuid pid)).num_free_blocks <
      18446744073709551616)
    (hret : 0 < (nova_new_blocks E sbi blocknr num btype atype cpuid from_tail pid).ret) :
    (∃ p ∈ index_of sbi (serving_cpu E sbi num btype cpuid pid),
      p.2.range_low ≤ (nova_new_blocks E sbi blocknr num btype atype cpuid from_tail pid).blocknr ∧
      (nova_new_blocks E sbi blocknr num btype atype cpuid from_tail pid).blocknr +
        (nova_new_blocks E sbi blocknr num btype atype cpuid from_tail pid).ret.toNat *
          nova_get_numblocks btype ≤ p.2.range_high + 1) ∧
    (∀ b, blk_in (index_of (nova_new_blocks E sbi blocknr num btype atype cpuid from_tail pid).sbi
        (serving_cpu E sbi num btype cpuid pid)) b ↔
      (blk_in (index_of sbi (serving_cpu E sbi num btype cpuid pid)) b ∧
        ¬ ((nova_new_blocks E sbi blocknr num btype atype cpuid from_tail pid).blocknr ≤ b ∧
          b < (nova_new_blocks E sbi blocknr num btype atype cpuid from_tail pid).blocknr +
            (nova_new_blocks E sbi blocknr num btype atype cpuid from_tail pid).ret.toNat *
              nova_get_numblocks btype))) ∧
    (nova_get_free_list (nova_new_blocks E sbi blocknr num btype atype cpuid from_tail pid).sbi
        (serving_cpu E sbi num btype cpuid pid)).num_free_blocks +
      (nova_new_blocks E sbi blocknr num btype atype cpuid from_tail pid).ret.toNat *
        nova_get_numblocks btype =
      (nova_get_free_list sbi (serving_cpu E sbi num btype cpuid pid)).num_free_blocks ∧
    (∀ j : Int, 0 ≤ j → j < sbi.cpus → j ≠ serving_cpu E sbi num btype cpuid pid →
      nova_get_free_list (nova_new_blocks E sbi blocknr num btype atype cpuid from_tail pid).sbi j =
        nova_get_free_list sbi j) := by
  have hnum0 : 1 ≤ num := by
    by_contra h
    have : num = 0 := by omega
    subst this
    rw [new_blocks_zero] at hret
    have hneg : ¬ (0 : Int) < -EINVAL := by decide
    exact absurd hret hneg
  obtain ⟨hnb1, hnb2⟩ := @new_count_bounds num btype hnum0 hnum
  obtain ⟨fl0, curr, d, r, t, hc0, hfl0, hf, hl, ht, hc1, hc2, hf0, heq⟩ :=
    new_blocks_pos E sbi blocknr num btype atype cpuid from_tail pid hlen hcpu0 hpid0 hnum0
      hnum hw hret
  have htakes : alloc_takes E btype (new_count num btype) curr = true := by
    have := List.find?_some hf
    exact this
  rw [heq] at hret ⊢
  simp only [] at hret ⊢
  obtain ⟨hcnt, _, _⟩ := new_blocks_ret_count from_tail hnum htakes hret
  rw [hcnt]
  have hwl : wf_nodes E (d ++ curr :: r) := by rw [← hl]; exact hw
  have hk1 : alloc_kind_of from_tail (new_count num btype) curr = .whole →
      1 ≤ curr_blocks curr := by
    intro hk; rw [hk] at hc1; exact hc1
  have hk2 : alloc_kind_of from_tail (new_count num btype) curr ≠ .whole →
      new_count num btype < curr_blocks curr := by
    intro hk
    unfold alloc_kind_of at hk
    by_contra hge
    exact hk (by simp [not_lt.1 hge])
  obtain ⟨_, hp1, hp2, hp3, _, _⟩ := alloc_mid_props E d r curr (new_count num btype)
    (alloc_kind_of from_tail (new_count num btype) curr) hwl hnb1 hk1 hk2
  have hget : nova_get_free_list (nova_set_free_list sbi (serving_cpu E sbi num btype cpuid pid)
      (new_blocks_stats atype
        ⟨(alloc_count (new_count num btype) curr
            (alloc_kind_of from_tail (new_count num btype) curr) : Nat),
          alloc_result_fl fl0 t from_tail (new_count num btype) curr d r,
          alloc_blocknr (new_count num btype) curr
            (alloc_kind_of from_tail (new_count num btype) curr)⟩))
      (serving_cpu E sbi num btype cpuid pid) = _ := get_set_free_list _ _ _ hc0 hlen
  have hnfb0 : fl0.num_free_blocks =
      (nova_get_free_list sbi (serving_cpu E sbi num btype cpuid pid)).num_free_blocks := by
    rcases hfl0 with h | ⟨_, h⟩ <;> rw [h]
  refine ⟨⟨curr, by rw [hl]; simp, hp1, hp2⟩, ?_, ?_, ?_⟩
  · intro b
    unfold index_of
    rw [hget, (new_blocks_stats_fields _ _).1]
    simp only [alloc_result_fl]
    rw [ht]
    unfold index_of at hl
    rw [hl]
    exact hp3 b
  · rw [hget, (new_blocks_stats_fields _ _).2.2.2.2.1]
    simp only [alloc_result_fl]
    rw [hnfb0, ul_sub_of_le _ _ hnfb hc2]
    omega
  · intro j hj hjc hne
    exact get_set_free_list_ne _ _ _ _ hc0 hj hne (Or.inl hjc) hlen

theorem alloc_take_num_blocks (E : kernel_env) (from_tail : Int) (curr : node_ptr)
    (st : alloc_state) :
    (alloc_take E from_tail curr st).num_blocks =
      alloc_count st.num_blocks curr (alloc_kind_of from_tail st.num_blocks curr) := by
  unfold alloc_take alloc_kind_of
  split_ifs <;> rfl

/-- A positive return value of `nova_alloc_blocks_in_free_list`, in any state: the length
of the run taken at the node where the loop stopped. -/
theorem alloc_in_free_list_ret (E : kernel_env) (fl : free_list) (btype nb nbr : Nat)
    (from_tail : Int) (hnb2 : nb < 9223372036854775808)
    (hret : 0 < (nova_alloc_blocks_in_free_list E fl btype nb nbr from_tail).ret) :
    ∃ curr : node_ptr, alloc_takes E btype nb curr = true ∧
      (nova_alloc_blocks_in_free_list E fl btype nb nbr from_tail).ret =
        ((alloc_count nb curr (alloc_kind_of from_tail nb curr) : Nat) : Int) := by
  have hneg : ¬ (0 : Int) < -ENOSPC := by decide
  rw [alloc_in_free_list_eq] at hret ⊢
  by_cases h : fl.first_node = none ∨ fl.num_free_blocks = 0
  · simp only [h, if_true] at hret
    exact absurd hret hneg
  · simp only [h, if_false] at hret ⊢
    cases hf : (alloc_walk fl.block_free_tree from_tail
        (if from_tail = 0 then fl.first_node else fl.last_node)).find?
        (alloc_takes E btype nb) with
    | none =>
      simp only [hf] at hret
      exact absurd hret hneg
    | some curr =>
      simp only [hf] at hret ⊢
      have hle := alloc_count_le from_tail nb curr
      rw [alloc_take_num_blocks] at hret ⊢
      simp only [] at hret ⊢
      split_ifs at hret ⊢ with h2
      · exact absurd hret hneg
      · exact ⟨curr, List.find?_some hf, long_of_ulong_small (by omega)⟩

/-- C9: a successful `nova_new_blocks` for a super-page type returns exactly `num`; for the
4K type it returns `n` with `1 ≤ n ≤ num`.  On a well-formed serving list the index loses
exactly `n * nova_get_numblocks btype` blocks. -/
theorem C9_only_4k_requests_short (E : kernel_env) (sbi : nova_sb_info)
    (blocknr num btype : Nat) (atype cpuid from_tail pid : Int)
    (hnum : num < 4294967296)
    (hret : 0 < (nova_new_blocks E sbi blocknr num btype atype cpuid from_tail pid).ret) :
    (0 < btype →
      (nova_new_blocks E sbi blocknr num btype atype cpuid from_tail pid).ret = (num : Int)) ∧
    (btype = NOVA_BLOCK_TYPE_4K →
      1 ≤ (nova_new_blocks E sbi blocknr num btype atype cpuid from_tail pid).ret ∧
      (nova_new_blocks E sbi blocknr num btype atype cpuid from_tail pid).ret ≤ (num : Int)) ∧
    (sbi.free_lists.length = sbi.cpus.toNat → 0 ≤ cpuid → 0 ≤ pid →
      wf_nodes E (index_of sbi (serving_cpu E sbi num btype cpuid pid)) →
      total_blocks (index_of sbi (serving_cpu E sbi num btype cpuid pid)) =
        total_blocks (index_of
          (nova_new_blocks E sbi blocknr num btype atype cpuid from_tail pid).sbi
          (serving_cpu E sbi num btype cpuid pid)) +
        (nova_new_blocks E sbi blocknr num btype atype cpuid from_tail pid).ret.toNat *
          nova_get_numblocks btype) := by
  have hnum0 : 1 ≤ num := by
    by_contra h
    have : num = 0 := by omega
    subst this
    rw [new_blocks_zero] at hret
    have hneg : ¬ (0 : Int) < -EINVAL := by decide
    exact absurd hret hneg
  obtain ⟨hnb1, hnb2⟩ := @new_count_bounds num btype hnum0 hnum
  have hul : ul (num * nova_get_numblocks btype) = new_count num btype :=
    ul_of_lt (by unfold new_count at hnb2; omega)
  have hne : ¬ new_count num btype = 0 := by omega
  have hneg : ¬ (0 : Int) < -ENOSPC := by decide
  have hval : ∃ curr : node_ptr, alloc_takes E btype (new_count num btype) curr = true ∧
      (nova_new_blocks E sbi blocknr num btype atype cpuid from_tail pid).ret =
        int_of_ulong (alloc_count (new_count num btype) curr
          (alloc_kind_of from_tail (new_count num btype) curr) / nova_get_numblocks btype) := by
    unfold nova_new_blocks at hret ⊢
    simp only [hul, hne, if_false] at hret ⊢
    by_cases hc : (nova_alloc_blocks_in_free_list E
        (nova_get_free_list
          (nova_new_blocks_retry sbi (new_count num btype) 2
            (if cpuid = E.ANY_CPU then pid else cpuid)).2
          (nova_new_blocks_retry sbi (new_count num btype) 2
            (if cpuid = E.ANY_CPU then pid else cpuid)).1)
        btype (new_count num btype) 0 from_tail).ret ≤ 0 ∨
        (nova_alloc_blocks_in_free_list E
          (nova_get_free_list
            (nova_new_blocks_retry sbi (new_count num btype) 2
              (if cpuid = E.ANY_CPU then pid else cpuid)).2
            (nova_new_blocks_retry sbi (new_count num btype) 2
              (if cpuid = E.ANY_CPU then pid else cpuid)).1)
          btype (new_count num btype) 0 from_tail).new_blocknr = 0
    · rw [if_pos hc] at hret
      exact absurd hret hneg
    · rw [if_neg hc]
      rw [not_or] at hc
      obtain ⟨curr, h1, h2⟩ := alloc_in_free_list_ret E _ btype (new_count num btype) 0
        from_tail (by omega) (not_le.1 hc.1)
      refine ⟨curr, h1, ?_⟩
      simp only [h2, Int.toNat_ofNat]
  obtain ⟨curr, htakes, hv⟩ := hval
  have hpos : 0 < int_of_ulong (alloc_count (new_count num btype) curr
      (alloc_kind_of from_tail (new_count num btype) curr) / nova_get_numblocks btype) := by
    rw [← hv]; exact hret
  obtain ⟨hcnt, hle, hsup⟩ := new_blocks_ret_count from_tail hnum htakes hpos
  refine ⟨fun hb => by rw [hv]; exact hsup hb, fun _ => ⟨by omega, ?_⟩, ?_⟩
  · rw [hv] at hret ⊢
    omega
  · intro hlen hcpu0 hpid0 hw
    obtain ⟨fl0, curr2, d, r, t, hc0, hfl0, hf, hl, ht, hc1, hc2, hf0, heq⟩ :=
      new_blocks_pos E sbi blocknr num btype atype cpuid from_tail pid hlen hcpu0 hpid0 hnum0
        hnum hw hret
    have htakes2 : alloc_takes E btype (new_count num btype) curr2 = true :=
      List.find?_some hf
    rw [heq] at hret ⊢
    simp only [] at hret ⊢
    obtain ⟨hcnt2, _, _⟩ := new_blocks_ret_count from_tail hnum htakes2 hret
    rw [hcnt2]
    have hwl : wf_nodes E (d ++ curr2 :: r) := by rw [← hl]; exact hw
    have hk1 : alloc_kind_of from_tail (new_count num btype) curr2 = .whole →
        1 ≤ curr_blocks curr2 := by
      intro hk; rw [hk] at hc1; exact hc1
    have hk2 : alloc_kind_of from_tail (new_count num btype) curr2 ≠ .whole →
        new_count num btype < curr_blocks curr2 := by
      intro hk
      unfold alloc_kind_of at hk
      by_contra hge
      exact hk (by simp [not_lt.1 hge])
    obtain ⟨_, _, _, _, hp4, _⟩ := alloc_mid_props E d r curr2 (new_count num btype)
      (alloc_kind_of from_tail (new_count num btype) curr2) hwl hnb1 hk1 hk2
    unfold index_of at hl ⊢
    rw [get_set_free_list _ _ _ hc0 hlen, (new_blocks_stats_fields _ _).1]
    simp only [alloc_result_fl]
    rw [ht, hl]
    exact hp4

theorem set_get_free_list (sbi : nova_sb_info) (cpu : Int) :
    nova_set_free_list sbi cpu (nova_get_free_list sbi cpu) = sbi := by
  unfold nova_set_free_list nova_get_free_list
  by_cases h : cpu < sbi.cpus
  · simp only [h, if_true]
    have : sbi.free_lists.set cpu.toNat (sbi.free_lists.getD cpu.toNat sbi.shared_free_list) =
        sbi.free_lists := by
      apply List.ext_getElem?
      intro n
      rw [List.getElem?_set]
      split_ifs with h1 h2
      · subst h1
        rw [List.getD_eq_getElem?_getD, List.getElem?_eq_getElem h2]
        simp
      · subst h1
        rw [List.getElem?_eq_none (by omega)]
      · rfl
    rw [this]
  · simp only [h, if_false]

/-- Re-reading `first_node` of one list changes no tree and no counter of any list. -/
theorem set_first_node_get (sbi : nova_sb_info) (cpu j : Int) (x : Option Nat) :
    nova_get_free_list (nova_set_free_list sbi cpu
        { nova_get_free_list sbi cpu with first_node := x }) j = nova_get_free_list sbi j ∨
    nova_get_free_list (nova_set_free_list sbi cpu
        { nova_get_free_list sbi cpu with first_node := x }) j =
      { nova_get_free_list sbi j with first_node := x } := by
  unfold nova_get_free_list nova_set_free_list
  by_cases h : cpu < sbi.cpus
  · by_cases h2 : j < sbi.cpus
    · simp only [h, h2, if_true, List.getD_eq_getElem?_getD, List.getElem?_set]
      by_cases h3 : cpu.toNat = j.toNat
      · by_cases h4 : cpu.toNat < sbi.free_lists.length
        · right
          simp [h3, h4, (h3 ▸ h4 : j.toNat < sbi.free_lists.length)]
        · left
          have h5 : sbi.free_lists.length ≤ j.toNat := by omega
          have h6 : ¬ j.toNat < sbi.free_lists.length := by omega
          simp [h3, h6, List.getElem?_eq_none h5]
      · left
        simp [h3]
    · left
      simp [h, h2]
  · by_cases h2 : j < sbi.cpus
    · simp only [h, h2, if_true, if_false, List.getD_eq_getElem?_getD]
      by_cases h4 : j.toNat < sbi.free_lists.length
      · left
        simp [List.getElem?_eq_getElem h4]
      · right
        simp [List.getElem?_eq_none (not_lt.1 h4)]
    · right
      simp [h, h2]

/-- The retry loop of `nova_new_blocks` changes no tree and no `num_free_blocks`. -/
theorem retry_frame (sbi : nova_sb_info) (nb : Nat) (left : Nat) (cpuid j : Int) :
    (nova_get_free_list (nova_new_blocks_retry sbi nb left cpuid).2 j).block_free_tree =
      (nova_get_free_list sbi j).block_free_tree ∧
    (nova_get_free_list (nova_new_blocks_retry sbi nb left cpuid).2 j).num_free_blocks =
      (nova_get_free_list sbi j).num_free_blocks := by
  induction left generalizing cpuid with
  | zero =>
    rw [retry_zero]
    split_ifs
    · rcases set_first_node_get sbi cpuid j
        ((rb_first (nova_get_free_list sbi cpuid).block_free_tree).map (fun p => p.1)) with h | h
        <;> simp [h]
    · exact ⟨rfl, rfl⟩
    · exact ⟨rfl, rfl⟩
  | succ n ih =>
    rw [retry_succ]
    split_ifs
    · rcases set_first_node_get sbi cpuid j
        ((rb_first (nova_get_free_list sbi cpuid).block_free_tree).map (fun p => p.1)) with h | h
        <;> simp [h]
    · exact ih _
    · exact ⟨rfl, rfl⟩

/-- With a super-page type and every extent shorter than the request, the loop of
`nova_alloc_blocks_in_free_list` stops nowhere. -/
theorem alloc_super_none (E : kernel_env) (fl : free_list) (btype nb nbr : Nat)
    (from_tail : Int) (hb : 0 < btype)
    (hsmall : ∀ p ∈ fl.block_free_tree.inorder, p.2.range_low ≤ p.2.range_high ∧
      p.2.range_high < 18446744073709551616 ∧ node_blocks p < nb) :
    nova_alloc_blocks_in_free_list E fl btype nb nbr from_tail = ⟨-ENOSPC, fl, nbr⟩ := by
  rw [alloc_in_free_list_eq]
  by_cases h : fl.first_node = none ∨ fl.num_free_blocks = 0
  · rw [if_pos h]
  · rw [if_neg h]
    have hnone : (alloc_walk fl.block_free_tree from_tail
        (if from_tail = 0 then fl.first_node else fl.last_node)).find?
        (alloc_takes E btype nb) = none := by
      rw [List.find?_eq_none]
      intro p hp
      have hp2 := alloc_walk_subset _ _ _ _ hp
      obtain ⟨h1, h2, h3⟩ := hsmall p hp2
      have h4 := (curr_blocks_le h1 h2).1
      simp only [alloc_takes, Bool.and_eq_true, Bool.not_eq_true', Bool.and_eq_false_imp,
        decide_eq_true_eq, decide_eq_false_iff_not, not_and, not_forall, not_not]
      intro _
      exact ⟨hb, by omega⟩
    rw [hnone]

/-- C8: for a super-page type, when the serving free list is non-empty but each of its extents
has fewer blocks than `num * nova_get_numblocks btype`, `nova_alloc_blocks_in_free_list` on
that list returns `-ENOSPC` and leaves the list as it was, and `nova_new_blocks` returns
`-ENOSPC`, keeps `*blocknr`, and changes no tree and no `num_free_blocks` of any list. -/
theorem C8_super_page_strictness (E : kernel_env) (sbi : nova_sb_info)
    (blocknr num btype nbr : Nat) (atype cpuid from_tail pid : Int)
    (hb : 0 < btype) (hnum : num < 4294967296)
    (hfree : index_of sbi (serving_cpu E sbi num btype cpuid pid) ≠ [])
    (hsmall : ∀ p ∈ index_of sbi (serving_cpu E sbi num btype cpuid pid),
      p.2.range_low ≤ p.2.range_high ∧ p.2.range_high < 18446744073709551616 ∧
      node_blocks p < num * nova_get_numblocks btype) :
    nova_alloc_blocks_in_free_list E
        (nova_get_free_list sbi (serving_cpu E sbi num btype cpuid pid)) btype
        (num * nova_get_numblocks btype) nbr from_tail =
      ⟨-ENOSPC, nova_get_free_list sbi (serving_cpu E sbi num btype cpuid pid), nbr⟩ ∧
    (nova_new_blocks E sbi blocknr num btype atype cpuid from_tail pid).ret = -ENOSPC ∧
    (nova_new_blocks E sbi blocknr num btype atype cpuid from_tail pid).blocknr = blocknr ∧
    ∀ j : Int,
      (nova_get_free_list (nova_new_blocks E sbi blocknr num btype atype cpuid from_tail
          pid).sbi j).block_free_tree = (nova_get_free_list sbi j).block_free_tree ∧
      (nova_get_free_list (nova_new_blocks E sbi blocknr num btype atype cpuid from_tail
          pid).sbi j).num_free_blocks = (nova_get_free_list sbi j).num_free_blocks := by
  have hnum0 : 1 ≤ num := by
    obtain ⟨p, hp⟩ := List.exists_mem_of_ne_nil _ hfree
    have := (hsmall p hp).2.2
    by_contra h
    have h0 : num = 0 := by omega
    rw [h0] at this
    omega
  obtain ⟨hnb1, hnb2⟩ := @new_count_bounds num btype hnum0 hnum
  have hul : ul (num * nova_get_numblocks btype) = new_count num btype :=
    ul_of_lt (by unfold new_count at hnb2; omega)
  have hne : ¬ new_count num btype = 0 := by omega
  have hneg : ¬ (-ENOSPC : Int) > 0 := by decide
  refine ⟨alloc_super_none E _ btype _ nbr from_tail hb hsmall, ?_⟩
  have hfr := retry_frame sbi (new_count num btype) 2 (if cpuid = E.ANY_CPU then pid else cpuid)
  have hsmall2 : ∀ p ∈ (nova_get_free_list
      (nova_new_blocks_retry sbi (new_count num btype) 2
        (if cpuid = E.ANY_CPU then pid else cpuid)).2
      (nova_new_blocks_retry sbi (new_count num btype) 2
        (if cpuid = E.ANY_CPU then pid else cpuid)).1).block_free_tree.inorder,
      p.2.range_low ≤ p.2.range_high ∧ p.2.range_high < 18446744073709551616 ∧
      node_blocks p < new_count num btype := by
    rw [(hfr _).1]
    exact hsmall
  have ha := alloc_super_none E _ btype (new_count num btype) 0 from_tail hb hsmall2
  have heq : nova_new_blocks E sbi blocknr num btype atype cpuid from_tail pid =
      ⟨-ENOSPC, (nova_new_blocks_retry sbi (new_count num btype) 2
        (if cpuid = E.ANY_CPU then pid else cpuid)).2, blocknr⟩ := by
    unfold nova_new_blocks
    simp only [hul, hne, if_false, ha, hneg, set_get_free_list]
    simp
  rw [heq]
  exact ⟨rfl, rfl, hfr⟩

/-- C6 at a concrete input: 30 blocks of the 4K type from the list holding `[13, 99]`; the
call returns 30 and leaves 57 free blocks. -/
theorem C6_new_blocks_run_witness :
    (nova_new_blocks (unbalanced_env 0) example_sbi1 0 30 NOVA_BLOCK_TYPE_4K DATA 0 0 0).ret = 30 ∧
    (nova_get_free_list
        (nova_new_blocks (unbalanced_env 0) example_sbi1 0 30 NOVA_BLOCK_TYPE_4K DATA 0 0 0).sbi
        (serving_cpu (unbalanced_env 0) example_sbi1 30 NOVA_BLOCK_TYPE_4K 0 0)).num_free_blocks +
      (nova_new_blocks (unbalanced_env 0) example_sbi1 0 30 NOVA_BLOCK_TYPE_4K DATA 0 0
        0).ret.toNat * nova_get_numblocks NOVA_BLOCK_TYPE_4K =
      (nova_get_free_list example_sbi1
        (serving_cpu (unbalanced_env 0) example_sbi1 30 NOVA_BLOCK_TYPE_4K 0 0)).num_free_blocks :=
  ⟨by decide,
    (C6_new_blocks_run (unbalanced_env 0) example_sbi1 0 30 NOVA_BLOCK_TYPE_4K DATA 0 0 0
      (by decide) (by decide) (by decide) (by decide)
      ⟨⟨by unfold ext_lt; decide, by decide⟩, by decide, by decide, by decide⟩
      (by decide) (by decide)).2.2.1⟩

/-- C8 at a concrete input: one 2M unit (512 blocks) from the list holding only `[13, 99]`. -/
theorem C8_super_page_strictness_witness :
    index_of example_sbi1
      (serving_cpu (unbalanced_env 0) example_sbi1 1 NOVA_BLOCK_TYPE_2M 0 0) ≠ [] ∧
    (nova_new_blocks (unbalanced_env 0) example_sbi1 7 1 NOVA_BLOCK_TYPE_2M DATA 0 0 0).ret =
      -ENOSPC ∧
    (nova_new_blocks (unbalanced_env 0) example_sbi1 7 1 NOVA_BLOCK_TYPE_2M DATA 0 0 0).blocknr =
      7 :=
  have h := C8_super_page_strictness (unbalanced_env 0) example_sbi1 7 1 NOVA_BLOCK_TYPE_2M 0
    DATA 0 0 0 (by decide) (by decide) (by decide) (by decide)
  ⟨by decide, h.2.1, h.2.2.1⟩

/-- C9 at a concrete input: 30 blocks of the 4K type from the list holding `[13, 99]`. -/
theorem C9_only_4k_requests_short_witness :
    0 < (nova_new_blocks (unbalanced_env 0) example_sbi1 0 30 NOVA_BLOCK_TYPE_4K DATA 0 0 0).ret ∧
    (nova_new_blocks (unbalanced_env 0) example_sbi1 0 30 NOVA_BLOCK_TYPE_4K DATA 0 0 0).ret ≤
      (30 : Int) :=
  ⟨by decide,
    ((C9_only_4k_requests_short (unbalanced_env 0) example_sbi1 0 30 NOVA_BLOCK_TYPE_4K DATA 0 0
      0 (by decide) (by decide)).2.1 rfl).2⟩

theorem dropWhile_head_addr (l : List node_ptr) :
    (match l.head?.map Prod.fst with
      | none => []
      | some a => l.dropWhile (fun p => p.1 != a)) = l := by
  cases l with
  | nil => rfl
  | cons x xs => simp [List.dropWhile_cons]

/-- With valid cached pointers the loop of `nova_alloc_blocks_in_free_list` visits the whole
index. -/
theorem alloc_walk_full (fl : free_list) (from_tail : Int)
    (hfirst : fl.first_node = fl.block_free_tree.inorder.head?.map Prod.fst)
    (hlast : fl.last_node = fl.block_free_tree.inorder.getLast?.map Prod.fst) :
    alloc_walk fl.block_free_tree from_tail
      (if from_tail = 0 then fl.first_node else fl.last_node) =
      search_order fl.block_free_tree from_tail := by
  unfold search_order
  by_cases h : from_tail = 0
  · simp only [h, if_true]
    rw [hfirst]
    have := dropWhile_head_addr fl.block_free_tree.inorder
    unfold alloc_walk
    cases hh : fl.block_free_tree.inorder.head?.map Prod.fst with
    | none => rw [hh] at this; simpa using this
    | some a => rw [hh] at this; simpa using this
  · simp only [h, if_false]
    rw [hlast]
    have := dropWhile_head_addr fl.block_free_tree.inorder.reverse
    rw [List.head?_reverse] at this
    unfold alloc_walk
    cases hh : fl.block_free_tree.inorder.getLast?.map Prod.fst with
    | none => rw [hh] at this; simpa [h] using this
    | some a => rw [hh] at this; simpa [h] using this

theorem find?_congr_mem {α : Type} {p q : α → Bool} (l : List α)
    (h : ∀ x ∈ l, p x = q x) : l.find? p = l.find? q := by
  induction l with
  | nil => rfl
  | cons x xs ih =>
    rw [List.find?_cons, List.find?_cons, h x (List.mem_cons_self _ _),
      ih (fun y hy => h y (List.mem_cons_of_mem _ hy))]

theorem node_blocks_le_total {l : List node_ptr} {p : node_ptr} (h : p ∈ l) :
    node_blocks p ≤ total_blocks l := by
  induction l with
  | nil => cases h
  | cons x xs ih =>
    rw [total_blocks_cons]
    rcases List.mem_cons.1 h with h1 | h1
    · subst h1; omega
    · have := ih h1; omega

theorem mem_search_order {tree : rb_root} {from_tail : Int} {p : node_ptr}
    (h : p ∈ search_order tree from_tail) : p ∈ tree.inorder := by
  unfold search_order at h
  split_ifs at h
  · exact h
  · exact List.mem_reverse.1 h

/-- On a consistent free list every extent has between 1 and `2^64 - 1` blocks, and the loop
computes just that number. -/
theorem curr_blocks_eq (E : kernel_env) (fl : free_list)
    (hw : wf_nodes E fl.block_free_tree.inorder)
    (hcnt : fl.num_free_blocks = total_blocks fl.block_free_tree.inorder)
    (hnfb : fl.num_free_blocks < 18446744073709551616) (p : node_ptr)
    (hp : p ∈ fl.block_free_tree.inorder) :
    curr_blocks p = node_blocks p ∧ 1 ≤ node_blocks p ∧ node_blocks p ≤ fl.num_free_blocks := by
  have h1 := hw.sorted.2 p hp
  have h2 := hw.bound p hp
  have h3 := node_blocks_le_total hp
  rw [← hcnt] at h3
  refine ⟨?_, ?_, h3⟩
  · unfold curr_blocks node_blocks ul ul_sub at *
    omega
  · unfold node_blocks; omega

/-- The extent at which `nova_alloc_blocks_in_free_list` stops serves the request: the run
handed out is the first (or, from the tail, the last) `min nb size` blocks of that extent. -/
theorem alloc_served (E : kernel_env) (fl : free_list) (btype nb nbr : Nat) (from_tail : Int)
    (hw : wf_nodes E fl.block_free_tree.inorder)
    (hfirst : fl.first_node = fl.block_free_tree.inorder.head?.map Prod.fst)
    (hlast : fl.last_node = fl.block_free_tree.inorder.getLast?.map Prod.fst)
    (hcnt : fl.num_free_blocks = total_blocks fl.block_free_tree.inorder)
    (hnfb : fl.num_free_blocks < 18446744073709551616)
    (hnb : 1 ≤ nb) (hnb2 : nb < 9223372036854775808) (curr : node_ptr)
    (hf : (search_order fl.block_free_tree from_tail).find? (alloc_takes E btype nb) =
      some curr) :
    (nova_alloc_blocks_in_free_list E fl btype nb nbr from_tail).ret =
      (min nb (node_blocks curr) : Nat) ∧
    (nova_alloc_blocks_in_free_list E fl btype nb nbr from_tail).new_blocknr =
      (if from_tail = 0 then curr.2.range_low
        else curr.2.range_high + 1 - min nb (node_blocks curr)) ∧
    curr.2.range_low ≤
      (nova_alloc_blocks_in_free_list E fl btype nb nbr from_tail).new_blocknr ∧
    (nova_alloc_blocks_in_free_list E fl btype nb nbr from_tail).new_blocknr +
      min nb (node_blocks curr) ≤ curr.2.range_high + 1 ∧
    (∀ b, blk_in (nova_alloc_blocks_in_free_list E fl btype nb nbr
        from_tail).fl.block_free_tree.inorder b ↔
      (blk_in fl.block_free_tree.inorder b ∧
        ¬ ((nova_alloc_blocks_in_free_list E fl btype nb nbr from_tail).new_blocknr ≤ b ∧
          b < (nova_alloc_blocks_in_free_list E fl btype nb nbr from_tail).new_blocknr +
            min nb (node_blocks curr)))) ∧
    (nova_alloc_blocks_in_free_list E fl btype nb nbr from_tail).fl.num_free_blocks +
      min nb (node_blocks curr) = fl.num_free_blocks ∧
    total_blocks (nova_alloc_blocks_in_free_list E fl btype nb nbr
        from_tail).fl.block_free_tree.inorder + min nb (node_blocks curr) =
      total_blocks fl.block_free_tree.inorder ∧
    wf_nodes E (nova_alloc_blocks_in_free_list E fl btype nb nbr
      from_tail).fl.block_free_tree.inorder := by
  have hmem : curr ∈ fl.block_free_tree.inorder := mem_search_order (List.mem_of_find?_eq_some hf)
  obtain ⟨hcb, hcb1, hcb2⟩ := curr_blocks_eq E fl hw hcnt hnfb curr hmem
  have hearly : ¬ (fl.first_node = none ∨ fl.num_free_blocks = 0) := by
    rintro (h | h)
    · rw [hfirst] at h
      cases hl : fl.block_free_tree.inorder with
      | nil => rw [hl] at hmem; cases hmem
      | cons x xs => rw [hl] at h; simp at h
    · omega
  rw [← alloc_walk_full fl from_tail hfirst hlast] at hf
  obtain ⟨d, r, t, hl, ht, heq⟩ :=
    alloc_in_free_list_found E fl btype nb nbr from_tail hw hnb hearly curr hf
  have hcount : alloc_count nb curr (alloc_kind_of from_tail nb curr) =
      min nb (node_blocks curr) := by
    unfold alloc_kind_of
    by_cases h1 : nb ≥ curr_blocks curr
    · rw [if_pos h1]; simp only [alloc_count]; omega
    · rw [if_neg h1]
      by_cases h2 : from_tail = 0
      · rw [if_pos h2]; simp only [alloc_count]; omega
      · rw [if_neg h2]; simp only [alloc_count]; omega
  have hlo := hw.sorted.2 curr hmem
  have hblk : alloc_blocknr nb curr (alloc_kind_of from_tail nb curr) =
      (if from_tail = 0 then curr.2.range_low
        else curr.2.range_high + 1 - min nb (node_blocks curr)) := by
    unfold alloc_kind_of
    by_cases h1 : nb ≥ curr_blocks curr
    · rw [if_pos h1]; simp only [alloc_blocknr]
      split_ifs
      · rfl
      · unfold node_blocks at *; omega
    · rw [if_neg h1]
      by_cases h2 : from_tail = 0
      · rw [if_pos h2, if_pos h2]; simp only [alloc_blocknr]
      · rw [if_neg h2, if_neg h2]; simp only [alloc_blocknr]
        unfold node_blocks at *; omega
  have hk1 : alloc_kind_of from_tail nb curr = .whole → 1 ≤ curr_blocks curr := by
    intro _; omega
  have hk2 : alloc_kind_of from_tail nb curr ≠ .whole → nb < curr_blocks curr := by
    intro hk
    unfold alloc_kind_of at hk
    by_contra hge
    exact hk (by simp [not_lt.1 hge])
  have hwl : wf_nodes E (d ++ curr :: r) := by rw [← hl]; exact hw
  obtain ⟨hp1, hp2, hp3, hp4, hp5, _⟩ := alloc_mid_props E d r curr nb
    (alloc_kind_of from_tail nb curr) hwl hnb hk1 hk2
  have hnot : ¬ fl.num_free_blocks < alloc_count nb curr (alloc_kind_of from_tail nb curr) := by
    rw [hcount]; omega
  rw [if_neg hnot] at heq
  rw [heq]
  simp only [alloc_result_fl]
  rw [ht, hl, ← hblk, ← hcount]
  refine ⟨long_of_ulong_small (by rw [hcount]; omega), rfl, hp2, hp3, hp4, ?_, hp5.symm, hp1⟩
  rw [ul_sub_of_le _ _ hnfb (by rw [hcount]; omega)]
  rw [hcount]; omega

/-- C10 (counterexample): with `[13, 14]` and `[43, 99]` free, a request for 5 blocks of the
4K type searching from `first_node` is not served from `[43, 99]`, the first extent with at
least 5 blocks: it returns 2 and the run starts at block 13. -/
theorem C10_first_fit_counterexample :
    index_of example_sbi4 0 = [(1001, ⟨13, 14, 0⟩), (1000, ⟨43, 99, 0⟩)] ∧
    (search_order (nova_get_free_list example_sbi4 0).block_free_tree 0).find?
      (fun p => decide (5 ≤ node_blocks p)) = some (1000, ⟨43, 99, 0⟩) ∧
    (nova_alloc_blocks_in_free_list (unbalanced_env 0) (nova_get_free_list example_sbi4 0)
      NOVA_BLOCK_TYPE_4K 5 0 0).ret = 2 ∧
    (nova_alloc_blocks_in_free_list (unbalanced_env 0) (nova_get_free_list example_sbi4 0)
      NOVA_BLOCK_TYPE_4K 5 0 0).new_blocknr = 13 := by
  decide

/-- C10 (amended): on a consistent free list (well-formed index, `first_node` and `last_node`
at its ends, `num_free_blocks` equal to the number of free blocks) and for `1 ≤ k < 2^63`:
for a super-page type the request is served from the first extent in search order that has
at least `k` blocks and the call returns `k`; for the 4K type it is served from the first
extent in search order whatever its size and the call returns `min k size`.  The run is
taken at the low end of the extent, or at its high end when `from_tail` is set, and exactly
its blocks leave the index. -/
theorem C10_first_fit_amended (E : kernel_env) (fl : free_list) (btype k nbr : Nat)
    (from_tail : Int)
    (hw : wf_nodes E fl.block_free_tree.inorder)
    (hfirst : fl.first_node = fl.block_free_tree.inorder.head?.map Prod.fst)
    (hlast : fl.last_node = fl.block_free_tree.inorder.getLast?.map Prod.fst)
    (hcnt : fl.num_free_blocks = total_blocks fl.block_free_tree.inorder)
    (hnfb : fl.num_free_blocks < 18446744073709551616)
    (hk : 1 ≤ k) (hk2 : k < 9223372036854775808) :
    (0 < btype → ∀ curr : node_ptr,
      (search_order fl.block_free_tree from_tail).find?
        (fun p => decide (k ≤ node_blocks p)) = some curr →
      (nova_alloc_blocks_in_free_list E fl btype k nbr from_tail).ret = (k : Int) ∧
      (nova_alloc_blocks_in_free_list E fl btype k nbr from_tail).new_blocknr =
        (if from_tail = 0 then curr.2.range_low else curr.2.range_high + 1 - k) ∧
      (∀ b, blk_in (nova_alloc_blocks_in_free_list E fl btype k nbr
          from_tail).fl.block_free_tree.inorder b ↔
        (blk_in fl.block_free_tree.inorder b ∧
          ¬ ((nova_alloc_blocks_in_free_list E fl btype k nbr from_tail).new_blocknr ≤ b ∧
            b < (nova_alloc_blocks_in_free_list E fl btype k nbr from_tail).new_blocknr + k)))) ∧
    (btype = NOVA_BLOCK_TYPE_4K → ∀ curr : node_ptr,
      (search_order fl.block_free_tree from_tail).head? = some curr →
      (nova_alloc_blocks_in_free_list E fl btype k nbr from_tail).ret =
        (min k (node_blocks curr) : Nat) ∧
      (nova_alloc_blocks_in_free_list E fl btype k nbr from_tail).new_blocknr =
        (if from_tail = 0 then curr.2.range_low
          else curr.2.range_high + 1 - min k (node_blocks curr)) ∧
      (∀ b, blk_in (nova_alloc_blocks_in_free_list E fl btype k nbr
          from_tail).fl.block_free_tree.inorder b ↔
        (blk_in fl.block_free_tree.inorder b ∧
          ¬ ((nova_alloc_blocks_in_free_list E fl btype k nbr from_tail).new_blocknr ≤ b ∧
            b < (nova_alloc_blocks_in_free_list E fl btype k nbr from_tail).new_blocknr +
              min k (node_blocks curr))))) := by
  constructor
  · intro hb curr hf
    have hcongr : ∀ p ∈ search_order fl.block_free_tree from_tail,
        alloc_takes E btype k p = decide (k ≤ node_blocks p) := by
      intro p hp
      have hp2 := mem_search_order hp
      obtain ⟨h1, _, _⟩ := curr_blocks_eq E fl hw hcnt hnfb p hp2
      have h2 := hw.csum p hp2
      unfold alloc_takes
      rw [h2, h1]
      by_cases h3 : k ≤ node_blocks p
      · simp [h3]
      · simp [h3, hb]
        omega
    have hf2 := hf
    rw [← find?_congr_mem _ hcongr] at hf2
    have hge : k ≤ node_blocks curr := by
      have := List.find?_some hf
      simpa using this
    have hmin : min k (node_blocks curr) = k := Nat.min_eq_left hge
    obtain ⟨h1, h2, _, _, h5, _⟩ :=
      alloc_served E fl btype k nbr from_tail hw hfirst hlast hcnt hnfb hk hk2 curr hf2
    rw [hmin] at h1 h2 h5
    exact ⟨h1, h2, h5⟩
  · intro hb curr hh
    have hf : (search_order fl.block_free_tree from_tail).find? (alloc_takes E btype k) =
        some curr := by
      cases hs : search_order fl.block_free_tree from_tail with
      | nil => rw [hs] at hh; cases hh
      | cons x xs =>
        rw [hs] at hh
        simp only [List.head?_cons, Option.some.injEq] at hh
        subst hh
        have hx : x ∈ search_order fl.block_free_tree from_tail := by rw [hs]; simp
        have h2 := hw.csum x (mem_search_order hx)
        rw [List.find?_cons]
        have : alloc_takes E btype k x = true := by
          unfold alloc_takes
          rw [h2, hb]
          simp [NOVA_BLOCK_TYPE_4K]
        rw [this]
    obtain ⟨h1, h2, _, _, h5, _⟩ :=
      alloc_served E fl btype k nbr from_tail hw hfirst hlast hcnt hnfb hk hk2 curr hf
    exact ⟨h1, h2, h5⟩

/-- C10 (amended) at a concrete input: with `[13, 14]` and `[43, 99]` free, a request for 5
blocks of the 2M type searching from `first_node` is served from `[43, 99]`. -/
theorem C10_first_fit_amended_witness :
    (nova_alloc_blocks_in_free_list (unbalanced_env 0) (nova_get_free_list example_sbi4 0)
      NOVA_BLOCK_TYPE_2M 5 0 0).ret = 5 ∧
    (nova_alloc_blocks_in_free_list (unbalanced_env 0) (nova_get_free_list example_sbi4 0)
      NOVA_BLOCK_TYPE_2M 5 0 0).new_blocknr = 43 :=
  have h := (C10_first_fit_amended (unbalanced_env 0) (nova_get_free_list example_sbi4 0)
    NOVA_BLOCK_TYPE_2M 5 0 0
    ⟨⟨by unfold ext_lt; decide, by decide⟩, by decide, by decide, by decide⟩
    (by decide) (by decide) (by decide) (by decide) (by decide) (by decide)).1 (by decide)
    (1000, ⟨43, 99, 0⟩) (by decide)
  ⟨h.1, h.2.1⟩

/-- C7 (counterexample): when the only free extent is `[0, 4]`, a request for 8 blocks of the
4K type takes the extent out of the index and sets `num_free_blocks` to 0, yet
`nova_new_blocks` returns `-ENOSPC` because the run starts at block 0.  When the only free
extent is `[1, 2^31]`, of `2^31` blocks, a request for `2^31 + 1` blocks returns the
negative value `-2^31`. -/
theorem C7_allocation_exactness_counterexample :
    (nova_new_blocks (unbalanced_env 0) (single_extent_sbi 0 4) 0 8 NOVA_BLOCK_TYPE_4K DATA 0 0
      0).ret = -ENOSPC ∧
    index_of (nova_new_blocks (unbalanced_env 0) (single_extent_sbi 0 4) 0 8 NOVA_BLOCK_TYPE_4K
      DATA 0 0 0).sbi 0 = [] ∧
    (nova_get_free_list (nova_new_blocks (unbalanced_env 0) (single_extent_sbi 0 4) 0 8
      NOVA_BLOCK_TYPE_4K DATA 0 0 0).sbi 0).num_free_blocks = 0 ∧
    (nova_new_blocks (unbalanced_env 0) (single_extent_sbi 1 2147483648) 0 2147483649
      NOVA_BLOCK_TYPE_4K DATA 0 0 0).ret = -2147483648 := by
  decide

theorem total_blocks_eq_zero {l : List node_ptr} (h : total_blocks l = 0) : l = [] := by
  cases l with
  | nil => rfl
  | cons x xs =>
    rw [total_blocks_cons] at h
    unfold node_blocks at h
    omega

/-- C7 (amended): for the 4K type, if the serving list holds the single extent `p` with
consistent cached pointers and counter, `p` does not start at block 0 and has `m` blocks
with `m < num` and `m < 2^31`, then `nova_new_blocks` returns `m`, the first block is
`p.range_low`, and the list is left with no extent and `num_free_blocks = 0`. -/
theorem C7_allocation_exactness_amended (E : kernel_env) (sbi : nova_sb_info)
    (blocknr num : Nat) (atype cpuid from_tail pid : Int) (p : node_ptr)
    (hlen : sbi.free_lists.length = sbi.cpus.toNat) (hcpu0 : 0 ≤ cpuid) (hpid0 : 0 ≤ pid)
    (hnum : num < 4294967296)
    (hidx : index_of sbi (serving_cpu E sbi num NOVA_BLOCK_TYPE_4K cpuid pid) = [p])
    (hfirst : (nova_get_free_list sbi
      (serving_cpu E sbi num NOVA_BLOCK_TYPE_4K cpuid pid)).first_node = some p.1)
    (hlast : (nova_get_free_list sbi
      (serving_cpu E sbi num NOVA_BLOCK_TYPE_4K cpuid pid)).last_node = some p.1)
    (hcnt : (nova_get_free_list sbi
      (serving_cpu E sbi num NOVA_BLOCK_TYPE_4K cpuid pid)).num_free_blocks = node_blocks p)
    (hok : nova_range_node_checksum_ok E p.2 = true)
    (hle : p.2.range_low ≤ p.2.range_high) (hhi : p.2.range_high < 18446744073709551616)
    (hlo : 1 ≤ p.2.range_low) (hm : node_blocks p < num) (hm31 : node_blocks p < 2147483648) :
    (nova_new_blocks E sbi blocknr num NOVA_BLOCK_TYPE_4K atype cpuid from_tail pid).ret =
      (node_blocks p : Int) ∧
    (nova_new_blocks E sbi blocknr num NOVA_BLOCK_TYPE_4K atype cpuid from_tail pid).blocknr =
      p.2.range_low ∧
    index_of (nova_new_blocks E sbi blocknr num NOVA_BLOCK_TYPE_4K atype cpuid from_tail
      pid).sbi (serving_cpu E sbi num NOVA_BLOCK_TYPE_4K cpuid pid) = [] ∧
    (nova_get_free_list (nova_new_blocks E sbi blocknr num NOVA_BLOCK_TYPE_4K atype cpuid
      from_tail pid).sbi (serving_cpu E sbi num NOVA_BLOCK_TYPE_4K cpuid pid)).num_free_blocks =
      0 := by
  have hm1 : 1 ≤ node_blocks p := by unfold node_blocks; omega
  have hnum0 : 1 ≤ num := by omega
  have hnc : new_count num NOVA_BLOCK_TYPE_4K = num := by
    unfold new_count
    have : nova_get_numblocks NOVA_BLOCK_TYPE_4K = 1 := by decide
    rw [this, Nat.mul_one]
  obtain ⟨fl0, hc0, hfl0, heq⟩ := new_blocks_eq E sbi blocknr num NOVA_BLOCK_TYPE_4K atype cpuid
    from_tail pid hlen hcpu0 hpid0 hnum0 hnum
  have hfl : fl0 = nova_get_free_list sbi (serving_cpu E sbi num NOVA_BLOCK_TYPE_4K cpuid pid) := by
    rcases hfl0 with h | ⟨h, _⟩
    · exact h
    · rw [hfirst] at h; cases h
  unfold index_of at hidx
  have hw : wf_nodes E fl0.block_free_tree.inorder := by
    rw [hfl, hidx]
    refine ⟨⟨List.pairwise_singleton _ _, ?_⟩, ?_, ?_, ?_⟩
    · intro q hq; rw [List.mem_singleton.1 hq]; exact hle
    · simp
    · intro q hq; rw [List.mem_singleton.1 hq]; exact hok
    · intro q hq; rw [List.mem_singleton.1 hq]; exact hhi
  have htot : total_blocks fl0.block_free_tree.inorder = node_blocks p := by
    rw [hfl, hidx]; simp [total_blocks]
  have hf : (search_order fl0.block_free_tree from_tail).find?
      (alloc_takes E NOVA_BLOCK_TYPE_4K (new_count num NOVA_BLOCK_TYPE_4K)) = some p := by
    have hs : search_order fl0.block_free_tree from_tail = [p] := by
      unfold search_order
      rw [hfl, hidx]
      split_ifs <;> rfl
    rw [hs, List.find?_cons]
    have : alloc_takes E NOVA_BLOCK_TYPE_4K (new_count num NOVA_BLOCK_TYPE_4K) p = true := by
      unfold alloc_takes
      rw [hok]
      simp [NOVA_BLOCK_TYPE_4K]
    rw [this]
  obtain ⟨h1, h2, _, _, _, h6, h7, _⟩ := alloc_served E fl0 NOVA_BLOCK_TYPE_4K
    (new_count num NOVA_BLOCK_TYPE_4K) 0 from_tail hw
    (by rw [hfl, hidx, hfirst]; rfl) (by rw [hfl, hidx, hlast]; rfl)
    (by rw [htot, hfl]; exact hcnt) (by rw [hfl, hcnt]; omega)
    (by rw [hnc]; exact hnum0) (by rw [hnc]; omega) p hf
  have hmin : min (new_count num NOVA_BLOCK_TYPE_4K) (node_blocks p) = node_blocks p := by
    rw [hnc]; exact Nat.min_eq_right (by omega)
  rw [hmin] at h1 h2 h6 h7
  have h2b : (nova_alloc_blocks_in_free_list E fl0 NOVA_BLOCK_TYPE_4K
      (new_count num NOVA_BLOCK_TYPE_4K) 0 from_tail).new_blocknr = p.2.range_low := by
    rw [h2]
    split_ifs
    · rfl
    · unfold node_blocks; omega
  have hcond : ¬ ((nova_alloc_blocks_in_free_list E fl0 NOVA_BLOCK_TYPE_4K
      (new_count num NOVA_BLOCK_TYPE_4K) 0 from_tail).ret ≤ 0 ∨
      (nova_alloc_blocks_in_free_list E fl0 NOVA_BLOCK_TYPE_4K
        (new_count num NOVA_BLOCK_TYPE_4K) 0 from_tail).new_blocknr = 0) := by
    rw [h1, h2b]
    omega
  rw [heq, if_neg hcond]
  simp only []
  have hn1 : nova_get_numblocks NOVA_BLOCK_TYPE_4K = 1 := by decide
  refine ⟨?_, h2b, ?_, ?_⟩
  · rw [h1, Int.toNat_ofNat, hn1, Nat.div_one]
    exact int_of_ulong_small hm31
  · unfold index_of
    rw [get_set_free_list _ _ _ hc0 hlen, (new_blocks_stats_fields _ _).1]
    apply total_blocks_eq_zero
    rw [htot] at h7
    omega
  · rw [get_set_free_list _ _ _ hc0 hlen, (new_blocks_stats_fields _ _).2.2.2.2.1]
    rw [← hfl] at hcnt
    omega

/-- C7 (amended) at a concrete input: the only free extent is `[13, 99]`, of 87 blocks, and
100 blocks are requested. -/
theorem C7_allocation_exactness_amended_witness :
    (nova_new_blocks (unbalanced_env 0) example_sbi1 0 100 NOVA_BLOCK_TYPE_4K DATA 0 0 0).ret =
      87 ∧
    (nova_new_blocks (unbalanced_env 0) example_sbi1 0 100 NOVA_BLOCK_TYPE_4K DATA 0 0
      0).blocknr = 13 :=
  have h := C7_allocation_exactness_amended (unbalanced_env 0) example_sbi1 0 100 DATA 0 0 0
    (1000, ⟨13, 99, 0⟩) (by decide) (by decide) (by decide) (by decide) (by decide) (by decide)
    (by decide) (by decide) (by decide) (by decide) (by decide) (by decide) (by decide)
    (by decide)
  ⟨h.1, h.2.1⟩

theorem ul_sub_lt (a b : Nat) : ul_sub a b < 18446744073709551616 := by
  unfold ul_sub
  omega

theorem init_free_list_fields (E : kernel_env) (sbi : nova_sb_info) (fl : free_list)
    (i : Int) :
    (nova_init_free_list E sbi fl i).block_free_tree = fl.block_free_tree ∧
    (nova_init_free_list E sbi fl i).block_end < 18446744073709551616 := by
  unfold nova_init_free_list nova_data_parity_init_free_list nova_data_csum_init_free_list
  simp only []
  split_ifs <;> exact ⟨rfl, ul_sub_lt _ _⟩

theorem set_free_list_shared (sbi : nova_sb_info) (cpu : Int) (fl : free_list)
    (h : cpu < sbi.cpus) :
    (nova_set_free_list sbi cpu fl).shared_free_list = sbi.shared_free_list := by
  unfold nova_set_free_list
  simp [h]

/-- The loop of `nova_init_blockmap` without recovery, started on empty trees: every free
list it visits ends up with the single extent `[block_start, block_end]`. -/
theorem init_loop_spec (E : kernel_env) (blknode : Int → Nat) :
    ∀ (n : Nat) (i : Int) (s : nova_sb_info), 0 ≤ i →
      s.free_lists.length = s.cpus.toNat → i + (n : Int) = s.cpus →
      (∀ j : Int, i ≤ j → j < s.cpus → (nova_get_free_list s j).block_free_tree = .nil) →
      (nova_init_blockmap_loop E 0 blknode n i s).cpus = s.cpus ∧
      (nova_init_blockmap_loop E 0 blknode n i s).per_list_blocks = s.per_list_blocks ∧
      (nova_init_blockmap_loop E 0 blknode n i s).free_lists.length = s.free_lists.length ∧
      (nova_init_blockmap_loop E 0 blknode n i s).shared_free_list = s.shared_free_list ∧
      (∀ j : Int, i ≤ j → j < s.cpus →
        index_of (nova_init_blockmap_loop E 0 blknode n i s) j =
          [(blknode j, nova_update_range_node_checksum E
            ⟨(nova_get_free_list (nova_init_blockmap_loop E 0 blknode n i s) j).block_start,
             (nova_get_free_list (nova_init_blockmap_loop E 0 blknode n i s) j).block_end, 0⟩)] ∧
        (nova_get_free_list (nova_init_blockmap_loop E 0 blknode n i s) j).block_end <
          18446744073709551616) ∧
      (∀ j : Int, 0 ≤ j → j < i →
        nova_get_free_list (nova_init_blockmap_loop E 0 blknode n i s) j =
          nova_get_free_list s j) := by
  intro n
  induction n with
  | zero =>
    intro i s h0 hlen hin htree
    have e : nova_init_blockmap_loop E 0 blknode 0 i s = s := rfl
    rw [e]
    refine ⟨rfl, rfl, rfl, rfl, ?_, fun _ _ _ => rfl⟩
    intro j h1 h2
    simp only [Nat.cast_zero, add_zero] at hin
    omega
  | succ n ih =>
    intro i s h0 hlen hin htree
    have hi : i < s.cpus := by push_cast at hin; omega
    have hnil := htree i (le_refl i) hi
    obtain ⟨hf1, hf2⟩ := init_free_list_fields E s (nova_get_free_list s i) i
    rw [hnil] at hf1
    simp only [nova_init_blockmap_loop, if_true, hf1, nova_insert_blocktree,
      nova_insert_range_node, nova_insert_range_node_link, ne_eq, not_true_eq_false, if_false]
    generalize hfl : ({ nova_init_free_list E s (nova_get_free_list s i) i with
      num_free_blocks := ul (ul_sub (nova_init_free_list E s (nova_get_free_list s i) i).block_end
        (nova_init_free_list E s (nova_get_free_list s i) i).block_start + 1),
      block_free_tree := E.rb_insert_color (blknode i)
        (.node .nil (blknode i) (nova_update_range_node_checksum E
          { range_low := (nova_init_free_list E s (nova_get_free_list s i) i).block_start,
            range_high := (nova_init_free_list E s (nova_get_free_list s i) i).block_end,
            csum := 0 }) .nil),
      first_node := some (blknode i), last_node := some (blknode i),
      num_blocknode := 1 } : free_list) = flnew
    have hfields := set_free_list_fields s i flnew
    have hsh := set_free_list_shared s i flnew hi
    have hlen2 : (nova_set_free_list s i flnew).free_lists.length =
        (nova_set_free_list s i flnew).cpus.toNat := by
      rw [hfields.2.2, hfields.1]; exact hlen
    have hother : ∀ j : Int, 0 ≤ j → j ≠ i →
        nova_get_free_list (nova_set_free_list s i flnew) j = nova_get_free_list s j :=
      fun j hj hne => get_set_free_list_ne s i j flnew h0 hj hne (Or.inr hi) hlen
    obtain ⟨h1, h2, h3, h4, h5, h6⟩ := ih (i + 1) (nova_set_free_list s i flnew) (by omega) hlen2
      (by rw [hfields.1]; push_cast at hin; omega)
      (by
        intro j hj1 hj2
        rw [hother j (by omega) (by omega)]
        rw [hfields.1] at hj2
        exact htree j (by omega) hj2)
    rw [hfields.1] at h1 h5
    refine ⟨h1, by rw [h2, hfields.2.1], by rw [h3, hfields.2.2], by rw [h4, hsh], ?_, ?_⟩
    · intro j hj1 hj2
      by_cases hji : j = i
      · subst hji
        have hg := h6 j h0 (by omega)
        rw [get_set_free_list s j flnew h0 hlen] at hg
        unfold index_of
        rw [hg, ← hfl]
        simp only [E.rb_insert_color_inorder, rb_root.inorder, List.nil_append]
        exact ⟨trivial, hf2⟩
      · exact h5 j (by omega) hj2
    · intro j hj1 hj2
      rw [h6 j hj1 (by omega), hother j hj1 (by omega)]

/-- A successful `nova_new_blocks` seen from the serving list: the run lay in one of its
extents, exactly the blocks of the run leave its index, which stays well formed, and
nothing else in the super block changes. -/
theorem new_blocks_run (E : kernel_env) (sbi : nova_sb_info) (blocknr num btype : Nat)
    (atype cpuid from_tail pid : Int)
    (hlen : sbi.free_lists.length = sbi.cpus.toNat) (hcpu0 : 0 ≤ cpuid) (hpid0 : 0 ≤ pid)
    (hnum : num < 4294967296)
    (hw : wf_nodes E (index_of sbi (serving_cpu E sbi num btype cpuid pid)))
    (hret : 0 < (nova_new_blocks E sbi blocknr num btype atype cpuid from_tail pid).ret) :
    0 ≤ serving_cpu E sbi num btype cpuid pid ∧
    (∃ p ∈ index_of sbi (serving_cpu E sbi num btype cpuid pid),
      p.2.range_low ≤ (nova_new_blocks E sbi blocknr num btype atype cpuid from_tail pid).blocknr ∧
      (nova_new_blocks E sbi blocknr num btype atype cpuid from_tail pid).blocknr +
        (nova_new_blocks E sbi blocknr num btype atype cpuid from_tail pid).ret.toNat *
          nova_get_numblocks btype ≤ p.2.range_high + 1) ∧
    wf_nodes E (index_of (nova_new_blocks E sbi blocknr num btype atype cpuid from_tail pid).sbi
      (serving_cpu E sbi num btype cpuid pid)) ∧
    (∀ b, blk_in (index_of (nova_new_blocks E sbi blocknr num btype atype cpuid from_tail pid).sbi
        (serving_cpu E sbi num btype cpuid pid)) b ↔
      (blk_in (index_of sbi (serving_cpu E sbi num btype cpuid pid)) b ∧
        ¬ ((nova_new_blocks E sbi blocknr num btype atype cpuid from_tail pid).blocknr ≤ b ∧
          b < (nova_new_blocks E sbi blocknr num btype atype cpuid from_tail pid).blocknr +
            (nova_new_blocks E sbi blocknr num btype atype cpuid from_tail pid).ret.toNat *
              nova_get_numblocks btype))) ∧
    (nova_get_free_list (nova_new_blocks E sbi blocknr num btype atype cpuid from_tail pid).sbi
        (serving_cpu E sbi num btype cpuid pid)).block_start =
      (nova_get_free_list sbi (serving_cpu E sbi num btype cpuid pid)).block_start ∧
    (nova_get_free_list (nova_new_blocks E sbi blocknr num btype atype cpuid from_tail pid).sbi
        (serving_cpu E sbi num btype cpuid pid)).block_end =
      (nova_get_free_list sbi (serving_cpu E sbi num btype cpuid pid)).block_end ∧
    ∃ fl : free_list,
      (nova_new_blocks E sbi blocknr num btype atype cpuid from_tail pid).sbi =
        nova_set_free_list sbi (serving_cpu E sbi num btype cpuid pid) fl := by
  have hnum0 : 1 ≤ num := by
    by_contra h
    have : num = 0 := by omega
    subst this
    rw [new_blocks_zero] at hret
    have hneg : ¬ (0 : Int) < -EINVAL := by decide
    exact absurd hret hneg
  obtain ⟨hnb1, hnb2⟩ := @new_count_bounds num btype hnum0 hnum
  obtain ⟨fl0, curr, d, r, t, hc0, hfl0, hf, hl, ht, hc1, hc2, hf0, heq⟩ :=
    new_blocks_pos E sbi blocknr num btype atype cpuid from_tail pid hlen hcpu0 hpid0 hnum0
      hnum hw hret
  have htakes : alloc_takes E btype (new_count num btype) curr = true := by
    have := List.find?_some hf
    exact this
  rw [heq] at hret ⊢
  simp only [] at hret ⊢
  obtain ⟨hcnt, _, _⟩ := new_blocks_ret_count from_tail hnum htakes hret
  rw [hcnt]
  have hwl : wf_nodes E (d ++ curr :: r) := by rw [← hl]; exact hw
  have hk1 : alloc_kind_of from_tail (new_count num btype) curr = .whole →
      1 ≤ curr_blocks curr := by
    intro hk; rw [hk] at hc1; exact hc1
  have hk2 : alloc_kind_of from_tail (new_count num btype) curr ≠ .whole →
      new_count num btype < curr_blocks curr := by
    intro hk
    unfold alloc_kind_of at hk
    by_contra hge
    exact hk (by simp [not_lt.1 hge])
  obtain ⟨hp0, hp1, hp2, hp3, _, _⟩ := alloc_mid_props E d r curr (new_count num btype)
    (alloc_kind_of from_tail (new_count num btype) curr) hwl hnb1 hk1 hk2
  have hget : nova_get_free_list (nova_set_free_list sbi (serving_cpu E sbi num btype cpuid pid)
      (new_blocks_stats atype
        ⟨(alloc_count (new_count num btype) curr
            (alloc_kind_of from_tail (new_count num btype) curr) : Nat),
          alloc_result_fl fl0 t from_tail (new_count num btype) curr d r,
          alloc_blocknr (new_count num btype) curr
            (alloc_kind_of from_tail (new_count num btype) curr)⟩))
      (serving_cpu E sbi num btype cpuid pid) = _ := get_set_free_list _ _ _ hc0 hlen
  have hidx : index_of (nova_set_free_list sbi (serving_cpu E sbi num btype cpuid pid)
      (new_blocks_stats atype
        ⟨(alloc_count (new_count num btype) curr
            (alloc_kind_of from_tail (new_count num btype) curr) : Nat),
          alloc_result_fl fl0 t from_tail (new_count num btype) curr d r,
          alloc_blocknr (new_count num btype) curr
            (alloc_kind_of from_tail (new_count num btype) curr)⟩))
      (serving_cpu E sbi num btype cpuid pid) =
      d ++ alloc_mid E (new_count num btype) curr
        (alloc_kind_of from_tail (new_count num btype) curr) ++ r := by
    unfold index_of
    rw [hget, (new_blocks_stats_fields _ _).1]
    simp only [alloc_result_fl]
    exact ht
  have hbs : fl0.block_start =
      (nova_get_free_list sbi (serving_cpu E sbi num btype cpuid pid)).block_start ∧
      fl0.block_end =
      (nova_get_free_list sbi (serving_cpu E sbi num btype cpuid pid)).block_end := by
    rcases hfl0 with h | ⟨_, h⟩ <;> rw [h] <;> exact ⟨rfl, rfl⟩
  refine ⟨hc0, ⟨curr, by rw [hl]; simp, hp1, hp2⟩, ?_, ?_, ?_, ?_, ⟨_, rfl⟩⟩
  · rw [hidx]; exact hp0
  · intro b
    rw [hidx, hl]
    exact hp3 b
  · rw [hget, (new_blocks_stats_fields _ _).2.2.2.2.2.1]
    simp only [alloc_result_fl]
    exact hbs.1
  · rw [hget, (new_blocks_stats_fields _ _).2.2.2.2.2.2]
    simp only [alloc_result_fl]
    exact hbs.2

theorem wf_nodes_nil (E : kernel_env) : wf_nodes E [] := by
  refine ⟨⟨List.Pairwise.nil, ?_⟩, List.nodup_nil, ?_, ?_⟩ <;> intro p hp <;> cases hp

theorem part_inv_alloc (E : kernel_env) (s : nova_sb_info) (A : Int → Nat → Prop)
    (blocknr num btype : Nat) (atype cpuid from_tail pid : Int)
    (hinv : part_inv E s A) (hcpu0 : 0 ≤ cpuid) (hpid0 : 0 ≤ pid) (hnum : num < 4294967296)
    (hret : 0 < (nova_new_blocks E s blocknr num btype atype cpuid from_tail pid).ret) :
    (nova_new_blocks E s blocknr num btype atype cpuid from_tail pid).sbi.cpus = s.cpus ∧
    part_inv E (nova_new_blocks E s blocknr num btype atype cpuid from_tail pid).sbi
      (fun i b => A i b ∨ (i = serving_cpu E s num btype cpuid pid ∧
        (nova_new_blocks E s blocknr num btype atype cpuid from_tail pid).blocknr ≤ b ∧
        b < (nova_new_blocks E s blocknr num btype atype cpuid from_tail pid).blocknr +
          (nova_new_blocks E s blocknr num btype atype cpuid from_tail pid).ret.toNat *
            nova_get_numblocks btype)) := by
  have hsh : ∀ i : Int, ¬ i < s.cpus → index_of s i = [] := by
    intro i hi
    unfold index_of nova_get_free_list
    rw [if_neg hi]
    exact hinv.shared
  have hw : wf_nodes E (index_of s (serving_cpu E s num btype cpuid pid)) := by
    by_cases h : serving_cpu E s num btype cpuid pid < s.cpus
    · by_cases h0 : 0 ≤ serving_cpu E s num btype cpuid pid
      · exact (hinv.parts _ h0 h).1
      · have hnum0 : 1 ≤ num := by
          by_contra h
          have : num = 0 := by omega
          subst this
          rw [new_blocks_zero] at hret
          have hneg : ¬ (0 : Int) < -EINVAL := by decide
          exact absurd hret hneg
        obtain ⟨_, hc0, _⟩ := new_blocks_eq E s blocknr num btype atype cpuid from_tail pid
          hinv.len hcpu0 hpid0 hnum0 hnum
        exact absurd hc0 h0
    · rw [hsh _ h]; exact wf_nodes_nil E
  obtain ⟨hc0, ⟨p, hp, hp1, hp2⟩, hw2, hblk, hbs, hbe, fl, hset⟩ :=
    new_blocks_run E s blocknr num btype atype cpuid from_tail pid hinv.len hcpu0 hpid0 hnum
      hw hret
  have hsc : serving_cpu E s num btype cpuid pid < s.cpus := by
    by_contra h
    rw [hsh _ h] at hp
    cases hp
  have hfields := set_free_list_fields s (serving_cpu E s num btype cpuid pid) fl
  have hplh := hw.sorted.2 p hp
  have hrunfree : ∀ b,
      (nova_new_blocks E s blocknr num btype atype cpuid from_tail pid).blocknr ≤ b →
      b < (nova_new_blocks E s blocknr num btype atype cpuid from_tail pid).blocknr +
        (nova_new_blocks E s blocknr num btype atype cpuid from_tail pid).ret.toNat *
          nova_get_numblocks btype →
      blk_in (index_of s (serving_cpu E s num btype cpuid pid)) b :=
    fun b h1 h2 => ⟨p, hp, by omega, by omega⟩
  obtain ⟨_, hpe, hpc, hpd⟩ := hinv.parts _ hc0 hsc
  refine ⟨by rw [hset]; exact hfields.1, ?_, ?_, ?_, ?_, ?_, ?_⟩
  · rw [hset, hfields.2.2, hfields.1]; exact hinv.len
  · rw [hset, hfields.1]; exact hinv.cpus_lt
  · rw [hset, hfields.2.1]; exact hinv.plb
  · rw [hset, set_free_list_shared _ _ _ hsc]; exact hinv.shared
  · intro i b hA
    rw [hset, hfields.1]
    rcases hA with hA | ⟨e, _⟩
    · exact hinv.owner i b hA
    · rw [e]; exact ⟨hc0, hsc⟩
  · intro i hi0 hi
    have hi2 : i < s.cpus := by rw [hset, hfields.1] at hi; exact hi
    by_cases e : i = serving_cpu E s num btype cpuid pid
    · subst e
      refine ⟨hw2, by rw [hbe]; exact hpe, ?_, ?_⟩
      · intro b
        rw [hblk, hbs, hbe, ← hpc b]
        constructor
        · rintro (⟨h, _⟩ | h | ⟨_, h1, h2⟩)
          · exact Or.inl h
          · exact Or.inr h
          · exact Or.inl (hrunfree b h1 h2)
        · rintro (h | h)
          · by_cases hr : (nova_new_blocks E s blocknr num btype atype cpuid from_tail
                pid).blocknr ≤ b ∧
                b < (nova_new_blocks E s blocknr num btype atype cpuid from_tail pid).blocknr +
                  (nova_new_blocks E s blocknr num btype atype cpuid from_tail pid).ret.toNat *
                    nova_get_numblocks btype
            · exact Or.inr (Or.inr ⟨rfl, hr⟩)
            · exact Or.inl ⟨h, hr⟩
          · exact Or.inr (Or.inl h)
      · intro b hb
        rw [hblk] at hb
        rintro (h | ⟨_, h⟩)
        · exact hpd b hb.1 h
        · exact hb.2 h
    · have hg : nova_get_free_list (nova_new_blocks E s blocknr num btype atype cpuid from_tail
          pid).sbi i = nova_get_free_list s i := by
        rw [hset]
        exact get_set_free_list_ne _ _ _ _ hc0 hi0 e (Or.inl hi2) hinv.len
      obtain ⟨q1, q2, q3, q4⟩ := hinv.parts i hi0 hi2
      unfold index_of at q1 q3 q4 ⊢
      rw [hg]
      refine ⟨q1, q2, ?_, ?_⟩
      · intro b
        rw [← q3 b]
        simp only [e, false_and, or_false]
      · intro b hb
        simp only [e, false_and, or_false]
        exact q4 b hb

theorem part_inv_free (E : kernel_env) (s : nova_sb_info) (A : Int → Nat → Prop)
    (c blocknr : Nat) (num : Int) (btype : Nat) (lp : Int)
    (hinv : part_inv E s A) (hnum : 0 < num) (hnum2 : num < 2147483648)
    (hrun : ∀ b, blocknr ≤ b → b < blocknr + free_count btype num → A (free_cpu s blocknr) b)
    (hc : c ∉ (index_of s (free_cpu s blocknr)).map Prod.fst) :
    (nova_free_blocks E s (some c) blocknr num btype lp).1 = 0 ∧
    (nova_free_blocks E s (some c) blocknr num btype lp).2.cpus = s.cpus ∧
    part_inv E (nova_free_blocks E s (some c) blocknr num btype lp).2
      (fun i b => A i b ∧ ¬ (i = free_cpu s blocknr ∧ blocknr ≤ b ∧
        b < blocknr + free_count btype num)) := by
  have hnb := @free_count_pos btype num hnum
  obtain ⟨hfc0, hfc⟩ := hinv.owner _ _ (hrun blocknr (le_refl _) (by omega))
  obtain ⟨hw, hpe, hpc, hpd⟩ := hinv.parts _ hfc0 hfc
  have hlast := ((hpc (blocknr + free_count btype num - 1)).1
    (Or.inr (hrun _ (by omega) (by omega)))).2
  have hcl := hinv.cpus_lt
  have hcpu : blocknr / s.per_list_blocks < 2147483648 := by
    unfold free_cpu at hfc
    omega
  have hfree : ∀ b, blocknr ≤ b → b < blocknr + free_count btype num →
      ¬ blk_in (index_of s (free_cpu s blocknr)) b :=
    fun b h1 h2 hb => hpd b hb (hrun b h1 h2)
  obtain ⟨fl1, hrun2, hget, htree, _, _, _, _, hbs, hbe⟩ := free_blocks_valid E s c blocknr num
    btype lp hinv.len hnum hnum2 hcpu hw (by omega) hfree
  obtain ⟨hp1, hp2, _, _⟩ := free_nodes_props E (index_of s (free_cpu s blocknr)) c blocknr
    (free_count btype num) hw hnb (by omega) hfree
  have hfields := set_free_list_fields s (free_cpu s blocknr) fl1
  have hidx : index_of (nova_free_blocks E s (some c) blocknr num btype lp).2
      (free_cpu s blocknr) =
      (free_nodes E (index_of s (free_cpu s blocknr)) c blocknr (free_count btype num)).2 := by
    unfold index_of at htree ⊢
    rw [hget, htree]
  refine ⟨by rw [hrun2], by rw [hrun2]; exact hfields.1, ?_, ?_, ?_, ?_, ?_, ?_⟩
  · rw [hrun2]; simp only []; rw [hfields.2.2, hfields.1]; exact hinv.len
  · rw [hrun2]; simp only []; rw [hfields.1]; exact hinv.cpus_lt
  · rw [hrun2]; simp only []; rw [hfields.2.1]; exact hinv.plb
  · rw [hrun2]; simp only []; rw [set_free_list_shared _ _ _ hfc]; exact hinv.shared
  · intro i b hA
    rw [hrun2]; simp only []; rw [hfields.1]
    exact hinv.owner i b hA.1
  · intro i hi0 hi
    have hi2 : i < s.cpus := by
      rw [hrun2] at hi; simp only [] at hi; rw [hfields.1] at hi; exact hi
    by_cases e : i = free_cpu s blocknr
    · subst e
      refine ⟨by rw [hidx]; exact hp1 hc, by rw [hget, hbe]; exact hpe, ?_, ?_⟩
      · intro b
        rw [hidx, hp2, hget, hbs, hbe, ← hpc b]
        constructor
        · rintro ((h | ⟨h1, h2⟩) | ⟨h, _⟩)
          · exact Or.inl h
          · exact Or.inr (hrun b h1 h2)
          · exact Or.inr h
        · rintro (h | h)
          · exact Or.inl (Or.inl h)
          · by_cases hr : blocknr ≤ b ∧ b < blocknr + free_count btype num
            · exact Or.inl (Or.inr hr)
            · exact Or.inr ⟨h, fun hh => hr hh.2⟩
      · intro b hb
        rw [hidx, hp2] at hb
        rintro ⟨hA, hn⟩
        rcases hb with hb | hb
        · exact hpd b hb hA
        · exact hn ⟨rfl, hb⟩
    · have hg : nova_get_free_list (nova_free_blocks E s (some c) blocknr num btype lp).2 i =
          nova_get_free_list s i := by
        rw [hrun2]
        exact get_set_free_list_ne _ _ _ _ hfc0 hi0 e (Or.inl hi2) hinv.len
      obtain ⟨q1, q2, q3, q4⟩ := hinv.parts i hi0 hi2
      unfold index_of at q1 q3 q4 ⊢
      rw [hg]
      refine ⟨q1, q2, ?_, ?_⟩
      · intro b
        rw [← q3 b]
        simp only [e, false_and, not_false_eq_true, and_true]
      · intro b hb
        simp only [e, false_and, not_false_eq_true, and_true]
        exact q4 b hb

theorem init_blockmap_eq (E : kernel_env) (sbi : nova_sb_info) (blknode : Int → Nat) :
    nova_init_blockmap E sbi 0 blknode =
      nova_init_blockmap_loop E 0 blknode sbi.cpus.toNat 0
        { sbi with per_list_blocks := sbi.num_blocks / ulong_of_int sbi.cpus } := rfl

theorem init_blockmap_inv (E : kernel_env) (base : nova_sb_info) (blknode : Int → Nat)
    (hcpus : base.cpus < 2147483648)
    (hplb : 1 ≤ (nova_init_blockmap E (nova_alloc_block_free_lists base) 0
      blknode).per_list_blocks)
    (hshared : base.shared_free_list.block_free_tree = .nil)
    (hgeom : ∀ i : Int, 0 ≤ i → i < base.cpus →
      (nova_get_free_list (nova_init_blockmap E (nova_alloc_block_free_lists base) 0 blknode)
        i).block_start ≤
      (nova_get_free_list (nova_init_blockmap E (nova_alloc_block_free_lists base) 0 blknode)
        i).block_end) :
    (nova_init_blockmap E (nova_alloc_block_free_lists base) 0 blknode).cpus = base.cpus ∧
    part_inv E (nova_init_blockmap E (nova_alloc_block_free_lists base) 0 blknode)
      (fun _ _ => False) := by
  rw [init_blockmap_eq] at hplb hgeom ⊢
  have hn : (nova_alloc_block_free_lists base).cpus.toNat = base.cpus.toNat := rfl
  rw [hn] at hplb hgeom ⊢
  generalize hs0 : ({ nova_alloc_block_free_lists base with
    per_list_blocks := (nova_alloc_block_free_lists base).num_blocks /
      ulong_of_int (nova_alloc_block_free_lists base).cpus } : nova_sb_info) = s0
    at hplb hgeom ⊢
  have hc0 : s0.cpus = base.cpus := by rw [← hs0]; rfl
  have hsh0 : s0.shared_free_list = base.shared_free_list := by rw [← hs0]; rfl
  have hfl0 : s0.free_lists =
      (List.range base.cpus.toNat).map (fun (i : Nat) => free_list.zero i) := by
    rw [← hs0]; rfl
  have hlen0 : s0.free_lists.length = s0.cpus.toNat := by
    rw [hfl0, hc0]; simp
  have hshn : s0.shared_free_list.block_free_tree.inorder = [] := by
    rw [hsh0, hshared]; rfl
  by_cases hneg : base.cpus ≤ 0
  · have hz : base.cpus.toNat = 0 := Int.toNat_eq_zero.2 hneg
    have e : ∀ s : nova_sb_info, nova_init_blockmap_loop E 0 blknode 0 0 s = s := fun _ => rfl
    rw [hz, e] at hplb ⊢
    refine ⟨hc0, ⟨hlen0, by rw [hc0]; exact hcpus, hplb, hshn, fun _ _ h => h.elim, ?_⟩⟩
    intro i h0 h1
    rw [hc0] at h1
    omega
  · have hpos : 0 ≤ base.cpus := by omega
    obtain ⟨h1, h2, h3, h4, h5, _⟩ := init_loop_spec E blknode base.cpus.toNat 0 s0
      (le_refl 0) hlen0 (by rw [hc0, zero_add]; exact Int.toNat_of_nonneg hpos)
      (by
        intro j hj0 hj
        have hj2 : j < base.cpus := by rw [hc0] at hj; exact hj
        have hjn : j.toNat < base.cpus.toNat := by omega
        unfold nova_get_free_list
        rw [if_pos hj, hfl0]
        simp only [List.getD_eq_getElem?_getD, List.getElem?_map, List.getElem?_range hjn,
          Option.map_some', Option.getD_some]
        rfl)
    refine ⟨by rw [h1, hc0], ⟨by rw [h3, h1]; exact hlen0, by rw [h1, hc0]; exact hcpus, hplb,
      by rw [h4]; exact hshn, fun _ _ h => h.elim, ?_⟩⟩
    intro i hi0 hi
    rw [h1] at hi
    obtain ⟨hidx, hend⟩ := h5 i hi0 hi
    have hg := hgeom i hi0 (by rw [hc0] at hi; exact hi)
    rw [hidx]
    refine ⟨⟨⟨List.pairwise_singleton _ _, ?_⟩, by simp, ?_, ?_⟩, hend, ?_, fun _ _ h => h⟩
    · intro q hq
      rw [List.mem_singleton.1 hq]
      simp only [update_checksum_low, update_checksum_high]
      exact hg
    · intro q hq
      rw [List.mem_singleton.1 hq]
      exact update_checksum_ok E _
    · intro q hq
      rw [List.mem_singleton.1 hq]
      simp only [update_checksum_high]
      exact hend
    · intro b
      rw [blk_in_singleton]
      simp only [update_checksum_low, update_checksum_high, or_false]

/-- C1 (counterexample): with 8 blocks, 2 CPUs and 6 reserved blocks, `nova_init_blockmap`
leaves the first partition with `block_start = 7 > block_end = 3`.  A request for one block
is then served from it with block 7, which lies outside `[block_start, block_end]` of that
partition and is at the same time free in the second partition, whose index is
`[5, 7]`. -/
theorem C1_partition_invariant_counterexample :
    (nova_get_free_list degenerate_sbi1 0).block_start = 7 ∧
    (nova_get_free_list degenerate_sbi1 0).block_end = 3 ∧
    (nova_new_blocks (unbalanced_env 0) degenerate_sbi1 0 1 NOVA_BLOCK_TYPE_4K DATA 0 0 0).ret =
      1 ∧
    (nova_new_blocks (unbalanced_env 0) degenerate_sbi1 0 1 NOVA_BLOCK_TYPE_4K DATA 0 0
      0).blocknr = 7 ∧
    serving_cpu (unbalanced_env 0) degenerate_sbi1 1 NOVA_BLOCK_TYPE_4K 0 0 = 0 ∧
    extents (index_of (nova_new_blocks (unbalanced_env 0) degenerate_sbi1 0 1
      NOVA_BLOCK_TYPE_4K DATA 0 0 0).sbi 1) = [(5, 7)] := by
  decide

/-- C1 (amended): let `nova_init_blockmap` with `recovery = 0` run on freshly allocated free
lists with an empty shared list, `cpus` fitting an `int`, `per_list_blocks ≥ 1`, and let it
leave `block_start ≤ block_end` in every partition.  Then in every state reached by
successful `nova_new_blocks` calls and by `nova_free_blocks` calls that release a run
allocated in the partition of the call, for every CPU partition the free extents are
ascending and pairwise disjoint, a block is free or allocated-and-not-yet-freed exactly when
it lies in `[block_start, block_end]`, and no block is both. -/
theorem C1_partition_invariant_amended (E : kernel_env) (base : nova_sb_info)
    (blknode : Int → Nat) (s : nova_sb_info) (A : Int → Nat → Prop)
    (hcpus : base.cpus < 2147483648)
    (hplb : 1 ≤ (nova_init_blockmap E (nova_alloc_block_free_lists base) 0
      blknode).per_list_blocks)
    (hshared : base.shared_free_list.block_free_tree = .nil)
    (hgeom : ∀ i : Int, 0 ≤ i → i < base.cpus →
      (nova_get_free_list (nova_init_blockmap E (nova_alloc_block_free_lists base) 0 blknode)
        i).block_start ≤
      (nova_get_free_list (nova_init_blockmap E (nova_alloc_block_free_lists base) 0 blknode)
        i).block_end)
    (hreach : reachable E (nova_init_blockmap E (nova_alloc_block_free_lists base) 0 blknode)
      s A) :
    ∀ i : Int, 0 ≤ i → i < base.cpus →
      sorted_exts (index_of s i) ∧
      (∀ b, (blk_in (index_of s i) b ∨ A i b) ↔
        ((nova_get_free_list s i).block_start ≤ b ∧ b ≤ (nova_get_free_list s i).block_end)) ∧
      (∀ b, ¬ (blk_in (index_of s i) b ∧ A i b)) := by
  have hmain : s.cpus = base.cpus ∧ part_inv E s A := by
    induction hreach with
    | init => exact init_blockmap_inv E base blknode hcpus hplb hshared hgeom
    | alloc s1 A1 blocknr num btype atype cpuid from_tail pid _ h1 h2 h3 h4 ih =>
      obtain ⟨hc, hinv⟩ := part_inv_alloc E s1 A1 blocknr num btype atype cpuid from_tail pid
        ih.2 h1 h2 h3 h4
      exact ⟨by rw [hc]; exact ih.1, hinv⟩
    | free s1 A1 c blocknr num btype lp _ h1 h2 h3 h4 ih =>
      obtain ⟨_, hc, hinv⟩ := part_inv_free E s1 A1 c blocknr num btype lp ih.2 h1 h2 h3 h4
      exact ⟨by rw [hc]; exact ih.1, hinv⟩
  intro i hi0 hi
  obtain ⟨h1, _, h3, h4⟩ := hmain.2.parts i hi0 (by rw [hmain.1]; exact hi)
  exact ⟨h1.sorted, h3, fun b hb => h4 b hb.1 hb.2⟩

/-- C1 (amended) at a concrete input: one partition of 100 blocks, 30 blocks allocated;
block 20 is allocated and not free, and it lies in `[block_start, block_end]`. -/
theorem C1_partition_invariant_amended_witness :
    sorted_exts (index_of example_sbi2 0) ∧
    ¬ blk_in (index_of example_sbi2 0) 20 ∧
    (nova_get_free_list example_sbi2 0).block_start ≤ 20 ∧
    20 ≤ (nova_get_free_list example_sbi2 0).block_end := by
  have h := C1_partition_invariant_amended (unbalanced_env 0)
    { s_blocksize := 4096, initsize := 409600, num_blocks := 100, reserved_blocks := 1,
      cpus := 1, per_list_blocks := 0, free_lists := [],
      shared_free_list := free_list.zero 0 }
    (fun _ => 1000) example_sbi2 _ (by decide) (by decide) rfl
    (by
      intro i h0 h1
      have e : i = 0 := by
        have : i < 1 := h1
        omega
      subst e
      decide)
    (reachable.alloc _ _ 0 30 NOVA_BLOCK_TYPE_4K DATA 0 0 0 reachable.init (by decide)
      (by decide) (by decide) (by decide)) 0 (le_refl 0) (by decide)
  have hA : (fun (i : Int) (b : Nat) => False ∨
      (i = serving_cpu (unbalanced_env 0) example_sbi1 30 NOVA_BLOCK_TYPE_4K 0 0 ∧
        (nova_new_blocks (unbalanced_env 0) example_sbi1 0 30 NOVA_BLOCK_TYPE_4K DATA 0 0
          0).blocknr ≤ b ∧
        b < (nova_new_blocks (unbalanced_env 0) example_sbi1 0 30 NOVA_BLOCK_TYPE_4K DATA 0 0
          0).blocknr +
          (nova_new_blocks (unbalanced_env 0) example_sbi1 0 30 NOVA_BLOCK_TYPE_4K DATA 0 0
            0).ret.toNat * nova_get_numblocks NOVA_BLOCK_TYPE_4K)) 0 20 :=
    Or.inr (by decide)
  exact ⟨h.1, fun hb => h.2.2 20 ⟨hb, hA⟩, (h.2.1 20).1 (Or.inr hA)⟩

/-- C11: let `curr`, of size `s = curr_blocks curr`, be the extent at which the loop of
`nova_alloc_blocks_in_free_list` stops for a request of `k` blocks on a well-formed index.
If `s ≤ k` the extent leaves the index and the returned first block is its `range_low`.
If `s > k` the extent stays, `num_blocknode` and the number of extents are unchanged; with
`from_tail = 0` the returned block is the old `range_low` and the new `range_low` is the old
one plus `k`, with `from_tail ≠ 0` the returned block is `range_high + 1 - k` and the new
`range_high` is the old one minus `k`. -/
theorem C11_whole_or_partial (E : kernel_env) (fl : free_list) (btype k nbr : Nat)
    (from_tail : Int) (hw : wf_nodes E fl.block_free_tree.inorder) (hk : 1 ≤ k)
    (hearly : ¬ (fl.first_node = none ∨ fl.num_free_blocks = 0)) (curr : node_ptr)
    (hf : (alloc_walk fl.block_free_tree from_tail
        (if from_tail = 0 then fl.first_node else fl.last_node)).find?
        (alloc_takes E btype k) = some curr) :
    ∃ d r : List node_ptr, fl.block_free_tree.inorder = d ++ curr :: r ∧
      (curr_blocks curr ≤ k →
        (nova_alloc_blocks_in_free_list E fl btype k nbr from_tail).fl.block_free_tree.inorder =
          d ++ r ∧
        (nova_alloc_blocks_in_free_list E fl btype k nbr from_tail).new_blocknr =
          curr.2.range_low) ∧
      (k < curr_blocks curr →
        (nova_alloc_blocks_in_free_list E fl btype k nbr from_tail).fl.num_blocknode =
          fl.num_blocknode ∧
        (nova_alloc_blocks_in_free_list E fl btype k nbr
          from_tail).fl.block_free_tree.inorder.length = fl.block_free_tree.inorder.length ∧
        ∃ n : nova_range_node,
          (nova_alloc_blocks_in_free_list E fl btype k nbr from_tail).fl.block_free_tree.inorder =
            d ++ (curr.1, n) :: r ∧
          (from_tail = 0 →
            (nova_alloc_blocks_in_free_list E fl btype k nbr from_tail).new_blocknr =
              curr.2.range_low ∧
            n.range_low = curr.2.range_low + k ∧ n.range_high = curr.2.range_high) ∧
          (from_tail ≠ 0 →
            (nova_alloc_blocks_in_free_list E fl btype k nbr from_tail).new_blocknr =
              curr.2.range_high + 1 - k ∧
            n.range_low = curr.2.range_low ∧ n.range_high = curr.2.range_high - k)) := by
  obtain ⟨d, r, t, hl, ht, heq⟩ :=
    alloc_in_free_list_found E fl btype k nbr from_tail hw hk hearly curr hf
  have htree : (nova_alloc_blocks_in_free_list E fl btype k nbr from_tail).fl.block_free_tree =
      t := by
    rw [heq]; split_ifs <;> simp only [alloc_result_fl]
  have hnbr : (nova_alloc_blocks_in_free_list E fl btype k nbr from_tail).new_blocknr =
      alloc_blocknr k curr (alloc_kind_of from_tail k curr) := by
    rw [heq]; split_ifs <;> simp only [alloc_result_fl]
  have hnode : (nova_alloc_blocks_in_free_list E fl btype k nbr from_tail).fl.num_blocknode =
      if alloc_kind_of from_tail k curr = .whole then ul_sub fl.num_blocknode 1
      else fl.num_blocknode := by
    rw [heq]
    by_cases hc : fl.num_free_blocks < alloc_count k curr (alloc_kind_of from_tail k curr)
    · rw [if_pos hc]; simp only [alloc_result_fl]
    · rw [if_neg hc]; simp only [alloc_result_fl]
  refine ⟨d, r, hl, ?_, ?_⟩
  · intro hs
    have hkind : alloc_kind_of from_tail k curr = .whole := by
      unfold alloc_kind_of; rw [if_pos hs]
    rw [htree, hnbr, ht, hkind]
    simp [alloc_mid, alloc_blocknr]
  · intro hs
    have hnw : ¬ k ≥ curr_blocks curr := by omega
    rw [htree, hnbr, hnode, ht, hl]
    by_cases h0 : from_tail = 0
    · have hkind : alloc_kind_of from_tail k curr = .head := by
        unfold alloc_kind_of; rw [if_neg hnw, if_pos h0]
      rw [hkind]
      refine ⟨by simp, by simp [alloc_mid], _, by simp [alloc_mid]; rfl, ?_, ?_⟩
      · intro _
        simp [alloc_blocknr, update_checksum_low, update_checksum_high]
      · intro h; exact absurd h0 h
    · have hkind : alloc_kind_of from_tail k curr = .tail := by
        unfold alloc_kind_of; rw [if_neg hnw, if_neg h0]
      rw [hkind]
      refine ⟨by simp, by simp [alloc_mid], _, by simp [alloc_mid]; rfl, ?_, ?_⟩
      · intro h; exact absurd h h0
      · intro _
        simp [alloc_blocknr, update_checksum_low, update_checksum_high]

/-- C11 at a concrete input: 30 blocks from the head of the extent `[13, 99]`. -/
theorem C11_whole_or_partial_witness :
    (nova_alloc_blocks_in_free_list (unbalanced_env 0) (nova_get_free_list example_sbi1 0)
      NOVA_BLOCK_TYPE_4K 30 0 0).new_blocknr = 13 ∧
    extents (nova_alloc_blocks_in_free_list (unbalanced_env 0) (nova_get_free_list example_sbi1 0)
      NOVA_BLOCK_TYPE_4K 30 0 0).fl.block_free_tree.inorder = [(43, 99)] := by
  obtain ⟨d, r, hl, _, h2⟩ := C11_whole_or_partial (unbalanced_env 0)
    (nova_get_free_list example_sbi1 0) NOVA_BLOCK_TYPE_4K 30 0 0
    ⟨⟨by unfold ext_lt; decide, by decide⟩, by decide, by decide, by decide⟩
    (by decide) (by decide) (1000, ⟨13, 99, 0⟩) (by decide)
  exact ⟨by decide, by decide⟩

/-- On an empty index `nova_alloc_blocks_in_free_list` returns `-ENOSPC` and changes
nothing. -/
theorem alloc_empty_none (E : kernel_env) (fl : free_list) (btype nb nbr : Nat)
    (from_tail : Int) (hempty : fl.block_free_tree.inorder = []) :
    nova_alloc_blocks_in_free_list E fl btype nb nbr from_tail = ⟨-ENOSPC, fl, nbr⟩ := by
  rw [alloc_in_free_list_eq]
  by_cases h : fl.first_node = none ∨ fl.num_free_blocks = 0
  · rw [if_pos h]
  · rw [if_neg h]
    have hnone : (alloc_walk fl.block_free_tree from_tail
        (if from_tail = 0 then fl.first_node else fl.last_node)).find?
        (alloc_takes E btype nb) = none := by
      rw [List.find?_eq_none]
      intro p hp
      have hp2 := alloc_walk_subset _ _ _ _ hp
      rw [hempty] at hp2
      cases hp2
    rw [hnone]

/-- The error returns of `nova_new_blocks`: `-EINVAL` with the super block untouched when
`num = 0`; for `1 ≤ num < 2^31` the return value is never `-EINVAL`; and `-ENOSPC` when no
free list holds an extent. -/
theorem new_blocks_errors (E : kernel_env) (sbi : nova_sb_info) (blocknr num btype : Nat)
    (atype cpuid from_tail pid : Int) :
    (num = 0 → nova_new_blocks E sbi blocknr num btype atype cpuid from_tail pid =
      ⟨-EINVAL, sbi, blocknr⟩) ∧
    (1 ≤ num → num < 2147483648 →
      (nova_new_blocks E sbi blocknr num btype atype cpuid from_tail pid).ret ≠ -EINVAL) ∧
    (1 ≤ num → num < 4294967296 →
      (∀ j : Int, (nova_get_free_list sbi j).block_free_tree.inorder = []) →
      (nova_new_blocks E sbi blocknr num btype atype cpuid from_tail pid).ret = -ENOSPC) := by
  refine ⟨?_, ?_, ?_⟩
  · intro h
    subst h
    exact new_blocks_zero E sbi blocknr btype atype cpuid from_tail pid
  · intro hnum0 hnum
    obtain ⟨hnb1, hnb2⟩ := @new_count_bounds num btype hnum0 (by omega)
    have hul : ul (num * nova_get_numblocks btype) = new_count num btype :=
      ul_of_lt (by unfold new_count at hnb2; omega)
    have hne : ¬ new_count num btype = 0 := by omega
    unfold nova_new_blocks
    simp only [hul, hne, if_false]
    by_cases hc : (nova_alloc_blocks_in_free_list E
        (nova_get_free_list
          (nova_new_blocks_retry sbi (new_count num btype) 2
            (if cpuid = E.ANY_CPU then pid else cpuid)).2
          (nova_new_blocks_retry sbi (new_count num btype) 2
            (if cpuid = E.ANY_CPU then pid else cpuid)).1)
        btype (new_count num btype) 0 from_tail).ret ≤ 0 ∨
        (nova_alloc_blocks_in_free_list E
          (nova_get_free_list
            (nova_new_blocks_retry sbi (new_count num btype) 2
              (if cpuid = E.ANY_CPU then pid else cpuid)).2
            (nova_new_blocks_retry sbi (new_count num btype) 2
              (if cpuid = E.ANY_CPU then pid else cpuid)).1)
          btype (new_count num btype) 0 from_tail).new_blocknr = 0
    · rw [if_pos hc]
      show (-ENOSPC : Int) ≠ -EINVAL
      decide
    · rw [if_neg hc]
      rw [not_or] at hc
      obtain ⟨curr, h1, h2⟩ := alloc_in_free_list_ret E _ btype (new_count num btype) 0
        from_tail (by omega) (not_le.1 hc.1)
      simp only [h2, Int.toNat_ofNat]
      have hle := alloc_count_le from_tail (new_count num btype) curr
      have hnk := nova_get_numblocks_pos btype
      have hdiv : alloc_count (new_count num btype) curr
          (alloc_kind_of from_tail (new_count num btype) curr) / nova_get_numblocks btype ≤
          num := by
        calc _ ≤ new_count num btype / nova_get_numblocks btype := Nat.div_le_div_right hle
          _ = num := by unfold new_count; exact Nat.mul_div_cancel _ hnk
      rw [int_of_ulong_small (by omega)]
      intro heq
      have h0 : (0 : Int) ≤ ((alloc_count (new_count num btype) curr
          (alloc_kind_of from_tail (new_count num btype) curr) / nova_get_numblocks btype : Nat) :
          Int) := Int.natCast_nonneg _
      rw [heq] at h0
      exact absurd h0 (by decide)
  · intro hnum0 hnum hempty
    obtain ⟨hnb1, hnb2⟩ := @new_count_bounds num btype hnum0 hnum
    have hul : ul (num * nova_get_numblocks btype) = new_count num btype :=
      ul_of_lt (by unfold new_count at hnb2; omega)
    have hne : ¬ new_count num btype = 0 := by omega
    have hneg : ¬ (-ENOSPC : Int) > 0 := by decide
    have hfr := retry_frame sbi (new_count num btype) 2
      (if cpuid = E.ANY_CPU then pid else cpuid)
    have he2 : (nova_get_free_list
        (nova_new_blocks_retry sbi (new_count num btype) 2
          (if cpuid = E.ANY_CPU then pid else cpuid)).2
        (nova_new_blocks_retry sbi (new_count num btype) 2
          (if cpuid = E.ANY_CPU then pid else cpuid)).1).block_free_tree.inorder = [] := by
      rw [(hfr _).1]
      exact hempty _
    have ha := alloc_empty_none E _ btype (new_count num btype) 0 from_tail he2
    unfold nova_new_blocks
    simp only [hul, hne, if_false, ha, hneg]
    simp

/-- C12 (evaluation at the failing input): the only free extent is `[1, 2^32]` and
`2^32 - 22` blocks of the 4K type are requested.  The request is served (the run starts at
block 1 and the index is left with `[2^32 - 21, 2^32]`), but the count `2^32 - 22` returned
as `int` is `-22 = -EINVAL`, although `num ≠ 0`. -/
theorem C12_einval_with_nonzero_num :
    (nova_new_blocks (unbalanced_env 0) (single_extent_sbi 1 4294967296) 0 4294967274
      NOVA_BLOCK_TYPE_4K DATA 0 0 0).ret = -EINVAL ∧
    (nova_new_blocks (unbalanced_env 0) (single_extent_sbi 1 4294967296) 0 4294967274
      NOVA_BLOCK_TYPE_4K DATA 0 0 0).blocknr = 1 ∧
    extents (index_of (nova_new_blocks (unbalanced_env 0) (single_extent_sbi 1 4294967296) 0
      4294967274 NOVA_BLOCK_TYPE_4K DATA 0 0 0).sbi 0) = [(4294967275, 4294967296)] := by
  decide

/-- C13: `nova_free_blocks` works on the free list `blocknr / per_list_blocks` only.
Whatever the call returns, the resulting super block is the old one with at most that list
replaced, so every other per-CPU free list (index, cached pointers, counters) is the same
before and after, and so is the shared list when the list worked on is a per-CPU one. -/
theorem C13_free_blocks_frame (E : kernel_env) (sbi : nova_sb_info) (curr_node : Option Nat)
    (blocknr : Nat) (num : Int) (btype : Nat) (lp : Int)
    (hlen : sbi.free_lists.length = sbi.cpus.toNat)
    (hcpu : blocknr / sbi.per_list_blocks < 2147483648) :
    ((nova_free_blocks E sbi curr_node blocknr num btype lp).2 = sbi ∨
      ∃ fl : free_list, (nova_free_blocks E sbi curr_node blocknr num btype lp).2 =
        nova_set_free_list sbi (free_cpu sbi blocknr) fl) ∧
    (∀ j : Int, 0 ≤ j → j < sbi.cpus → j ≠ free_cpu sbi blocknr →
      nova_get_free_list (nova_free_blocks E sbi curr_node blocknr num btype lp).2 j =
        nova_get_free_list sbi j) ∧
    (free_cpu sbi blocknr < sbi.cpus →
      (nova_free_blocks E sbi curr_node blocknr num btype lp).2.shared_free_list =
        sbi.shared_free_list) := by
  have h0 : (0 : Int) ≤ free_cpu sbi blocknr := Int.natCast_nonneg _
  have hres : (nova_free_blocks E sbi curr_node blocknr num btype lp).2 = sbi ∨
      ∃ fl : free_list, (nova_free_blocks E sbi curr_node blocknr num btype lp).2 =
        nova_set_free_list sbi (free_cpu sbi blocknr) fl := by
    unfold nova_free_blocks
    by_cases hn : num ≤ 0
    · left; rw [if_pos hn]
    · rw [if_neg hn]
      cases curr_node with
      | none => left; rfl
      | some c =>
        right
        rw [int_of_ulong_small hcpu]
        exact ⟨_, rfl⟩
  refine ⟨hres, ?_, ?_⟩
  · intro j hj0 hj hne
    rcases hres with h | ⟨fl, h⟩
    · rw [h]
    · rw [h]
      exact get_set_free_list_ne _ _ _ _ h0 hj0 hne (Or.inl hj) hlen
  · intro hc
    rcases hres with h | ⟨fl, h⟩
    · rw [h]
    · rw [h]
      exact set_free_list_shared _ _ _ hc

/-- C13 at a concrete input: on two partitions of four blocks, freeing block 7 of the second
one leaves the free list of the first one as it was. -/
theorem C13_free_blocks_frame_witness :
    nova_get_free_list
        (nova_free_blocks (unbalanced_env 0) degenerate_sbi1 (some 2000) 7 1 NOVA_BLOCK_TYPE_4K
          0).2 0 =
      nova_get_free_list degenerate_sbi1 0 :=
  (C13_free_blocks_frame (unbalanced_env 0) degenerate_sbi1 (some 2000) 7 1 NOVA_BLOCK_TYPE_4K 0
    (by decide) (by decide)).2.1 0 (by decide) (by decide) (by decide)

theorem init_free_list_set (E : kernel_env) (s : nova_sb_info) (i : Int) (fl f : free_list)
    (j : Int) :
    nova_init_free_list E (nova_set_free_list s i fl) f j = nova_init_free_list E s f j := by
  unfold nova_init_free_list nova_data_parity_init_free_list nova_set_free_list
  split_ifs <;> rfl

theorem ul_add_ul (a b : Nat) : ul (ul a + b) = ul (a + b) := by
  unfold ul; omega

/-- The boundaries `nova_init_free_list` computes, in `unsigned long` arithmetic. -/
theorem init_free_list_bounds (E : kernel_env) (sbi : nova_sb_info) (fl : free_list)
    (i : Int) :
    (nova_init_free_list E sbi fl i).block_end =
      ul_sub (ul (sbi.num_blocks / ulong_of_int sbi.cpus * ulong_of_int i +
        sbi.num_blocks / ulong_of_int sbi.cpus)) 1 ∧
    (nova_init_free_list E sbi fl i).block_start =
      ul (sbi.num_blocks / ulong_of_int sbi.cpus * ulong_of_int i +
        (if i = 0 then sbi.reserved_blocks else 0) + E.data_csum_blocks_per_list +
        parity_blocks_per_list E sbi) ∧
    (nova_init_free_list E sbi fl i).csum_start =
      ul (sbi.num_blocks / ulong_of_int sbi.cpus * ulong_of_int i +
        (if i = 0 then sbi.reserved_blocks else 0)) ∧
    (nova_init_free_list E sbi fl i).parity_start =
      ul (sbi.num_blocks / ulong_of_int sbi.cpus * ulong_of_int i +
        (if i = 0 then sbi.reserved_blocks else 0) + E.data_csum_blocks_per_list) ∧
    (nova_init_free_list E sbi fl i).num_csum_blocks =
      ul_sub (nova_init_free_list E sbi fl i).parity_start
        (nova_init_free_list E sbi fl i).csum_start ∧
    (nova_init_free_list E sbi fl i).num_parity_blocks =
      ul_sub (nova_init_free_list E sbi fl i).block_start
        (nova_init_free_list E sbi fl i).parity_start := by
  unfold nova_init_free_list nova_data_parity_init_free_list nova_data_csum_init_free_list
    parity_blocks_per_list
  simp only []
  split_ifs <;> simp only [ul_add_ul, add_zero, true_and, and_true] <;>
    (unfold ul; omega)

theorem init_list_set (E : kernel_env) (s : nova_sb_info) (blknode : Int → Nat) (i j : Int)
    (fl : free_list)
    (h : nova_get_free_list (nova_set_free_list s i fl) j = nova_get_free_list s j) :
    init_list E (nova_set_free_list s i fl) blknode j = init_list E s blknode j := by
  unfold init_list
  rw [h, init_free_list_set]

/-- The loop of `nova_init_blockmap` without recovery, started on empty trees, stores
`init_list` in every free list it visits. -/
theorem init_loop_lists (E : kernel_env) (blknode : Int → Nat) :
    ∀ (n : Nat) (i : Int) (s : nova_sb_info), 0 ≤ i →
      s.free_lists.length = s.cpus.toNat → i + (n : Int) = s.cpus →
      (∀ j : Int, i ≤ j → j < s.cpus → (nova_get_free_list s j).block_free_tree = .nil) →
      (∀ j : Int, i ≤ j → j < s.cpus →
        nova_get_free_list (nova_init_blockmap_loop E 0 blknode n i s) j =
          init_list E s blknode j) ∧
      (∀ j : Int, 0 ≤ j → j < i →
        nova_get_free_list (nova_init_blockmap_loop E 0 blknode n i s) j =
          nova_get_free_list s j) := by
  intro n
  induction n with
  | zero =>
    intro i s h0 hlen hin htree
    have e : nova_init_blockmap_loop E 0 blknode 0 i s = s := rfl
    rw [e]
    refine ⟨?_, fun _ _ _ => rfl⟩
    intro j h1 h2
    simp only [Nat.cast_zero, add_zero] at hin
    omega
  | succ n ih =>
    intro i s h0 hlen hin htree
    have hi : i < s.cpus := by push_cast at hin; omega
    have hnil := htree i (le_refl i) hi
    obtain ⟨hf1, hf2⟩ := init_free_list_fields E s (nova_get_free_list s i) i
    rw [hnil] at hf1
    simp only [nova_init_blockmap_loop, if_true, hf1, nova_insert_blocktree,
      nova_insert_range_node, nova_insert_range_node_link, ne_eq, not_true_eq_false, if_false]
    have hfl : ({ nova_init_free_list E s (nova_get_free_list s i) i with
      num_free_blocks := ul (ul_sub (nova_init_free_list E s (nova_get_free_list s i) i).block_end
        (nova_init_free_list E s (nova_get_free_list s i) i).block_start + 1),
      block_free_tree := E.rb_insert_color (blknode i)
        (.node .nil (blknode i) (nova_update_range_node_checksum E
          { range_low := (nova_init_free_list E s (nova_get_free_list s i) i).block_start,
            range_high := (nova_init_free_list E s (nova_get_free_list s i) i).block_end,
            csum := 0 }) .nil),
      first_node := some (blknode i), last_node := some (blknode i),
      num_blocknode := 1 } : free_list) = init_list E s blknode i := rfl
    rw [hfl]
    have hfields := set_free_list_fields s i (init_list E s blknode i)
    have hlen2 : (nova_set_free_list s i (init_list E s blknode i)).free_lists.length =
        (nova_set_free_list s i (init_list E s blknode i)).cpus.toNat := by
      rw [hfields.2.2, hfields.1]; exact hlen
    have hother : ∀ j : Int, 0 ≤ j → j ≠ i →
        nova_get_free_list (nova_set_free_list s i (init_list E s blknode i)) j =
          nova_get_free_list s j :=
      fun j hj hne => get_set_free_list_ne s i j _ h0 hj hne (Or.inr hi) hlen
    obtain ⟨h5, h6⟩ := ih (i + 1) (nova_set_free_list s i (init_list E s blknode i))
      (by omega) hlen2 (by rw [hfields.1]; push_cast at hin; omega)
      (by
        intro j hj1 hj2
        rw [hother j (by omega) (by omega)]
        rw [hfields.1] at hj2
        exact htree j (by omega) hj2)
    rw [hfields.1] at h5
    refine ⟨?_, ?_⟩
    · intro j hj1 hj2
      by_cases hji : j = i
      · subst hji
        rw [h6 j h0 (by omega), get_set_free_list s j _ h0 hlen]
      · rw [h5 j (by omega) hj2]
        exact init_list_set E s blknode i j _ (hother j (by omega) hji)
    · intro j hj1 hj2
      rw [h6 j hj1 (by omega), hother j hj1 (by omega)]

/-- After `nova_init_blockmap` on freshly allocated free lists, the free list of CPU `i` is
`init_list` computed from the zero-filled list. -/
theorem init_blockmap_list (E : kernel_env) (base : nova_sb_info) (blknode : Int → Nat)
    (i : Int) (hi0 : 0 ≤ i) (hi : i < base.cpus) :
    nova_get_free_list (nova_init_blockmap E (nova_alloc_block_free_lists base) 0 blknode) i =
      init_list E
        { nova_alloc_block_free_lists base with
          per_list_blocks := (nova_alloc_block_free_lists base).num_blocks /
            ulong_of_int (nova_alloc_block_free_lists base).cpus } blknode i := by
  rw [init_blockmap_eq]
  have hn : (nova_alloc_block_free_lists base).cpus.toNat = base.cpus.toNat := rfl
  rw [hn]
  generalize hs0 : ({ nova_alloc_block_free_lists base with
    per_list_blocks := (nova_alloc_block_free_lists base).num_blocks /
      ulong_of_int (nova_alloc_block_free_lists base).cpus } : nova_sb_info) = s0
  have hc0 : s0.cpus = base.cpus := by rw [← hs0]; rfl
  have hfl0 : s0.free_lists =
      (List.range base.cpus.toNat).map (fun (i : Nat) => free_list.zero i) := by
    rw [← hs0]; rfl
  have hlen0 : s0.free_lists.length = s0.cpus.toNat := by
    rw [hfl0, hc0]; simp
  have hpos : 0 ≤ base.cpus := by omega
  obtain ⟨h1, _⟩ := init_loop_lists E blknode base.cpus.toNat 0 s0
    (le_refl 0) hlen0 (by rw [hc0, zero_add]; exact Int.toNat_of_nonneg hpos)
    (by
      intro j hj0 hj
      have hj2 : j < base.cpus := by rw [hc0] at hj; exact hj
      have hjn : j.toNat < base.cpus.toNat := by omega
      unfold nova_get_free_list
      rw [if_pos hj, hfl0]
      simp only [List.getD_eq_getElem?_getD, List.getElem?_map, List.getElem?_range hjn,
        Option.map_some', Option.getD_some]
      rfl)
  exact h1 i hi0 (by rw [hc0]; exact hi)

/-- C15: after `nova_init_blockmap` with `recovery = 0` on freshly allocated free lists, the
free list `fl` of every CPU `i` holds exactly one node, `[block_start, block_end]`, with
`num_free_blocks = block_end - block_start + 1` (computed in `unsigned long`),
`num_blocknode = 1` and `first_node = last_node =` that node.  `block_end` is
`per_list_blocks * (i + 1) - 1` and `block_start` is `per_list_blocks * i` plus
`reserved_blocks` for CPU 0 only, plus the checksum and the parity reservation, all in
`unsigned long` arithmetic; without wrap-around these are plain sums and the two
reservations are `num_csum_blocks` and `num_parity_blocks`. -/
theorem C15_init_blockmap_lists (E : kernel_env) (base : nova_sb_info) (blknode : Int → Nat)
    (i : Int) (fl : free_list) (hi0 : 0 ≤ i) (hi : i < base.cpus)
    (hcpus : base.cpus < 2147483648)
    (hfl : fl = nova_get_free_list
      (nova_init_blockmap E (nova_alloc_block_free_lists base) 0 blknode) i) :
    (∃ n : nova_range_node, fl.block_free_tree.inorder = [(blknode i, n)] ∧
      n.range_low = fl.block_start ∧ n.range_high = fl.block_end) ∧
    fl.num_free_blocks = ul (ul_sub fl.block_end fl.block_start + 1) ∧
    (fl.block_start ≤ fl.block_end → fl.block_end - fl.block_start + 1 < 18446744073709551616 →
      fl.num_free_blocks = fl.block_end - fl.block_start + 1) ∧
    fl.num_blocknode = 1 ∧ fl.first_node = some (blknode i) ∧
    fl.last_node = some (blknode i) ∧
    fl.block_end = ul_sub (ul (base.num_blocks / base.cpus.toNat * (i.toNat + 1))) 1 ∧
    (1 ≤ base.num_blocks / base.cpus.toNat * (i.toNat + 1) →
      base.num_blocks / base.cpus.toNat * (i.toNat + 1) ≤ 18446744073709551616 →
      fl.block_end + 1 = base.num_blocks / base.cpus.toNat * (i.toNat + 1)) ∧
    fl.block_start = ul (base.num_blocks / base.cpus.toNat * i.toNat +
      (if i = 0 then base.reserved_blocks else 0) + E.data_csum_blocks_per_list +
      parity_blocks_per_list E base) ∧
    (base.num_blocks / base.cpus.toNat * i.toNat +
        (if i = 0 then base.reserved_blocks else 0) + E.data_csum_blocks_per_list +
        parity_blocks_per_list E base < 18446744073709551616 →
      fl.block_start = base.num_blocks / base.cpus.toNat * i.toNat +
        (if i = 0 then base.reserved_blocks else 0) + fl.num_csum_blocks +
        fl.num_parity_blocks ∧
      fl.num_csum_blocks = E.data_csum_blocks_per_list ∧
      fl.num_parity_blocks = parity_blocks_per_list E base) := by
  have hci : ulong_of_int i = i.toNat := ulong_of_int_nonneg hi0 (by omega)
  have hcc : ulong_of_int base.cpus = base.cpus.toNat := ulong_of_int_nonneg (by omega) (by omega)
  have hlist := init_blockmap_list E base blknode i hi0 hi
  rw [← hfl] at hlist
  generalize hs0 : ({ nova_alloc_block_free_lists base with
    per_list_blocks := (nova_alloc_block_free_lists base).num_blocks /
      ulong_of_int (nova_alloc_block_free_lists base).cpus } : nova_sb_info) = s0 at hlist
  have hnb : s0.num_blocks = base.num_blocks := by rw [← hs0]; rfl
  have hcp : s0.cpus = base.cpus := by rw [← hs0]; rfl
  have hrs : s0.reserved_blocks = base.reserved_blocks := by rw [← hs0]; rfl
  have hpar : parity_blocks_per_list E s0 = parity_blocks_per_list E base := by
    rw [← hs0]; rfl
  obtain ⟨b1, b2, b3, b4, b5, b6⟩ :=
    init_free_list_bounds E s0 (nova_get_free_list s0 i) i
  simp only [hnb, hcp, hrs, hpar, hci, hcc] at b1 b2 b3 b4
  have e1 : fl.block_start =
      (nova_init_free_list E s0 (nova_get_free_list s0 i) i).block_start := by
    rw [hlist]; rfl
  have e2 : fl.block_end =
      (nova_init_free_list E s0 (nova_get_free_list s0 i) i).block_end := by
    rw [hlist]; rfl
  have e3 : fl.num_csum_blocks =
      (nova_init_free_list E s0 (nova_get_free_list s0 i) i).num_csum_blocks := by
    rw [hlist]; rfl
  have e4 : fl.num_parity_blocks =
      (nova_init_free_list E s0 (nova_get_free_list s0 i) i).num_parity_blocks := by
    rw [hlist]; rfl
  have e5 : fl.num_free_blocks = ul (ul_sub fl.block_end fl.block_start + 1) := by
    rw [e1, e2, hlist]; rfl
  have hmul : base.num_blocks / base.cpus.toNat * i.toNat + base.num_blocks / base.cpus.toNat =
      base.num_blocks / base.cpus.toNat * (i.toNat + 1) := by ring
  rw [hmul] at b1
  refine ⟨⟨nova_update_range_node_checksum E
      { range_low := (nova_init_free_list E s0 (nova_get_free_list s0 i) i).block_start,
        range_high := (nova_init_free_list E s0 (nova_get_free_list s0 i) i).block_end,
        csum := 0 }, ?_, ?_, ?_⟩, e5, ?_, by rw [hlist]; rfl, by rw [hlist]; rfl, by rw [hlist]; rfl,
    by rw [e2, b1], ?_, by rw [e1, b2], ?_⟩
  · rw [hlist]
    simp only [init_list, E.rb_insert_color_inorder, rb_root.inorder, List.nil_append]
  · rw [update_checksum_low, e1]
  · rw [update_checksum_high, e2]
  · intro h1 h2
    rw [e5]
    unfold ul ul_sub
    omega
  · intro h1 h2
    rw [e2, b1]
    unfold ul ul_sub
    omega
  · intro h
    rw [e3, e4, b5, b6, b2, b3, b4, e1, b2]
    unfold ul ul_sub
    omega

/-- C15 at a concrete input: 100 blocks on one CPU with one reserved block; the partition is
`[13, 99]` with 87 free blocks. -/
theorem C15_init_blockmap_lists_witness :
    (nova_get_free_list example_sbi1 0).block_start = 13 ∧
    (nova_get_free_list example_sbi1 0).block_end = 99 ∧
    (nova_get_free_list example_sbi1 0).num_free_blocks =
      (nova_get_free_list example_sbi1 0).block_end -
        (nova_get_free_list example_sbi1 0).block_start + 1 :=
  have h := C15_init_blockmap_lists (unbalanced_env 0)
    { s_blocksize := 4096, initsize := 409600, num_blocks := 100, reserved_blocks := 1,
      cpus := 1, per_list_blocks := 0, free_lists := [],
      shared_free_list := free_list.zero 0 }
    (fun _ => 1000) 0 (nova_get_free_list example_sbi1 0) (le_refl 0) (by decide) (by decide) rfl
  ⟨by decide, by decide, h.2.2.1 (by decide) (by decide)⟩

theorem length_le_total (l : List node_ptr) : l.length ≤ total_blocks l := by
  induction l with
  | nil => simp [total_blocks]
  | cons x xs ih =>
    rw [total_blocks_cons, List.length_cons]
    unfold node_blocks
    omega

/-- Sorted disjoint extents inside `[a, b]` hold at most `b - a + 1` blocks. -/
theorem total_le_range (l : List node_ptr) (hs : sorted_exts l) :
    ∀ a b : Nat, (∀ p ∈ l, a ≤ p.2.range_low ∧ p.2.range_high ≤ b) →
      l = [] ∨ total_blocks l + a ≤ b + 1 := by
  induction l with
  | nil => intro a b _; exact Or.inl rfl
  | cons x xs ih =>
    intro a b hin
    right
    obtain ⟨hpw, hle⟩ := hs
    rw [List.pairwise_cons] at hpw
    have hx := hin x (List.mem_cons_self _ _)
    have hxl := hle x (List.mem_cons_self _ _)
    have hs2 : sorted_exts xs := ⟨hpw.2, fun p hp => hle p (List.mem_cons_of_mem _ hp)⟩
    rw [total_blocks_cons]
    rcases ih hs2 (x.2.range_high + 1) b (fun p hp =>
        ⟨by have := hpw.1 p hp; unfold ext_lt at this; omega,
          (hin p (List.mem_cons_of_mem _ hp)).2⟩) with h | h
    · rw [h]
      simp only [total_blocks, List.map_nil, List.sum_nil]
      unfold node_blocks
      omega
    · unfold node_blocks
      omega

theorem foldl_ul_add (f : Nat → Nat) (l : List Nat) (acc : Nat) (h : ul acc = acc) :
    l.foldl (fun (a : Nat) (i : Nat) => ul (a + f i)) acc = ul (acc + (l.map f).sum) := by
  induction l generalizing acc with
  | nil => simp [h]
  | cons x xs ih =>
    rw [List.foldl_cons, ih _ (by unfold ul; omega)]
    simp only [List.map_cons, List.sum_cons]
    rw [ul_add_ul, Nat.add_assoc]

/-- `nova_count_free_blocks` is the sum of the counters of the per-CPU lists, in
`unsigned long` arithmetic. -/
theorem count_free_blocks_eq (sbi : nova_sb_info) :
    nova_count_free_blocks sbi =
      ul (((List.range sbi.cpus.toNat).map
        (fun (i : Nat) => (nova_get_free_list sbi i).num_free_blocks)).sum) := by
  unfold nova_count_free_blocks
  rw [foldl_ul_add (fun (i : Nat) => (nova_get_free_list sbi i).num_free_blocks) _ 0 rfl,
    Nat.zero_add]

/-- The number of nodes after a free of a run that met no extent, by kind. -/
theorem free_nodes_length (E : kernel_env) (l : List node_ptr) (c lo nb : Nat)
    (hw : wf_nodes E l) (hnb : 1 ≤ nb)
    (hfree : ∀ b, lo ≤ b → b < lo + nb → ¬ blk_in l b) :
    ((free_nodes E l c lo nb).1 = .hole ∧ (free_nodes E l c lo nb).2.length + 1 = l.length) ∨
    (((free_nodes E l c lo nb).1 = .left ∨ (free_nodes E l c lo nb).1 = .right) ∧
      (free_nodes E l c lo nb).2.length = l.length) ∨
    ((free_nodes E l c lo nb).1 = .middle ∧ (free_nodes E l c lo nb).2.length = l.length + 1) := by
  obtain ⟨d, m, m1, r, hl, hl1, _, _, hmid⟩ := free_nodes_shape E l c lo nb hw hnb hfree
  rw [hl1]
  cases hk : (free_nodes E l c lo nb).1 with
  | hole =>
    rw [hk] at hmid
    obtain ⟨p, s, hm, _, _, hm1⟩ := hmid
    left
    refine ⟨rfl, ?_⟩
    rw [hl, hm, hm1]
    simp only [List.length_append, List.length_cons, List.length_nil]
    omega
  | left =>
    rw [hk] at hmid
    obtain ⟨p, hm, _, hm1⟩ := hmid
    right; left
    refine ⟨Or.inl rfl, ?_⟩
    rw [hl, hm, hm1]
    simp only [List.length_append, List.length_cons, List.length_nil]
  | right =>
    rw [hk] at hmid
    obtain ⟨s, hm, _, hm1⟩ := hmid
    right; left
    refine ⟨Or.inr rfl, ?_⟩
    rw [hl, hm, hm1]
    simp only [List.length_append, List.length_cons, List.length_nil]
  | middle =>
    rw [hk] at hmid
    obtain ⟨hm, hm1⟩ := hmid
    right; right
    refine ⟨rfl, ?_⟩
    rw [hl, hm, hm1]
    simp only [List.length_append, List.length_cons, List.length_nil]
    omega

/-- The counters of the serving list after a successful `nova_new_blocks`. -/
theorem new_blocks_counts (E : kernel_env) (sbi : nova_sb_info) (blocknr num btype : Nat)
    (atype cpuid from_tail pid : Int)
    (hlen : sbi.free_lists.length = sbi.cpus.toNat) (hcpu0 : 0 ≤ cpuid) (hpid0 : 0 ≤ pid)
    (hnum : num < 4294967296)
    (hw : wf_nodes E (index_of sbi (serving_cpu E sbi num btype cpuid pid)))
    (hnfb : (nova_get_free_list sbi (serving_cpu E sbi num btype cpuid pid)).num_free_blocks <
      18446744073709551616)
    (hret : 0 < (nova_new_blocks E sbi blocknr num btype atype cpuid from_tail pid).ret) :
    (nova_get_free_list (nova_new_blocks E sbi blocknr num btype atype cpuid from_tail pid).sbi
        (serving_cpu E sbi num btype cpuid pid)).num_free_blocks +
      (nova_new_blocks E sbi blocknr num btype atype cpuid from_tail pid).ret.toNat *
        nova_get_numblocks btype =
      (nova_get_free_list sbi (serving_cpu E sbi num btype cpuid pid)).num_free_blocks ∧
    total_blocks (index_of
        (nova_new_blocks E sbi blocknr num btype atype cpuid from_tail pid).sbi
        (serving_cpu E sbi num btype cpuid pid)) +
      (nova_new_blocks E sbi blocknr num btype atype cpuid from_tail pid).ret.toNat *
        nova_get_numblocks btype =
      total_blocks (index_of sbi (serving_cpu E sbi num btype cpuid pid)) ∧
    (((index_of (nova_new_blocks E sbi blocknr num btype atype cpuid from_tail pid).sbi
          (serving_cpu E sbi num btype cpuid pid)).length + 1 =
        (index_of sbi (serving_cpu E sbi num btype cpuid pid)).length ∧
      (nova_get_free_list (nova_new_blocks E sbi blocknr num btype atype cpuid from_tail pid).sbi
          (serving_cpu E sbi num btype cpuid pid)).num_blocknode =
        ul_sub (nova_get_free_list sbi (serving_cpu E sbi num btype cpuid pid)).num_blocknode 1) ∨
     ((index_of (nova_new_blocks E sbi blocknr num btype atype cpuid from_tail pid).sbi
          (serving_cpu E sbi num btype cpuid pid)).length =
        (index_of sbi (serving_cpu E sbi num btype cpuid pid)).length ∧
      (nova_get_free_list (nova_new_blocks E sbi blocknr num btype atype cpuid from_tail pid).sbi
          (serving_cpu E sbi num btype cpuid pid)).num_blocknode =
        (nova_get_free_list sbi (serving_cpu E sbi num btype cpuid pid)).num_blocknode)) := by
  have hnum0 : 1 ≤ num := by
    by_contra h
    have : num = 0 := by omega
    subst this
    rw [new_blocks_zero] at hret
    have hneg : ¬ (0 : Int) < -EINVAL := by decide
    exact absurd hret hneg
  obtain ⟨hnb1, hnb2⟩ := @new_count_bounds num btype hnum0 hnum
  obtain ⟨fl0, curr, d, r, t, hc0, hfl0, hf, hl, ht, hc1, hc2, hf0, heq⟩ :=
    new_blocks_pos E sbi blocknr num btype atype cpuid from_tail pid hlen hcpu0 hpid0 hnum0
      hnum hw hret
  have htakes : alloc_takes E btype (new_count num btype) curr = true := by
    have := List.find?_some hf
    exact this
  rw [heq] at hret ⊢
  simp only [] at hret ⊢
  obtain ⟨hcnt, _, _⟩ := new_blocks_ret_count from_tail hnum htakes hret
  rw [hcnt]
  have hwl : wf_nodes E (d ++ curr :: r) := by rw [← hl]; exact hw
  have hk1 : alloc_kind_of from_tail (new_count num btype) curr = .whole →
      1 ≤ curr_blocks curr := by
    intro hk; rw [hk] at hc1; exact hc1
  have hk2 : alloc_kind_of from_tail (new_count num btype) curr ≠ .whole →
      new_count num btype < curr_blocks curr := by
    intro hk
    unfold alloc_kind_of at hk
    by_contra hge
    exact hk (by simp [not_lt.1 hge])
  obtain ⟨_, _, _, _, hp5, _⟩ := alloc_mid_props E d r curr (new_count num btype)
    (alloc_kind_of from_tail (new_count num btype) curr) hwl hnb1 hk1 hk2
  have hget : nova_get_free_list (nova_set_free_list sbi (serving_cpu E sbi num btype cpuid pid)
      (new_blocks_stats atype
        ⟨(alloc_count (new_count num btype) curr
            (alloc_kind_of from_tail (new_count num btype) curr) : Nat),
          alloc_result_fl fl0 t from_tail (new_count num btype) curr d r,
          alloc_blocknr (new_count num btype) curr
            (alloc_kind_of from_tail (new_count num btype) curr)⟩))
      (serving_cpu E sbi num btype cpuid pid) = _ := get_set_free_list _ _ _ hc0 hlen
  have hidx : index_of (nova_set_free_list sbi (serving_cpu E sbi num btype cpuid pid)
      (new_blocks_stats atype
        ⟨(alloc_count (new_count num btype) curr
            (alloc_kind_of from_tail (new_count num btype) curr) : Nat),
          alloc_result_fl fl0 t from_tail (new_count num btype) curr d r,
          alloc_blocknr (new_count num btype) curr
            (alloc_kind_of from_tail (new_count num btype) curr)⟩))
      (serving_cpu E sbi num btype cpuid pid) =
      d ++ alloc_mid E (new_count num btype) curr
        (alloc_kind_of from_tail (new_count num btype) curr) ++ r := by
    unfold index_of
    rw [hget, (new_blocks_stats_fields _ _).1]
    simp only [alloc_result_fl]
    exact ht
  have hnfb0 : fl0.num_free_blocks =
      (nova_get_free_list sbi (serving_cpu E sbi num btype cpuid pid)).num_free_blocks ∧
      fl0.num_blocknode =
      (nova_get_free_list sbi (serving_cpu E sbi num btype cpuid pid)).num_blocknode := by
    rcases hfl0 with h | ⟨_, h⟩ <;> rw [h] <;> exact ⟨rfl, rfl⟩
  refine ⟨?_, ?_, ?_⟩
  · rw [hget, (new_blocks_stats_fields _ _).2.2.2.2.1]
    simp only [alloc_result_fl]
    rw [hnfb0.1, ul_sub_of_le _ _ hnfb hc2]
    omega
  · rw [hidx, hl]
    exact hp5.symm
  · rw [hidx, hl, hget, (new_blocks_stats_fields _ _).2.2.2.1]
    simp only [alloc_result_fl]
    rw [hnfb0.2]
    by_cases hk : alloc_kind_of from_tail (new_count num btype) curr = .whole
    · left
      rw [hk]
      refine ⟨?_, by simp⟩
      simp only [alloc_mid, List.append_nil, List.length_append, List.length_cons]
      omega
    · right
      rw [if_neg hk]
      refine ⟨?_, rfl⟩
      cases hk3 : alloc_kind_of from_tail (new_count num btype) curr with
      | whole => exact absurd hk3 hk
      | head => simp [alloc_mid]
      | tail => simp [alloc_mid]

/-- The counters of the list worked on after a successful `nova_free_blocks` of a run that
met no extent. -/
theorem free_blocks_counts (E : kernel_env) (sbi : nova_sb_info) (c blocknr : Nat)
    (num : Int) (btype : Nat) (lp : Int)
    (hlen : sbi.free_lists.length = sbi.cpus.toNat)
    (hnum : 0 < num) (hnum2 : num < 2147483648)
    (hcpu : blocknr / sbi.per_list_blocks < 2147483648)
    (hw : wf_nodes E (index_of sbi (free_cpu sbi blocknr)))
    (hbd : blocknr + free_count btype num ≤ 18446744073709551616)
    (hfree : ∀ b, blocknr ≤ b → b < blocknr + free_count btype num →
      ¬ blk_in (index_of sbi (free_cpu sbi blocknr)) b) :
    (nova_get_free_list (nova_free_blocks E sbi (some c) blocknr num btype lp).2
        (free_cpu sbi blocknr)).num_free_blocks =
      ul ((nova_get_free_list sbi (free_cpu sbi blocknr)).num_free_blocks +
        free_count btype num) ∧
    total_blocks (index_of (nova_free_blocks E sbi (some c) blocknr num btype lp).2
        (free_cpu sbi blocknr)) =
      total_blocks (index_of sbi (free_cpu sbi blocknr)) + free_count btype num ∧
    (((index_of (nova_free_blocks E sbi (some c) blocknr num btype lp).2
          (free_cpu sbi blocknr)).length + 1 = (index_of sbi (free_cpu sbi blocknr)).length ∧
      (nova_get_free_list (nova_free_blocks E sbi (some c) blocknr num btype lp).2
          (free_cpu sbi blocknr)).num_blocknode =
        ul_sub (nova_get_free_list sbi (free_cpu sbi blocknr)).num_blocknode 1) ∨
     ((index_of (nova_free_blocks E sbi (some c) blocknr num btype lp).2
          (free_cpu sbi blocknr)).length = (index_of sbi (free_cpu sbi blocknr)).length ∧
      (nova_get_free_list (nova_free_blocks E sbi (some c) blocknr num btype lp).2
          (free_cpu sbi blocknr)).num_blocknode =
        (nova_get_free_list sbi (free_cpu sbi blocknr)).num_blocknode) ∨
     ((index_of (nova_free_blocks E sbi (some c) blocknr num btype lp).2
          (free_cpu sbi blocknr)).length = (index_of sbi (free_cpu sbi blocknr)).length + 1 ∧
      (nova_get_free_list (nova_free_blocks E sbi (some c) blocknr num btype lp).2
          (free_cpu sbi blocknr)).num_blocknode =
        ul ((nova_get_free_list sbi (free_cpu sbi blocknr)).num_blocknode + 1))) := by
  have hnb := @free_count_pos btype num hnum
  obtain ⟨fl1, hrun, hget, htree, _, _, hnbn, hnfb, _, _⟩ := free_blocks_valid E sbi c blocknr
    num btype lp hlen hnum hnum2 hcpu hw hbd hfree
  obtain ⟨_, _, hp3, _⟩ := free_nodes_props E (index_of sbi (free_cpu sbi blocknr)) c blocknr
    (free_count btype num) hw hnb hbd hfree
  have hidx : index_of (nova_free_blocks E sbi (some c) blocknr num btype lp).2
      (free_cpu sbi blocknr) =
      (free_nodes E (index_of sbi (free_cpu sbi blocknr)) c blocknr (free_count btype num)).2 := by
    unfold index_of at htree ⊢
    rw [hget, htree]
  rw [hidx, hget, hnfb, hnbn]
  refine ⟨rfl, hp3, ?_⟩
  rcases free_nodes_length E (index_of sbi (free_cpu sbi blocknr)) c blocknr
    (free_count btype num) hw hnb hfree with ⟨hk, h⟩ | ⟨hk, h⟩ | ⟨hk, h⟩
  · left; rw [hk]; exact ⟨h, rfl⟩
  · right; left
    rcases hk with hk | hk <;> rw [hk] <;> exact ⟨h, rfl⟩
  · right; right; rw [hk]; exact ⟨h, rfl⟩

/-- Under the partition invariant the serving list of a successful `nova_new_blocks` is a
per-CPU list with a well-formed index. -/
theorem serving_wf (E : kernel_env) (s : nova_sb_info) (A : Int → Nat → Prop)
    (blocknr num btype : Nat) (atype cpuid from_tail pid : Int)
    (hinv : part_inv E s A) (hcpu0 : 0 ≤ cpuid) (hpid0 : 0 ≤ pid) (hnum : num < 4294967296)
    (hret : 0 < (nova_new_blocks E s blocknr num btype atype cpuid from_tail pid).ret) :
    wf_nodes E (index_of s (serving_cpu E s num btype cpuid pid)) ∧
    0 ≤ serving_cpu E s num btype cpuid pid ∧ serving_cpu E s num btype cpuid pid < s.cpus := by
  have hsh : ∀ i : Int, ¬ i < s.cpus → index_of s i = [] := by
    intro i hi
    unfold index_of nova_get_free_list
    rw [if_neg hi]
    exact hinv.shared
  have hnum0 : 1 ≤ num := by
    by_contra h
    have : num = 0 := by omega
    subst this
    rw [new_blocks_zero] at hret
    have hneg : ¬ (0 : Int) < -EINVAL := by decide
    exact absurd hret hneg
  obtain ⟨_, hc0, _⟩ := new_blocks_eq E s blocknr num btype atype cpuid from_tail pid
    hinv.len hcpu0 hpid0 hnum0 hnum
  have hw : wf_nodes E (index_of s (serving_cpu E s num btype cpuid pid)) := by
    by_cases h : serving_cpu E s num btype cpuid pid < s.cpus
    · exact (hinv.parts _ hc0 h).1
    · rw [hsh _ h]; exact wf_nodes_nil E
  obtain ⟨_, ⟨p, hp, _, _⟩, _⟩ :=
    new_blocks_run E s blocknr num btype atype cpuid from_tail pid hinv.len hcpu0 hpid0 hnum
      hw hret
  refine ⟨hw, hc0, ?_⟩
  by_contra h
  rw [hsh _ h] at hp
  cases hp

/-- Under the partition invariant the free blocks of a partition fit in its range. -/
theorem part_total_le (E : kernel_env) (s : nova_sb_info) (A : Int → Nat → Prop)
    (hinv : part_inv E s A) (i : Int) (hi0 : 0 ≤ i) (hi : i < s.cpus) :
    total_blocks (index_of s i) ≤
      (nova_get_free_list s i).block_end - (nova_get_free_list s i).block_start + 1 ∧
    (index_of s i).length ≤ total_blocks (index_of s i) := by
  obtain ⟨hw, _, hc, _⟩ := hinv.parts i hi0 hi
  refine ⟨?_, length_le_total _⟩
  rcases total_le_range (index_of s i) hw.sorted (nova_get_free_list s i).block_start
      (nova_get_free_list s i).block_end (fun p hp => by
        have hle := hw.sorted.2 p hp
        have h1 := (hc p.2.range_low).1 (Or.inl ⟨p, hp, le_refl _, hle⟩)
        have h2 := (hc p.2.range_high).1 (Or.inl ⟨p, hp, hle, le_refl _⟩)
        exact ⟨h1.1, h2.2⟩) with h | h
  · rw [h]; simp [total_blocks]
  · omega

theorem count_inv_alloc (E : kernel_env) (s0 s : nova_sb_info) (A : Int → Nat → Prop)
    (blocknr num btype : Nat) (atype cpuid from_tail pid : Int)
    (hinv : part_inv E s A) (hcnt : count_inv s0 s)
    (hsz : ∀ i : Int, 0 ≤ i → i < s.cpus →
      (nova_get_free_list s0 i).block_end - (nova_get_free_list s0 i).block_start + 1 <
        18446744073709551616)
    (hcpu0 : 0 ≤ cpuid) (hpid0 : 0 ≤ pid) (hnum : num < 4294967296)
    (hret : 0 < (nova_new_blocks E s blocknr num btype atype cpuid from_tail pid).ret) :
    count_inv s0 (nova_new_blocks E s blocknr num btype atype cpuid from_tail pid).sbi := by
  obtain ⟨hw, hc0, hsc⟩ := serving_wf E s A blocknr num btype atype cpuid from_tail pid hinv
    hcpu0 hpid0 hnum hret
  obtain ⟨c1, c2, c3, c4⟩ := hcnt.parts _ hc0 hsc
  obtain ⟨t1, t2⟩ := part_total_le E s A hinv _ hc0 hsc
  have hszc := hsz _ hc0 hsc
  rw [c3, c4] at t1
  have hnfb : (nova_get_free_list s (serving_cpu E s num btype cpuid pid)).num_free_blocks <
      18446744073709551616 := by omega
  obtain ⟨_, _, _, _, hbs, hbe, fl, hset⟩ :=
    new_blocks_run E s blocknr num btype atype cpuid from_tail pid hinv.len hcpu0 hpid0 hnum
      hw hret
  obtain ⟨n1, n2, n3⟩ := new_blocks_counts E s blocknr num btype atype cpuid from_tail pid
    hinv.len hcpu0 hpid0 hnum hw hnfb hret
  have hfields := set_free_list_fields s (serving_cpu E s num btype cpuid pid) fl
  constructor
  intro i hi0 hi
  have hi2 : i < s.cpus := by rw [hset, hfields.1] at hi; exact hi
  by_cases e : i = serving_cpu E s num btype cpuid pid
  · subst e
    refine ⟨by omega, ?_, by rw [hbs, c3], by rw [hbe, c4]⟩
    rcases n3 with ⟨h1, h2⟩ | ⟨h1, h2⟩
    · rw [h2, c2, ul_sub_of_le _ _ (by omega) (by omega)]
      omega
    · rw [h2, c2, h1]
  · have hg : nova_get_free_list (nova_new_blocks E s blocknr num btype atype cpuid from_tail
        pid).sbi i = nova_get_free_list s i := by
      rw [hset]
      exact get_set_free_list_ne _ _ _ _ hc0 hi0 e (Or.inl hi2) hinv.len
    have := hcnt.parts i hi0 hi2
    unfold index_of at this ⊢
    rw [hg]
    exact this

theorem count_inv_free (E : kernel_env) (s0 s : nova_sb_info) (A : Int → Nat → Prop)
    (c blocknr : Nat) (num : Int) (btype : Nat) (lp : Int)
    (hinv : part_inv E s A) (hcnt : count_inv s0 s)
    (hsz : ∀ i : Int, 0 ≤ i → i < s.cpus →
      (nova_get_free_list s0 i).block_end - (nova_get_free_list s0 i).block_start + 1 <
        18446744073709551616)
    (hnum : 0 < num) (hnum2 : num < 2147483648)
    (hrun : ∀ b, blocknr ≤ b → b < blocknr + free_count btype num → A (free_cpu s blocknr) b)
    (hc : c ∉ (index_of s (free_cpu s blocknr)).map Prod.fst) :
    count_inv s0 (nova_free_blocks E s (some c) blocknr num btype lp).2 := by
  have hnb := @free_count_pos btype num hnum
  obtain ⟨hfc0, hfc⟩ := hinv.owner _ _ (hrun blocknr (le_refl _) (by omega))
  obtain ⟨hw, hpe, hpc, hpd⟩ := hinv.parts _ hfc0 hfc
  have hlast := ((hpc (blocknr + free_count btype num - 1)).1
    (Or.inr (hrun _ (by omega) (by omega)))).2
  have hcl := hinv.cpus_lt
  have hcpu : blocknr / s.per_list_blocks < 2147483648 := by
    unfold free_cpu at hfc
    omega
  have hfree : ∀ b, blocknr ≤ b → b < blocknr + free_count btype num →
      ¬ blk_in (index_of s (free_cpu s blocknr)) b :=
    fun b h1 h2 hb => hpd b hb (hrun b h1 h2)
  obtain ⟨_, hcpus2, hinv2⟩ := part_inv_free E s A c blocknr num btype lp hinv hnum hnum2
    hrun hc
  obtain ⟨fl1, hrun2, hget, _, _, _, _, _, hbs, hbe⟩ := free_blocks_valid E s c blocknr num
    btype lp hinv.len hnum hnum2 hcpu hw (by omega) hfree
  obtain ⟨n1, n2, n3⟩ := free_blocks_counts E s c blocknr num btype lp hinv.len hnum hnum2
    hcpu hw (by omega) hfree
  obtain ⟨c1, c2, c3, c4⟩ := hcnt.parts _ hfc0 hfc
  obtain ⟨t1, t2⟩ := part_total_le E _ _ hinv2 (free_cpu s blocknr) hfc0
    (by rw [hcpus2]; exact hfc)
  have hszc := hsz _ hfc0 hfc
  rw [hget, hbs, hbe, c3, c4] at t1
  have hl0 := length_le_total (index_of s (free_cpu s blocknr))
  constructor
  intro i hi0 hi
  have hi2 : i < s.cpus := by rw [hcpus2] at hi; exact hi
  by_cases e : i = free_cpu s blocknr
  · subst e
    refine ⟨?_, ?_, by rw [hget, hbs, c3], by rw [hget, hbe, c4]⟩
    · rw [n1, c1, ← n2]
      exact ul_of_lt (by omega)
    · rcases n3 with ⟨h1, h2⟩ | ⟨h1, h2⟩ | ⟨h1, h2⟩
      · rw [h2, c2, ul_sub_of_le _ _ (by omega) (by omega)]
        omega
      · rw [h2, c2, h1]
      · rw [h2, c2, ← h1]
        exact ul_of_lt (by omega)
  · have hg : nova_get_free_list (nova_free_blocks E s (some c) blocknr num btype lp).2 i =
        nova_get_free_list s i := by
      rw [hrun2]
      exact get_set_free_list_ne _ _ _ _ hfc0 hi0 e (Or.inl hi2) hinv.len
    have := hcnt.parts i hi0 hi2
    unfold index_of at this ⊢
    rw [hg]
    exact this

theorem init_count_inv (E : kernel_env) (base : nova_sb_info) (blknode : Int → Nat)
    (hgeom : ∀ i : Int, 0 ≤ i → i < base.cpus →
      (nova_get_free_list (nova_init_blockmap E (nova_alloc_block_free_lists base) 0 blknode)
        i).block_start ≤
      (nova_get_free_list (nova_init_blockmap E (nova_alloc_block_free_lists base) 0 blknode)
        i).block_end)
    (hsz : ∀ i : Int, 0 ≤ i → i < base.cpus →
      (nova_get_free_list (nova_init_blockmap E (nova_alloc_block_free_lists base) 0 blknode)
        i).block_end -
      (nova_get_free_list (nova_init_blockmap E (nova_alloc_block_free_lists base) 0 blknode)
        i).block_start + 1 < 18446744073709551616)
    (hcp : (nova_init_blockmap E (nova_alloc_block_free_lists base) 0 blknode).cpus =
      base.cpus) :
    count_inv (nova_init_blockmap E (nova_alloc_block_free_lists base) 0 blknode)
      (nova_init_blockmap E (nova_alloc_block_free_lists base) 0 blknode) := by
  constructor
  intro i hi0 hi
  rw [hcp] at hi
  have hg := hgeom i hi0 hi
  have hs := hsz i hi0 hi
  have hlist := init_blockmap_list E base blknode i hi0 hi
  unfold index_of
  rw [hlist] at hg hs ⊢
  refine ⟨?_, ?_, rfl, rfl⟩
  · simp only [init_list, E.rb_insert_color_inorder, rb_root.inorder, List.nil_append,
      total_blocks, List.map_cons, List.map_nil, List.sum_cons, List.sum_nil, node_blocks,
      update_checksum_low, update_checksum_high] at hg hs ⊢
    unfold ul ul_sub
    omega
  · simp only [init_list, E.rb_insert_color_inorder, rb_root.inorder, List.nil_append,
      List.length_cons, List.length_nil]

theorem sum_map_le_sum_map {l : List Nat} {f g : Nat → Nat} (h : ∀ x ∈ l, f x ≤ g x) :
    (l.map f).sum ≤ (l.map g).sum := by
  induction l with
  | nil => simp
  | cons x xs ih =>
    simp only [List.map_cons, List.sum_cons]
    have h1 := h x (List.mem_cons_self _ _)
    have h2 := ih (fun y hy => h y (List.mem_cons_of_mem _ hy))
    omega

theorem le_sum_map_of_mem {l : List Nat} {f : Nat → Nat} {x : Nat} (h : x ∈ l) :
    f x ≤ (l.map f).sum := by
  induction l with
  | nil => cases h
  | cons y ys ih =>
    simp only [List.map_cons, List.sum_cons]
    rcases List.mem_cons.1 h with e | e
    · subst e; omega
    · have := ih e; omega

/-- C14 (counterexample): with 8 blocks, 2 CPUs and 6 reserved blocks the first partition is
initialised with the node `[7, 3]`, which holds no block, and `num_free_blocks = 2^64 - 3`;
the second partition holds `[5, 7]` with counter 3.  `nova_count_free_blocks` returns 0
although blocks 5, 6 and 7 are free. -/
theorem C14_count_free_blocks_counterexample :
    extents (index_of degenerate_sbi1 0) = [(7, 3)] ∧
    (nova_get_free_list degenerate_sbi1 0).num_free_blocks = 18446744073709551613 ∧
    extents (index_of degenerate_sbi1 1) = [(5, 7)] ∧
    (nova_get_free_list degenerate_sbi1 1).num_free_blocks = 3 ∧
    nova_count_free_blocks degenerate_sbi1 = 0 := by
  decide

/-- C14 (amended): `nova_count_free_blocks` returns the sum of the per-CPU `num_free_blocks`
in `unsigned long` arithmetic.  Let `nova_init_blockmap` with `recovery = 0` run on freshly
allocated free lists with an empty shared list, `cpus` fitting an `int`,
`per_list_blocks ≥ 1`, leave `block_start ≤ block_end` in every partition, and let the
partitions hold fewer than `2^64` blocks together.  Then in every state reached by
successful allocations and frees of allocated runs, each partition's `num_free_blocks` is
the number of blocks in its extents and `num_blocknode` the number of its extents, and the
value returned is the number of free blocks. -/
theorem C14_count_free_blocks_amended (E : kernel_env) (base : nova_sb_info)
    (blknode : Int → Nat) (s : nova_sb_info) (A : Int → Nat → Prop)
    (hcpus : base.cpus < 2147483648)
    (hplb : 1 ≤ (nova_init_blockmap E (nova_alloc_block_free_lists base) 0
      blknode).per_list_blocks)
    (hshared : base.shared_free_list.block_free_tree = .nil)
    (hgeom : ∀ i : Int, 0 ≤ i → i < base.cpus →
      (nova_get_free_list (nova_init_blockmap E (nova_alloc_block_free_lists base) 0 blknode)
        i).block_start ≤
      (nova_get_free_list (nova_init_blockmap E (nova_alloc_block_free_lists base) 0 blknode)
        i).block_end)
    (hsum : ((List.range base.cpus.toNat).map (fun (i : Nat) =>
      (nova_get_free_list (nova_init_blockmap E (nova_alloc_block_free_lists base) 0 blknode)
        i).block_end -
      (nova_get_free_list (nova_init_blockmap E (nova_alloc_block_free_lists base) 0 blknode)
        i).block_start + 1)).sum < 18446744073709551616)
    (hreach : reachable E (nova_init_blockmap E (nova_alloc_block_free_lists base) 0 blknode)
      s A) :
    nova_count_free_blocks s =
      ul (((List.range s.cpus.toNat).map
        (fun (i : Nat) => (nova_get_free_list s i).num_free_blocks)).sum) ∧
    (∀ i : Int, 0 ≤ i → i < base.cpus →
      (nova_get_free_list s i).num_free_blocks = total_blocks (index_of s i) ∧
      (nova_get_free_list s i).num_blocknode = (index_of s i).length) ∧
    nova_count_free_blocks s =
      ((List.range base.cpus.toNat).map (fun (i : Nat) => total_blocks (index_of s i))).sum := by
  have hsz : ∀ i : Int, 0 ≤ i → i < base.cpus →
      (nova_get_free_list (nova_init_blockmap E (nova_alloc_block_free_lists base) 0 blknode)
        i).block_end -
      (nova_get_free_list (nova_init_blockmap E (nova_alloc_block_free_lists base) 0 blknode)
        i).block_start + 1 < 18446744073709551616 := by
    intro i hi0 hi
    have hm : i.toNat ∈ List.range base.cpus.toNat := by
      rw [List.mem_range]; omega
    have := @le_sum_map_of_mem _ (fun (i : Nat) =>
      (nova_get_free_list (nova_init_blockmap E (nova_alloc_block_free_lists base) 0 blknode)
        i).block_end -
      (nova_get_free_list (nova_init_blockmap E (nova_alloc_block_free_lists base) 0 blknode)
        i).block_start + 1) _ hm
    simp only [Int.toNat_of_nonneg hi0] at this
    omega
  have hmain : s.cpus = base.cpus ∧ part_inv E s A ∧
      count_inv (nova_init_blockmap E (nova_alloc_block_free_lists base) 0 blknode) s := by
    induction hreach with
    | init =>
      obtain ⟨h1, h2⟩ := init_blockmap_inv E base blknode hcpus hplb hshared hgeom
      exact ⟨h1, h2, init_count_inv E base blknode hgeom hsz h1⟩
    | alloc s1 A1 blocknr num btype atype cpuid from_tail pid _ h1 h2 h3 h4 ih =>
      obtain ⟨hc, hinv⟩ := part_inv_alloc E s1 A1 blocknr num btype atype cpuid from_tail pid
        ih.2.1 h1 h2 h3 h4
      exact ⟨by rw [hc]; exact ih.1, hinv,
        count_inv_alloc E _ s1 A1 blocknr num btype atype cpuid from_tail pid ih.2.1 ih.2.2
          (fun i hi0 hi => hsz i hi0 (by rw [ih.1] at hi; exact hi)) h1 h2 h3 h4⟩
    | free s1 A1 c blocknr num btype lp _ h1 h2 h3 h4 ih =>
      obtain ⟨_, hc, hinv⟩ := part_inv_free E s1 A1 c blocknr num btype lp ih.2.1 h1 h2 h3 h4
      exact ⟨by rw [hc]; exact ih.1, hinv,
        count_inv_free E _ s1 A1 c blocknr num btype lp ih.2.1 ih.2.2
          (fun i hi0 hi => hsz i hi0 (by rw [ih.1] at hi; exact hi)) h1 h2 h3 h4⟩
  obtain ⟨hcp, hinv, hcnt⟩ := hmain
  have hparts : ∀ i : Int, 0 ≤ i → i < base.cpus →
      (nova_get_free_list s i).num_free_blocks = total_blocks (index_of s i) ∧
      (nova_get_free_list s i).num_blocknode = (index_of s i).length := by
    intro i hi0 hi
    obtain ⟨c1, c2, _, _⟩ := hcnt.parts i hi0 (by rw [hcp]; exact hi)
    exact ⟨c1, c2⟩
  refine ⟨count_free_blocks_eq s, hparts, ?_⟩
  rw [count_free_blocks_eq, hcp]
  have hmap : (List.range base.cpus.toNat).map
      (fun (i : Nat) => (nova_get_free_list s i).num_free_blocks) =
      (List.range base.cpus.toNat).map (fun (i : Nat) => total_blocks (index_of s i)) := by
    apply List.map_congr_left
    intro x hx
    rw [List.mem_range] at hx
    exact (hparts x (Int.natCast_nonneg _) (by omega)).1
  rw [hmap]
  apply ul_of_lt
  refine lt_of_le_of_lt (sum_map_le_sum_map ?_) hsum
  intro x hx
  rw [List.mem_range] at hx
  have hx0 : (0 : Int) ≤ (x : Int) := Int.natCast_nonneg _
  have hxc : (x : Int) < s.cpus := by rw [hcp]; omega
  obtain ⟨t1, _⟩ := part_total_le E s A hinv x hx0 hxc
  obtain ⟨_, _, c3, c4⟩ := hcnt.parts x hx0 hxc
  rw [c3, c4] at t1
  exact t1

/-- C14 (amended) at a concrete input: one partition of 100 blocks after 30 blocks were
allocated; 57 blocks are free. -/
theorem C14_count_free_blocks_amended_witness :
    nova_count_free_blocks example_sbi2 = total_blocks (index_of example_sbi2 0) ∧
    nova_count_free_blocks example_sbi2 = 57 := by
  have h := C14_count_free_blocks_amended (unbalanced_env 0)
    { s_blocksize := 4096, initsize := 409600, num_blocks := 100, reserved_blocks := 1,
      cpus := 1, per_list_blocks := 0, free_lists := [],
      shared_free_list := free_list.zero 0 }
    (fun _ => 1000) example_sbi2 _ (by decide) (by decide) rfl
    (by
      intro i h0 h1
      have e : i = 0 := by
        have : i < 1 := h1
        omega
      subst e
      decide)
    (by decide)
    (reachable.alloc _ _ 0 30 NOVA_BLOCK_TYPE_4K DATA 0 0 0 reachable.init (by decide)
      (by decide) (by decide) (by decide))
  exact ⟨by rw [h.2.2]; decide, by decide⟩

theorem pow256 (k : Nat) : 256 ^ k = 2 ^ (8 * k) := by
  rw [show (256 : Nat) = 2 ^ 8 from rfl, ← pow_mul]

theorem xor_byte (x y k : Nat) :
    (x ^^^ y) / 256 ^ k % 256 = (x / 256 ^ k % 256) ^^^ (y / 256 ^ k % 256) := by
  rw [pow256, show (256 : Nat) = 2 ^ 8 from rfl]
  apply Nat.eq_of_testBit_eq
  intro i
  simp only [Nat.testBit_mod_two_pow, Nat.testBit_xor, ← Nat.shiftRight_eq_div_pow,
    Nat.testBit_shiftRight]
  by_cases h : i < 8 <;> simp [h]

theorem load_byte (m : memory) : ∀ (n a k : Nat), k < n →
    load m a n / 256 ^ k % 256 = m (a + k) % 256 := by
  intro n
  induction n with
  | zero => intro a k h; omega
  | succ n ih =>
    intro a k h
    cases k with
    | zero =>
      simp only [load, pow_zero, Nat.div_one, Nat.add_zero]
      omega
    | succ k =>
      have := ih (a + 1) k (by omega)
      simp only [load]
      rw [pow_succ, Nat.mul_comm (256 ^ k) 256, ← Nat.div_div_eq_div_mul]
      have e : (m a % 256 + 256 * load m (a + 1) n) / 256 = load m (a + 1) n := by omega
      rw [e, this]
      congr 2
      omega

theorem load_congr (m1 m2 : memory) : ∀ (n a : Nat), (∀ k, k < n → m1 (a + k) = m2 (a + k)) →
    load m1 a n = load m2 a n := by
  intro n
  induction n with
  | zero => intro a _; rfl
  | succ n ih =>
    intro a h
    simp only [load]
    rw [ih (a + 1) (fun k hk => by
      have := h (k + 1) (by omega)
      rw [show a + 1 + k = a + (k + 1) by omega]
      exact this)]
    have := h 0 (by omega)
    rw [Nat.add_zero] at this
    rw [this]

theorem parity_strps_byte (D : data_env) (m : memory) (strp_ptr w skip i k : Nat)
    (hsize : D.NOVA_STRIPE_SIZE = 2 ^ D.NOVA_STRIPE_SHIFT)
    (hbytes : ∀ a, m a < 256) (hk : k < w) :
    ∀ (strps : List Nat) (x : Nat),
      (∀ s ∈ strps, s * D.NOVA_STRIPE_SIZE + i < 4294967296) →
      parity_strps D m strp_ptr w skip i strps x / 256 ^ k % 256 =
        xor_skip m strp_ptr D.NOVA_STRIPE_SIZE skip strps (i + k) (x / 256 ^ k % 256) := by
  intro strps
  induction strps with
  | nil => intro x _; rfl
  | cons s l ih =>
    intro x hs
    have hl : ∀ t ∈ l, t * D.NOVA_STRIPE_SIZE + i < 4294967296 :=
      fun t ht => hs t (List.mem_cons_of_mem _ ht)
    have h0 := hs s (List.mem_cons_self _ _)
    unfold parity_strps xor_skip
    simp only [List.foldl_cons]
    by_cases e : s = skip
    · rw [if_pos e, if_pos e]
      exact ih x hl
    · rw [if_neg e, if_neg e]
      have := ih (x ^^^ load m (strp_ptr + uint (uint (s * 2 ^ D.NOVA_STRIPE_SHIFT) + i)) w) hl
      unfold parity_strps xor_skip at this
      rw [this, xor_byte, load_byte m w _ k hk]
      have e1 : uint (uint (s * 2 ^ D.NOVA_STRIPE_SHIFT) + i) = s * D.NOVA_STRIPE_SIZE + i := by
        rw [← hsize]
        unfold uint
        omega
      rw [e1, Nat.mod_eq_of_lt (hbytes _)]
      rw [show strp_ptr + (s * D.NOVA_STRIPE_SIZE + i) + k =
        strp_ptr + s * D.NOVA_STRIPE_SIZE + (i + k) by omega]

theorem xor_skip_congr (m1 m2 : memory) (b1 b2 size skip k : Nat) :
    ∀ (strps : List Nat) (x : Nat),
      (∀ s ∈ strps, s ≠ skip → m1 (b1 + s * size + k) = m2 (b2 + s * size + k)) →
      xor_skip m1 b1 size skip strps k x = xor_skip m2 b2 size skip strps k x := by
  intro strps
  induction strps with
  | nil => intro x _; rfl
  | cons s l ih =>
    intro x h
    have hl : ∀ t ∈ l, t ≠ skip → m1 (b1 + t * size + k) = m2 (b2 + t * size + k) :=
      fun t ht => h t (List.mem_cons_of_mem _ ht)
    unfold xor_skip
    simp only [List.foldl_cons]
    by_cases e : s = skip
    · simp only [if_pos e]
      exact ih x hl
    · simp only [if_neg e]
      rw [h s (List.mem_cons_self _ _) e]
      exact ih _ hl

theorem parity_strps_congr (D : data_env) (m1 m2 : memory) (strp_ptr w skip i : Nat)
    (hsize : D.NOVA_STRIPE_SIZE = 2 ^ D.NOVA_STRIPE_SHIFT) :
    ∀ (strps : List Nat) (x : Nat),
      (∀ s ∈ strps, s * D.NOVA_STRIPE_SIZE + i < 4294967296) →
      (∀ s ∈ strps, ∀ t, t < w → m1 (strp_ptr + s * D.NOVA_STRIPE_SIZE + i + t) =
        m2 (strp_ptr + s * D.NOVA_STRIPE_SIZE + i + t)) →
      parity_strps D m1 strp_ptr w skip i strps x =
        parity_strps D m2 strp_ptr w skip i strps x := by
  intro strps
  induction strps with
  | nil => intro x _ _; rfl
  | cons s l ih =>
    intro x hs h
    have hl : ∀ t ∈ l, t * D.NOVA_STRIPE_SIZE + i < 4294967296 :=
      fun t ht => hs t (List.mem_cons_of_mem _ ht)
    have h0 := hs s (List.mem_cons_self _ _)
    unfold parity_strps
    simp only [List.foldl_cons]
    have e1 : uint (uint (s * 2 ^ D.NOVA_STRIPE_SHIFT) + i) = s * D.NOVA_STRIPE_SIZE + i := by
      rw [← hsize]
      unfold uint
      omega
    have e2 : load m1 (strp_ptr + uint (uint (s * 2 ^ D.NOVA_STRIPE_SHIFT) + i)) w =
        load m2 (strp_ptr + uint (uint (s * 2 ^ D.NOVA_STRIPE_SHIFT) + i)) w := by
      rw [e1]
      apply load_congr
      intro t ht
      have := h s (List.mem_cons_self _ _) t ht
      rw [show strp_ptr + (s * D.NOVA_STRIPE_SIZE + i) + t =
        strp_ptr + s * D.NOVA_STRIPE_SIZE + i + t by omega]
      exact this
    rw [e2]
    have := fun y => ih y hl (fun t ht => h t (List.mem_cons_of_mem _ ht))
    unfold parity_strps at this
    by_cases e : s = skip
    · simp only [if_pos e]; exact this x
    · simp only [if_neg e]; exact this _

theorem store_byte_in (m : memory) (a n v x : Nat) (h1 : a ≤ x) (h2 : x < a + n) :
    store m a n v x = v / 256 ^ (x - a) % 256 := by
  unfold store
  rw [if_pos ⟨h1, h2⟩]

theorem store_byte_out (m : memory) (a n v x : Nat) (h : x < a ∨ a + n ≤ x) :
    store m a n v x = m x := by
  unfold store
  rw [if_neg (by omega)]

/-- The word loop of `nova_calculate_block_parity`: with `r` words left and more than `r`
units of fuel it ends, the output stripe holds the byte-wise XOR and nothing else
changed. -/
theorem parity_words_spec (D : data_env) (m : memory)
    (w init_ptr par_ptr strp_ptr skip num_strps : Nat)
    (hsize : D.NOVA_STRIPE_SIZE = 2 ^ D.NOVA_STRIPE_SHIFT)
    (hw : 0 < w)
    (hbytes : ∀ a, m a < 256)
    (hfit : num_strps * D.NOVA_STRIPE_SIZE < 4294967296)
    (hfit1 : D.NOVA_STRIPE_SIZE < 4294967296)
    (hinit : init_ptr = par_ptr ∨ init_ptr + D.NOVA_STRIPE_SIZE ≤ par_ptr ∨
      par_ptr + D.NOVA_STRIPE_SIZE ≤ init_ptr)
    (hdisj : par_ptr + D.NOVA_STRIPE_SIZE ≤ strp_ptr ∨
      strp_ptr + num_strps * D.NOVA_STRIPE_SIZE ≤ par_ptr) :
    ∀ (r fuel i : Nat) (mc : memory),
      i + r * w = D.NOVA_STRIPE_SIZE → r < fuel →
      (∀ a, (a < par_ptr ∨ par_ptr + i ≤ a) → mc a = m a) →
      (∀ k, k < i → mc (par_ptr + k) =
        xor_skip m strp_ptr D.NOVA_STRIPE_SIZE skip (List.range num_strps) k
          (m (init_ptr + k))) →
      ∃ m1, parity_words D w init_ptr par_ptr strp_ptr skip num_strps fuel i mc = some m1 ∧
        (∀ k, k < D.NOVA_STRIPE_SIZE → m1 (par_ptr + k) =
          xor_skip m strp_ptr D.NOVA_STRIPE_SIZE skip (List.range num_strps) k
            (m (init_ptr + k))) ∧
        (∀ a, (a < par_ptr ∨ par_ptr + D.NOVA_STRIPE_SIZE ≤ a) → m1 a = m a) := by
  intro r
  induction r with
  | zero =>
    intro fuel i mc hi hf hout hin
    cases fuel with
    | zero => omega
    | succ fuel =>
      have hi2 : i = D.NOVA_STRIPE_SIZE := by omega
      refine ⟨mc, ?_, ?_, ?_⟩
      · unfold parity_words
        rw [if_neg (by omega)]
      · intro k hk; exact hin k (by omega)
      · intro a ha; exact hout a (by omega)
  | succ r ih =>
    intro fuel i mc hi hf hout hin
    cases fuel with
    | zero => omega
    | succ fuel =>
      have hrw : i + w + r * w = D.NOVA_STRIPE_SIZE := by
        rw [Nat.succ_mul] at hi; omega
      have hiw : i + w ≤ D.NOVA_STRIPE_SIZE := by omega
      have hlt : i < D.NOVA_STRIPE_SIZE := by omega
      unfold parity_words
      rw [if_pos hlt]
      have hu : uint (i + w) = i + w := by unfold uint; omega
      rw [hu]
      have hsz : ∀ s ∈ List.range num_strps, s * D.NOVA_STRIPE_SIZE + i < 4294967296 := by
        intro s hs
        rw [List.mem_range] at hs
        have : (s + 1) * D.NOVA_STRIPE_SIZE ≤ num_strps * D.NOVA_STRIPE_SIZE :=
          Nat.mul_le_mul_right _ hs
        rw [Nat.succ_mul] at this
        omega
      have hblk : ∀ s ∈ List.range num_strps, ∀ t, t < w →
          mc (strp_ptr + s * D.NOVA_STRIPE_SIZE + i + t) =
          m (strp_ptr + s * D.NOVA_STRIPE_SIZE + i + t) := by
        intro s hs t ht
        rw [List.mem_range] at hs
        have : (s + 1) * D.NOVA_STRIPE_SIZE ≤ num_strps * D.NOVA_STRIPE_SIZE :=
          Nat.mul_le_mul_right _ hs
        rw [Nat.succ_mul] at this
        apply hout
        omega
      have hld : load mc (init_ptr + i) w = load m (init_ptr + i) w := by
        apply load_congr
        intro t ht
        apply hout
        omega
      rw [hld, parity_strps_congr D mc m strp_ptr w skip i hsize _ _ hsz hblk]
      apply ih
      · exact hrw
      · omega
      · intro a ha
        rw [store_byte_out _ _ _ _ _ (by omega)]
        exact hout a (by omega)
      · intro k hk
        by_cases hki : k < i
        · rw [store_byte_out _ _ _ _ _ (by omega)]
          exact hin k hki
        · rw [store_byte_in _ _ _ _ _ (by omega) (by omega)]
          have hkw : par_ptr + k - (par_ptr + i) < w := by omega
          rw [parity_strps_byte D m strp_ptr w skip i _ hsize hbytes hkw _ _ hsz,
            load_byte m w _ _ hkw, Nat.mod_eq_of_lt (hbytes _)]
          rw [show i + (par_ptr + k - (par_ptr + i)) = k by omega,
            show init_ptr + i + (par_ptr + k - (par_ptr + i)) = init_ptr + k by omega]

theorem xor_fold_acc (g : Nat → Nat) : ∀ (l : List Nat) (a : Nat),
    l.foldl (fun (acc : Nat) (s : Nat) => acc ^^^ g s) a =
      a ^^^ l.foldl (fun (acc : Nat) (s : Nat) => acc ^^^ g s) 0 := by
  intro l
  induction l with
  | nil => intro a; simp
  | cons s l ih =>
    intro a
    simp only [List.foldl_cons]
    rw [ih (a ^^^ g s), ih (0 ^^^ g s), Nat.zero_xor, Nat.xor_assoc]

theorem xor_skip_eq (m : memory) (block size skip k : Nat) : ∀ (l : List Nat) (x : Nat),
    xor_skip m block size skip l k x =
      x ^^^ xor_of_stripes m block size (l.filter (fun (s : Nat) => s ≠ skip)) k := by
  intro l
  induction l with
  | nil => intro x; simp [xor_skip, xor_of_stripes]
  | cons s l ih =>
    intro x
    have h1 : xor_skip m block size skip (s :: l) k x =
        xor_skip m block size skip l k
          (if s = skip then x else x ^^^ m (block + s * size + k)) := rfl
    rw [h1, ih]
    by_cases e : s = skip
    · rw [if_pos e, List.filter_cons_of_neg (by simp [e])]
    · rw [if_neg e, List.filter_cons_of_pos (by simp [e])]
      have h2 : xor_of_stripes m block size
          (s :: l.filter (fun (s : Nat) => s ≠ skip)) k =
          (l.filter (fun (s : Nat) => s ≠ skip)).foldl
            (fun (acc : Nat) (s : Nat) => acc ^^^ m (block + s * size + k))
            (0 ^^^ m (block + s * size + k)) := rfl
      rw [h2, xor_fold_acc, Nat.zero_xor, Nat.xor_assoc]
      rfl

theorem xor_of_stripes_split (m : memory) (block size k s : Nat) : ∀ (n : Nat), s < n →
    xor_of_stripes m block size (List.range n) k =
      m (block + s * size + k) ^^^
        xor_of_stripes m block size ((List.range n).filter (fun (t : Nat) => t ≠ s)) k := by
  intro n
  induction n with
  | zero => intro h; omega
  | succ n ih =>
    intro h
    have happ : ∀ l1 l2 : List Nat, xor_of_stripes m block size (l1 ++ l2) k =
        xor_of_stripes m block size l1 k ^^^ xor_of_stripes m block size l2 k := by
      intro l1 l2
      unfold xor_of_stripes
      rw [List.foldl_append, xor_fold_acc]
    rw [List.range_succ, List.filter_append, happ, happ]
    by_cases e : s = n
    · subst e
      have hf : (List.range s).filter (fun (t : Nat) => t ≠ s) = List.range s := by
        apply List.filter_eq_self.2
        intro t ht
        rw [List.mem_range] at ht
        simp
        omega
      rw [hf, List.filter_cons_of_neg (by simp)]
      simp [xor_of_stripes, Nat.xor_comm]
    · rw [ih (by omega), List.filter_cons_of_pos (by simp; omega), Nat.xor_assoc]
      rfl

/-- The effect of `nova_calculate_block_parity` on memory. -/
theorem block_parity_spec (D : data_env) (fuel : Nat) (sbi : nova_sb_info) (m : memory)
    (parity block : Nat) (strp_skip : Int)
    (hsize : D.NOVA_STRIPE_SIZE = 2 ^ D.NOVA_STRIPE_SHIFT)
    (hword : (if D.X86_FEATURE_XMM2 then 4 else 3) ≤ D.NOVA_STRIPE_SHIFT)
    (hshift : D.NOVA_STRIPE_SHIFT < 32)
    (hblk : sbi.s_blocksize < 4294967296)
    (hwhole : strp_skip < 0 → 1 ≤ sbi.s_blocksize / 2 ^ D.NOVA_STRIPE_SHIFT)
    (hbytes : ∀ a, m a < 256)
    (hdisj : parity + D.NOVA_STRIPE_SIZE ≤ block ∨
      block + sbi.s_blocksize / 2 ^ D.NOVA_STRIPE_SHIFT * D.NOVA_STRIPE_SIZE ≤ parity)
    (hfuel : D.NOVA_STRIPE_SIZE < fuel) :
    ∃ m1, nova_calculate_block_parity D fuel sbi m parity block strp_skip = .ret (0, m1) ∧
      (∀ k, k < D.NOVA_STRIPE_SIZE → m1 (parity + k) =
        xor_skip m block D.NOVA_STRIPE_SIZE (if strp_skip < 0 then 0 else strp_skip).toNat
          (List.range (sbi.s_blocksize / 2 ^ D.NOVA_STRIPE_SHIFT)) k
          (m ((if strp_skip < 0 then block else parity) + k))) ∧
      (∀ a, (a < parity ∨ parity + D.NOVA_STRIPE_SIZE ≤ a) → m1 a = m a) := by
  have hn : uint (sbi.s_blocksize / 2 ^ D.NOVA_STRIPE_SHIFT) =
      sbi.s_blocksize / 2 ^ D.NOVA_STRIPE_SHIFT := by
    unfold uint
    apply Nat.mod_eq_of_lt
    exact lt_of_le_of_lt (Nat.div_le_self _ _) hblk
  have hmul : sbi.s_blocksize / 2 ^ D.NOVA_STRIPE_SHIFT * D.NOVA_STRIPE_SIZE ≤
      sbi.s_blocksize := by
    rw [hsize]; exact Nat.div_mul_le_self _ _
  have hsz32 : D.NOVA_STRIPE_SIZE < 4294967296 := by
    rw [hsize]
    calc 2 ^ D.NOVA_STRIPE_SHIFT < 2 ^ 32 := Nat.pow_lt_pow_right (by decide) hshift
    _ = 4294967296 := by norm_num
  obtain ⟨w, hwdef, r, hr⟩ : ∃ w, w = (if D.X86_FEATURE_XMM2 then 16 else 8) ∧
      ∃ r, r * w = D.NOVA_STRIPE_SIZE := by
    refine ⟨_, rfl, ?_⟩
    by_cases hx : D.X86_FEATURE_XMM2 = true
    · rw [if_pos hx] at hword ⊢
      refine ⟨2 ^ (D.NOVA_STRIPE_SHIFT - 4), ?_⟩
      rw [hsize, show (16 : Nat) = 2 ^ 4 from rfl, ← pow_add]
      congr 1; omega
    · rw [if_neg hx] at hword ⊢
      refine ⟨2 ^ (D.NOVA_STRIPE_SHIFT - 3), ?_⟩
      rw [hsize, show (8 : Nat) = 2 ^ 3 from rfl, ← pow_add]
      congr 1; omega
  have hw0 : 0 < w := by rw [hwdef]; split_ifs <;> decide
  have hrle : r ≤ D.NOVA_STRIPE_SIZE := by
    rw [← hr]; exact Nat.le_mul_of_pos_right _ hw0
  have hinit : (if strp_skip < 0 then block else parity) = parity ∨
      (if strp_skip < 0 then block else parity) + D.NOVA_STRIPE_SIZE ≤ parity ∨
      parity + D.NOVA_STRIPE_SIZE ≤ (if strp_skip < 0 then block else parity) := by
    by_cases hs : strp_skip < 0
    · rw [if_pos hs]
      have h1 := hwhole hs
      have : D.NOVA_STRIPE_SIZE ≤
          sbi.s_blocksize / 2 ^ D.NOVA_STRIPE_SHIFT * D.NOVA_STRIPE_SIZE :=
        Nat.le_mul_of_pos_left _ h1
      omega
    · rw [if_neg hs]; exact Or.inl rfl
  obtain ⟨m1, h1, h2, h3⟩ := parity_words_spec D m w
    (if strp_skip < 0 then block else parity) parity block
    (if strp_skip < 0 then 0 else strp_skip).toNat
    (sbi.s_blocksize / 2 ^ D.NOVA_STRIPE_SHIFT) hsize hw0 hbytes (by omega) hsz32 hinit hdisj
    r fuel 0 m (by omega) (by omega) (fun _ _ => rfl) (fun k hk => by omega)
  refine ⟨m1, ?_, h2, h3⟩
  unfold nova_calculate_block_parity
  simp only [hn, ← hwdef, h1]

/-- C17: `nova_calculate_block_parity` returns 0 and leaves in the parity buffer the
reference parity stripe: with `strp_skip < 0` the byte-wise XOR of all stripes of the
block, with `strp_skip = s ≥ 0` the byte-wise XOR of the incoming buffer with every stripe
but stripe `s`.  This holds for the `u64` word loop and for the 16-byte SSE2 loop, for a
stripe size `2 ^ NOVA_STRIPE_SHIFT` that is a multiple of the word size, a block size
below `2^32`, a buffer that does not overlap the block, and enough fuel for the loop. -/
theorem C17_parity_equals_reference (D : data_env) (fuel : Nat) (sbi : nova_sb_info)
    (m : memory) (parity block : Nat) (strp_skip : Int)
    (hsize : D.NOVA_STRIPE_SIZE = 2 ^ D.NOVA_STRIPE_SHIFT)
    (hword : (if D.X86_FEATURE_XMM2 then 4 else 3) ≤ D.NOVA_STRIPE_SHIFT)
    (hshift : D.NOVA_STRIPE_SHIFT < 32)
    (hblk : sbi.s_blocksize < 4294967296)
    (hwhole : strp_skip < 0 → 1 ≤ sbi.s_blocksize / 2 ^ D.NOVA_STRIPE_SHIFT)
    (hbytes : ∀ a, m a < 256)
    (hdisj : parity + D.NOVA_STRIPE_SIZE ≤ block ∨
      block + sbi.s_blocksize / 2 ^ D.NOVA_STRIPE_SHIFT * D.NOVA_STRIPE_SIZE ≤ parity)
    (hfuel : D.NOVA_STRIPE_SIZE < fuel) :
    ∃ m1, nova_calculate_block_parity D fuel sbi m parity block strp_skip = .ret (0, m1) ∧
      ∀ k, k < D.NOVA_STRIPE_SIZE → m1 (parity + k) =
        parity_reference m parity block D.NOVA_STRIPE_SIZE
          (sbi.s_blocksize / 2 ^ D.NOVA_STRIPE_SHIFT) strp_skip k := by
  obtain ⟨m1, h1, h2, _⟩ := block_parity_spec D fuel sbi m parity block strp_skip hsize hword
    hshift hblk hwhole hbytes hdisj hfuel
  refine ⟨m1, h1, ?_⟩
  intro k hk
  rw [h2 k hk, xor_skip_eq]
  unfold parity_reference
  by_cases hs : strp_skip < 0
  · rw [if_pos hs, if_pos hs, if_pos hs]
    rw [xor_of_stripes_split m block D.NOVA_STRIPE_SIZE k 0 _ (hwhole hs)]
    simp
  · rw [if_neg hs, if_neg hs, if_neg hs]

/-- C17 at a concrete input: the parity of the 64-byte block at address 2000 is computed
into the buffer at address 1000 by the `u64` loop. -/
theorem C17_parity_equals_reference_witness :
    ∃ m1, nova_calculate_block_parity example_data_env 20 example_sbi_blk example_mem 1000
        2000 (-1) = .ret (0, m1) ∧
      ∀ k, k < 16 → m1 (1000 + k) = parity_reference example_mem 1000 2000 16 4 (-1) k :=
  C17_parity_equals_reference example_data_env 20 example_sbi_blk example_mem 1000 2000 (-1)
    rfl (by decide) (by decide) (by decide) (fun _ => by decide)
    (fun a => Nat.mod_lt _ (by decide)) (Or.inl (by decide)) (by decide)

/-- C16: parity round trip.  Let `nova_calculate_block_parity` with `strp_skip = -1`
compute the parity `P` of a block, and let a second memory hold `P` in a buffer and a copy
of the block in which every stripe other than stripe `s` is unchanged (stripe `s` may hold
anything, in particular zeroes).  Then `nova_calculate_block_parity` with `strp_skip = s`
on that buffer and copy returns 0 and leaves in the buffer exactly the original bytes of
stripe `s`. -/
theorem C16_parity_round_trip (D : data_env) (fuel : Nat) (sbi : nova_sb_info)
    (m m1 m2 : memory) (parity block par2 block2 s : Nat)
    (hsize : D.NOVA_STRIPE_SIZE = 2 ^ D.NOVA_STRIPE_SHIFT)
    (hword : (if D.X86_FEATURE_XMM2 then 4 else 3) ≤ D.NOVA_STRIPE_SHIFT)
    (hshift : D.NOVA_STRIPE_SHIFT < 32)
    (hblk : sbi.s_blocksize < 4294967296)
    (hs : s < sbi.s_blocksize / 2 ^ D.NOVA_STRIPE_SHIFT)
    (hbytes : ∀ a, m a < 256)
    (hbytes2 : ∀ a, m2 a < 256)
    (hdisj : parity + D.NOVA_STRIPE_SIZE ≤ block ∨
      block + sbi.s_blocksize / 2 ^ D.NOVA_STRIPE_SHIFT * D.NOVA_STRIPE_SIZE ≤ parity)
    (hdisj2 : par2 + D.NOVA_STRIPE_SIZE ≤ block2 ∨
      block2 + sbi.s_blocksize / 2 ^ D.NOVA_STRIPE_SHIFT * D.NOVA_STRIPE_SIZE ≤ par2)
    (hfuel : D.NOVA_STRIPE_SIZE < fuel)
    (hP : nova_calculate_block_parity D fuel sbi m parity block (-1) = .ret (0, m1))
    (hbuf : ∀ k, k < D.NOVA_STRIPE_SIZE → m2 (par2 + k) = m1 (parity + k))
    (hcopy : ∀ t, t < sbi.s_blocksize / 2 ^ D.NOVA_STRIPE_SHIFT → t ≠ s →
      ∀ k, k < D.NOVA_STRIPE_SIZE →
        m2 (block2 + t * D.NOVA_STRIPE_SIZE + k) = m (block + t * D.NOVA_STRIPE_SIZE + k)) :
    ∃ m3, nova_calculate_block_parity D fuel sbi m2 par2 block2 s = .ret (0, m3) ∧
      ∀ k, k < D.NOVA_STRIPE_SIZE →
        m3 (par2 + k) = m (block + s * D.NOVA_STRIPE_SIZE + k) := by
  obtain ⟨n1, e1, b1, _⟩ := block_parity_spec D fuel sbi m parity block (-1) hsize hword
    hshift hblk (fun _ => by omega) hbytes hdisj hfuel
  rw [hP] at e1
  have e1 : m1 = n1 := by
    injection e1 with e1
    exact (Prod.mk.inj e1).2
  subst e1
  obtain ⟨m3, e3, b3, _⟩ := block_parity_spec D fuel sbi m2 par2 block2 s hsize hword
    hshift hblk (fun h => by omega) hbytes2 hdisj2 hfuel
  refine ⟨m3, e3, ?_⟩
  intro k hk
  rw [b3 k hk]
  have hns : ¬ ((s : Int) < 0) := by omega
  have hneg : ((-1 : Int) < 0) := by decide
  rw [if_neg hns, if_neg hns, Int.toNat_ofNat, hbuf k hk, b1 k hk, if_pos hneg, if_pos hneg]
  rw [xor_skip_congr m2 m block2 block D.NOVA_STRIPE_SIZE s k _ _
    (fun t ht hts => hcopy t (List.mem_range.1 ht) hts k hk)]
  rw [xor_skip_eq, xor_skip_eq]
  have h0 := xor_of_stripes_split m block D.NOVA_STRIPE_SIZE k 0 _ (by omega : 0 <
    sbi.s_blocksize / 2 ^ D.NOVA_STRIPE_SHIFT)
  have h1 := xor_of_stripes_split m block D.NOVA_STRIPE_SIZE k s _ hs
  simp only [Nat.zero_mul, Nat.add_zero] at h0
  have e0 : (0 : Int).toNat = 0 := rfl
  rw [e0, ← h0, h1, Nat.xor_assoc, Nat.xor_self, Nat.xor_zero]

theorem xor_skip_lt (m : memory) (block size skip k : Nat) (hbytes : ∀ a, m a < 256) :
    ∀ (l : List Nat) (x : Nat), x < 256 → xor_skip m block size skip l k x < 256 := by
  intro l
  induction l with
  | nil => intro x hx; exact hx
  | cons s l ih =>
    intro x hx
    have h1 : xor_skip m block size skip (s :: l) k x =
        xor_skip m block size skip l k
          (if s = skip then x else x ^^^ m (block + s * size + k)) := rfl
    rw [h1]
    apply ih
    split_ifs
    · exact hx
    · exact @Nat.xor_lt_two_pow _ _ 8 hx (hbytes _)

theorem example_mem_lt (a : Nat) : example_mem a < 256 := Nat.mod_lt _ (by decide)

/-- C16 at a concrete input: the parity of the 64-byte block at address 2000 is computed
into the buffer at 1000, stripe 2 of the block is then zeroed, and the second call
rebuilds the 16 original bytes of stripe 2 in the buffer. -/
theorem C16_parity_round_trip_witness :
    ∃ m1 m3,
      nova_calculate_block_parity example_data_env 20 example_sbi_blk example_mem 1000 2000
        (-1) = .ret (0, m1) ∧
      nova_calculate_block_parity example_data_env 20 example_sbi_blk
        (fun a => if 2032 ≤ a ∧ a < 2048 then 0 else m1 a) 1000 2000 2 = .ret (0, m3) ∧
      ∀ k, k < 16 → m3 (1000 + k) = example_mem (2000 + 2 * 16 + k) := by
  obtain ⟨m1, hP, hin, hout⟩ := block_parity_spec example_data_env 20 example_sbi_blk
    example_mem 1000 2000 (-1) rfl (by decide) (by decide) (by decide) (fun _ => by decide)
    example_mem_lt (Or.inl (by decide)) (by decide)
  have hb1 : ∀ a, m1 a < 256 := by
    intro a
    by_cases ha : a < 1000 ∨ 1000 + 16 ≤ a
    · rw [hout a ha]; exact example_mem_lt a
    · have := hin (a - 1000) (by
        have e : example_data_env.NOVA_STRIPE_SIZE = 16 := rfl
        omega)
      rw [show 1000 + (a - 1000) = a by omega] at this
      rw [this]
      exact xor_skip_lt _ _ _ _ _ example_mem_lt _ _ (example_mem_lt _)
  obtain ⟨m3, h3, hk⟩ := C16_parity_round_trip example_data_env 20 example_sbi_blk example_mem
    m1 (fun a => if 2032 ≤ a ∧ a < 2048 then 0 else m1 a) 1000 2000 1000 2000 2
    rfl (by decide) (by decide) (by decide) (by decide) example_mem_lt
    (by
      intro a
      show (if 2032 ≤ a ∧ a < 2048 then 0 else m1 a) < 256
      split_ifs
      · decide
      · exact hb1 a)
    (Or.inl (by decide)) (Or.inl (by decide)) (by decide) hP
    (by
      intro k hk
      have e : example_data_env.NOVA_STRIPE_SIZE = 16 := rfl
      show (if 2032 ≤ 1000 + k ∧ 1000 + k < 2048 then 0 else m1 (1000 + k)) = m1 (1000 + k)
      rw [if_neg (by omega)])
    (by
      intro t ht hts k hk
      have e : example_data_env.NOVA_STRIPE_SIZE = 16 := rfl
      have e2 : example_sbi_blk.s_blocksize / 2 ^ example_data_env.NOVA_STRIPE_SHIFT = 4 := rfl
      rw [e] at hk ⊢
      rw [e2] at ht
      show (if 2032 ≤ 2000 + t * 16 + k ∧ 2000 + t * 16 + k < 2048 then 0
        else m1 (2000 + t * 16 + k)) = example_mem (2000 + t * 16 + k)
      rw [if_neg (by omega)]
      apply hout
      right
      show 1000 + 16 ≤ 2000 + t * 16 + k
      omega)
  exact ⟨m1, m3, hP, h3, hk⟩

theorem memcpy_in (m : memory) (dst src n x : Nat) (h1 : dst ≤ x) (h2 : x < dst + n) :
    memcpy m dst src n x = m (src + (x - dst)) := by
  unfold memcpy
  rw [if_pos ⟨h1, h2⟩]

theorem memcpy_out (m : memory) (dst src n x : Nat) (h : x < dst ∨ dst + n ≤ x) :
    memcpy m dst src n x = m x := by
  unfold memcpy
  rw [if_neg (by omega)]

/-- C18: `nova_restore_data` on a block with a valid address, with the stripe buffer
allocated outside the block and outside the stored checksum, and with valid parity and
checksum addresses.  The call returns; the stripe is reconstructed in the buffer as the
XOR of the stored parity stripe with the other stripes of the block; the call returns 0
with the bad stripe overwritten by the reconstructed stripe if and only if `nova_crc32c`
of the reconstructed stripe equals the stored checksum; on a mismatch it returns `-EIO`
and every byte of the data block is unchanged. -/
theorem C18_restore_data (D : data_env) (fuel : Nat) (sb : super_block) (m : memory)
    (strp_buf blocknr bad_strp_id blockptr par_addr csum_addr : Nat)
    (hsize : D.NOVA_STRIPE_SIZE = 2 ^ D.NOVA_STRIPE_SHIFT)
    (hword : (if D.X86_FEATURE_XMM2 then 4 else 3) ≤ D.NOVA_STRIPE_SHIFT)
    (hshift : D.NOVA_STRIPE_SHIFT < 32)
    (hblk : sb.sbi.s_blocksize < 4294967296)
    (hbad : bad_strp_id < sb.sbi.s_blocksize / 2 ^ D.NOVA_STRIPE_SHIFT)
    (hbytes : ∀ a, m a < 256)
    (hbuf : strp_buf ≠ 0)
    (hblockptr : nova_get_block sb (nova_get_block_off D blocknr NOVA_BLOCK_TYPE_4K) =
      blockptr)
    (hblock0 : blockptr ≠ 0)
    (hparaddr : nova_get_parity_addr D sb blocknr = par_addr)
    (hpar0 : par_addr ≠ 0)
    (hcsumaddr : nova_get_data_csum_addr D sb
      (ul (nova_get_block_off D blocknr NOVA_BLOCK_TYPE_4K +
        ul (bad_strp_id * D.NOVA_STRIPE_SIZE)) / 2 ^ D.NOVA_STRIPE_SHIFT) = csum_addr)
    (hcsum0 : csum_addr ≠ 0)
    (hdisj : strp_buf + D.NOVA_STRIPE_SIZE ≤ blockptr ∨
      blockptr + sb.sbi.s_blocksize ≤ strp_buf)
    (hdisjc : strp_buf + D.NOVA_STRIPE_SIZE ≤ csum_addr ∨ csum_addr + 4 ≤ strp_buf)
    (hfuel : D.NOVA_STRIPE_SIZE < fuel) :
    ∃ ret mf m2,
      nova_restore_data D fuel sb m strp_buf blocknr bad_strp_id = .ret (ret, mf) ∧
      nova_calculate_block_parity D fuel sb.sbi
        (memcpy m strp_buf par_addr D.NOVA_STRIPE_SIZE) strp_buf blockptr bad_strp_id =
        .ret (0, m2) ∧
      (∀ k, k < D.NOVA_STRIPE_SIZE → m2 (strp_buf + k) =
        m (par_addr + k) ^^^ xor_of_stripes m blockptr D.NOVA_STRIPE_SIZE
          ((List.range (sb.sbi.s_blocksize / 2 ^ D.NOVA_STRIPE_SHIFT)).filter
            (fun (s : Nat) => s ≠ bad_strp_id)) k) ∧
      ((ret = 0 ∧ ∀ k, k < D.NOVA_STRIPE_SIZE →
          mf (blockptr + bad_strp_id * D.NOVA_STRIPE_SIZE + k) = m2 (strp_buf + k)) ↔
        nova_crc32c D m2 D.NOVA_INIT_CSUM strp_buf D.NOVA_STRIPE_SIZE =
          load m csum_addr 4) ∧
      (nova_crc32c D m2 D.NOVA_INIT_CSUM strp_buf D.NOVA_STRIPE_SIZE ≠ load m csum_addr 4 →
        ret = - EIO ∧
        ∀ a, blockptr ≤ a → a < blockptr + sb.sbi.s_blocksize → mf a = m a) := by
  have hmul : sb.sbi.s_blocksize / 2 ^ D.NOVA_STRIPE_SHIFT * D.NOVA_STRIPE_SIZE ≤
      sb.sbi.s_blocksize := by
    rw [hsize]; exact Nat.div_mul_le_self _ _
  have h8 : 8 ≤ D.NOVA_STRIPE_SIZE := by
    rw [hsize]
    have h3 : 3 ≤ D.NOVA_STRIPE_SHIFT := by
      split_ifs at hword <;> omega
    calc 8 = 2 ^ 3 := rfl
    _ ≤ 2 ^ D.NOVA_STRIPE_SHIFT := Nat.pow_le_pow_right (by decide) h3
  have hbadsz : (bad_strp_id + 1) * D.NOVA_STRIPE_SIZE ≤
      sb.sbi.s_blocksize / 2 ^ D.NOVA_STRIPE_SHIFT * D.NOVA_STRIPE_SIZE :=
    Nat.mul_le_mul_right _ hbad
  rw [Nat.succ_mul] at hbadsz
  have hbadle : bad_strp_id * 8 ≤ bad_strp_id * D.NOVA_STRIPE_SIZE :=
    Nat.mul_le_mul_left _ h8
  have hbad31 : bad_strp_id < 2147483648 := by omega
  have hmb : ∀ a, memcpy m strp_buf par_addr D.NOVA_STRIPE_SIZE a < 256 := by
    intro a
    unfold memcpy
    split_ifs
    · exact hbytes _
    · exact hbytes _
  obtain ⟨m2, hcalc, hin, hout⟩ := block_parity_spec D fuel sb.sbi
    (memcpy m strp_buf par_addr D.NOVA_STRIPE_SIZE) strp_buf blockptr bad_strp_id hsize hword
    hshift hblk (fun h => by omega) hmb (by omega) hfuel
  have hns : ¬ ((bad_strp_id : Int) < 0) := by omega
  simp only [if_neg hns, Int.toNat_ofNat] at hin
  have hframe : ∀ a, (a < strp_buf ∨ strp_buf + D.NOVA_STRIPE_SIZE ≤ a) → m2 a = m a := by
    intro a ha
    rw [hout a ha, memcpy_out _ _ _ _ _ ha]
  have hstored : load m2 csum_addr 4 = load m csum_addr 4 := by
    apply load_congr
    intro k hk
    apply hframe
    omega
  have hulbad : ul (bad_strp_id * D.NOVA_STRIPE_SIZE) = bad_strp_id * D.NOVA_STRIPE_SIZE := by
    unfold ul
    apply Nat.mod_eq_of_lt
    omega
  have hrun : nova_restore_data D fuel sb m strp_buf blocknr bad_strp_id =
      if nova_crc32c D m2 D.NOVA_INIT_CSUM strp_buf D.NOVA_STRIPE_SIZE = load m csum_addr 4
      then .ret (0, memcpy m2 (blockptr + bad_strp_id * D.NOVA_STRIPE_SIZE) strp_buf
        D.NOVA_STRIPE_SIZE)
      else .ret (- EIO, m2) := by
    have hcs := hcsumaddr
    rw [hulbad] at hcs
    unfold nova_restore_data
    simp only [hulbad, hcs, hblockptr, hparaddr, hcsumaddr, if_neg hbuf, if_neg hpar0, if_neg hblock0,
      if_neg hcsum0, int_of_ulong_small hbad31, hcalc, hstored]
    by_cases hm : nova_crc32c D m2 D.NOVA_INIT_CSUM strp_buf D.NOVA_STRIPE_SIZE =
        load m csum_addr 4
    · simp [hm]
    · simp [hm]
  have hrec : ∀ k, k < D.NOVA_STRIPE_SIZE → m2 (strp_buf + k) =
      m (par_addr + k) ^^^ xor_of_stripes m blockptr D.NOVA_STRIPE_SIZE
        ((List.range (sb.sbi.s_blocksize / 2 ^ D.NOVA_STRIPE_SHIFT)).filter
          (fun (s : Nat) => s ≠ bad_strp_id)) k := by
    intro k hk
    rw [hin k hk, memcpy_in _ _ _ _ _ (by omega) (by omega),
      show strp_buf + k - strp_buf = k by omega]
    rw [xor_skip_congr (memcpy m strp_buf par_addr D.NOVA_STRIPE_SIZE) m blockptr blockptr
      D.NOVA_STRIPE_SIZE bad_strp_id k _ _ (fun t ht _ => by
        rw [List.mem_range] at ht
        have : (t + 1) * D.NOVA_STRIPE_SIZE ≤
            sb.sbi.s_blocksize / 2 ^ D.NOVA_STRIPE_SHIFT * D.NOVA_STRIPE_SIZE :=
          Nat.mul_le_mul_right _ ht
        rw [Nat.succ_mul] at this
        apply memcpy_out
        omega)]
    rw [xor_skip_eq]
  by_cases hm : nova_crc32c D m2 D.NOVA_INIT_CSUM strp_buf D.NOVA_STRIPE_SIZE =
      load m csum_addr 4
  · rw [if_pos hm] at hrun
    refine ⟨0, _, m2, hrun, hcalc, hrec, ?_, fun h => absurd hm h⟩
    refine ⟨fun _ => hm, fun _ => ⟨rfl, ?_⟩⟩
    intro k hk
    rw [memcpy_in _ _ _ _ _ (by omega) (by omega)]
    congr 1
    omega
  · rw [if_neg hm] at hrun
    refine ⟨- EIO, m2, m2, hrun, hcalc, hrec, ?_, fun _ => ⟨rfl, ?_⟩⟩
    · refine ⟨fun h => ?_, fun h => absurd h hm⟩
      exact absurd h.1 (by decide)
    · intro a h1 h2
      apply hframe
      omega

/-- C18 at a concrete input: stripe 2 of block 20 of the example device, with the stripe
buffer at address 500; the block is at address 11280, its parity stripe at 10640 and the
checksum of the stripe at 10392. -/
theorem C18_restore_data_witness :
    ∃ ret mf m2,
      nova_restore_data example_data_env 20 example_sb example_mem 500 20 2 = .ret (ret, mf) ∧
      nova_calculate_block_parity example_data_env 20 example_sb.sbi
        (memcpy example_mem 500 10640 16) 500 11280 2 = .ret (0, m2) ∧
      (∀ k, k < 16 → m2 (500 + k) =
        example_mem (10640 + k) ^^^ xor_of_stripes example_mem 11280 16 [0, 1, 3] k) ∧
      ((ret = 0 ∧ ∀ k, k < 16 → mf (11280 + 2 * 16 + k) = m2 (500 + k)) ↔
        nova_crc32c example_data_env m2 1 500 16 = load example_mem 10392 4) ∧
      (nova_crc32c example_data_env m2 1 500 16 ≠ load example_mem 10392 4 →
        ret = - EIO ∧ ∀ a, 11280 ≤ a → a < 11280 + 64 → mf a = example_mem a) :=
  C18_restore_data example_data_env 20 example_sb example_mem 500 20 2 11280 10640 10392
    rfl (by decide) (by decide) (by decide) (by decide) example_mem_lt (by decide)
    (by decide) (by decide) (by decide) (by decide) (by decide) (by decide)
    (Or.inl (by decide)) (Or.inl (by decide)) (by decide)

theorem scan_advance_slot {W : Type} (R : rebuild_env W) (L : nova_log)
    (st : rebuild_state W) (e : Nat × Bool)
    (hrc : ∀ a, R.memcpy_from_pmem a = 0)
    (h : log_slot L st.curr_p = some e) :
    scan_advance R L st = .ret (at_entry st e) ∧ e.1 ≠ 0 := by
  unfold log_slot at h
  unfold scan_advance goto_next_page next_log_page at_entry
  simp only [hrc]
  by_cases h1 : ENTRY_LOC st.curr_p + 32 > LAST_ENTRY
  · rw [if_pos (Or.inl h1)] at h
    by_cases h2 : BLOCK_OFF st.curr_p = 0 ∨ L.next_page (BLOCK_OFF st.curr_p) = 0
    · rw [if_pos h2] at h; cases h
    · rw [if_neg h2] at h
      injection h with h
      subst h
      simp only [not_or] at h2
      simp [h1, h2.1, h2.2]
  · by_cases h3 : L.entry_type st.curr_p = NEXT_PAGE
    · rw [if_pos (Or.inr h3)] at h
      by_cases h2 : BLOCK_OFF st.curr_p = 0 ∨ L.next_page (BLOCK_OFF st.curr_p) = 0
      · rw [if_pos h2] at h; cases h
      · rw [if_neg h2] at h
        injection h with h
        subst h
        simp only [not_or] at h2
        have h0 : st.curr_p ≠ 0 := by
          intro e0
          apply h2.1
          rw [e0]; rfl
        simp [h1, h2.1, h2.2, h3, h0]
    · rw [if_neg (by simp [h1, h3])] at h
      by_cases h0 : st.curr_p = 0
      · rw [if_pos h0] at h; cases h
      · rw [if_neg h0] at h
        injection h with h
        subst h
        simp [h1, h3, h0]

theorem scan_loop_succ {W : Type} (R : rebuild_env W) (L : nova_log) (sb : super_block)
    (dispatch : rebuild_state W → Nat → outcome (scan_step W)) (fuel : Nat)
    (st : rebuild_state W) :
    scan_loop R L sb dispatch (fuel + 1) st =
      if st.curr_p ≠ st.sih.log_tail then
        match scan_body R L sb dispatch st with
        | .ret (.next st1) => scan_loop R L sb dispatch fuel st1
        | .ret (.stop st1) => .ret (none, st1)
        | .ret (.out ret st1) => .ret (some ret, st1)
        | .crash => .crash
        | .timeout => .timeout
      else .ret (none, st) := rfl

theorem max_trans_id_append (l : List (Nat × Nat × Nat)) (e : Nat × Nat × Nat) :
    max_trans_id (l ++ [e]) = max (max_trans_id l) e.1 := by
  unfold max_trans_id
  rw [List.foldl_append]
  rfl

theorem max_trans_id_ge (l : List (Nat × Nat × Nat)) :
    ∀ e ∈ l, e.1 ≤ max_trans_id l := by
  induction l using List.reverseRecOn with
  | nil => intro e h; cases h
  | append_singleton l a ih =>
    intro e h
    rw [max_trans_id_append]
    rcases List.mem_append.1 h with h1 | h1
    · have := ih e h1; omega
    · rw [List.mem_singleton] at h1; subst h1; omega

theorem time_fold_spec (a0 : Nat × Nat × Nat) (h0 : a0.1 = 0) :
    ∀ l : List (Nat × Nat × Nat),
      (l.foldl time_step a0).1 = max_trans_id l ∧
      l.foldl time_step a0 = (last_with_max l).getD a0 := by
  intro l
  induction l using List.reverseRecOn with
  | nil => exact ⟨h0, rfl⟩
  | append_singleton l e ih =>
    obtain ⟨ih1, ih2⟩ := ih
    rw [List.foldl_append, max_trans_id_append]
    simp only [List.foldl_cons, List.foldl_nil]
    unfold last_with_max
    rw [max_trans_id_append, List.filter_append]
    generalize List.foldl time_step a0 l = r at ih1 ih2 ⊢
    unfold time_step
    by_cases hge : e.1 ≥ r.1
    · rw [if_pos hge]
      rw [ih1] at hge
      have hm : max (max_trans_id l) e.1 = e.1 := by omega
      rw [hm]
      refine ⟨rfl, ?_⟩
      rw [List.filter_cons_of_pos (by simp)]
      simp
    · rw [if_neg hge]
      rw [ih1] at hge
      have hm : max (max_trans_id l) e.1 = max_trans_id l := by omega
      rw [hm]
      refine ⟨ih1, ?_⟩
      rw [List.filter_cons_of_neg (by simp; omega)]
      simp only [List.filter_nil, List.append_nil]
      exact ih2

theorem last_with_max_some (l : List (Nat × Nat × Nat)) (h : l ≠ []) :
    ∃ e, last_with_max l = some e := by
  induction l using List.reverseRecOn with
  | nil => exact absurd rfl h
  | append_singleton l e ih =>
    unfold last_with_max
    rw [max_trans_id_append, List.filter_append]
    by_cases hge : e.1 ≥ max_trans_id l
    · have hm : max (max_trans_id l) e.1 = e.1 := by omega
      rw [hm, List.filter_cons_of_pos (by simp)]
      exact ⟨e, by simp⟩
    · have hm : max (max_trans_id l) e.1 = max_trans_id l := by omega
      rw [hm, List.filter_cons_of_neg (by simp; omega)]
      simp only [List.filter_nil, List.append_nil]
      by_cases hl : l = []
      · subst hl
        exfalso
        apply hge
        show e.1 ≥ 0
        omega
      · exact ih hl

/-- The effect of the `switch` of file rebuild on the entry at the cursor. -/
theorem file_switch_spec {W : Type} (R : rebuild_env W) (L : nova_log)
    (st : rebuild_state W) :
    ∃ st2, file_switch R L st (L.entry_type st.curr_p) = .ret (.next st2) ∧
      st2.curr_p = ul (st.curr_p + file_entry_size L st.curr_p) ∧
      st2.sih.log_tail = st.sih.log_tail ∧
      st2.pi = st.pi ∧ st2.alter_pi = st.alter_pi ∧
      st2.sih.alter_pi_addr = st.sih.alter_pi_addr ∧
      (st2.curr_trans_id, st2.reb.i_mtime, st2.reb.i_size) =
        match timed_entry L st.curr_p with
        | some e => time_step (st.curr_trans_id, st.reb.i_mtime, st.reb.i_size) e
        | none => (st.curr_trans_id, st.reb.i_mtime, st.reb.i_size) := by
  unfold file_switch file_entry_size timed_entry
  by_cases h1 : L.entry_type st.curr_p = SET_ATTR
  · have hne : L.entry_type st.curr_p ≠ FILE_WRITE := by rw [h1]; decide
    have hty : (L.setattr st.curr_p).entry_type = SET_ATTR := by rw [L.setattr_type, h1]
    simp only [if_pos h1, if_neg hne, nova_apply_setattr_entry, hty, ne_eq, not_true,
      if_false]
    by_cases hreg : S_ISREG (L.setattr st.curr_p).mode = true
    · simp only [hreg, if_true]
      refine ⟨_, rfl, rfl, rfl, rfl, rfl, rfl, ?_⟩
      unfold time_step nova_rebuild_file_time_and_size
      by_cases hge : (L.setattr st.curr_p).trans_id ≥ st.curr_trans_id
      · simp [hge]
      · simp [hge]
    · simp only [hreg, if_false]
      refine ⟨_, rfl, rfl, rfl, rfl, rfl, rfl, ?_⟩
      unfold time_step nova_rebuild_file_time_and_size
      by_cases hge : (L.setattr st.curr_p).trans_id ≥ st.curr_trans_id
      · simp [hge]
      · simp [hge]
  · by_cases h2 : L.entry_type st.curr_p = LINK_CHANGE
    · have hne : L.entry_type st.curr_p ≠ FILE_WRITE := by rw [h2]; decide
      have hty : (L.link_change st.curr_p).entry_type = LINK_CHANGE := by
        rw [L.link_change_type, h2]
      simp only [if_neg h1, if_pos h2, if_neg hne, nova_apply_link_change_entry, hty, ne_eq,
        not_true, if_false]
      exact ⟨_, rfl, rfl, rfl, rfl, rfl, rfl, rfl⟩
    · by_cases h3 : L.entry_type st.curr_p = FILE_WRITE
      · simp only [if_neg h1, if_neg h2, if_pos h3]
        refine ⟨_, rfl, rfl, rfl, rfl, rfl, rfl, ?_⟩
        unfold time_step nova_rebuild_handle_write_entry nova_rebuild_file_time_and_size
        by_cases hge : (L.file_write st.curr_p).trans_id ≥ st.curr_trans_id
        · simp [hge]
        · simp [hge]
      · by_cases h4 : L.entry_type st.curr_p = MMAP_WRITE
        · simp only [if_neg h1, if_neg h2, if_neg h3, if_pos h4]
          exact ⟨_, rfl, rfl, rfl, rfl, rfl, rfl, rfl⟩
        · simp only [if_neg h1, if_neg h2, if_neg h3, if_neg h4]
          exact ⟨_, rfl, rfl, rfl, rfl, rfl, rfl, rfl⟩

/-- The scan loop along a prefix of the log whose entries verify and satisfy `P`: it
dispatches exactly the listed entries in order. -/
theorem scan_loop_prefix {W : Type} (R : rebuild_env W) (L : nova_log) (sb : super_block)
    (dispatch : rebuild_state W → Nat → outcome (scan_step W)) (size : Nat → Nat)
    (tail : Nat)
    (hrc : ∀ a, R.memcpy_from_pmem a = 0)
    (hsnap : sb.mount_snapshot = 0)
    (P : Nat → Prop)
    (hdisp : ∀ st st2, P st.curr_p →
      dispatch st (L.entry_type st.curr_p) = .ret (.next st2) →
      st2.curr_p = ul (st.curr_p + size st.curr_p) ∧ st2.sih.log_tail = st.sih.log_tail) :
    ∀ (n p : Nat) (es : List (Nat × Bool)) (q : Nat),
      log_entries L size tail n p = some (es, q) →
      (∀ e ∈ es, L.nova_verify_entry_csum e.1 = true ∧ P e.1) →
      ∀ (st : rebuild_state W), st.curr_p = p → st.sih.log_tail = tail →
      (∀ k, scan_loop R L sb dispatch (n + k) st =
        match replay_entries L dispatch es st with
        | .ret (.next st1) => scan_loop R L sb dispatch k st1
        | .ret (.stop st1) => .ret (none, st1)
        | .ret (.out ret st1) => .ret (some ret, st1)
        | .crash => .crash
        | .timeout => .timeout) ∧
      (∀ st1, replay_entries L dispatch es st = .ret (.next st1) →
        st1.curr_p = q ∧ st1.sih.log_tail = tail) := by
  intro n
  induction n with
  | zero =>
    intro p es q h _ st hp ht
    simp only [log_entries] at h
    injection h with h
    obtain ⟨h1, h2⟩ := Prod.mk.inj h
    subst h1
    subst h2
    refine ⟨fun k => ?_, fun st1 h1 => ?_⟩
    · simp [replay_entries]
    · simp only [replay_entries] at h1
      injection h1 with h1
      injection h1 with h1
      subst h1
      exact ⟨hp, ht⟩
  | succ n ih =>
    intro p es q h hv st hp ht
    simp only [log_entries] at h
    by_cases hpt : p = tail
    · rw [if_pos hpt] at h; cases h
    · rw [if_neg hpt] at h
      cases hs : log_slot L p with
      | none => rw [hs] at h; cases h
      | some e =>
        rw [hs] at h
        simp only at h
        cases hr : log_entries L size tail n (ul (e.1 + size e.1)) with
        | none => rw [hr] at h; cases h
        | some r =>
          rw [hr] at h
          simp only at h
          injection h with h
          obtain ⟨h1, h2⟩ := Prod.mk.inj h
          subst h1
          subst h2
          have hve := (hv e (List.mem_cons_self _ _)).1
          have hP := (hv e (List.mem_cons_self _ _)).2
          have hvr : ∀ e1 ∈ r.1, L.nova_verify_entry_csum e1.1 = true ∧ P e1.1 :=
            fun e1 h1 => hv e1 (List.mem_cons_of_mem _ h1)
          rw [← hp] at hs
          obtain ⟨hadv, he0⟩ := scan_advance_slot R L st e hrc hs
          have hcp : (at_entry st e).curr_p = e.1 := by
            unfold at_entry; split_ifs <;> rfl
          have htl : (at_entry st e).sih.log_tail = st.sih.log_tail := by
            unfold at_entry; split_ifs <;> rfl
          have hbody : scan_body R L sb dispatch st =
              dispatch (at_entry st e) (L.entry_type e.1) := by
            unfold scan_body
            rw [hadv]
            simp only [hcp, if_neg he0, hve, hsnap]
            simp [nova_get_entry_type, hrc]
          refine ⟨fun k => ?_, fun st1 h1 => ?_⟩
          · rw [show n + 1 + k = (n + k) + 1 by omega]
            rw [scan_loop_succ, if_pos (by rw [hp, ht]; exact hpt), hbody]
            simp only [replay_entries]
            cases hd : dispatch (at_entry st e) (L.entry_type e.1) with
            | crash => rfl
            | timeout => rfl
            | ret s =>
              cases s with
              | stop s1 => rfl
              | out r1 s1 => rfl
              | next s1 =>
                simp only
                have hd2 := hd
                rw [← hcp] at hd2
                obtain ⟨c1, c2⟩ := hdisp _ _ (by rw [hcp]; exact hP) hd2
                rw [hcp] at c1
                exact (ih _ _ _ hr hvr s1 c1 (by rw [c2, htl, ht])).1 k
          · simp only [replay_entries] at h1
            cases hd : dispatch (at_entry st e) (L.entry_type e.1) with
            | crash => rw [hd] at h1; cases h1
            | timeout => rw [hd] at h1; cases h1
            | ret s =>
              cases s with
              | stop s1 => rw [hd] at h1; cases h1
              | out r1 s1 => rw [hd] at h1; cases h1
              | next s1 =>
                rw [hd] at h1
                simp only at h1
                have hd2 := hd
                rw [← hcp] at hd2
                obtain ⟨c1, c2⟩ := hdisp _ _ (by rw [hcp]; exact hP) hd2
                rw [hcp] at c1
                exact (ih _ _ _ hr hvr s1 c1 (by rw [c2, htl, ht])).2 st1 h1

theorem at_entry_curr_p {W : Type} (st : rebuild_state W) (e : Nat × Bool) :
    (at_entry st e).curr_p = e.1 := by
  unfold at_entry; split_ifs <;> rfl

theorem at_entry_frame {W : Type} (st : rebuild_state W) (e : Nat × Bool) :
    (at_entry st e).pi = st.pi ∧ (at_entry st e).alter_pi = st.alter_pi ∧
    (at_entry st e).sih.alter_pi_addr = st.sih.alter_pi_addr ∧
    (at_entry st e).sih.log_tail = st.sih.log_tail ∧
    (at_entry st e).curr_trans_id = st.curr_trans_id ∧
    (at_entry st e).reb = st.reb ∧ (at_entry st e).world = st.world := by
  unfold at_entry; split_ifs <;> exact ⟨rfl, rfl, rfl, rfl, rfl, rfl, rfl⟩

/-- Replay of a list of entries of a file log never stops early, and its effect on the
highest transaction id, mtime and size is the fold of the gate over the file-write and
setattr entries. -/
theorem file_replay_spec {W : Type} (R : rebuild_env W) (L : nova_log) :
    ∀ (es : List (Nat × Bool)) (st : rebuild_state W),
      ∃ st1, replay_entries L (file_switch R L) es st = .ret (.next st1) ∧
        st1.pi = st.pi ∧ st1.alter_pi = st.alter_pi ∧
        st1.sih.alter_pi_addr = st.sih.alter_pi_addr ∧
        (st1.curr_trans_id, st1.reb.i_mtime, st1.reb.i_size) =
          (es.filterMap (fun (x : Nat × Bool) => timed_entry L x.1)).foldl time_step
            (st.curr_trans_id, st.reb.i_mtime, st.reb.i_size) := by
  intro es
  induction es with
  | nil => intro st; exact ⟨st, rfl, rfl, rfl, rfl, rfl⟩
  | cons e es ih =>
    intro st
    obtain ⟨st2, h1, _, _, h4, h5, h6, h7⟩ := file_switch_spec R L (at_entry st e)
    rw [at_entry_curr_p] at h1 h7
    obtain ⟨f1, f2, f3, _, f5, f6, _⟩ := at_entry_frame st e
    rw [f1] at h4
    rw [f2] at h5
    rw [f3] at h6
    rw [f5, f6] at h7
    obtain ⟨st1, g1, g2, g3, g4, g5⟩ := ih st2
    refine ⟨st1, ?_, by rw [g2, h4], by rw [g3, h5], by rw [g4, h6], ?_⟩
    · simp only [replay_entries, h1]
      exact g1
    · rw [g5, h7]
      cases ht : timed_entry L e.1 with
      | none => simp [List.filterMap_cons, ht]
      | some t => simp [List.filterMap_cons, ht]

theorem log_pages_loop_count {W : Type} (R : rebuild_env W) (L : nova_log) :
    ∀ (fuel c n k : Nat), log_pages_loop R L fuel c n = .ret k →
      ∀ n1, ∃ k1, log_pages_loop R L fuel c n1 = .ret k1 := by
  intro fuel
  induction fuel with
  | zero => intro c n k h; cases h
  | succ fuel ih =>
    intro c n k h n1
    unfold log_pages_loop at h ⊢
    cases hn : next_log_page R L c with
    | crash => rw [hn] at h; cases h
    | timeout => rw [hn] at h; cases h
    | ret next =>
      rw [hn] at h
      simp only at h ⊢
      by_cases h0 : next > 0
      · rw [if_pos h0] at h ⊢
        exact ih _ _ _ h _
      · rw [if_neg h0]
        exact ⟨n1, rfl⟩

/-- When the page chain ends, `nova_rebuild_inode_finish` returns 0 and writes the rebuilt
attributes to the inode. -/
theorem finish_spec {W : Type} (R : rebuild_env W) (L : nova_log) (fuel : Nat)
    (st : rebuild_state W) (k : Nat)
    (hchain : log_pages_loop R L fuel (st.curr_p / 2 ^ R.PAGE_SHIFT * 2 ^ R.PAGE_SHIFT) 1 =
      .ret k)
    (hrep : R.replica_metadata ≠ 0 → st.sih.alter_pi_addr ≠ 0) :
    ∃ st2, nova_rebuild_inode_finish R L fuel st = .ret (0, st2) ∧
      st2.reb = st.reb ∧ st2.world = st.world ∧
      st2.pi.i_size = st.reb.i_size ∧ st2.pi.i_mtime = st.reb.i_mtime ∧
      st2.sih.i_size = st.reb.i_size ∧
      st2.pi = nova_update_inode_checksum R (nova_update_inode_with_rebuild st.reb st.pi) ∧
      st2.sih.last_setattr = st.sih.last_setattr ∧
      st2.sih.last_link_change = st.sih.last_link_change ∧
      st2.sih.last_dentry = st.sih.last_dentry := by
  obtain ⟨k1, hk1⟩ := log_pages_loop_count R L _ _ _ _ hchain st.sih.log_pages
  unfold nova_rebuild_inode_finish
  have hc : ¬ (R.replica_metadata ≠ 0 ∧ st.sih.alter_pi_addr = 0) := by
    intro h; exact hrep h.1 h.2
  simp only [if_neg hc, hk1]
  refine ⟨_, rfl, rfl, rfl, ?_, ?_, rfl, rfl, rfl, rfl, rfl⟩
  · unfold nova_update_inode_checksum nova_update_inode_with_rebuild
    split_ifs <;> rfl
  · unfold nova_update_inode_checksum nova_update_inode_with_rebuild
    split_ifs <;> rfl

/-- Transaction-id tie-break on a log whose scan stops at the tail test.  Let the file log
read from head reach the cursor `tail` after the `n` entries `es` (which leaves out a tail
on the first slot of a page reached by moving to the next page), all of which pass
`nova_verify_entry_csum`, on a mount that is not a snapshot mount and with reads of
persistent memory that succeed, and let the page chain end.  Then `nova_rebuild_file_inode_tree` returns 0, and the rebuilt `i_size` and
`i_mtime` (in the rebuild record and in the inode written back) are those of the last
entry in log order among the file-write and setattr entries carrying the highest
transaction id; without such entries they are those of the inode record. -/
theorem file_replay_tie_break {W : Type} (R : rebuild_env W) (L : nova_log)
    (sb : super_block) (fuel : Nat) (pi : nova_inode) (pi_addr : Nat)
    (sih : nova_inode_info_header) (rebuild : nova_inode_rebuild) (w : W)
    (n k : Nat) (es : List (Nat × Bool))
    (hrc : ∀ a, R.memcpy_from_pmem a = 0)
    (hsnap : sb.mount_snapshot = 0)
    (hlog : log_entries L (file_entry_size L) pi.log_tail n pi.log_head =
      some (es, pi.log_tail))
    (hver : ∀ e ∈ es, L.nova_verify_entry_csum e.1 = true)
    (hfuel : n < fuel)
    (hchain : log_pages_loop R L fuel
      (pi.log_tail / 2 ^ R.PAGE_SHIFT * 2 ^ R.PAGE_SHIFT) 1 = .ret k)
    (hrep : R.replica_metadata ≠ 0 → sih.alter_pi_addr ≠ 0) :
    ∃ st, nova_rebuild_file_inode_tree R L sb fuel pi pi_addr sih rebuild w = .ret (0, st) ∧
      (∀ e, last_with_max (es.filterMap (fun (x : Nat × Bool) => timed_entry L x.1)) =
          some e →
        st.reb.i_size = e.2.2 ∧ st.reb.i_mtime = e.2.1 ∧
        st.pi.i_size = e.2.2 ∧ st.pi.i_mtime = e.2.1) ∧
      (es.filterMap (fun (x : Nat × Bool) => timed_entry L x.1) = [] →
        st.reb.i_size = pi.i_size ∧ st.reb.i_mtime = pi.i_mtime ∧
        st.pi.i_size = pi.i_size ∧ st.pi.i_mtime = pi.i_mtime) := by
  have hstart : nova_rebuild_inode_start R pi sih rebuild pi_addr =
      (0, { sih with
        i_blk_type := pi.i_blk_type, log_head := pi.log_head, log_tail := pi.log_tail,
        alter_log_head := pi.alter_log_head, alter_log_tail := pi.alter_log_tail,
        pi_addr := pi_addr, log_pages := 1 },
       { i_size := pi.i_size, i_flags := pi.i_flags, i_uid := pi.i_uid, i_gid := pi.i_gid,
         i_atime := pi.i_atime, i_ctime := pi.i_ctime, i_mtime := pi.i_mtime,
         i_generation := pi.i_generation, i_links_count := pi.i_links_count,
         i_mode := pi.i_mode }) := by
    simp [nova_rebuild_inode_start, nova_get_head_tail, nova_init_inode_rebuild, hrc]
  unfold nova_rebuild_file_inode_tree
  simp only [hstart, ne_eq, not_true, if_false]
  by_cases h00 : pi.log_head = 0 ∧ pi.log_tail = 0
  · rw [if_pos h00]
    have hes : es = [] := by
      cases n with
      | zero =>
        simp only [log_entries] at hlog
        injection hlog with hlog
        exact (Prod.mk.inj hlog).1.symm
      | succ n =>
        simp only [log_entries] at hlog
        rw [if_pos (by rw [h00.1, h00.2])] at hlog
        cases hlog
    subst hes
    refine ⟨_, rfl, ?_, fun _ => ⟨rfl, rfl, rfl, rfl⟩⟩
    intro e he
    cases he
  · rw [if_neg h00]
    generalize hst0 : rebuild_state.mk pi _ _ 0 pi.log_head w none = st0
    have c0 : st0.curr_p = pi.log_head := by rw [← hst0]
    have c1 : st0.sih.log_tail = pi.log_tail := by rw [← hst0]
    have c2 : st0.pi = pi := by rw [← hst0]
    have c3 : st0.sih.alter_pi_addr = sih.alter_pi_addr := by rw [← hst0]
    have c4 : (st0.curr_trans_id, st0.reb.i_mtime, st0.reb.i_size) =
        (0, pi.i_mtime, pi.i_size) := by rw [← hst0]
    obtain ⟨p1, p2⟩ := scan_loop_prefix R L sb (file_switch R L) (file_entry_size L)
      pi.log_tail hrc hsnap (fun _ => True) (fun st st2 _ h => by
        obtain ⟨s, e1, e2, e3, _⟩ := file_switch_spec R L st
        rw [e1] at h
        injection h with h
        injection h with h
        subst h
        exact ⟨e2, e3⟩) n pi.log_head es pi.log_tail hlog
      (fun e he => ⟨hver e he, trivial⟩) st0 c0 c1
    obtain ⟨st1, r1, r2, r3, r4, r5⟩ := file_replay_spec R L es st0
    obtain ⟨q1, q2⟩ := p2 st1 r1
    obtain ⟨j, hj⟩ : ∃ j, fuel = n + (j + 1) := ⟨fuel - n - 1, by omega⟩
    have hloop : scan_loop R L sb (file_switch R L) fuel st0 = .ret (none, st1) := by
      rw [hj, p1 (j + 1), r1]
      simp only
      rw [scan_loop_succ, if_neg (by rw [q1, q2]; simp)]
    simp only [hloop]
    obtain ⟨st2, f1, f2, _, f4, f5, _, _, _, _, _⟩ := finish_spec R L fuel st1 k
      (by rw [q1]; exact hchain) (by rw [r4, c3]; exact hrep)
    simp only [f1]
    rw [c4] at r5
    obtain ⟨_, t2⟩ := time_fold_spec (0, pi.i_mtime, pi.i_size) rfl
      (es.filterMap (fun (x : Nat × Bool) => timed_entry L x.1))
    rw [← r5] at t2
    refine ⟨_, rfl, ?_, ?_⟩
    · intro e he
      rw [he] at t2
      simp only [Option.getD_some] at t2
      have t3 := (Prod.mk.inj t2).2
      have t4 := Prod.mk.inj t3
      show st2.reb.i_size = e.2.2 ∧ st2.reb.i_mtime = e.2.1 ∧
        st2.pi.i_size = e.2.2 ∧ st2.pi.i_mtime = e.2.1
      rw [f4, f5, f2]
      exact ⟨t4.2, t4.1, t4.2, t4.1⟩
    · intro he
      rw [he] at t2
      have t3 := (Prod.mk.inj t2).2
      have t4 := Prod.mk.inj t3
      show st2.reb.i_size = pi.i_size ∧ st2.reb.i_mtime = pi.i_mtime ∧
        st2.pi.i_size = pi.i_size ∧ st2.pi.i_mtime = pi.i_mtime
      rw [f4, f5, f2]
      exact ⟨t4.2, t4.1, t4.2, t4.1⟩

/-- The tie-break at a concrete input: two file-write entries with transaction ids 5 then
3; the rebuilt size and mtime are those of the entry with id 5. -/
theorem file_replay_tie_break_example :
    ∃ st, nova_rebuild_file_inode_tree example_rebuild_env example_file_log example_sb 5
        (example_pi 4096 4208) 64 example_sih example_reb [] = .ret (0, st) ∧
      st.pi.i_size = 100 ∧ st.pi.i_mtime = 7 := by
  obtain ⟨st, h1, h2, _⟩ := file_replay_tie_break example_rebuild_env example_file_log
    example_sb 5 (example_pi 4096 4208) 64 example_sih example_reb [] 2 1
    [(4096, false), (4152, false)] (fun _ => rfl) rfl (by decide) (by decide) (by decide)
    (by decide) (fun h => absurd rfl h)
  have h3 := h2 (5, 7, 100) (by decide)
  exact ⟨st, h1, h3.2.2.1, h3.2.2.2⟩

theorem scan_start_spec {W : Type} (R : rebuild_env W) (pi : nova_inode) (pi_addr : Nat)
    (sih : nova_inode_info_header) (rebuild : nova_inode_rebuild) (w : W)
    (hrc : ∀ a, R.memcpy_from_pmem a = 0) :
    (nova_rebuild_inode_start R pi sih rebuild pi_addr).1 = 0 ∧
    (scan_start R pi pi_addr sih rebuild w).curr_p = pi.log_head ∧
    (scan_start R pi pi_addr sih rebuild w).sih.log_tail = pi.log_tail ∧
    (scan_start R pi pi_addr sih rebuild w).sih.alter_pi_addr = sih.alter_pi_addr ∧
    (scan_start R pi pi_addr sih rebuild w).pi = pi := by
  simp [scan_start, nova_rebuild_inode_start, nova_get_head_tail, nova_init_inode_rebuild, hrc]

/-- The scan loop on a log whose entry after the prefix `es` fails verification: it
dispatches the entries of `es` and leaves the loop at the failing entry. -/
theorem scan_loop_fail {W : Type} (R : rebuild_env W) (L : nova_log) (sb : super_block)
    (dispatch : rebuild_state W → Nat → outcome (scan_step W)) (size : Nat → Nat)
    (tail : Nat)
    (hrc : ∀ a, R.memcpy_from_pmem a = 0)
    (hsnap : sb.mount_snapshot = 0)
    (P : Nat → Prop)
    (hdisp : ∀ st st2, P st.curr_p →
      dispatch st (L.entry_type st.curr_p) = .ret (.next st2) →
      st2.curr_p = ul (st.curr_p + size st.curr_p) ∧ st2.sih.log_tail = st.sih.log_tail)
    (n fuel q : Nat) (es : List (Nat × Bool)) (e : Nat × Bool) (st0 st1 : rebuild_state W)
    (hlog : log_entries L size tail n st0.curr_p = some (es, q))
    (hv : ∀ x ∈ es, L.nova_verify_entry_csum x.1 = true ∧ P x.1)
    (ht : st0.sih.log_tail = tail)
    (hrep : replay_entries L dispatch es st0 = .ret (.next st1))
    (hq : q ≠ tail) (hslot : log_slot L q = some e)
    (hfail : L.nova_verify_entry_csum e.1 = false) (hfuel : n < fuel) :
    scan_loop R L sb dispatch fuel st0 = .ret (none, at_entry st1 e) := by
  obtain ⟨p1, p2⟩ := scan_loop_prefix R L sb dispatch size tail hrc hsnap P hdisp n
    st0.curr_p es q hlog hv st0 rfl ht
  obtain ⟨q1, q2⟩ := p2 st1 hrep
  obtain ⟨j, hj⟩ : ∃ j, fuel = n + (j + 1) := ⟨fuel - n - 1, by omega⟩
  rw [hj, p1 (j + 1), hrep]
  simp only
  rw [scan_loop_succ, if_pos (by rw [q1, q2]; exact hq)]
  rw [← q1] at hslot
  obtain ⟨hadv, he0⟩ := scan_advance_slot R L st1 e hrc hslot
  unfold scan_body
  rw [hadv]
  simp only [at_entry_curr_p, if_neg he0, hfail, if_true]

/-- The frame of the `switch` of directory rebuild, and the move of its cursor on an entry
of a handled type. -/
theorem dir_switch_spec {W : Type} (R : rebuild_env W) (L : nova_log)
    (st st2 : rebuild_state W) (ty : Nat)
    (h : dir_switch R L st ty = .ret (.next st2)) :
    st2.pi = st.pi ∧ st2.sih.alter_pi_addr = st.sih.alter_pi_addr ∧
    st2.sih.log_tail = st.sih.log_tail ∧ st2.alter_pi = st.alter_pi ∧
    (ty = L.entry_type st.curr_p → (ty = SET_ATTR ∨ ty = LINK_CHANGE ∨ ty = DIR_LOG) →
      st2.curr_p = ul (st.curr_p + dir_entry_size L st.curr_p)) := by
  unfold dir_switch at h
  unfold dir_entry_size
  by_cases h1 : ty = SET_ATTR
  · rw [if_pos h1] at h
    unfold nova_apply_setattr_entry at h
    simp only at h
    split_ifs at h
    all_goals
      injection h with h
      injection h with h
      subst h
      refine ⟨rfl, rfl, rfl, rfl, fun e _ => ?_⟩
      rw [if_pos (by rw [← e]; exact h1)]
  · rw [if_neg h1] at h
    by_cases h2 : ty = LINK_CHANGE
    · rw [if_pos h2] at h
      unfold nova_apply_link_change_entry at h
      simp only at h
      have hne : ¬ (LINK_CHANGE = SET_ATTR) := by decide
      split_ifs at h
      all_goals
        injection h with h
        injection h with h
        subst h
        refine ⟨rfl, rfl, rfl, rfl, fun e _ => ?_⟩
        rw [if_neg (by rw [← e, h2]; exact hne), if_pos (by rw [← e]; exact h2)]
    · rw [if_neg h2] at h
      by_cases h3 : ty = DIR_LOG
      · rw [if_pos h3] at h
        simp only at h
        have hne1 : ¬ (DIR_LOG = SET_ATTR) := by decide
        have hne2 : ¬ (DIR_LOG = LINK_CHANGE) := by decide
        by_cases hr : (nova_rebuild_handle_dentry R L st st.curr_p).1 ≠ 0
        · rw [if_pos hr] at h
          cases h
        · rw [if_neg hr] at h
          injection h with h
          injection h with h
          subst h
          have hf : (nova_rebuild_handle_dentry R L st st.curr_p).2.pi = st.pi ∧
              (nova_rebuild_handle_dentry R L st st.curr_p).2.sih.alter_pi_addr =
                st.sih.alter_pi_addr ∧
              (nova_rebuild_handle_dentry R L st st.curr_p).2.sih.log_tail =
                st.sih.log_tail ∧
              (nova_rebuild_handle_dentry R L st st.curr_p).2.alter_pi = st.alter_pi := by
            unfold nova_rebuild_handle_dentry nova_reassign_last_dentry
            simp only
            split_ifs <;> exact ⟨rfl, rfl, rfl, rfl⟩
          refine ⟨hf.1, hf.2.1, hf.2.2.1, hf.2.2.2, fun e _ => ?_⟩
          rw [if_neg (by rw [← e, h3]; exact hne1), if_neg (by rw [← e, h3]; exact hne2),
            if_pos (by rw [← e]; exact h3)]
      · rw [if_neg h3] at h
        injection h with h
        injection h with h
        subst h
        refine ⟨rfl, rfl, rfl, rfl, fun _ hh => ?_⟩
        rcases hh with hh | hh | hh
        · exact absurd hh h1
        · exact absurd hh h2
        · exact absurd hh h3

theorem dir_replay_frame {W : Type} (R : rebuild_env W) (L : nova_log) :
    ∀ (es : List (Nat × Bool)) (st st1 : rebuild_state W),
      replay_entries L (dir_switch R L) es st = .ret (.next st1) →
      st1.pi = st.pi ∧ st1.sih.alter_pi_addr = st.sih.alter_pi_addr := by
  intro es
  induction es with
  | nil =>
    intro st st1 h
    simp only [replay_entries] at h
    injection h with h
    injection h with h
    subst h
    exact ⟨rfl, rfl⟩
  | cons e es ih =>
    intro st st1 h
    simp only [replay_entries] at h
    cases hd : dir_switch R L (at_entry st e) (L.entry_type e.1) with
    | crash => rw [hd] at h; cases h
    | timeout => rw [hd] at h; cases h
    | ret s =>
      cases s with
      | stop s1 => rw [hd] at h; cases h
      | out r1 s1 => rw [hd] at h; cases h
      | next s1 =>
        rw [hd] at h
        simp only at h
        obtain ⟨a1, a2, _, _, _⟩ := dir_switch_spec R L _ _ _ hd
        obtain ⟨b1, b2⟩ := ih s1 st1 h
        obtain ⟨f1, _, f3, _⟩ := at_entry_frame st e
        exact ⟨by rw [b1, a1, f1], by rw [b2, a2, f3]⟩

/-- C20 (counterexample): (1) a file log whose first slot, at offset 4096, fails
`nova_verify_entry_csum`.  When the type byte of that slot is `NEXT_PAGE` the scan follows
the page link and applies the file-write entry of the next page (rebuilt size 100, mtime
7); when it is `FILE_WRITE` the scan stops (size 0, mtime 0): the result depends on a
field of the failing entry, and with `NEXT_PAGE` it is not the replay of the entries
before it.  (2) a directory log whose entry at offset 4144 is the first to fail the
checksum, after a valid dentry with an empty name: the rebuild returns `-EINVAL`, not
success. -/
theorem C20_truncated_log_counterexample :
    (example_corrupt_log NEXT_PAGE).nova_verify_entry_csum 4096 = false ∧
    (example_corrupt_log FILE_WRITE).nova_verify_entry_csum 4096 = false ∧
    rebuilt_attrs (nova_rebuild_file_inode_tree example_rebuild_env
      (example_corrupt_log NEXT_PAGE) example_sb 5 (example_pi 4096 8248) 64 example_sih
      example_reb []) = some (0, 100, 7) ∧
    rebuilt_attrs (nova_rebuild_file_inode_tree example_rebuild_env
      (example_corrupt_log FILE_WRITE) example_sb 5 (example_pi 4096 8248) 64 example_sih
      example_reb []) = some (0, 0, 0) ∧
    example_bad_dentry_log.nova_verify_entry_csum 4096 = true ∧
    example_bad_dentry_log.nova_verify_entry_csum 4144 = false ∧
    rebuilt_attrs (nova_rebuild_dir_inode_tree example_rebuild_env example_bad_dentry_log
      example_sb 5 (example_pi 4096 4200) 64 example_sih example_reb []) =
      some (-EINVAL, 0, 0) := by
  decide

/-- C20 (amended): truncated-log tolerance on a normal mount with reads that succeed.  Let
the scan dispatch the `n` entries `es` of the log, all of which verify, and let the entry
`e` that it reads next from its cursor `q` (the slot at `q`, or the first slot of the next
page when `q` is at the end of a page or the type byte at `q` is `NEXT_PAGE`) fail
`nova_verify_entry_csum`, with `q` before the tail and the page chain ending.  Then file
rebuild returns 0, and the rebuilt attributes, the state of the index functions, the inode
written back and the `last_setattr` and `last_link_change` pointers are those left by
dispatching only the entries of `es`.  The same holds for directory rebuild, with
`last_dentry`, when the head is not 0, the entries of `es` have types that directory
replay handles and dispatching them returns no error. -/
theorem C20_truncated_log_amended {W : Type} (R : rebuild_env W) (L : nova_log)
    (sb : super_block) (fuel : Nat) (pi : nova_inode) (pi_addr : Nat)
    (sih : nova_inode_info_header) (rebuild : nova_inode_rebuild) (w : W)
    (n k q : Nat) (es : List (Nat × Bool)) (e : Nat × Bool)
    (hrc : ∀ a, R.memcpy_from_pmem a = 0)
    (hsnap : sb.mount_snapshot = 0)
    (hver : ∀ x ∈ es, L.nova_verify_entry_csum x.1 = true)
    (hq : q ≠ pi.log_tail)
    (hslot : log_slot L q = some e)
    (hfail : L.nova_verify_entry_csum e.1 = false)
    (hfuel : n < fuel)
    (hchain : log_pages_loop R L fuel (e.1 / 2 ^ R.PAGE_SHIFT * 2 ^ R.PAGE_SHIFT) 1 = .ret k)
    (hrep : R.replica_metadata ≠ 0 → sih.alter_pi_addr ≠ 0) :
    (log_entries L (file_entry_size L) pi.log_tail n pi.log_head = some (es, q) →
      ∃ st1 stf,
        replay_entries L (file_switch R L) es (scan_start R pi pi_addr sih rebuild w) =
          .ret (.next st1) ∧
        nova_rebuild_file_inode_tree R L sb fuel pi pi_addr sih rebuild w = .ret (0, stf) ∧
        stf.reb = st1.reb ∧ stf.world = st1.world ∧
        stf.pi = nova_update_inode_checksum R (nova_update_inode_with_rebuild st1.reb pi) ∧
        stf.sih.last_setattr = st1.sih.last_setattr ∧
        stf.sih.last_link_change = st1.sih.last_link_change) ∧
    (log_entries L (dir_entry_size L) pi.log_tail n pi.log_head = some (es, q) →
      pi.log_head ≠ 0 →
      (∀ x ∈ es, L.entry_type x.1 = SET_ATTR ∨ L.entry_type x.1 = LINK_CHANGE ∨
        L.entry_type x.1 = DIR_LOG) →
      ∀ st1,
        replay_entries L (dir_switch R L) es (scan_start R pi pi_addr sih rebuild w) =
          .ret (.next st1) →
        ∃ stf,
          nova_rebuild_dir_inode_tree R L sb fuel pi pi_addr sih rebuild w = .ret (0, stf) ∧
          stf.reb = st1.reb ∧ stf.world = st1.world ∧
          stf.pi = nova_update_inode_checksum R (nova_update_inode_with_rebuild st1.reb pi) ∧
          stf.sih.last_setattr = st1.sih.last_setattr ∧
          stf.sih.last_link_change = st1.sih.last_link_change ∧
          stf.sih.last_dentry = st1.sih.last_dentry) := by
  obtain ⟨s1, s2, s3, s4, s5⟩ := scan_start_spec R pi pi_addr sih rebuild w hrc
  constructor
  · intro hlog
    obtain ⟨st1, r1, r2, _, r4, _⟩ := file_replay_spec R L es
      (scan_start R pi pi_addr sih rebuild w)
    have hloop := scan_loop_fail R L sb (file_switch R L) (file_entry_size L) pi.log_tail hrc
      hsnap (fun _ => True) (fun st st2 _ h => by
        obtain ⟨s, e1, e2, e3, _⟩ := file_switch_spec R L st
        rw [e1] at h
        injection h with h
        injection h with h
        subst h
        exact ⟨e2, e3⟩) n fuel q es e (scan_start R pi pi_addr sih rebuild w) st1
      (by rw [s2]; exact hlog) (fun x hx => ⟨hver x hx, trivial⟩) s3 r1 hq hslot hfail hfuel
    obtain ⟨f1, _, f3, _, _, f6, f7⟩ := at_entry_frame st1 e
    obtain ⟨st2, g1, g2, g3, _, _, _, g7, g8, g9, _⟩ := finish_spec R L fuel (at_entry st1 e) k
      (by rw [at_entry_curr_p]; exact hchain) (by rw [f3, r4, s4]; exact hrep)
    have h00 : ¬ (pi.log_head = 0 ∧ pi.log_tail = 0) := by
      intro h
      cases n with
      | zero =>
        simp only [log_entries] at hlog
        injection hlog with hlog
        have := (Prod.mk.inj hlog).2
        apply hq
        rw [← this, h.1, h.2]
      | succ n =>
        simp only [log_entries] at hlog
        rw [if_pos (by rw [h.1, h.2])] at hlog
        cases hlog
    have hlt : (at_entry st1 e).sih.last_setattr = st1.sih.last_setattr ∧
        (at_entry st1 e).sih.last_link_change = st1.sih.last_link_change := by
      unfold at_entry; split_ifs <;> exact ⟨rfl, rfl⟩
    have hrun : nova_rebuild_file_inode_tree R L sb fuel pi pi_addr sih rebuild w =
        .ret (0, { st2 with
          sih := { st2.sih with
            i_blocks := ul (st2.sih.log_pages +
              st2.sih.i_size / 2 ^ R.blk_type_to_shift sih.i_blk_type) } }) := by
      unfold nova_rebuild_file_inode_tree
      simp only
      rw [if_neg (by rw [s1]; simp)]
      have t2 : (nova_rebuild_inode_start R pi sih rebuild pi_addr).2.1.log_head =
          pi.log_head := s2
      have t3 : (nova_rebuild_inode_start R pi sih rebuild pi_addr).2.1.log_tail =
          pi.log_tail := s3
      unfold scan_start at hloop
      rw [if_neg (by rw [t2, t3]; exact h00), hloop]
      simp only [g1]
    refine ⟨st1, _, r1, hrun, ?_, ?_, ?_, ?_, ?_⟩
    · show st2.reb = st1.reb
      rw [g2, f6]
    · show st2.world = st1.world
      rw [g3, f7]
    · show st2.pi = _
      rw [g7, f6, f1, r2, s5]
    · show st2.sih.last_setattr = _
      rw [g8, hlt.1]
    · show st2.sih.last_link_change = _
      rw [g9, hlt.2]
  · intro hlog hhead hty st1 r1
    obtain ⟨r2, r4⟩ := dir_replay_frame R L es _ _ r1
    have hloop := scan_loop_fail R L sb (dir_switch R L) (dir_entry_size L) pi.log_tail hrc
      hsnap (fun p => L.entry_type p = SET_ATTR ∨ L.entry_type p = LINK_CHANGE ∨
        L.entry_type p = DIR_LOG) (fun st st2 hP h => by
        obtain ⟨_, _, e3, _, e5⟩ := dir_switch_spec R L st st2 _ h
        exact ⟨e5 rfl hP, e3⟩) n fuel q es e (scan_start R pi pi_addr sih rebuild w) st1
      (by rw [s2]; exact hlog) (fun x hx => ⟨hver x hx, hty x hx⟩) s3 r1 hq hslot hfail hfuel
    obtain ⟨f1, _, f3, _, _, f6, f7⟩ := at_entry_frame st1 e
    obtain ⟨st2, g1, g2, g3, _, _, _, g7, g8, g9, g10⟩ := finish_spec R L fuel
      (at_entry st1 e) k (by rw [at_entry_curr_p]; exact hchain)
      (by rw [f3, r4, s4]; exact hrep)
    have hlt : (at_entry st1 e).sih.last_setattr = st1.sih.last_setattr ∧
        (at_entry st1 e).sih.last_link_change = st1.sih.last_link_change ∧
        (at_entry st1 e).sih.last_dentry = st1.sih.last_dentry := by
      unfold at_entry; split_ifs <;> exact ⟨rfl, rfl, rfl⟩
    have hrun : nova_rebuild_dir_inode_tree R L sb fuel pi pi_addr sih rebuild w =
        .ret (0, { st2 with sih := { st2.sih with i_blocks := st2.sih.log_pages } }) := by
      unfold nova_rebuild_dir_inode_tree
      simp only
      rw [if_neg (by rw [s1]; simp)]
      have t2 : (nova_rebuild_inode_start R pi sih rebuild pi_addr).2.1.log_head =
          pi.log_head := s2
      unfold scan_start at hloop
      rw [if_neg (by rw [t2]; exact hhead), hloop]
      simp only [g1]
    refine ⟨_, hrun, ?_, ?_, ?_, ?_, ?_, ?_⟩
    · show st2.reb = st1.reb
      rw [g2, f6]
    · show st2.world = st1.world
      rw [g3, f7]
    · show st2.pi = _
      rw [g7, f6, f1, r2, s5]
    · show st2.sih.last_setattr = _
      rw [g8, hlt.1]
    · show st2.sih.last_link_change = _
      rw [g9, hlt.2.1]
    · show st2.sih.last_dentry = _
      rw [g10, hlt.2.2]

/-- C20 (amended) at a concrete input: a log with a valid setattr entry at offset 4096
followed at 4144 by an entry whose checksum fails, read as a file log and as a directory
log; both rebuilds return 0. -/
theorem C20_truncated_log_amended_witness :
    (∃ stf, nova_rebuild_file_inode_tree example_rebuild_env example_truncated_log example_sb
      5 (example_pi 4096 5000) 64 example_sih example_reb [] = .ret (0, stf)) ∧
    (∃ stf, nova_rebuild_dir_inode_tree example_rebuild_env example_truncated_log example_sb
      5 (example_pi 4096 5000) 64 example_sih example_reb [] = .ret (0, stf)) := by
  obtain ⟨hfile, hdir⟩ := C20_truncated_log_amended example_rebuild_env example_truncated_log
    example_sb 5 (example_pi 4096 5000) 64 example_sih example_reb [] 1 1 4144
    [(4096, false)] (4144, false) (fun _ => rfl) rfl (by decide) (by decide) (by decide)
    (by decide) (by decide) (by decide) (fun h => absurd rfl h)
  obtain ⟨_, stf, _, h, _⟩ := hfile (by decide)
  obtain ⟨stg, g, _⟩ := hdir (by decide) (by decide) (by decide) _ rfl
  exact ⟨⟨stf, h⟩, ⟨stg, g⟩⟩

/-- C30: `nova_find_range_node` on a tree whose in-order extents are pairwise disjoint and
ascending and pass the checksum test.  If an extent contains the key, the function returns
1 with that extent.  Otherwise it returns 0; for an empty tree without a node, and for a
non-empty tree with an extent that is either the one with the greatest `range_high` among
the extents entirely below the key or the one with the least `range_low` among the extents
entirely above it. -/
theorem C30_find_range_node (E : kernel_env) (t : rb_root) (k : Nat)
    (r0 : Option node_ptr) (hs : sorted_exts t.inorder)
    (hc : ∀ p ∈ t.inorder, nova_range_node_checksum_ok E p.2 = true) :
    (∀ p ∈ t.inorder, p.2.range_low ≤ k → k ≤ p.2.range_high →
      nova_find_range_node E t k r0 = (1, some p)) ∧
    (¬ blk_in t.inorder k → t.inorder = [] → nova_find_range_node E t k r0 = (0, none)) ∧
    (¬ blk_in t.inorder k → t.inorder ≠ [] →
      ∃ p ∈ t.inorder, nova_find_range_node E t k r0 = (0, some p) ∧
        ((p.2.range_high < k ∧
            ∀ q ∈ t.inorder, q.2.range_high < k → q.2.range_high ≤ p.2.range_high) ∨
          (k < p.2.range_low ∧
            ∀ q ∈ t.inorder, k < q.2.range_low → p.2.range_low ≤ q.2.range_low))) := by
  refine ⟨?_, ?_, ?_⟩
  · intro p hp h1 h2
    unfold nova_find_range_node
    rw [find_loop_hit t k none hs hp ⟨h1, h2⟩]
    simp only [hc p hp]
    rfl
  · intro hk he
    obtain ⟨c1, h1, h2, _⟩ := find_loop_miss t k none hs hk
    unfold nova_find_range_node
    rw [h1, h2 he]
  · intro hk hne
    obtain ⟨c1, h1, _, h3⟩ := find_loop_miss t k none hs hk
    obtain ⟨p, hp, hpq⟩ := h3 hne
    subst hp
    have hmem : p ∈ t.inorder := by
      rcases hpq with h | h
      · exact (mem_below.1 (mem_of_getLast? h)).1
      · exact (mem_above.1 (mem_of_head? h)).1
    refine ⟨p, hmem, ?_, ?_⟩
    · unfold nova_find_range_node
      rw [h1]
      simp only [hc p hmem]
      rfl
    · rcases hpq with h | h
      · left
        refine ⟨(mem_below.1 (mem_of_getLast? h)).2, ?_⟩
        intro q hq hqk
        have hqb : q ∈ below k t.inorder := mem_below.2 ⟨hq, hqk⟩
        have hsplit := getLast?_eq_some_split h
        have hpw : (below k t.inorder).Pairwise ext_lt := List.Pairwise.filter _ hs.1
        rw [hsplit] at hqb hpw
        rcases List.mem_append.1 hqb with h1 | h1
        · have := (List.pairwise_append.1 hpw).2.2 q h1 p (List.mem_singleton.2 rfl)
          unfold ext_lt at this
          have := hs.2 p hmem
          omega
        · rw [List.mem_singleton] at h1
          subst h1
          omega
      · right
        refine ⟨(mem_above.1 (mem_of_head? h)).2, ?_⟩
        intro q hq hqk
        have hqb : q ∈ above k t.inorder := mem_above.2 ⟨hq, hqk⟩
        have hsplit := head?_eq_some_split h
        have hpw : (above k t.inorder).Pairwise ext_lt := List.Pairwise.filter _ hs.1
        rw [hsplit] at hqb hpw
        rcases List.mem_cons.1 hqb with h1 | h1
        · subst h1
          omega
        · have := (List.pairwise_cons.1 hpw).1 q h1
          unfold ext_lt at this
          have := hs.2 p hmem
          omega

/-- C30 at a concrete input: in the tree with `[43, 99]` at the root and `[13, 18]` as its
left child, the key 50 is found in `[43, 99]`. -/
theorem C30_find_range_node_witness :
    nova_find_range_node (unbalanced_env 0)
      (.node (.node .nil 1001 ⟨13, 18, 0⟩ .nil) 1000 ⟨43, 99, 0⟩ .nil) 50 none =
      (1, some (1000, ⟨43, 99, 0⟩)) :=
  (C30_find_range_node (unbalanced_env 0)
    (.node (.node .nil 1001 ⟨13, 18, 0⟩ .nil) 1000 ⟨43, 99, 0⟩ .nil) 50 none
    (by
      constructor
      · simp [rb_root.inorder, ext_lt]
      · intro p hp
        simp [rb_root.inorder] at hp
        rcases hp with h | h <;> subst h <;> decide)
    (by
      intro p hp
      simp [rb_root.inorder] at hp
      rcases hp with h | h <;> subst h <;> rfl)).1
    (1000, ⟨43, 99, 0⟩) (by simp [rb_root.inorder]) (by decide) (by decide)

/-- C29 (evaluation at the failing input): in the tree with `[43, 99]` at the root and
`[13, 18]` as its left child, the candidate `[20, 49]` intersects the extent `[43, 99]`,
yet `nova_find_free_slot` returns 0 with `prev = [13, 18]` and `next = [43, 99]`; the same
index with `[13, 18]` at the root rejects the candidate. -/
theorem C29_overlap_with_successor_accepted :
    nova_find_free_slot (unbalanced_env 0)
      (.node (.node .nil 1001 ⟨13, 18, 0⟩ .nil) 1000 ⟨43, 99, 0⟩ .nil) 20 49 =
      ⟨0, some (1001, ⟨13, 18, 0⟩), some (1000, ⟨43, 99, 0⟩)⟩ ∧
    (nova_find_free_slot (unbalanced_env 0)
      (.node .nil 1001 ⟨13, 18, 0⟩ (.node .nil 1000 ⟨43, 99, 0⟩ .nil)) 20 49).ret =
      -EINVAL := by
  decide

theorem scan_start_fields {W : Type} (R : rebuild_env W) (pi : nova_inode) (pi_addr : Nat)
    (sih : nova_inode_info_header) (rebuild : nova_inode_rebuild) (w : W)
    (hrc : R.memcpy_from_pmem pi_addr = 0) :
    (nova_rebuild_inode_start R pi sih rebuild pi_addr).1 = 0 ∧
    (scan_start R pi pi_addr sih rebuild w).curr_p = pi.log_head ∧
    (scan_start R pi pi_addr sih rebuild w).sih.log_tail = pi.log_tail ∧
    (scan_start R pi pi_addr sih rebuild w).sih.alter_pi_addr = sih.alter_pi_addr ∧
    (scan_start R pi pi_addr sih rebuild w).pi = pi ∧
    (scan_start R pi pi_addr sih rebuild w).sih.log_pages = 1 ∧
    (scan_start R pi pi_addr sih rebuild w).world = w ∧
    (scan_start R pi pi_addr sih rebuild w).alter_pi = none ∧
    (scan_start R pi pi_addr sih rebuild w).curr_trans_id = 0 ∧
    (scan_start R pi pi_addr sih rebuild w).reb =
      { i_size := pi.i_size, i_flags := pi.i_flags, i_ctime := pi.i_ctime,
        i_mtime := pi.i_mtime, i_atime := pi.i_atime, i_uid := pi.i_uid, i_gid := pi.i_gid,
        i_generation := pi.i_generation, i_links_count := pi.i_links_count,
        i_mode := pi.i_mode } := by
  simp [scan_start, nova_rebuild_inode_start, nova_get_head_tail, nova_init_inode_rebuild, hrc]

/-- `nova_rebuild_file_inode_tree` when the inode record is read without error. -/
theorem file_rebuild_eq {W : Type} (R : rebuild_env W) (L : nova_log) (sb : super_block)
    (fuel : Nat) (pi : nova_inode) (pi_addr : Nat) (sih : nova_inode_info_header)
    (rebuild : nova_inode_rebuild) (w : W) (hrc : R.memcpy_from_pmem pi_addr = 0) :
    nova_rebuild_file_inode_tree R L sb fuel pi pi_addr sih rebuild w =
      if pi.log_head = 0 ∧ pi.log_tail = 0 then
        .ret (0, scan_start R pi pi_addr sih rebuild w)
      else
        match scan_loop R L sb (file_switch R L) fuel
            (scan_start R pi pi_addr sih rebuild w) with
        | .ret (_, st1) =>
          match nova_rebuild_inode_finish R L fuel st1 with
          | .ret (ret, st2) =>
            .ret (ret, { st2 with
              sih := { st2.sih with
                i_blocks := ul (st2.sih.log_pages +
                  st2.sih.i_size / 2 ^ R.blk_type_to_shift sih.i_blk_type) } })
          | .crash => .crash
          | .timeout => .timeout
        | .crash => .crash
        | .timeout => .timeout := by
  obtain ⟨s1, s2, s3, _⟩ := scan_start_fields R pi pi_addr sih rebuild w hrc
  have t2 : (nova_rebuild_inode_start R pi sih rebuild pi_addr).2.1.log_head =
      pi.log_head := s2
  have t3 : (nova_rebuild_inode_start R pi sih rebuild pi_addr).2.1.log_tail =
      pi.log_tail := s3
  unfold nova_rebuild_file_inode_tree scan_start
  simp only
  rw [if_neg (by rw [s1]; simp)]
  simp only [t2, t3, s1]

/-- `nova_rebuild_dir_inode_tree` when the inode record is read without error and the log
head is not 0. -/
theorem dir_rebuild_eq {W : Type} (R : rebuild_env W) (L : nova_log) (sb : super_block)
    (fuel : Nat) (pi : nova_inode) (pi_addr : Nat) (sih : nova_inode_info_header)
    (rebuild : nova_inode_rebuild) (w : W) (hrc : R.memcpy_from_pmem pi_addr = 0)
    (hh : pi.log_head ≠ 0) :
    nova_rebuild_dir_inode_tree R L sb fuel pi pi_addr sih rebuild w =
      match scan_loop R L sb (dir_switch R L) fuel
          (scan_start R pi pi_addr sih rebuild w) with
      | .ret (some ret, st1) => .ret (ret, st1)
      | .ret (none, st1) =>
        match nova_rebuild_inode_finish R L fuel st1 with
        | .ret (ret, st2) =>
          .ret (ret, { st2 with sih := { st2.sih with i_blocks := st2.sih.log_pages } })
        | .crash => .crash
        | .timeout => .timeout
      | .crash => .crash
      | .timeout => .timeout := by
  obtain ⟨s1, s2, _⟩ := scan_start_fields R pi pi_addr sih rebuild w hrc
  have t2 : (nova_rebuild_inode_start R pi sih rebuild pi_addr).2.1.log_head =
      pi.log_head := s2
  unfold nova_rebuild_dir_inode_tree scan_start
  simp only
  rw [if_neg (by rw [s1]; simp)]
  simp only [t2, if_neg hh]

/-- C23: for a file inode whose `log_head` and `log_tail` are both 0 and whose record is
read without error, `nova_rebuild_file_inode_tree` returns 0 with the persistent inode,
the state of the index functions and of the allocator unchanged, nothing written to a
replica inode, and `log_pages = 1`; the result is the same for every log and every amount
of fuel, so no log entry is read. -/
theorem C23_empty_log {W : Type} (R : rebuild_env W) (L L2 : nova_log) (sb : super_block)
    (fuel fuel2 : Nat) (pi : nova_inode) (pi_addr : Nat) (sih : nova_inode_info_header)
    (rebuild : nova_inode_rebuild) (w : W)
    (hh : pi.log_head = 0) (ht : pi.log_tail = 0) (hrc : R.memcpy_from_pmem pi_addr = 0) :
    ∃ st, nova_rebuild_file_inode_tree R L sb fuel pi pi_addr sih rebuild w = .ret (0, st) ∧
      st.pi = pi ∧ st.world = w ∧ st.alter_pi = none ∧ st.sih.log_pages = 1 ∧
      nova_rebuild_file_inode_tree R L2 sb fuel2 pi pi_addr sih rebuild w = .ret (0, st) := by
  obtain ⟨_, _, _, _, s5, s6, s7, s8, _⟩ := scan_start_fields R pi pi_addr sih rebuild w hrc
  refine ⟨scan_start R pi pi_addr sih rebuild w, ?_, s5, s7, s8, s6, ?_⟩
  · rw [file_rebuild_eq R L sb fuel pi pi_addr sih rebuild w hrc, if_pos ⟨hh, ht⟩]
  · rw [file_rebuild_eq R L2 sb fuel2 pi pi_addr sih rebuild w hrc, if_pos ⟨hh, ht⟩]

/-- C23 at a concrete input: an inode with head and tail 0, replayed with no fuel at all. -/
theorem C23_empty_log_witness :
    ∃ st, nova_rebuild_file_inode_tree example_rebuild_env example_file_log example_sb 0
        (example_pi 0 0) 64 example_sih example_reb [] = .ret (0, st) ∧
      st.pi = example_pi 0 0 ∧ st.world = [] ∧ st.sih.log_pages = 1 := by
  obtain ⟨st, h1, h2, h3, _, h5, _⟩ := C23_empty_log example_rebuild_env example_file_log
    example_file_log example_sb 0 0 (example_pi 0 0) 64 example_sih example_reb [] rfl rfl rfl
  exact ⟨st, h1, h2, h3, h5⟩

/-- C25 (evaluation at the failing input): a file log with a file-write entry of
transaction id 5 followed by a link-change entry of transaction id 3 (link count 7, flags
3, generation 2).  File replay applies the link-change entry: the rebuilt link count,
flags and generation are 7, 3 and 2.  Directory replay of the same entry after a dentry of
transaction id 5 leaves them at 2, 0 and 0. -/
theorem C25_file_link_change_not_gated :
    rebuilt_links (nova_rebuild_file_inode_tree example_rebuild_env
      (example_link_log FILE_WRITE) example_sb 5 (example_pi 4096 4184) 64 example_sih
      example_reb []) = some (0, 7, 3, 2) ∧
    rebuilt_links (nova_rebuild_dir_inode_tree example_rebuild_env
      (example_link_log DIR_LOG) example_sb 5 (example_pi 4096 4176) 64 example_sih
      example_reb []) = some (0, 2, 0, 0) := by
  decide

/-- C27 (evaluation at the failing input): the tail is 8192, the first slot of the second
page.  After the entry at 4096 the cursor 4152 is not the tail; the scan follows the
`NEXT_PAGE` marker to 8192 and dispatches the entry stored at the tail itself, so the
rebuilt size and mtime are 999 and 8, those of an entry that is not before the tail. -/
theorem C27_entry_at_tail_dispatched :
    rebuilt_attrs (nova_rebuild_file_inode_tree example_rebuild_env example_tail_log
      example_sb 5 (example_pi 4096 8192) 64 example_sih example_reb []) =
      some (0, 999, 8) := by
  decide

/-- C22 (evaluation at the failing input): the first entry of the log verifies and has the
type tag 9.  File rebuild returns 0 and has applied the file-write entry that follows
(rebuilt size 100, mtime 7).  Directory rebuild does not advance its cursor past the
entry: with any amount of fuel it is still in its scan loop, it never returns. -/
theorem C22_unknown_type_not_fatal :
    example_unknown_log.nova_verify_entry_csum 4096 = true ∧
    example_unknown_log.entry_type 4096 = 9 ∧
    rebuilt_attrs (nova_rebuild_file_inode_tree example_rebuild_env example_unknown_log
      example_sb 5 (example_pi 4096 4208) 64 example_sih example_reb []) =
      some (0, 100, 7) ∧
    ∀ fuel, nova_rebuild_dir_inode_tree example_rebuild_env example_unknown_log example_sb
      fuel (example_pi 4096 4208) 64 example_sih example_reb [] = .timeout := by
  refine ⟨by decide, by decide, by decide, ?_⟩
  intro fuel
  rw [dir_rebuild_eq example_rebuild_env example_unknown_log example_sb fuel
    (example_pi 4096 4208) 64 example_sih example_reb [] rfl (by decide)]
  have hbody : scan_body example_rebuild_env example_unknown_log example_sb
      (dir_switch example_rebuild_env example_unknown_log)
      (scan_start example_rebuild_env (example_pi 4096 4208) 64 example_sih example_reb []) =
      .ret (.next
        (scan_start example_rebuild_env (example_pi 4096 4208) 64 example_sih example_reb
          [])) := rfl
  have hloop : ∀ f, scan_loop example_rebuild_env example_unknown_log example_sb
      (dir_switch example_rebuild_env example_unknown_log) f
      (scan_start example_rebuild_env (example_pi 4096 4208) 64 example_sih example_reb []) =
      .timeout := by
    intro f
    induction f with
    | zero => rfl
    | succ f ih =>
      rw [scan_loop_succ, if_pos (by decide), hbody]
      exact ih
  rw [hloop]

/-- C26: a setattr entry in file replay, with sizes that fit `loff_t` and a block shift
below 64.  The entry sets the rebuilt mode, uid, gid and atime; it sets the rebuilt size,
mtime and ctime exactly when its transaction id is at least the highest seen so far; and
when its mode is that of a regular file it calls `nova_delete_file_tree` for the blocks
from `ceil(entry.size / 2^data_bits)` through `(old_size - 1) >> data_bits` (0 when
`old_size = 0`), `old_size` being the rebuilt size before the entry; otherwise it makes no
such call. -/
theorem C26_file_setattr {W : Type} (R : rebuild_env W) (L : nova_log)
    (st : rebuild_state W)
    (hty : L.entry_type st.curr_p = SET_ATTR)
    (hbits : R.blk_type_to_shift st.sih.i_blk_type < 64)
    (hsize : (L.setattr st.curr_p).size < 9223372036854775808)
    (hold : st.reb.i_size < 9223372036854775808) :
    ∃ st2, file_switch R L st (L.entry_type st.curr_p) = .ret (.next st2) ∧
      st2.reb.i_mode = (L.setattr st.curr_p).mode ∧
      st2.reb.i_uid = (L.setattr st.curr_p).uid ∧
      st2.reb.i_gid = (L.setattr st.curr_p).gid ∧
      st2.reb.i_atime = (L.setattr st.curr_p).atime ∧
      ((L.setattr st.curr_p).trans_id ≥ st.curr_trans_id →
        st2.reb.i_size = (L.setattr st.curr_p).size ∧
        st2.reb.i_mtime = (L.setattr st.curr_p).mtime ∧
        st2.reb.i_ctime = (L.setattr st.curr_p).ctime) ∧
      ((L.setattr st.curr_p).trans_id < st.curr_trans_id →
        st2.reb.i_size = st.reb.i_size ∧ st2.reb.i_mtime = st.reb.i_mtime ∧
        st2.reb.i_ctime = st.reb.i_ctime) ∧
      (S_ISREG (L.setattr st.curr_p).mode = true →
        st2.world = R.nova_delete_file_tree st.world
          (((L.setattr st.curr_p).size + 2 ^ R.blk_type_to_shift st.sih.i_blk_type - 1) /
            2 ^ R.blk_type_to_shift st.sih.i_blk_type)
          (if st.reb.i_size = 0 then 0
           else (st.reb.i_size - 1) / 2 ^ R.blk_type_to_shift st.sih.i_blk_type)) ∧
      (S_ISREG (L.setattr st.curr_p).mode = false → st2.world = st.world) := by
  have hty2 : (L.setattr st.curr_p).entry_type = SET_ATTR := by rw [L.setattr_type, hty]
  have hpow : 2 ^ R.blk_type_to_shift st.sih.i_blk_type < 18446744073709551616 := by
    calc 2 ^ R.blk_type_to_shift st.sih.i_blk_type < 2 ^ 64 :=
        Nat.pow_lt_pow_right (by decide) hbits
    _ = 18446744073709551616 := by norm_num
  have hpos : 0 < 2 ^ R.blk_type_to_shift st.sih.i_blk_type := Nat.pow_pos (by decide)
  have hfirst : ul_sub (ul ((L.setattr st.curr_p).size +
      ul (2 ^ R.blk_type_to_shift st.sih.i_blk_type))) 1 =
      (L.setattr st.curr_p).size + 2 ^ R.blk_type_to_shift st.sih.i_blk_type - 1 := by
    have hle : 2 ^ R.blk_type_to_shift st.sih.i_blk_type ≤ 9223372036854775808 := by
      calc 2 ^ R.blk_type_to_shift st.sih.i_blk_type ≤ 2 ^ 63 :=
          Nat.pow_le_pow_right (by decide) (by omega)
      _ = 9223372036854775808 := by norm_num
    unfold ul_sub ul
    omega
  have hlast : (if long_of_ulong st.reb.i_size > 0 then
      ul_sub st.reb.i_size 1 / 2 ^ R.blk_type_to_shift st.sih.i_blk_type else 0) =
      (if st.reb.i_size = 0 then 0
       else (st.reb.i_size - 1) / 2 ^ R.blk_type_to_shift st.sih.i_blk_type) := by
    have hl : long_of_ulong st.reb.i_size = (st.reb.i_size : Int) := by
      unfold long_of_ulong
      rw [Nat.mod_eq_of_lt (by omega), if_pos hold]
    rw [hl]
    by_cases h0 : st.reb.i_size = 0
    · rw [if_pos h0, if_neg (by rw [h0]; decide)]
    · have e : ul_sub st.reb.i_size 1 = st.reb.i_size - 1 := by
        unfold ul_sub
        omega
      rw [if_neg h0, if_pos (by omega), e]
  unfold file_switch
  simp only [hty, if_true, nova_apply_setattr_entry, hty2, ne_eq, not_true, if_false, hfirst,
    hlast]
  cases hS : S_ISREG (L.setattr st.curr_p).mode
  · rw [if_neg (by decide)]
    dsimp only
    refine ⟨_, rfl, ?_, ?_, ?_, ?_, ?_, ?_, ?_, ?_⟩
    · split_ifs <;> rfl
    · split_ifs <;> rfl
    · split_ifs <;> rfl
    · split_ifs <;> rfl
    · intro hge
      rw [if_pos hge]
      exact ⟨rfl, rfl, rfl⟩
    · intro hlt
      rw [if_neg (by omega)]
      exact ⟨rfl, rfl, rfl⟩
    · intro h
      cases h
    · intro _
      rfl
  · rw [if_pos rfl]
    dsimp only
    refine ⟨_, rfl, ?_, ?_, ?_, ?_, ?_, ?_, ?_, ?_⟩
    · split_ifs <;> rfl
    · split_ifs <;> rfl
    · split_ifs <;> rfl
    · split_ifs <;> rfl
    · intro hge
      rw [if_pos hge]
      exact ⟨rfl, rfl, rfl⟩
    · intro hlt
      rw [if_neg (by omega)]
      exact ⟨rfl, rfl, rfl⟩
    · intro _
      rfl
    · intro h
      cases h

/-- C26 at a concrete input: a set-attribute entry of size 5000 and transaction id 4
applied to a regular file of size 20000 with 4096-byte blocks sets the mode and the size
and releases the blocks 2 through 4. -/
theorem C26_file_setattr_witness :
    ∃ st2, file_switch example_trace_env example_setattr_log example_setattr_state SET_ATTR =
        .ret (.next st2) ∧
      st2.reb.i_mode = 33188 ∧ st2.reb.i_size = 5000 ∧ st2.world = [4, 2] := by
  obtain ⟨st2, h, hm, _, _, _, hge, _, hreg, _⟩ := C26_file_setattr example_trace_env
    example_setattr_log example_setattr_state rfl (by decide) (by decide) (by decide)
  exact ⟨st2, h, hm, (hge (by decide)).1, hreg rfl⟩

theorem reb_rel_none (s t : nova_inode_rebuild) (h : reb_rel none s t) : t = s := by
  obtain ⟨s1, s2, s3, s4, s5, s6, s7, s8, s9, s10⟩ := s
  obtain ⟨t1, t2, t3, t4, t5, t6, t7, t8, t9, t10⟩ := t
  simp [reb_rel] at h
  obtain ⟨h1, h2, h3, h4, h5, h6, h7, h8, h9, h10⟩ := h
  subst h1 h2 h3 h4 h5 h6 h7 h8 h9 h10
  rfl

theorem reb_rel_self (s t : nova_inode_rebuild) (h : reb_rel (some s) s t) : t = s := by
  obtain ⟨s1, s2, s3, s4, s5, s6, s7, s8, s9, s10⟩ := s
  obtain ⟨t1, t2, t3, t4, t5, t6, t7, t8, t9, t10⟩ := t
  simp [reb_rel] at h
  obtain ⟨h1, h2, h3, h4, h5, h6, h7, h8, h9, h10⟩ := h
  subst h1 h2 h3 h4 h5 h6 h7 h8 h9 h10
  rfl

/-- The `switch` of file rebuild keeps two replays in step. -/
theorem file_switch_sim {W : Type} (R : rebuild_env W) (L : nova_log) (P0 : nova_inode)
    (Q0 : Nat) (A : Option nova_inode_rebuild) (s t : rebuild_state W) (ty : Nat)
    (h : replay_sim P0 Q0 A s t) :
    out_rel (step_rel (replay_sim P0 Q0 A)) (file_switch R L s ty) (file_switch R L t ty) := by
  obtain ⟨spi, ssih, sreb, sct, scp, sw, salt⟩ := s
  obtain ⟨tpi, tsih, treb, tct, tcp, tw, talt⟩ := t
  obtain ⟨h1, h2, h3, h4, h5, a1, a2, a3, a4, a5, a6, a7, a8, a9, a10⟩ := h
  simp only at h1 h2 h3 h4 h5 a1 a2 a3 a4 a5 a6 a7 a8 a9 a10
  subst h3
  subst h4
  unfold file_switch nova_apply_setattr_entry nova_apply_link_change_entry
    nova_rebuild_handle_write_entry nova_rebuild_file_time_and_size
  simp only
  split_ifs
  all_goals
    simp only [out_rel, step_rel, replay_sim, reb_rel]
    try split_ifs
    all_goals
      simp only [h1, h2, h5, a1, a2, a3, a4, a5, a6, a7, a8, a9, a10, true_or, and_self]

/-- The head of a scan loop keeps two replays in step. -/
theorem scan_advance_sim {W : Type} (R : rebuild_env W) (L : nova_log) (P0 : nova_inode)
    (Q0 : Nat) (A : Option nova_inode_rebuild) (s t : rebuild_state W)
    (h : replay_sim P0 Q0 A s t) :
    out_rel (replay_sim P0 Q0 A) (scan_advance R L s) (scan_advance R L t) := by
  obtain ⟨h1, h2, h3, h4, h5, h6⟩ := h
  unfold scan_advance
  rw [h3]
  cases goto_next_page R L s.curr_p with
  | crash => trivial
  | timeout => trivial
  | ret b =>
    cases b with
    | false => exact ⟨h1, h2, h3, h4, h5, h6⟩
    | true =>
      simp only
      cases next_log_page R L s.curr_p with
      | crash => trivial
      | timeout => trivial
      | ret n => exact ⟨h1, h2, rfl, h4, h5, h6⟩

/-- One pass through a scan loop keeps two replays in step when its `switch` does. -/
theorem scan_body_sim {W : Type} (R : rebuild_env W) (L : nova_log) (sb : super_block)
    (dispatch : rebuild_state W → Nat → outcome (scan_step W)) (P0 : nova_inode) (Q0 : Nat)
    (A : Option nova_inode_rebuild)
    (hd : ∀ s t ty, replay_sim P0 Q0 A s t →
      out_rel (step_rel (replay_sim P0 Q0 A)) (dispatch s ty) (dispatch t ty))
    (s t : rebuild_state W) (h : replay_sim P0 Q0 A s t) :
    out_rel (step_rel (replay_sim P0 Q0 A)) (scan_body R L sb dispatch s)
      (scan_body R L sb dispatch t) := by
  have ha := scan_advance_sim R L P0 Q0 A s t h
  unfold scan_body
  cases hs : scan_advance R L s with
  | crash =>
    cases ht : scan_advance R L t with
    | crash => trivial
    | timeout => rw [hs, ht] at ha; exact ha.elim
    | ret t1 => rw [hs, ht] at ha; exact ha.elim
  | timeout =>
    cases ht : scan_advance R L t with
    | crash => rw [hs, ht] at ha; exact ha.elim
    | timeout => trivial
    | ret t1 => rw [hs, ht] at ha; exact ha.elim
  | ret s1 =>
    cases ht : scan_advance R L t with
    | crash => rw [hs, ht] at ha; exact ha.elim
    | timeout => rw [hs, ht] at ha; exact ha.elim
    | ret t1 =>
      rw [hs, ht] at ha
      have ha2 : replay_sim P0 Q0 A s1 t1 := ha
      simp only
      rw [ha2.2.2.1]
      split_ifs
      · trivial
      · exact ha2
      · exact ha2
      · exact hd s1 t1 _ ha2

/-- A scan loop keeps two replays in step: they end in the same way, in states in step. -/
theorem scan_loop_sim {W : Type} (R : rebuild_env W) (L : nova_log) (sb : super_block)
    (dispatch : rebuild_state W → Nat → outcome (scan_step W)) (P0 : nova_inode) (Q0 : Nat)
    (A : Option nova_inode_rebuild)
    (hd : ∀ s t ty, replay_sim P0 Q0 A s t →
      out_rel (step_rel (replay_sim P0 Q0 A)) (dispatch s ty) (dispatch t ty)) :
    ∀ (fuel : Nat) (s t : rebuild_state W), replay_sim P0 Q0 A s t →
      out_rel (fun x y => y.1 = x.1 ∧ replay_sim P0 Q0 A x.2 y.2)
        (scan_loop R L sb dispatch fuel s) (scan_loop R L sb dispatch fuel t) := by
  intro fuel
  induction fuel with
  | zero =>
    intro s t _
    trivial
  | succ fuel ih =>
    intro s t h
    have hb := scan_body_sim R L sb dispatch P0 Q0 A hd s t h
    rw [scan_loop_succ, scan_loop_succ, h.2.2.1, h.2.2.2.2.1]
    by_cases hc : s.curr_p ≠ s.sih.log_tail
    · rw [if_pos hc, if_pos hc]
      cases hs : scan_body R L sb dispatch s with
      | crash =>
        cases ht : scan_body R L sb dispatch t with
        | crash => trivial
        | timeout => rw [hs, ht] at hb; exact hb.elim
        | ret y => rw [hs, ht] at hb; exact hb.elim
      | timeout =>
        cases ht : scan_body R L sb dispatch t with
        | crash => rw [hs, ht] at hb; exact hb.elim
        | timeout => trivial
        | ret y => rw [hs, ht] at hb; exact hb.elim
      | ret x =>
        cases ht : scan_body R L sb dispatch t with
        | crash => rw [hs, ht] at hb; exact hb.elim
        | timeout => rw [hs, ht] at hb; exact hb.elim
        | ret y =>
          rw [hs, ht] at hb
          cases x with
          | next s1 =>
            cases y with
            | next t1 => exact ih s1 t1 hb
            | stop t1 => exact hb.elim
            | out r t1 => exact hb.elim
          | stop s1 =>
            cases y with
            | next t1 => exact hb.elim
            | stop t1 => exact ⟨rfl, hb⟩
            | out r t1 => exact hb.elim
          | out r s1 =>
            cases y with
            | next t1 => exact hb.elim
            | stop t1 => exact hb.elim
            | out r2 t1 =>
              have hb2 : r = r2 ∧ replay_sim P0 Q0 A s1 t1 := hb
              exact ⟨by rw [hb2.1], hb2.2⟩
    · rw [if_neg hc, if_neg hc]
      exact ⟨rfl, h⟩

/-- What a return of `nova_rebuild_inode_finish` says. -/
theorem finish_ret {W : Type} (R : rebuild_env W) (L : nova_log) (fuel : Nat)
    (s1 : rebuild_state W) (ret : Int) (s2 : rebuild_state W)
    (h : nova_rebuild_inode_finish R L fuel s1 = .ret (ret, s2)) :
    ret = 0 ∧ s2.reb = s1.reb ∧
    s2.pi = nova_update_inode_checksum R (nova_update_inode_with_rebuild s1.reb s1.pi) ∧
    ∃ k, log_pages_loop R L fuel (s1.curr_p / 2 ^ R.PAGE_SHIFT * 2 ^ R.PAGE_SHIFT)
      s1.sih.log_pages = .ret k := by
  unfold nova_rebuild_inode_finish at h
  simp only at h
  by_cases hc : R.replica_metadata ≠ 0 ∧ s1.sih.alter_pi_addr = 0
  · rw [if_pos hc] at h
    cases h
  · rw [if_neg hc] at h
    cases hl : log_pages_loop R L fuel (s1.curr_p / 2 ^ R.PAGE_SHIFT * 2 ^ R.PAGE_SHIFT)
        s1.sih.log_pages with
    | crash => rw [hl] at h; cases h
    | timeout => rw [hl] at h; cases h
    | ret r =>
      rw [hl] at h
      simp only at h
      have e := Prod.mk.inj (outcome.ret.inj h)
      have e2 := e.2
      subst e2
      exact ⟨e.1.symm, rfl, rfl, r, rfl⟩

/-- The inode written back by a rebuild holds the ten attributes of the rebuild record
and the head and tail it had. -/
theorem update_inode_fields {W : Type} (R : rebuild_env W) (reb : nova_inode_rebuild)
    (pi : nova_inode) :
    nova_update_inode_with_rebuild reb
      (nova_update_inode_checksum R (nova_update_inode_with_rebuild reb pi)) =
      nova_update_inode_checksum R (nova_update_inode_with_rebuild reb pi) ∧
    (nova_update_inode_checksum R (nova_update_inode_with_rebuild reb pi)).log_head =
      pi.log_head ∧
    (nova_update_inode_checksum R (nova_update_inode_with_rebuild reb pi)).log_tail =
      pi.log_tail := by
  unfold nova_update_inode_checksum nova_update_inode_with_rebuild
  split_ifs <;> exact ⟨rfl, rfl, rfl⟩

/-- Two file rebuilds of one log in step.  When the rebuild of the inode `pi` returns, the
rebuild of an inode `pi2` with the same head and tail returns the same value with a
rebuild record related to that of the first by `reb_rel A`, provided the attributes read
from the two inodes are so related; each written inode holds the ten attributes of its
rebuild record, and the first its head and tail. -/
theorem file_rebuild_sim {W : Type} (R : rebuild_env W) (L : nova_log) (sb : super_block)
    (fuel : Nat) (pi pi2 : nova_inode) (pi_addr pi_addr2 : Nat)
    (sih sih2 : nova_inode_info_header) (rebuild rebuild2 : nova_inode_rebuild) (w w2 : W)
    (A : Option nova_inode_rebuild) (ret : Int) (st : rebuild_state W)
    (hrc : R.memcpy_from_pmem pi_addr = 0) (hrc2 : R.memcpy_from_pmem pi_addr2 = 0)
    (hrep : R.replica_metadata ≠ 0 → sih2.alter_pi_addr ≠ 0)
    (hhead : pi2.log_head = pi.log_head) (htail : pi2.log_tail = pi.log_tail)
    (hrel : reb_rel A (scan_start R pi pi_addr sih rebuild w).reb
      (scan_start R pi2 pi_addr2 sih2 rebuild2 w2).reb)
    (hrun : nova_rebuild_file_inode_tree R L sb fuel pi pi_addr sih rebuild w =
      .ret (ret, st)) :
    (st.pi.log_head = pi.log_head ∧ st.pi.log_tail = pi.log_tail ∧
      nova_update_inode_with_rebuild st.reb st.pi = st.pi) ∧
    ∃ st2, nova_rebuild_file_inode_tree R L sb fuel pi2 pi_addr2 sih2 rebuild2 w2 =
        .ret (ret, st2) ∧
      reb_rel A st.reb st2.reb ∧ nova_update_inode_with_rebuild st2.reb st2.pi = st2.pi := by
  obtain ⟨_, s2, s3, _, s5, _, _, _, s9, s10⟩ :=
    scan_start_fields R pi pi_addr sih rebuild w hrc
  obtain ⟨_, t2, t3, t4, t5, _, _, _, t9, t10⟩ :=
    scan_start_fields R pi2 pi_addr2 sih2 rebuild2 w2 hrc2
  rw [file_rebuild_eq R L sb fuel pi pi_addr sih rebuild w hrc] at hrun
  rw [file_rebuild_eq R L sb fuel pi2 pi_addr2 sih2 rebuild2 w2 hrc2, hhead, htail]
  by_cases h00 : pi.log_head = 0 ∧ pi.log_tail = 0
  · rw [if_pos h00] at hrun
    rw [if_pos h00]
    have e := Prod.mk.inj (outcome.ret.inj hrun)
    have e2 := e.2
    subst e2
    refine ⟨⟨by rw [s5], by rw [s5], ?_⟩, _, by rw [e.1], hrel, ?_⟩
    · rw [s5, s10]
      rfl
    · rw [t5, t10]
      rfl
  · rw [if_neg h00] at hrun
    rw [if_neg h00]
    have hsim : replay_sim pi sih2.alter_pi_addr A (scan_start R pi pi_addr sih rebuild w)
        (scan_start R pi2 pi_addr2 sih2 rebuild2 w2) :=
      ⟨s5, t4, by rw [t2, s2, hhead], by rw [t9, s9], by rw [t3, s3, htail], hrel⟩
    have hl := scan_loop_sim R L sb (file_switch R L) pi sih2.alter_pi_addr A
      (file_switch_sim R L pi sih2.alter_pi_addr A) fuel _ _ hsim
    cases hs : scan_loop R L sb (file_switch R L) fuel
        (scan_start R pi pi_addr sih rebuild w) with
    | crash => rw [hs] at hrun; cases hrun
    | timeout => rw [hs] at hrun; cases hrun
    | ret x =>
      obtain ⟨o, s1⟩ := x
      rw [hs] at hrun hl
      simp only at hrun
      cases ht : scan_loop R L sb (file_switch R L) fuel
          (scan_start R pi2 pi_addr2 sih2 rebuild2 w2) with
      | crash => rw [ht] at hl; exact hl.elim
      | timeout => rw [ht] at hl; exact hl.elim
      | ret y =>
        obtain ⟨o2, t1⟩ := y
        rw [ht] at hl
        have hl2 : o2 = o ∧ replay_sim pi sih2.alter_pi_addr A s1 t1 := hl
        obtain ⟨_, g1, g2, g3, _, _, g6⟩ := hl2
        simp only
        cases hf : nova_rebuild_inode_finish R L fuel s1 with
        | crash => rw [hf] at hrun; cases hrun
        | timeout => rw [hf] at hrun; cases hrun
        | ret z =>
          obtain ⟨r, sf⟩ := z
          rw [hf] at hrun
          simp only at hrun
          obtain ⟨f1, f2, f3, k, f4⟩ := finish_ret R L fuel s1 r sf hf
          obtain ⟨k1, f5⟩ := log_pages_loop_count R L fuel _ _ k f4 1
          rw [← g3] at f5
          obtain ⟨tf, u1, u2, _, _, _, _, u7, _⟩ := finish_spec R L fuel t1 k1 f5
            (by rw [g2]; exact hrep)
          have e := Prod.mk.inj (outcome.ret.inj hrun)
          have e2 := e.2
          subst e2
          obtain ⟨v1, v2, v3⟩ := update_inode_fields R s1.reb s1.pi
          obtain ⟨x1, _, _⟩ := update_inode_fields R t1.reb t1.pi
          refine ⟨⟨?_, ?_, ?_⟩, _, by rw [u1, ← e.1, f1], ?_, ?_⟩
          · show sf.pi.log_head = pi.log_head
            rw [f3, v2, g1]
          · show sf.pi.log_tail = pi.log_tail
            rw [f3, v3, g1]
          · show nova_update_inode_with_rebuild sf.reb sf.pi = sf.pi
            rw [f2, f3]
            exact v1
          · show reb_rel A sf.reb tf.reb
            rw [f2, u2]
            exact g6
          · show nova_update_inode_with_rebuild tf.reb tf.pi = tf.pi
            rw [u2, u7]
            exact x1

/-- C21: replay determinism of file rebuild.  Let `nova_rebuild_file_inode_tree` return
on the inode record `pi` and the log `L`.  A rebuild of the same inode record and log with
any other header, any other contents of the local rebuild record and any other state of
the index functions returns the same value and the same ten attributes; so does a second
rebuild that starts from the inode record written by the first, and the inode record it
writes holds the same ten attribute values.  The reads of the inode records succeed, and
the header of the other rebuild has a replica address when replica metadata is on. -/
theorem C21_replay_deterministic {W : Type} (R : rebuild_env W) (L : nova_log)
    (sb : super_block) (fuel : Nat) (pi : nova_inode) (pi_addr pi_addr2 : Nat)
    (sih sih2 : nova_inode_info_header) (rebuild rebuild2 : nova_inode_rebuild) (w w2 : W)
    (ret : Int) (st : rebuild_state W)
    (hrc : R.memcpy_from_pmem pi_addr = 0) (hrc2 : R.memcpy_from_pmem pi_addr2 = 0)
    (hrep : R.replica_metadata ≠ 0 → sih2.alter_pi_addr ≠ 0)
    (hrun : nova_rebuild_file_inode_tree R L sb fuel pi pi_addr sih rebuild w =
      .ret (ret, st)) :
    (∃ st2, nova_rebuild_file_inode_tree R L sb fuel pi pi_addr2 sih2 rebuild2 w2 =
        .ret (ret, st2) ∧ st2.reb = st.reb) ∧
    (∃ st3, nova_rebuild_file_inode_tree R L sb fuel st.pi pi_addr2 sih2 rebuild2 w2 =
        .ret (ret, st3) ∧ st3.reb = st.reb ∧
      st3.pi.i_size = st.pi.i_size ∧ st3.pi.i_flags = st.pi.i_flags ∧
      st3.pi.i_uid = st.pi.i_uid ∧ st3.pi.i_gid = st.pi.i_gid ∧
      st3.pi.i_atime = st.pi.i_atime ∧ st3.pi.i_ctime = st.pi.i_ctime ∧
      st3.pi.i_mtime = st.pi.i_mtime ∧ st3.pi.i_generation = st.pi.i_generation ∧
      st3.pi.i_links_count = st.pi.i_links_count ∧ st3.pi.i_mode = st.pi.i_mode) := by
  have s10 := (scan_start_fields R pi pi_addr sih rebuild w hrc).2.2.2.2.2.2.2.2.2
  have t10 := (scan_start_fields R pi pi_addr2 sih2 rebuild2 w2 hrc2).2.2.2.2.2.2.2.2.2
  have u10 := (scan_start_fields R st.pi pi_addr2 sih2 rebuild2 w2 hrc2).2.2.2.2.2.2.2.2.2
  obtain ⟨⟨a1, a2, a3⟩, st2, b1, b2, _⟩ := file_rebuild_sim R L sb fuel pi pi pi_addr
    pi_addr2 sih sih2 rebuild rebuild2 w w2 none ret st hrc hrc2 hrep rfl rfl
    (by
      rw [s10, t10]
      simp only [reb_rel, true_or, and_self]) hrun
  refine ⟨⟨st2, b1, reb_rel_none _ _ b2⟩, ?_⟩
  have hattr : (scan_start R st.pi pi_addr2 sih2 rebuild2 w2).reb = st.reb := by
    rw [u10]
    have e : nova_update_inode_with_rebuild st.reb st.pi = st.pi := a3
    generalize st.reb = r at e
    generalize st.pi = p at e
    obtain ⟨r1, r2, r3, r4, r5, r6, r7, r8, r9, r10⟩ := r
    rw [← e]
    rfl
  obtain ⟨_, st3, c1, c2, c3⟩ := file_rebuild_sim R L sb fuel pi st.pi pi_addr
    pi_addr2 sih sih2 rebuild rebuild2 w w2 (some st.reb) ret st hrc hrc2 hrep a1 a2
    (by
      rw [hattr]
      simp only [reb_rel, Option.some.injEq, exists_eq_left', or_true, and_self]) hrun
  have hreb := reb_rel_self _ _ c2
  have d3 : nova_update_inode_with_rebuild st.reb st3.pi = st3.pi := by
    rw [← hreb]
    exact c3
  refine ⟨st3, c1, hreb, ?_⟩
  rw [← a3, ← d3]
  exact ⟨rfl, rfl, rfl, rfl, rfl, rfl, rfl, rfl, rfl, rfl⟩

/-- C21 at a concrete input: a log of two file-write entries is replayed, then replayed
with another header and index state, and then replayed from the inode record that the
first replay wrote. -/
theorem C21_replay_deterministic_witness :
    ∃ st st2 st3,
      nova_rebuild_file_inode_tree example_rebuild_env example_file_log example_sb 5
        (example_pi 4096 4208) 64 example_sih example_reb [] = .ret (0, st) ∧
      nova_rebuild_file_inode_tree example_rebuild_env example_file_log example_sb 5
        (example_pi 4096 4208) 128 { example_sih with i_blk_type := 1 }
        { example_reb with i_size := 77 } [1, 2] = .ret (0, st2) ∧
      st2.reb = st.reb ∧
      nova_rebuild_file_inode_tree example_rebuild_env example_file_log example_sb 5
        st.pi 128 { example_sih with i_blk_type := 1 }
        { example_reb with i_size := 77 } [1, 2] = .ret (0, st3) ∧
      st3.reb = st.reb ∧ st3.pi.i_size = st.pi.i_size := by
  obtain ⟨st, hst⟩ : ∃ st, nova_rebuild_file_inode_tree example_rebuild_env
      example_file_log example_sb 5 (example_pi 4096 4208) 64 example_sih example_reb [] =
      .ret (0, st) := ⟨_, rfl⟩
  obtain ⟨⟨st2, h1, h2⟩, st3, h3, h4, h5, _⟩ := C21_replay_deterministic example_rebuild_env
    example_file_log example_sb 5 (example_pi 4096 4208) 64 128 example_sih
    { example_sih with i_blk_type := 1 } example_reb { example_reb with i_size := 77 } []
    [1, 2] 0 st rfl rfl (fun h => absurd rfl h) hst
  exact ⟨st, st2, st3, hst, h1, h2, h3, h4, h5⟩

/-- C40: stripe recovery does not read the damaged stripe.  Two memories hold the same
parity stripe in a buffer and two blocks that agree on every stripe other than stripe `s`
(the stripe size is `2 ^ NOVA_STRIPE_SHIFT`, a multiple of the word size; the block size
is below `2^32`; the buffers do not overlap the blocks).  Then
`nova_calculate_block_parity` with `strp_skip = s` returns 0 on both and leaves the same
bytes in the two buffers, whatever the two stripes `s` hold, and every byte outside the
buffer, so every byte of the block itself, is what it was before the call. -/
theorem C40_recovery_ignores_damaged_stripe (D : data_env) (fuel : Nat) (sbi : nova_sb_info)
    (m m2 : memory) (parity block par2 block2 s : Nat)
    (hsize : D.NOVA_STRIPE_SIZE = 2 ^ D.NOVA_STRIPE_SHIFT)
    (hword : (if D.X86_FEATURE_XMM2 then 4 else 3) ≤ D.NOVA_STRIPE_SHIFT)
    (hshift : D.NOVA_STRIPE_SHIFT < 32)
    (hblk : sbi.s_blocksize < 4294967296)
    (hbytes : ∀ a, m a < 256)
    (hbytes2 : ∀ a, m2 a < 256)
    (hdisj : parity + D.NOVA_STRIPE_SIZE ≤ block ∨
      block + sbi.s_blocksize / 2 ^ D.NOVA_STRIPE_SHIFT * D.NOVA_STRIPE_SIZE ≤ parity)
    (hdisj2 : par2 + D.NOVA_STRIPE_SIZE ≤ block2 ∨
      block2 + sbi.s_blocksize / 2 ^ D.NOVA_STRIPE_SHIFT * D.NOVA_STRIPE_SIZE ≤ par2)
    (hfuel : D.NOVA_STRIPE_SIZE < fuel)
    (hbuf : ∀ k, k < D.NOVA_STRIPE_SIZE → m2 (par2 + k) = m (parity + k))
    (hagree : ∀ t, t < sbi.s_blocksize / 2 ^ D.NOVA_STRIPE_SHIFT → t ≠ s →
      ∀ k, k < D.NOVA_STRIPE_SIZE →
        m2 (block2 + t * D.NOVA_STRIPE_SIZE + k) = m (block + t * D.NOVA_STRIPE_SIZE + k)) :
    ∃ m1 m3,
      nova_calculate_block_parity D fuel sbi m parity block s = .ret (0, m1) ∧
      nova_calculate_block_parity D fuel sbi m2 par2 block2 s = .ret (0, m3) ∧
      (∀ k, k < D.NOVA_STRIPE_SIZE → m3 (par2 + k) = m1 (parity + k)) ∧
      (∀ a, block ≤ a →
        a < block + sbi.s_blocksize / 2 ^ D.NOVA_STRIPE_SHIFT * D.NOVA_STRIPE_SIZE →
        m1 a = m a) ∧
      (∀ a, block2 ≤ a →
        a < block2 + sbi.s_blocksize / 2 ^ D.NOVA_STRIPE_SHIFT * D.NOVA_STRIPE_SIZE →
        m3 a = m2 a) := by
  have hneg : ¬ ((s : Int) < 0) := by omega
  obtain ⟨m1, h1, h2, h3⟩ := block_parity_spec D fuel sbi m parity block s hsize hword hshift
    hblk (fun h => absurd h hneg) hbytes hdisj hfuel
  obtain ⟨m3, g1, g2, g3⟩ := block_parity_spec D fuel sbi m2 par2 block2 s hsize hword hshift
    hblk (fun h => absurd h hneg) hbytes2 hdisj2 hfuel
  refine ⟨m1, m3, h1, g1, ?_, ?_, ?_⟩
  · intro k hk
    rw [h2 k hk, g2 k hk]
    simp only [if_neg hneg, Int.toNat_ofNat]
    rw [hbuf k hk]
    apply xor_skip_congr
    intro t ht hts
    exact hagree t (List.mem_range.1 ht) hts k hk
  · intro a ha1 ha2
    apply h3
    omega
  · intro a ha1 ha2
    apply g3
    omega

/-- C40 at a concrete input: the 64-byte block at address 2000 and the same block with
stripe 2 zeroed give the same recovered stripe in the buffer at address 1000. -/
theorem C40_recovery_ignores_damaged_stripe_witness :
    ∃ m1 m3,
      nova_calculate_block_parity example_data_env 20 example_sbi_blk example_mem 1000 2000
        2 = .ret (0, m1) ∧
      nova_calculate_block_parity example_data_env 20 example_sbi_blk
        (fun a => if 2032 ≤ a ∧ a < 2048 then 0 else example_mem a) 1000 2000 2 =
        .ret (0, m3) ∧
      (∀ k, k < 16 → m3 (1000 + k) = m1 (1000 + k)) ∧
      (∀ a, 2000 ≤ a → a < 2064 → m1 a = example_mem a) := by
  obtain ⟨m1, m3, h1, h2, h3, h4, _⟩ := C40_recovery_ignores_damaged_stripe example_data_env 20
    example_sbi_blk example_mem (fun a => if 2032 ≤ a ∧ a < 2048 then 0 else example_mem a)
    1000 2000 1000 2000 2 rfl (by decide) (by decide) (by decide) example_mem_lt
    (by
      intro a
      show (if 2032 ≤ a ∧ a < 2048 then 0 else example_mem a) < 256
      split_ifs
      · decide
      · exact example_mem_lt a)
    (Or.inl (by decide)) (Or.inl (by decide)) (by decide)
    (by
      intro k hk
      have e : example_data_env.NOVA_STRIPE_SIZE = 16 := rfl
      show (if 2032 ≤ 1000 + k ∧ 1000 + k < 2048 then 0 else example_mem (1000 + k)) =
        example_mem (1000 + k)
      rw [if_neg (by omega)])
    (by
      intro t ht hts k hk
      have e : example_data_env.NOVA_STRIPE_SIZE = 16 := rfl
      have e2 : example_sbi_blk.s_blocksize / 2 ^ example_data_env.NOVA_STRIPE_SHIFT = 4 := rfl
      rw [e] at hk ⊢
      rw [e2] at ht
      show (if 2032 ≤ 2000 + t * 16 + k ∧ 2000 + t * 16 + k < 2048 then 0
        else example_mem (2000 + t * 16 + k)) = example_mem (2000 + t * 16 + k)
      rw [if_neg (by omega)])
  exact ⟨m1, m3, h1, h2, h3, h4⟩

/-- C31 (evaluation at the failing input): checksum enforcement is on and the only
extent of the index, `[43, 99]`, carries a wrong checksum.  For the run `[13, 18]` the
lookup of `nova_find_free_slot` ends on that extent, yet `nova_find_free_slot` returns 0
with `prev = next = NULL`, and `nova_free_blocks` returns 0, inserts `[13, 18]`, points
both `first_node` and `last_node` to the new node and raises the counters. -/
theorem C31_corrupt_extent_not_reported :
    (unbalanced_env 1).dram_struct_csum ≠ 0 ∧
    nova_range_node_checksum_ok (unbalanced_env 1) ⟨43, 99, 0⟩ = false ∧
    nova_find_range_node_loop (.node .nil 1000 ⟨43, 99, 0⟩ .nil) 13 none =
      (0, some (1000, ⟨43, 99, 0⟩)) ∧
    nova_find_free_slot (unbalanced_env 1) (.node .nil 1000 ⟨43, 99, 0⟩ .nil) 13 18 =
      ⟨0, none, none⟩ ∧
    (nova_free_blocks (unbalanced_env 1) (single_extent_sbi 43 99) (some 1001) 13 6
      NOVA_BLOCK_TYPE_4K 0).1 = 0 ∧
    extents (index_of (nova_free_blocks (unbalanced_env 1) (single_extent_sbi 43 99)
      (some 1001) 13 6 NOVA_BLOCK_TYPE_4K 0).2 0) = [(13, 18), (43, 99)] ∧
    (nova_get_free_list (single_extent_sbi 43 99) 0).first_node = some 1000 ∧
    (nova_get_free_list (single_extent_sbi 43 99) 0).last_node = some 1000 ∧
    (nova_get_free_list (nova_free_blocks (unbalanced_env 1) (single_extent_sbi 43 99)
      (some 1001) 13 6 NOVA_BLOCK_TYPE_4K 0).2 0).first_node = some 1001 ∧
    (nova_get_free_list (nova_free_blocks (unbalanced_env 1) (single_extent_sbi 43 99)
      (some 1001) 13 6 NOVA_BLOCK_TYPE_4K 0).2 0).last_node = some 1001 ∧
    (nova_get_free_list (nova_free_blocks (unbalanced_env 1) (single_extent_sbi 43 99)
      (some 1001) 13 6 NOVA_BLOCK_TYPE_4K 0).2 0).num_blocknode = 2 ∧
    (nova_get_free_list (nova_free_blocks (unbalanced_env 1) (single_extent_sbi 43 99)
      (some 1001) 13 6 NOVA_BLOCK_TYPE_4K 0).2 0).num_free_blocks = 63 := by
  decide

/-- C35 (evaluation at the failing inputs): with counters `2^31` and `2^32` the function
returns 0 although partition 1 holds the maximum, and with counters `2^32` and 5 it
returns 1 although partition 0 holds the maximum; with the small counters 3 and 7 it
returns 1, and with 7 and 7 it returns 0. -/
theorem C35_candidate_counter_truncated :
    nova_get_candidate_free_list (two_counter_sbi 2147483648 4294967296) = 0 ∧
    nova_get_candidate_free_list (two_counter_sbi 4294967296 5) = 1 ∧
    nova_get_candidate_free_list (two_counter_sbi 3 7) = 1 ∧
    nova_get_candidate_free_list (two_counter_sbi 7 7) = 0 := by
  decide

/-- C33 (evaluation at the failing inputs): two directory logs of one page, with the tail
in the same page as the head.  In the first the entry at the head is checksum-valid with
the unhandled type tag 9; in the second it is a checksum-valid directory entry with
`de_len = 0`.  In both `nova_rebuild_dir_inode_tree` never moves its cursor: for every
amount of fuel it is still in its scan loop. -/
theorem C33_dir_rebuild_does_not_terminate :
    chain_length example_unknown_log 1 4096 = some 1 ∧
    chain_length example_zero_len_log 1 4096 = some 1 ∧
    (∀ fuel, nova_rebuild_dir_inode_tree example_rebuild_env example_unknown_log example_sb
      fuel (example_pi 4096 4208) 64 example_sih example_reb [] = .timeout) ∧
    (∀ fuel, nova_rebuild_dir_inode_tree example_rebuild_env example_zero_len_log example_sb
      fuel (example_pi 4096 4144) 64 example_sih example_reb [] = .timeout) := by
  refine ⟨by decide, by decide, ?_, ?_⟩
  · intro fuel
    rw [dir_rebuild_eq example_rebuild_env example_unknown_log example_sb fuel
      (example_pi 4096 4208) 64 example_sih example_reb [] rfl (by decide)]
    have hbody : scan_body example_rebuild_env example_unknown_log example_sb
        (dir_switch example_rebuild_env example_unknown_log)
        (scan_start example_rebuild_env (example_pi 4096 4208) 64 example_sih example_reb
          []) =
        .ret (.next
          (scan_start example_rebuild_env (example_pi 4096 4208) 64 example_sih example_reb
            [])) := rfl
    have hloop : ∀ f, scan_loop example_rebuild_env example_unknown_log example_sb
        (dir_switch example_rebuild_env example_unknown_log) f
        (scan_start example_rebuild_env (example_pi 4096 4208) 64 example_sih example_reb
          []) = .timeout := by
      intro f
      induction f with
      | zero => rfl
      | succ f ih =>
        rw [scan_loop_succ, if_pos (by decide), hbody]
        exact ih
    rw [hloop]
  · intro fuel
    rw [dir_rebuild_eq example_rebuild_env example_zero_len_log example_sb fuel
      (example_pi 4096 4144) 64 example_sih example_reb [] rfl (by decide)]
    obtain ⟨st1, hbody0, hbody1, hne⟩ : ∃ st1 : rebuild_state (List Nat),
        scan_body example_rebuild_env example_zero_len_log example_sb
          (dir_switch example_rebuild_env example_zero_len_log)
          (scan_start example_rebuild_env (example_pi 4096 4144) 64 example_sih example_reb
            []) = .ret (.next st1) ∧
        scan_body example_rebuild_env example_zero_len_log example_sb
          (dir_switch example_rebuild_env example_zero_len_log) st1 = .ret (.next st1) ∧
        st1.curr_p ≠ st1.sih.log_tail := ⟨_, rfl, rfl, by decide⟩
    have hloop : ∀ f, scan_loop example_rebuild_env example_zero_len_log example_sb
        (dir_switch example_rebuild_env example_zero_len_log) f st1 = .timeout := by
      intro f
      induction f with
      | zero => rfl
      | succ f ih =>
        rw [scan_loop_succ, if_pos hne, hbody1]
        exact ih
    cases fuel with
    | zero => rfl
    | succ f =>
      rw [scan_loop_succ, if_pos (by decide), hbody0]
      simp only
      rw [hloop]

/-- The retry loop of `nova_new_blocks` from a list with fewer free blocks than requested
goes to the candidate list, and behaves there as with no retry left. -/
theorem retry_insufficient (sbi : nova_sb_info) (nb : Nat) (c0 : Int)
    (h : (nova_get_free_list sbi c0).num_free_blocks < nb) :
    nova_new_blocks_retry sbi nb 2 c0 =
      nova_new_blocks_retry sbi nb 0 (nova_get_candidate_free_list sbi) ∧
    (nova_new_blocks_retry sbi nb 2 c0).1 = nova_get_candidate_free_list sbi := by
  have h1 : nova_new_blocks_retry sbi nb 2 c0 =
      nova_new_blocks_retry sbi nb 1 (nova_get_candidate_free_list sbi) := by
    rw [retry_succ, if_pos (Or.inl h), if_neg (by omega)]
  have h2 : nova_new_blocks_retry sbi nb 1 (nova_get_candidate_free_list sbi) =
      nova_new_blocks_retry sbi nb 0 (nova_get_candidate_free_list sbi) := by
    rw [retry_succ, retry_zero]
    by_cases hc : (nova_get_free_list sbi (nova_get_candidate_free_list sbi)).num_free_blocks <
        nb ∨ (nova_get_free_list sbi (nova_get_candidate_free_list sbi)).first_node = none
    · by_cases hg : (nova_get_free_list sbi (nova_get_candidate_free_list sbi)).num_free_blocks ≥
          nb
      · simp only [if_pos hc, if_pos hg]
      · simp only [if_pos hc, if_neg hg]
    · simp only [if_neg hc]
  refine ⟨by rw [h1, h2], ?_⟩
  rw [h1, h2, retry_zero]
  split_ifs <;> rfl

/-- C34 (the claim fails): the starting partition 0 holds 3 free blocks and partition 1,
the candidate of both probes, holds 5; 10 blocks are requested with CPU hint 0.  The
allocation after the second failed retry is made against partition 1: the call returns 5
blocks starting at block 100, outside the range `[1, 99]` of partition 0, whose extent
`[10, 12]` is left as it was. -/
theorem C34_retry_serves_candidate_amended_counterexample :
    (nova_get_free_list example_two_list_sbi 0).num_free_blocks = 3 ∧
    (nova_get_free_list example_two_list_sbi 1).num_free_blocks = 5 ∧
    nova_get_candidate_free_list example_two_list_sbi = 1 ∧
    (nova_new_blocks (unbalanced_env 0) example_two_list_sbi 0 10 NOVA_BLOCK_TYPE_4K DATA 0 0
      0).ret = 5 ∧
    (nova_new_blocks (unbalanced_env 0) example_two_list_sbi 0 10 NOVA_BLOCK_TYPE_4K DATA 0 0
      0).blocknr = 100 ∧
    (nova_get_free_list example_two_list_sbi 0).block_start = 1 ∧
    (nova_get_free_list example_two_list_sbi 0).block_end = 99 ∧
    extents (index_of (nova_new_blocks (unbalanced_env 0) example_two_list_sbi 0 10
      NOVA_BLOCK_TYPE_4K DATA 0 0 0).sbi 0) = [(10, 12)] ∧
    extents (index_of (nova_new_blocks (unbalanced_env 0) example_two_list_sbi 0 10
      NOVA_BLOCK_TYPE_4K DATA 0 0 0).sbi 1) = [] := by
  decide

/-- C34 (amended): let the partition resolved from the CPU hint hold fewer free blocks
than the request of `num ≥ 1` units.  Then the retry loop of `nova_new_blocks` probes the
partition that `nova_get_candidate_free_list` returns, at most twice, and reaches the label
`alloc` on that partition as if no retry were left: every allocation attempt, also the one
after the second failed retry, is made against the candidate partition.  When the call
succeeds on a well-formed index, the blocks returned lie in an extent of the candidate
partition's index. -/
theorem C34_retry_serves_candidate_amended (E : kernel_env) (sbi : nova_sb_info)
    (blocknr num btype : Nat) (atype cpuid from_tail pid : Int)
    (hlen : sbi.free_lists.length = sbi.cpus.toNat) (hcpu0 : 0 ≤ cpuid) (hpid0 : 0 ≤ pid)
    (hnum : num < 4294967296)
    (hstart : (nova_get_free_list sbi (if cpuid = E.ANY_CPU then pid else cpuid)).num_free_blocks <
      new_count num btype) :
    serving_cpu E sbi num btype cpuid pid = nova_get_candidate_free_list sbi ∧
    nova_new_blocks_retry sbi (new_count num btype) 2
        (if cpuid = E.ANY_CPU then pid else cpuid) =
      nova_new_blocks_retry sbi (new_count num btype) 0 (nova_get_candidate_free_list sbi) ∧
    (wf_nodes E (index_of sbi (nova_get_candidate_free_list sbi)) →
      0 < (nova_new_blocks E sbi blocknr num btype atype cpuid from_tail pid).ret →
      ∃ p ∈ index_of sbi (nova_get_candidate_free_list sbi),
        p.2.range_low ≤
          (nova_new_blocks E sbi blocknr num btype atype cpuid from_tail pid).blocknr ∧
        (nova_new_blocks E sbi blocknr num btype atype cpuid from_tail pid).blocknr +
          (nova_new_blocks E sbi blocknr num btype atype cpuid from_tail pid).ret.toNat *
            nova_get_numblocks btype ≤ p.2.range_high + 1) := by
  obtain ⟨r1, r2⟩ := retry_insufficient sbi (new_count num btype)
    (if cpuid = E.ANY_CPU then pid else cpuid) hstart
  have hs : serving_cpu E sbi num btype cpuid pid = nova_get_candidate_free_list sbi := r2
  refine ⟨hs, r1, ?_⟩
  intro hw hret
  rw [← hs] at hw ⊢
  exact (new_blocks_run E sbi blocknr num btype atype cpuid from_tail pid hlen hcpu0 hpid0
    hnum hw hret).2.1

/-- C34 (amended) at a concrete input: the request of 10 blocks with CPU hint 0 on
`example_two_list_sbi` is served by the candidate partition 1 from its extent
`[100, 104]`. -/
theorem C34_retry_serves_candidate_amended_witness :
    serving_cpu (unbalanced_env 0) example_two_list_sbi 10 NOVA_BLOCK_TYPE_4K 0 0 = 1 ∧
    ∃ p ∈ index_of example_two_list_sbi 1,
      p.2.range_low ≤ 100 ∧ 100 + 5 * 1 ≤ p.2.range_high + 1 := by
  obtain ⟨h1, _, h3⟩ := C34_retry_serves_candidate_amended (unbalanced_env 0)
    example_two_list_sbi 0 10 NOVA_BLOCK_TYPE_4K DATA 0 0 0 rfl (by decide) (by decide)
    (by decide) (by decide)
  refine ⟨h1, ?_⟩
  exact h3
    (by
      refine ⟨⟨?_, ?_⟩, ?_, ?_, ?_⟩
      · exact List.pairwise_singleton _ _
      · intro p hp
        rw [List.mem_singleton.1 hp]
        decide
      · decide
      · intro p hp
        rw [List.mem_singleton.1 hp]
        rfl
      · intro p hp
        rw [List.mem_singleton.1 hp]
        decide)
    (by decide)

/-- The geometry `nova_init_blockmap` (without recovery, on freshly allocated free lists)
gives partition `i`, in `unsigned long` arithmetic. -/
theorem init_geometry (E : kernel_env) (base : nova_sb_info) (blknode : Int → Nat)
    (i : Int) (hi0 : 0 ≤ i) (hi : i < base.cpus) (hcpus : base.cpus < 2147483648) :
    (nova_init_blockmap E (nova_alloc_block_free_lists base) 0 blknode).per_list_blocks =
      base.num_blocks / base.cpus.toNat ∧
    (nova_init_blockmap E (nova_alloc_block_free_lists base) 0 blknode).cpus = base.cpus ∧
    (nova_get_free_list (nova_init_blockmap E (nova_alloc_block_free_lists base) 0 blknode)
      i).block_end =
      ul_sub (ul (base.num_blocks / base.cpus.toNat * i.toNat +
        base.num_blocks / base.cpus.toNat)) 1 ∧
    (nova_get_free_list (nova_init_blockmap E (nova_alloc_block_free_lists base) 0 blknode)
      i).block_start =
      ul (base.num_blocks / base.cpus.toNat * i.toNat +
        (if i = 0 then base.reserved_blocks else 0) + E.data_csum_blocks_per_list +
        parity_blocks_per_list E base) ∧
    (nova_get_free_list (nova_init_blockmap E (nova_alloc_block_free_lists base) 0 blknode)
      i).parity_start =
      ul (base.num_blocks / base.cpus.toNat * i.toNat +
        (if i = 0 then base.reserved_blocks else 0) + E.data_csum_blocks_per_list) ∧
    (nova_get_free_list (nova_init_blockmap E (nova_alloc_block_free_lists base) 0 blknode)
      i).num_parity_blocks =
      ul_sub
        (nova_get_free_list (nova_init_blockmap E (nova_alloc_block_free_lists base) 0 blknode)
          i).block_start
        (nova_get_free_list (nova_init_blockmap E (nova_alloc_block_free_lists base) 0 blknode)
          i).parity_start := by
  have hci : ulong_of_int i = i.toNat := ulong_of_int_nonneg hi0 (by omega)
  have hcc : ulong_of_int base.cpus = base.cpus.toNat := ulong_of_int_nonneg (by omega) (by omega)
  have hlist := init_blockmap_list E base blknode i hi0 hi
  have hplb : (nova_init_blockmap E (nova_alloc_block_free_lists base) 0
      blknode).per_list_blocks = base.num_blocks / base.cpus.toNat ∧
      (nova_init_blockmap E (nova_alloc_block_free_lists base) 0 blknode).cpus = base.cpus := by
    rw [init_blockmap_eq]
    have hlen : ({ nova_alloc_block_free_lists base with
        per_list_blocks := (nova_alloc_block_free_lists base).num_blocks /
          ulong_of_int (nova_alloc_block_free_lists base).cpus } :
          nova_sb_info).free_lists.length = base.cpus.toNat := by
      simp [nova_alloc_block_free_lists]
    obtain ⟨h1, h2, _⟩ := init_loop_spec E blknode base.cpus.toNat 0
      { nova_alloc_block_free_lists base with
        per_list_blocks := (nova_alloc_block_free_lists base).num_blocks /
          ulong_of_int (nova_alloc_block_free_lists base).cpus } (le_refl 0) hlen
      (by
        show (0 : Int) + (base.cpus.toNat : Int) = base.cpus
        rw [Int.toNat_of_nonneg (by omega)]
        omega)
      (by
        intro j hj0 hj
        have hj1 : j < base.cpus := hj
        have e : nova_get_free_list
            { nova_alloc_block_free_lists base with
              per_list_blocks := (nova_alloc_block_free_lists base).num_blocks /
                ulong_of_int (nova_alloc_block_free_lists base).cpus } j =
            free_list.zero j.toNat := by
          unfold nova_get_free_list
          rw [if_pos hj]
          simp only [nova_alloc_block_free_lists]
          rw [List.getD_eq_getElem?_getD, List.getElem?_map, List.getElem?_range (by omega)]
          rfl
        rw [e]
        rfl)
    refine ⟨h2.trans ?_, h1⟩
    show base.num_blocks / ulong_of_int base.cpus = _
    rw [hcc]
  generalize hs0 : ({ nova_alloc_block_free_lists base with
    per_list_blocks := (nova_alloc_block_free_lists base).num_blocks /
      ulong_of_int (nova_alloc_block_free_lists base).cpus } : nova_sb_info) = s0 at hlist
  have hnb : s0.num_blocks = base.num_blocks := by rw [← hs0]; rfl
  have hcp : s0.cpus = base.cpus := by rw [← hs0]; rfl
  have hrs : s0.reserved_blocks = base.reserved_blocks := by rw [← hs0]; rfl
  have hpar : parity_blocks_per_list E s0 = parity_blocks_per_list E base := by
    rw [← hs0]; rfl
  obtain ⟨b1, b2, _, b4, _, b6⟩ :=
    init_free_list_bounds E s0 (nova_get_free_list s0 i) i
  simp only [hnb, hcp, hrs, hpar, hci, hcc] at b1 b2 b4
  refine ⟨hplb.1, hplb.2, ?_, ?_, ?_, ?_⟩
  · rw [hlist, ← b1]; rfl
  · rw [hlist, ← b2]; rfl
  · rw [hlist, ← b4]; rfl
  · rw [hlist]; exact b6

/-- The parity reservation of one partition covers the partition: with `t` blocks on `c`
CPUs and `s` stripes per block, a partition has at most `(s + 1)` times as many blocks as
the rounded-up share of the rounded-up number of parity blocks. -/
theorem parity_share_enough (t s c : Nat) (hc : 1 ≤ c) :
    t / c ≤ (((t + s) / (s + 1) + c - 1) / c) * (s + 1) := by
  have h1 : t ≤ (t + s) / (s + 1) * (s + 1) := by
    have := Nat.div_add_mod (t + s) (s + 1)
    have h2 : (t + s) % (s + 1) < s + 1 := Nat.mod_lt _ (by omega)
    have h3 : (s + 1) * ((t + s) / (s + 1)) = (t + s) / (s + 1) * (s + 1) := Nat.mul_comm _ _
    omega
  have h2 : (t + s) / (s + 1) ≤ ((t + s) / (s + 1) + c - 1) / c * c := by
    have := Nat.div_add_mod ((t + s) / (s + 1) + c - 1) c
    have h2 : ((t + s) / (s + 1) + c - 1) % c < c := Nat.mod_lt _ (by omega)
    have h3 : c * (((t + s) / (s + 1) + c - 1) / c) =
        ((t + s) / (s + 1) + c - 1) / c * c := Nat.mul_comm _ _
    omega
  have h3 : t / c * c ≤ t := Nat.div_mul_le_self t c
  have h4 : t / c * c ≤ ((t + s) / (s + 1) + c - 1) / c * (s + 1) * c := by
    calc t / c * c ≤ t := h3
      _ ≤ (t + s) / (s + 1) * (s + 1) := h1
      _ ≤ ((t + s) / (s + 1) + c - 1) / c * c * (s + 1) := Nat.mul_le_mul_right _ h2
      _ = ((t + s) / (s + 1) + c - 1) / c * (s + 1) * c := by ring
  exact Nat.le_of_mul_le_mul_right h4 (by omega)

/-- Rounding up a quotient as the C code does it (`a / b`, plus one when `a % b` is not
zero) is `(a + b - 1) / b`. -/
theorem ceil_div_eq (a b : Nat) (hb : 1 ≤ b) :
    (if a % b ≠ 0 then a / b + 1 else a / b) = (a + b - 1) / b := by
  have hdm := Nat.div_add_mod a b
  have hlt : a % b < b := Nat.mod_lt _ (by omega)
  generalize a / b = q at hdm ⊢
  generalize a % b = r at hdm hlt ⊢
  subst hdm
  by_cases h0 : r = 0
  · subst h0
    rw [if_neg (by simp)]
    have e : b * q + 0 + b - 1 = b * q + (b - 1) := by omega
    rw [e, Nat.mul_add_div (by omega), Nat.div_eq_of_lt (by omega), Nat.add_zero]
  · rw [if_pos h0]
    have e : b * q + r + b - 1 = b * (q + 1) + (r - 1) := by
      rw [Nat.mul_add]; omega
    rw [e, Nat.mul_add_div (by omega), Nat.div_eq_of_lt (by omega), Nat.add_zero]

/-- The value of `parity_blocks_per_list` without wrap-around: the rounded-up share of the
rounded-up number of parity blocks. -/
theorem parity_blocks_per_list_eq (E : kernel_env) (sbi : nova_sb_info)
    (hc0 : 1 ≤ sbi.cpus) (hc : sbi.cpus < 2147483648)
    (ht : sbi.initsize / sbi.s_blocksize < 18446744073709551616)
    (hs : sbi.s_blocksize / E.NOVA_STRIPE_SIZE + 1 < 18446744073709551616) :
    parity_blocks_per_list E sbi =
      ((sbi.initsize / sbi.s_blocksize + sbi.s_blocksize / E.NOVA_STRIPE_SIZE) /
        (sbi.s_blocksize / E.NOVA_STRIPE_SIZE + 1) + sbi.cpus.toNat - 1) / sbi.cpus.toNat := by
  have hcc : ulong_of_int sbi.cpus = sbi.cpus.toNat := ulong_of_int_nonneg (by omega) (by omega)
  have hcpos : 1 ≤ sbi.cpus.toNat := by omega
  unfold parity_blocks_per_list
  simp only [hcc]
  generalize sbi.initsize / sbi.s_blocksize = t at ht ⊢
  generalize sbi.s_blocksize / E.NOVA_STRIPE_SIZE = s at hs ⊢
  generalize sbi.cpus.toNat = c at hcpos ⊢
  have e1 : ul (s + 1) = s + 1 := Nat.mod_eq_of_lt hs
  rw [e1]
  have hceil := ceil_div_eq
  have e2 : (if t % (s + 1) ≠ 0 then ul (t / (s + 1) + 1) else t / (s + 1)) =
      (t + s) / (s + 1) := by
    have hts : t + s = t + (s + 1) - 1 := by omega
    rw [hts, ← hceil t (s + 1) (by omega)]
    by_cases h0 : t % (s + 1) = 0
    · rw [if_neg (by simpa using h0), if_neg (by simpa using h0)]
    · rw [if_pos h0, if_pos h0]
      have hdm := Nat.div_add_mod t (s + 1)
      have hle : t / (s + 1) ≤ (s + 1) * (t / (s + 1)) := Nat.le_mul_of_pos_left _ (by omega)
      have hq : t / (s + 1) + 1 < 18446744073709551616 := by
        generalize (s + 1) * (t / (s + 1)) = m at hdm hle
        generalize t / (s + 1) = q at hle ⊢
        generalize t % (s + 1) = r at hdm h0
        clear hts hceil e1
        omega
      exact Nat.mod_eq_of_lt hq
  rw [e2]
  generalize (t + s) / (s + 1) = p
  have := hceil p c hcpos
  by_cases h0 : p % c = 0
  · rw [if_neg (by simpa using h0)] at this ⊢
    omega
  · rw [if_pos h0] at this ⊢
    omega

/-- C39: after `nova_init_blockmap` (without recovery, on freshly allocated free lists) with
`num_blocks = initsize / blocksize`, `2 ^ (PAGE_SHIFT - NOVA_STRIPE_SHIFT) = S =
blocksize / NOVA_STRIPE_SIZE`, at least one CPU, `per_list_blocks ≥ 1` and no
`unsigned long` wrap-around in the partition boundaries, partition `i` reserves
`num_parity_blocks = ⌈⌈total_blocks / (S + 1)⌉ / cpus⌉ = block_start - parity_start` blocks,
and every block `b` of `[block_start, block_end]` has
`(b - block_start) >> (PAGE_SHIFT - NOVA_STRIPE_SHIFT) < num_parity_blocks` and
`b / per_list_blocks = i`, so `nova_get_parity_addr` (with `data_parity` set) passes its
range test and returns the address in the parity area of partition `i`. -/
theorem C39_parity_area_suffices (D : data_env) (base : nova_sb_info) (blknode : Int → Nat)
    (sb : super_block) (i : Int) (b : Nat)
    (hsb : sb.sbi =
      nova_init_blockmap D.tokernel_env (nova_alloc_block_free_lists base) 0 blknode)
    (hi0 : 0 ≤ i) (hi : i < base.cpus) (hcpus : base.cpus < 2147483648)
    (hnum : base.num_blocks = base.initsize / base.s_blocksize)
    (hS : 2 ^ (D.PAGE_SHIFT - D.NOVA_STRIPE_SHIFT) = base.s_blocksize / D.NOVA_STRIPE_SIZE)
    (hplb : 1 ≤ sb.sbi.per_list_blocks)
    (hnb : base.num_blocks < 18446744073709551616)
    (hS64 : base.s_blocksize / D.NOVA_STRIPE_SIZE + 1 < 18446744073709551616)
    (hwrap : base.num_blocks / base.cpus.toNat * i.toNat +
      (if i = 0 then base.reserved_blocks else 0) + D.data_csum_blocks_per_list +
      parity_blocks_per_list D.tokernel_env base < 18446744073709551616)
    (hb1 : (nova_get_free_list sb.sbi i).block_start ≤ b)
    (hb2 : b ≤ (nova_get_free_list sb.sbi i).block_end) :
    (nova_get_free_list sb.sbi i).num_parity_blocks =
      ((base.initsize / base.s_blocksize + base.s_blocksize / D.NOVA_STRIPE_SIZE) /
        (base.s_blocksize / D.NOVA_STRIPE_SIZE + 1) + base.cpus.toNat - 1) /
          base.cpus.toNat ∧
    (nova_get_free_list sb.sbi i).num_parity_blocks =
      (nova_get_free_list sb.sbi i).block_start - (nova_get_free_list sb.sbi i).parity_start ∧
    (nova_get_free_list sb.sbi i).parity_start ≤ (nova_get_free_list sb.sbi i).block_start ∧
    (b - (nova_get_free_list sb.sbi i).block_start) / 2 ^ (D.PAGE_SHIFT - D.NOVA_STRIPE_SHIFT) <
      (nova_get_free_list sb.sbi i).num_parity_blocks ∧
    b / sb.sbi.per_list_blocks = i.toNat ∧
    (D.data_parity ≠ 0 →
      nova_get_parity_addr D sb b =
        nova_get_block sb (ul ((nova_get_free_list sb.sbi i).parity_start * 2 ^ D.PAGE_SHIFT)) +
          ul ((b - (nova_get_free_list sb.sbi i).block_start) * 2 ^ D.NOVA_STRIPE_SHIFT)) := by
  obtain ⟨g1, g2, g3, g4, g5, g6⟩ :=
    init_geometry D.tokernel_env base blknode i hi0 hi hcpus
  rw [← hsb] at g1 g2 g3 g4 g5 g6
  have hc1 : 1 ≤ base.cpus := by omega
  have hcpos : 1 ≤ base.cpus.toNat := by omega
  have hi2 : i.toNat + 1 ≤ base.cpus.toNat := by omega
  have hSpos : 1 ≤ base.s_blocksize / D.NOVA_STRIPE_SIZE := by
    rw [← hS]; exact Nat.one_le_two_pow
  have hP := parity_blocks_per_list_eq D.tokernel_env base hc1 hcpus (by rw [← hnum]; exact hnb)
    hS64
  have hen := parity_share_enough (base.initsize / base.s_blocksize)
    (base.s_blocksize / D.NOVA_STRIPE_SIZE) base.cpus.toNat hcpos
  rw [← hP, ← hnum, ← g1] at hen
  rw [← hP]
  rw [← g1] at g3 g4 g5 hwrap
  have hmul : sb.sbi.per_list_blocks * (i.toNat + 1) ≤ base.num_blocks := by
    calc sb.sbi.per_list_blocks * (i.toNat + 1)
        ≤ sb.sbi.per_list_blocks * base.cpus.toNat := Nat.mul_le_mul_left _ hi2
      _ = base.num_blocks / base.cpus.toNat * base.cpus.toNat := by rw [g1]
      _ ≤ base.num_blocks := Nat.div_mul_le_self _ _
  have hmul2 : sb.sbi.per_list_blocks * (i.toNat + 1) =
      sb.sbi.per_list_blocks * i.toNat + sb.sbi.per_list_blocks := by ring
  have hPS : parity_blocks_per_list D.tokernel_env base *
      (base.s_blocksize / D.NOVA_STRIPE_SIZE + 1) =
      parity_blocks_per_list D.tokernel_env base * (base.s_blocksize / D.NOVA_STRIPE_SIZE) +
        parity_blocks_per_list D.tokernel_env base := by ring
  rw [hPS] at hen
  have hPpos : 1 ≤ parity_blocks_per_list D.tokernel_env base := by
    by_contra hcon
    have hz : parity_blocks_per_list D.tokernel_env base = 0 := by omega
    rw [hz] at hen
    simp only [Nat.zero_mul, Nat.add_zero] at hen
    omega
  have hPSpos : 1 ≤ parity_blocks_per_list D.tokernel_env base *
      (base.s_blocksize / D.NOVA_STRIPE_SIZE) := Nat.mul_pos hPpos hSpos
  generalize hPSdef : parity_blocks_per_list D.tokernel_env base *
    (base.s_blocksize / D.NOVA_STRIPE_SIZE) = PS at hen hPSpos
  generalize hPdef : parity_blocks_per_list D.tokernel_env base = P at *
  generalize hplbdef : sb.sbi.per_list_blocks = plb at *
  generalize hpi : plb * i.toNat = pi at *
  generalize hr : (if i = 0 then base.reserved_blocks else 0) = r at *
  have e_end : (nova_get_free_list sb.sbi i).block_end = pi + plb - 1 := by
    rw [g3]; unfold ul ul_sub; omega
  have e_start : (nova_get_free_list sb.sbi i).block_start =
      pi + r + D.data_csum_blocks_per_list + P := by
    rw [g4]; unfold ul; omega
  have e_par : (nova_get_free_list sb.sbi i).parity_start =
      pi + r + D.data_csum_blocks_per_list := by
    rw [g5]; unfold ul; omega
  have e_num : (nova_get_free_list sb.sbi i).num_parity_blocks = P := by
    rw [g6, e_start, e_par]; unfold ul_sub; omega
  have hlt : (b - (nova_get_free_list sb.sbi i).block_start) /
      2 ^ (D.PAGE_SHIFT - D.NOVA_STRIPE_SHIFT) <
      (nova_get_free_list sb.sbi i).num_parity_blocks := by
    rw [hS, e_num, Nat.div_lt_iff_lt_mul (by omega), hPSdef, e_start]
    have hb1c : pi + r + D.data_csum_blocks_per_list + P ≤ b := by rw [← e_start]; exact hb1
    have hb2c : b ≤ pi + plb - 1 := by rw [← e_end]; exact hb2
    clear g1 g2 g3 g4 g5 g6 e_end e_start e_par e_num hwrap hP hb1 hb2 hPSdef hPS hmul hmul2
    omega
  have hdiv : b / plb = i.toNat := by
    apply Nat.div_eq_of_lt_le
    · rw [Nat.mul_comm, hpi]; omega
    · rw [Nat.mul_comm, hmul2]; omega
  refine ⟨e_num, by rw [e_num, e_start, e_par]; omega, by rw [e_start, e_par]; omega, hlt,
    hdiv, ?_⟩
  intro hpar
  have hidx : int_of_ulong (b / plb) = i := by
    rw [hdiv]; unfold int_of_ulong
    have : i.toNat % 4294967296 = i.toNat := Nat.mod_eq_of_lt (by omega)
    rw [this, if_pos (by omega)]
    omega
  have hsub : ul_sub b (nova_get_free_list sb.sbi i).block_start =
      b - (nova_get_free_list sb.sbi i).block_start := by
    unfold ul_sub; omega
  unfold nova_get_parity_addr
  simp only [hplbdef, hidx, hsub]
  rw [if_neg hpar, if_neg (by rw [g2]; omega), if_neg (by omega)]

/-- C39 at a concrete input: 32 blocks of 4 stripes on one CPU reserve `⌈32 / 5⌉ = 7` parity
blocks, the usable range is `[8, 31]`, and the parity stripe of the last block, 31, is
stripe 23 of the parity area, at address `10000 + 64 + 23 * 16`. -/
theorem C39_parity_area_suffices_witness :
    (nova_get_free_list example_parity_sb.sbi 0).num_parity_blocks = 7 ∧
    (nova_get_free_list example_parity_sb.sbi 0).block_start = 8 ∧
    (nova_get_free_list example_parity_sb.sbi 0).block_end = 31 ∧
    (31 - (nova_get_free_list example_parity_sb.sbi 0).block_start) /
      2 ^ (example_data_env.PAGE_SHIFT - example_data_env.NOVA_STRIPE_SHIFT) <
      (nova_get_free_list example_parity_sb.sbi 0).num_parity_blocks ∧
    nova_get_parity_addr example_data_env example_parity_sb 31 = 10432 := by
  have h := C39_parity_area_suffices example_data_env example_parity_base (fun _ => 1000)
    example_parity_sb 0 31 rfl (le_refl 0) (by decide) (by decide) (by decide) (by decide)
    (by decide) (by decide) (by decide) (by decide) (by decide) (by decide)
  exact ⟨h.1.trans (by decide), by decide, by decide, h.2.2.2.1,
    (h.2.2.2.2.2 (by decide)).trans (by decide)⟩

theorem alloc_mid_first (E : kernel_env) (d r : List node_ptr) (curr : node_ptr) (nb : Nat)
    (k : alloc_kind) (hnd : ((d ++ curr :: r).map Prod.fst).Nodup) :
    ((d ++ alloc_mid E nb curr k ++ r).head?).map Prod.fst =
      if k = .whole ∧ some curr.1 = ((d ++ curr :: r).head?).map Prod.fst then
        r.head?.map Prod.fst
      else ((d ++ curr :: r).head?).map Prod.fst := by
  cases d with
  | nil =>
    cases k <;> simp [alloc_mid]
  | cons x d1 =>
    have hne : curr.1 ≠ x.1 := by
      intro h
      simp only [List.cons_append, List.map_cons, List.nodup_cons, List.map_append,
        List.mem_append, List.mem_cons, List.mem_map] at hnd
      exact hnd.1 (Or.inr (Or.inl h.symm))
    cases k <;> simp [alloc_mid, hne]

theorem alloc_mid_last (E : kernel_env) (d r : List node_ptr) (curr : node_ptr) (nb : Nat)
    (k : alloc_kind) (hnd : ((d ++ curr :: r).map Prod.fst).Nodup) :
    ((d ++ alloc_mid E nb curr k ++ r).getLast?).map Prod.fst =
      if k = .whole ∧ some curr.1 = ((d ++ curr :: r).getLast?).map Prod.fst then
        d.getLast?.map Prod.fst
      else ((d ++ curr :: r).getLast?).map Prod.fst := by
  rcases List.eq_nil_or_concat' r with hr | ⟨r1, y, hr⟩
  · subst hr
    cases k <;> simp [alloc_mid]
  · subst hr
    have hne : curr.1 ≠ y.1 := by
      intro h
      have e : d ++ curr :: (r1 ++ [y]) = d ++ (curr :: r1 ++ [y]) := by simp
      rw [e, List.map_append, List.nodup_append] at hnd
      have h2 := hnd.2.1
      simp only [List.cons_append, List.map_cons, List.nodup_cons, List.map_append,
        List.mem_append, List.map_nil, List.mem_cons, List.mem_singleton] at h2
      exact h2.1 (Or.inr (Or.inl h))
    have e1 : ∀ m : List node_ptr, (d ++ m ++ (r1 ++ [y])).getLast? = some y := by
      intro m
      rw [← List.append_assoc, List.getLast?_concat]
    have e2 : (d ++ curr :: (r1 ++ [y])).getLast? = some y := by
      have := e1 [curr]
      simpa using this
    rw [e1, e2]
    simp [hne]

theorem free_merge_first (E : kernel_env) (c lo nb : Nat) (l1 l2 : List node_ptr) :
    ((free_merge E c lo nb l1 l2).2.head?).map Prod.fst =
      if (free_merge E c lo nb l1 l2).1 = .middle ∧ l1 = [] then some c
      else ((l1 ++ l2).head?).map Prod.fst := by
  rcases List.eq_nil_or_concat' l1 with h1 | ⟨L, p, h1⟩
  · subst h1
    cases l2 with
    | nil => simp [free_merge]
    | cons s l2 =>
      simp only [free_merge, List.getLast?_nil, List.head?_cons]
      split_ifs <;> simp_all
  · subst h1
    cases l2 with
    | nil =>
      simp only [free_merge, List.getLast?_concat, List.head?_nil, List.dropLast_concat]
      cases L <;> split_ifs <;> simp_all
    | cons s l2 =>
      simp only [free_merge, List.getLast?_concat, List.head?_cons, List.dropLast_concat]
      cases L <;> split_ifs <;> simp_all

theorem free_merge_last (E : kernel_env) (c lo nb : Nat) (l1 l2 : List node_ptr)
    (hnd : ((l1 ++ l2).map Prod.fst).Nodup) :
    ((free_merge E c lo nb l1 l2).2.getLast?).map Prod.fst =
      match (free_merge E c lo nb l1 l2).1 with
      | .hole =>
        if ((l1 ++ l2).getLast?).map Prod.fst = l2.head?.map Prod.fst then
          l1.getLast?.map Prod.fst
        else ((l1 ++ l2).getLast?).map Prod.fst
      | .middle => if l2 = [] then some c else ((l1 ++ l2).getLast?).map Prod.fst
      | _ => ((l1 ++ l2).getLast?).map Prod.fst := by
  rcases List.eq_nil_or_concat' l1 with h1 | ⟨L, p, h1⟩
  · subst h1
    cases l2 with
    | nil => simp [free_merge]
    | cons s l2 =>
      simp only [free_merge, List.getLast?_nil, List.head?_cons]
      rcases List.eq_nil_or_concat' l2 with h2 | ⟨R, y, h2⟩
      · subst h2
        split_ifs <;> simp_all
      · subst h2
        have e0 : ∀ x : node_ptr, (x :: (R ++ [y])).getLast? = some y := by
          intro x
          have : x :: (R ++ [y]) = (x :: R) ++ [y] := by simp
          rw [this, List.getLast?_concat]
        have hne : y.1 ≠ s.1 := by
          intro h
          simp only [List.nil_append, List.map_cons, List.nodup_cons, List.map_append,
            List.mem_append, List.map_nil, List.mem_cons, List.mem_singleton] at hnd
          exact hnd.1 (Or.inr (Or.inl h.symm))
        simp only [e0, List.nil_append]
        split_ifs <;> simp_all
  · subst h1
    cases l2 with
    | nil =>
      simp only [free_merge, List.getLast?_concat, List.head?_nil, List.dropLast_concat]
      split_ifs <;> simp_all
    | cons s l2 =>
      simp only [free_merge, List.getLast?_concat, List.head?_cons, List.dropLast_concat]
      rcases List.eq_nil_or_concat' l2 with h2 | ⟨R, y, h2⟩
      · subst h2
        split_ifs <;> simp_all
      · subst h2
        have hne : y.1 ≠ s.1 := by
          intro h
          have e : L ++ [p] ++ s :: (R ++ [y]) = (L ++ [p]) ++ (s :: (R ++ [y])) := by simp
          rw [e, List.map_append, List.nodup_append] at hnd
          have h2 := hnd.2.1
          simp only [List.map_cons, List.nodup_cons, List.map_append, List.mem_append,
            List.map_nil, List.mem_cons, List.mem_singleton] at h2
          exact h2.1 (Or.inr (Or.inl h.symm))
        have e1 : ∀ (a : List node_ptr) (x : node_ptr),
            (a ++ x :: (R ++ [y])).getLast? = some y := by
          intro a x
          have : a ++ x :: (R ++ [y]) = (a ++ x :: R) ++ [y] := by simp
          rw [this, List.getLast?_concat]
        split_ifs <;> simp_all

/-- A successful `nova_new_blocks` keeps the cached pointers of the serving list exact. -/
theorem new_blocks_cache (E : kernel_env) (sbi : nova_sb_info) (blocknr num btype : Nat)
    (atype cpuid from_tail pid : Int)
    (hlen : sbi.free_lists.length = sbi.cpus.toNat) (hcpu0 : 0 ≤ cpuid) (hpid0 : 0 ≤ pid)
    (hnum : num < 4294967296)
    (hw : wf_nodes E (index_of sbi (serving_cpu E sbi num btype cpuid pid)))
    (hce : cache_exact (nova_get_free_list sbi (serving_cpu E sbi num btype cpuid pid)))
    (hret : 0 < (nova_new_blocks E sbi blocknr num btype atype cpuid from_tail pid).ret) :
    cache_exact (nova_get_free_list
      (nova_new_blocks E sbi blocknr num btype atype cpuid from_tail pid).sbi
      (serving_cpu E sbi num btype cpuid pid)) := by
  have hnum0 : 1 ≤ num := by
    by_contra h
    have : num = 0 := by omega
    subst this
    rw [new_blocks_zero] at hret
    have hneg : ¬ (0 : Int) < -EINVAL := by decide
    exact absurd hret hneg
  obtain ⟨fl0, curr, d, r, t, hc0, hfl0, _, hl, ht, _, _, _, heq⟩ :=
    new_blocks_pos E sbi blocknr num btype atype cpuid from_tail pid hlen hcpu0 hpid0 hnum0
      hnum hw hret
  unfold index_of at hl
  obtain ⟨hf, hla⟩ := hce
  rw [hl] at hf hla
  have hnd : ((d ++ curr :: r).map Prod.fst).Nodup := by
    have := hw.nodup
    unfold index_of at this
    rw [hl] at this
    exact this
  have h0 : fl0.first_node = ((d ++ curr :: r).head?).map Prod.fst ∧
      fl0.last_node = ((d ++ curr :: r).getLast?).map Prod.fst := by
    rcases hfl0 with h | ⟨hn, _⟩
    · rw [h]; exact ⟨hf, hla⟩
    · rw [hn] at hf
      cases d <;> simp at hf
  rw [heq]
  simp only []
  rw [get_set_free_list _ _ _ hc0 hlen]
  unfold cache_exact
  rw [(new_blocks_stats_fields _ _).1, (new_blocks_stats_fields _ _).2.1,
    (new_blocks_stats_fields _ _).2.2.1]
  simp only [alloc_result_fl]
  rw [ht, h0.1, h0.2, alloc_mid_first E d r curr _ _ hnd, alloc_mid_last E d r curr _ _ hnd]
  exact ⟨rfl, rfl⟩

/-- A successful `nova_free_blocks` of a run that meets no extent keeps the cached pointers
of the list it works on exact. -/
theorem free_blocks_cache (E : kernel_env) (sbi : nova_sb_info) (c blocknr : Nat)
    (num : Int) (btype : Nat) (lp : Int)
    (hlen : sbi.free_lists.length = sbi.cpus.toNat)
    (hnum : 0 < num) (hnum2 : num < 2147483648)
    (hcpu : blocknr / sbi.per_list_blocks < 2147483648)
    (hw : wf_nodes E (index_of sbi (free_cpu sbi blocknr)))
    (hbd : blocknr + free_count btype num ≤ 18446744073709551616)
    (hfree : ∀ b, blocknr ≤ b → b < blocknr + free_count btype num →
      ¬ blk_in (index_of sbi (free_cpu sbi blocknr)) b)
    (hce : cache_exact (nova_get_free_list sbi (free_cpu sbi blocknr))) :
    cache_exact (nova_get_free_list (nova_free_blocks E sbi (some c) blocknr num btype lp).2
      (free_cpu sbi blocknr)) := by
  have hnb := @free_count_pos btype num hnum
  obtain ⟨fl1, _, hget, htree, hfirst, hlast, _⟩ := free_blocks_valid E sbi c blocknr
    num btype lp hlen hnum hnum2 hcpu hw hbd hfree
  have habove := above_eq_of_free hw.sorted hnb hfree
  have hlo : ¬ blk_in (index_of sbi (free_cpu sbi blocknr)) blocknr :=
    hfree blocknr le_rfl (by omega)
  have hsplit := below_append_above hw.sorted hlo
  rw [← habove] at hsplit
  obtain ⟨hf, hla⟩ := hce
  have hidx : (nova_get_free_list sbi (free_cpu sbi blocknr)).block_free_tree.inorder =
      index_of sbi (free_cpu sbi blocknr) := rfl
  rw [hidx] at hf hla
  generalize index_of sbi (free_cpu sbi blocknr) = l at *
  have hnd : ((below blocknr l ++ above (blocknr + free_count btype num - 1) l).map
      Prod.fst).Nodup := by
    rw [← hsplit]; exact hw.nodup
  have m1 := free_merge_first E c blocknr (free_count btype num) (below blocknr l)
    (above (blocknr + free_count btype num - 1) l)
  have m2 := free_merge_last E c blocknr (free_count btype num) (below blocknr l)
    (above (blocknr + free_count btype num - 1) l) hnd
  rw [← hsplit] at m1 m2
  rw [hget]
  unfold cache_exact
  rw [htree, hfirst, hlast, hf, hla]
  unfold free_nodes free_first_node free_last_node
  rw [m1, m2]
  refine ⟨rfl, ?_⟩
  cases (free_merge E c blocknr (free_count btype num) (below blocknr l)
    (above (blocknr + free_count btype num - 1) l)).1 <;> rfl

theorem cache_inv_alloc (E : kernel_env) (s : nova_sb_info) (A : Int → Nat → Prop)
    (blocknr num btype : Nat) (atype cpuid from_tail pid : Int)
    (hinv : part_inv E s A) (hc : cache_inv s)
    (hcpu0 : 0 ≤ cpuid) (hpid0 : 0 ≤ pid) (hnum : num < 4294967296)
    (hret : 0 < (nova_new_blocks E s blocknr num btype atype cpuid from_tail pid).ret) :
    cache_inv (nova_new_blocks E s blocknr num btype atype cpuid from_tail pid).sbi := by
  obtain ⟨hw, hc0, hsc⟩ := serving_wf E s A blocknr num btype atype cpuid from_tail pid hinv
    hcpu0 hpid0 hnum hret
  obtain ⟨_, _, _, _, _, _, fl, hset⟩ :=
    new_blocks_run E s blocknr num btype atype cpuid from_tail pid hinv.len hcpu0 hpid0 hnum
      hw hret
  have hfields := set_free_list_fields s (serving_cpu E s num btype cpuid pid) fl
  intro i hi0 hi
  have hi2 : i < s.cpus := by rw [hset, hfields.1] at hi; exact hi
  by_cases e : i = serving_cpu E s num btype cpuid pid
  · subst e
    exact new_blocks_cache E s blocknr num btype atype cpuid from_tail pid hinv.len hcpu0
      hpid0 hnum hw (hc _ hc0 hsc) hret
  · have hg : nova_get_free_list (nova_new_blocks E s blocknr num btype atype cpuid from_tail
        pid).sbi i = nova_get_free_list s i := by
      rw [hset]
      exact get_set_free_list_ne _ _ _ _ hc0 hi0 e (Or.inl hi2) hinv.len
    rw [hg]
    exact hc i hi0 hi2

theorem cache_inv_free (E : kernel_env) (s : nova_sb_info) (A : Int → Nat → Prop)
    (c blocknr : Nat) (num : Int) (btype : Nat) (lp : Int)
    (hinv : part_inv E s A) (hci : cache_inv s)
    (hnum : 0 < num) (hnum2 : num < 2147483648)
    (hrun : ∀ b, blocknr ≤ b → b < blocknr + free_count btype num → A (free_cpu s blocknr) b)
    (hc : c ∉ (index_of s (free_cpu s blocknr)).map Prod.fst) :
    cache_inv (nova_free_blocks E s (some c) blocknr num btype lp).2 := by
  have hnb := @free_count_pos btype num hnum
  obtain ⟨hfc0, hfc⟩ := hinv.owner _ _ (hrun blocknr (le_refl _) (by omega))
  obtain ⟨hw, hpe, hpc, hpd⟩ := hinv.parts _ hfc0 hfc
  have hlast := ((hpc (blocknr + free_count btype num - 1)).1
    (Or.inr (hrun _ (by omega) (by omega)))).2
  have hcl := hinv.cpus_lt
  have hcpu : blocknr / s.per_list_blocks < 2147483648 := by
    unfold free_cpu at hfc
    omega
  have hfree : ∀ b, blocknr ≤ b → b < blocknr + free_count btype num →
      ¬ blk_in (index_of s (free_cpu s blocknr)) b :=
    fun b h1 h2 hb => hpd b hb (hrun b h1 h2)
  obtain ⟨_, hcpus2, _⟩ := part_inv_free E s A c blocknr num btype lp hinv hnum hnum2
    hrun hc
  obtain ⟨fl1, hrun2, _⟩ := free_blocks_valid E s c blocknr num
    btype lp hinv.len hnum hnum2 hcpu hw (by omega) hfree
  intro i hi0 hi
  have hi2 : i < s.cpus := by rw [hcpus2] at hi; exact hi
  by_cases e : i = free_cpu s blocknr
  · subst e
    exact free_blocks_cache E s c blocknr num btype lp hinv.len hnum hnum2 hcpu hw (by omega)
      hfree (hci _ hfc0 hfc)
  · have hg : nova_get_free_list (nova_free_blocks E s (some c) blocknr num btype lp).2 i =
        nova_get_free_list s i := by
      rw [hrun2]
      exact get_set_free_list_ne _ _ _ _ hfc0 hi0 e (Or.inl hi2) hinv.len
    rw [hg]
    exact hci i hi0 hi2

theorem init_cache_inv (E : kernel_env) (base : nova_sb_info) (blknode : Int → Nat)
    (hcp : (nova_init_blockmap E (nova_alloc_block_free_lists base) 0 blknode).cpus =
      base.cpus) :
    cache_inv (nova_init_blockmap E (nova_alloc_block_free_lists base) 0 blknode) := by
  intro i hi0 hi
  rw [hcp] at hi
  rw [init_blockmap_list E base blknode i hi0 hi]
  unfold cache_exact
  simp only [init_list, E.rb_insert_color_inorder, rb_root.inorder, List.nil_append,
    List.head?_cons, List.getLast?_singleton, Option.map_some', and_self]

/-- Everything the reachable states inherit from `nova_init_blockmap` on a geometry with
`block_start ≤ block_end` in every partition: the parameters `cpus` and `per_list_blocks`,
the partition boundaries, the partition invariant and the exact cached pointers. -/
theorem reachable_inv (E : kernel_env) (base : nova_sb_info)
    (blknode : Int → Nat) (s : nova_sb_info) (A : Int → Nat → Prop)
    (hcpus : base.cpus < 2147483648)
    (hplb : 1 ≤ (nova_init_blockmap E (nova_alloc_block_free_lists base) 0
      blknode).per_list_blocks)
    (hshared : base.shared_free_list.block_free_tree = .nil)
    (hgeom : ∀ i : Int, 0 ≤ i → i < base.cpus →
      (nova_get_free_list (nova_init_blockmap E (nova_alloc_block_free_lists base) 0 blknode)
        i).block_start ≤
      (nova_get_free_list (nova_init_blockmap E (nova_alloc_block_free_lists base) 0 blknode)
        i).block_end)
    (hreach : reachable E (nova_init_blockmap E (nova_alloc_block_free_lists base) 0 blknode)
      s A) :
    s.cpus = base.cpus ∧
    s.per_list_blocks =
      (nova_init_blockmap E (nova_alloc_block_free_lists base) 0 blknode).per_list_blocks ∧
    (∀ i : Int, 0 ≤ i → i < base.cpus →
      (nova_get_free_list s i).block_start =
        (nova_get_free_list (nova_init_blockmap E (nova_alloc_block_free_lists base) 0
          blknode) i).block_start ∧
      (nova_get_free_list s i).block_end =
        (nova_get_free_list (nova_init_blockmap E (nova_alloc_block_free_lists base) 0
          blknode) i).block_end) ∧
    part_inv E s A ∧ cache_inv s := by
  induction hreach with
  | init =>
    obtain ⟨h1, h2⟩ := init_blockmap_inv E base blknode hcpus hplb hshared hgeom
    exact ⟨h1, rfl, fun _ _ _ => ⟨rfl, rfl⟩, h2, init_cache_inv E base blknode h1⟩
  | alloc s1 A1 blocknr num btype atype cpuid from_tail pid _ h1 h2 h3 h4 ih =>
    obtain ⟨i1, i2, ib, i3, i5⟩ := ih
    obtain ⟨hc, hinv⟩ := part_inv_alloc E s1 A1 blocknr num btype atype cpuid from_tail pid
      i3 h1 h2 h3 h4
    obtain ⟨hw, hc0, _⟩ := serving_wf E s1 A1 blocknr num btype atype cpuid from_tail pid i3
      h1 h2 h3 h4
    obtain ⟨_, _, _, _, hbs, hbe, fl, hset⟩ :=
      new_blocks_run E s1 blocknr num btype atype cpuid from_tail pid i3.len h1 h2 h3 hw h4
    refine ⟨by rw [hc]; exact i1, ?_, ?_, hinv,
      cache_inv_alloc E s1 A1 blocknr num btype atype cpuid from_tail pid i3 i5 h1 h2 h3 h4⟩
    · rw [hset, (set_free_list_fields _ _ _).2.1]
      exact i2
    · intro i hi0 hi
      by_cases e : i = serving_cpu E s1 num btype cpuid pid
      · subst e
        rw [hbs, hbe]
        exact ib _ hi0 hi
      · have hg : nova_get_free_list (nova_new_blocks E s1 blocknr num btype atype cpuid
            from_tail pid).sbi i = nova_get_free_list s1 i := by
          rw [hset]
          exact get_set_free_list_ne _ _ _ _ hc0 hi0 e (Or.inl (by rw [i1]; exact hi)) i3.len
        rw [hg]
        exact ib i hi0 hi
  | free s1 A1 c blocknr num btype lp _ h1 h2 h3 h4 ih =>
    obtain ⟨i1, i2, ib, i3, i5⟩ := ih
    obtain ⟨_, hc, hinv⟩ := part_inv_free E s1 A1 c blocknr num btype lp i3 h1 h2 h3 h4
    have hnb := @free_count_pos btype num h1
    obtain ⟨hfc0, hfc⟩ := i3.owner _ _ (h3 blocknr (le_refl _) (by omega))
    obtain ⟨hw, hpe, hpc, hpd⟩ := i3.parts _ hfc0 hfc
    have hlast := ((hpc (blocknr + free_count btype num - 1)).1
      (Or.inr (h3 _ (by omega) (by omega)))).2
    have hcl := i3.cpus_lt
    have hcpu : blocknr / s1.per_list_blocks < 2147483648 := by
      unfold free_cpu at hfc
      omega
    obtain ⟨fl1, hrun2, hget, _, _, _, _, _, hbs, hbe⟩ := free_blocks_valid E s1 c blocknr num
      btype lp i3.len h1 h2 hcpu hw (by omega)
      (fun b hb1 hb2 hb => hpd b hb (h3 b hb1 hb2))
    refine ⟨by rw [hc]; exact i1, ?_, ?_, hinv,
      cache_inv_free E s1 A1 c blocknr num btype lp i3 i5 h1 h2 h3 h4⟩
    · rw [hrun2, (set_free_list_fields _ _ _).2.1]
      exact i2
    · intro i hi0 hi
      by_cases e : i = free_cpu s1 blocknr
      · subst e
        rw [hget, hbs, hbe]
        exact ib _ hi0 hi
      · have hg : nova_get_free_list (nova_free_blocks E s1 (some c) blocknr num btype lp).2 i =
            nova_get_free_list s1 i := by
          rw [hrun2]
          exact get_set_free_list_ne _ _ _ _ hfc0 hi0 e (Or.inl (by rw [i1]; exact hi)) i3.len
        rw [hg]
        exact ib i hi0 hi

/-- In a list of ascending disjoint extents the first node has the lowest `range_low` and
the last node the highest. -/
theorem sorted_first_last {l : List node_ptr} (hs : sorted_exts l) :
    (∀ f ∈ l.head?, ∀ p ∈ l, f.2.range_low ≤ p.2.range_low) ∧
    (∀ x ∈ l.getLast?, ∀ p ∈ l, p.2.range_low ≤ x.2.range_low) := by
  constructor
  · intro f hf p hp
    cases l with
    | nil => cases hf
    | cons a t =>
      simp only [List.head?_cons, Option.mem_def, Option.some.injEq] at hf
      subst hf
      rcases List.mem_cons.1 hp with h | h
      · rw [h]
      · have h1 := (List.pairwise_cons.1 hs.1).1 p h
        have h2 := hs.2 a (List.mem_cons_self _ _)
        unfold ext_lt at h1
        omega
  · intro x hx p hp
    rcases List.eq_nil_or_concat' l with h | ⟨t, y, h⟩
    · subst h; cases hx
    · subst h
      simp only [List.getLast?_concat, Option.mem_def, Option.some.injEq] at hx
      subst hx
      rcases List.mem_append.1 hp with h | h
      · have h1 := (List.pairwise_append.1 hs.1).2.2 p h y (List.mem_singleton_self _)
        have h2 := hs.2 p hp
        unfold ext_lt at h1
        omega
      · rw [List.mem_singleton.1 h]

/-- C32 (counterexample): with 8 blocks, 2 CPUs and 6 reserved blocks, `nova_init_blockmap`
leaves partition 0 with the node `[7, 3]`.  Allocating two blocks from its tail returns
blocks 2 and 3 and leaves the node `[7, 1]`; freeing block 3, which partition 0 handed out,
succeeds and inserts the node `[3, 3]` (address 2000) before the node at address 1000.  In
this state `first_node` is the node at 1000, whose `range_low` 7 is not the lowest, and
`last_node` is the node at 2000, whose `range_low` 3 is not the highest. -/
theorem C32_cached_candidates_exact_amended_counterexample :
    (nova_new_blocks (unbalanced_env 0) degenerate_sbi1 0 2 NOVA_BLOCK_TYPE_4K DATA 0 1 0).ret =
      2 ∧
    (nova_new_blocks (unbalanced_env 0) degenerate_sbi1 0 2 NOVA_BLOCK_TYPE_4K DATA 0 1
      0).blocknr = 2 ∧
    serving_cpu (unbalanced_env 0) degenerate_sbi1 2 NOVA_BLOCK_TYPE_4K 0 0 = 0 ∧
    free_cpu (nova_new_blocks (unbalanced_env 0) degenerate_sbi1 0 2 NOVA_BLOCK_TYPE_4K DATA 0
      1 0).sbi 3 = 0 ∧
    (nova_free_blocks (unbalanced_env 0)
      (nova_new_blocks (unbalanced_env 0) degenerate_sbi1 0 2 NOVA_BLOCK_TYPE_4K DATA 0 1
        0).sbi (some 2000) 3 1 NOVA_BLOCK_TYPE_4K 0).1 = 0 ∧
    (index_of degenerate_sbi3 0).map (fun p => (p.1, p.2.range_low, p.2.range_high)) =
      [(2000, 3, 3), (1000, 7, 1)] ∧
    (nova_get_free_list degenerate_sbi3 0).first_node = some 1000 ∧
    (nova_get_free_list degenerate_sbi3 0).last_node = some 2000 ∧
    (∃ A, reachable (unbalanced_env 0) degenerate_sbi1 degenerate_sbi3 A) := by
  refine ⟨by decide, by decide, by decide, by decide, by decide, by decide, by decide,
    by decide, ?_⟩
  have h := reachable.free _ _ 2000 3 1 NOVA_BLOCK_TYPE_4K 0
    (reachable.alloc _ _ 0 2 NOVA_BLOCK_TYPE_4K DATA 0 1 0
      (@reachable.init (unbalanced_env 0) degenerate_sbi1) (by decide)
      (by decide) (by decide) (by decide))
    (by decide) (by decide)
    (by
      intro b h1 h2
      have hb : b = 3 := by
        have : free_count NOVA_BLOCK_TYPE_4K 1 = 1 := by decide
        omega
      subst hb
      exact Or.inr (by decide))
    (by decide)
  exact ⟨_, h⟩

/-- C32 (amended): let `nova_init_blockmap` with `recovery = 0` run on freshly allocated free
lists with an empty shared list, `cpus` fitting an `int`, `per_list_blocks ≥ 1`, and let it
leave `block_start ≤ block_end` in every partition.  Then in every state reached by
successful `nova_new_blocks` calls and by `nova_free_blocks` calls that release a run
allocated in the partition of the call, for every CPU partition `first_node` is the address
of the first node of the index in order and `last_node` that of the last; node addresses
are distinct, the first node has the lowest `range_low` and the last node the highest, and
each pointer is NULL exactly when the index is empty. -/
theorem C32_cached_candidates_exact_amended (E : kernel_env) (base : nova_sb_info)
    (blknode : Int → Nat) (s : nova_sb_info) (A : Int → Nat → Prop)
    (hcpus : base.cpus < 2147483648)
    (hplb : 1 ≤ (nova_init_blockmap E (nova_alloc_block_free_lists base) 0
      blknode).per_list_blocks)
    (hshared : base.shared_free_list.block_free_tree = .nil)
    (hgeom : ∀ i : Int, 0 ≤ i → i < base.cpus →
      (nova_get_free_list (nova_init_blockmap E (nova_alloc_block_free_lists base) 0 blknode)
        i).block_start ≤
      (nova_get_free_list (nova_init_blockmap E (nova_alloc_block_free_lists base) 0 blknode)
        i).block_end)
    (hreach : reachable E (nova_init_blockmap E (nova_alloc_block_free_lists base) 0 blknode)
      s A) :
    ∀ i : Int, 0 ≤ i → i < base.cpus →
      (nova_get_free_list s i).first_node = (index_of s i).head?.map Prod.fst ∧
      (nova_get_free_list s i).last_node = (index_of s i).getLast?.map Prod.fst ∧
      ((index_of s i).map Prod.fst).Nodup ∧
      (∀ f ∈ (index_of s i).head?, ∀ p ∈ index_of s i, f.2.range_low ≤ p.2.range_low) ∧
      (∀ x ∈ (index_of s i).getLast?, ∀ p ∈ index_of s i, p.2.range_low ≤ x.2.range_low) ∧
      ((nova_get_free_list s i).first_node = none ↔ index_of s i = []) ∧
      ((nova_get_free_list s i).last_node = none ↔ index_of s i = []) := by
  obtain ⟨hc, _, _, hinv, hcache⟩ :=
    reachable_inv E base blknode s A hcpus hplb hshared hgeom hreach
  intro i hi0 hi
  obtain ⟨hw, _⟩ := hinv.parts i hi0 (by rw [hc]; exact hi)
  obtain ⟨hf, hl⟩ := hcache i hi0 (by rw [hc]; exact hi)
  have hidx : (nova_get_free_list s i).block_free_tree.inorder = index_of s i := rfl
  rw [hidx] at hf hl
  obtain ⟨s1, s2⟩ := sorted_first_last hw.sorted
  refine ⟨hf, hl, hw.nodup, s1, s2, ?_, ?_⟩
  · rw [hf]
    cases index_of s i <;> simp
  · rw [hl]
    rcases List.eq_nil_or_concat' (index_of s i) with h | ⟨t, y, h⟩
    · rw [h]; simp
    · rw [h]; simp

/-- C32 (amended) at a concrete input: one partition of 100 blocks after 30 blocks were
allocated; both cached pointers are the node at address 1000, the only node of the
index. -/
theorem C32_cached_candidates_exact_amended_witness :
    (nova_get_free_list example_sbi2 0).first_node = (index_of example_sbi2 0).head?.map Prod.fst ∧
    (nova_get_free_list example_sbi2 0).first_node = some 1000 ∧
    (nova_get_free_list example_sbi2 0).last_node = some 1000 ∧
    ¬ index_of example_sbi2 0 = [] := by
  have h := C32_cached_candidates_exact_amended (unbalanced_env 0)
    { s_blocksize := 4096, initsize := 409600, num_blocks := 100, reserved_blocks := 1,
      cpus := 1, per_list_blocks := 0, free_lists := [],
      shared_free_list := free_list.zero 0 }
    (fun _ => 1000) example_sbi2 _ (by decide) (by decide) rfl
    (by
      intro i h0 h1
      have e : i = 0 := by
        have : i < 1 := h1
        omega
      subst e
      decide)
    (reachable.alloc _ _ 0 30 NOVA_BLOCK_TYPE_4K DATA 0 0 0 reachable.init (by decide)
      (by decide) (by decide) (by decide)) 0 (le_refl 0) (by decide)
  have hf : (nova_get_free_list example_sbi2 0).first_node = some 1000 := by decide
  exact ⟨h.1, hf, by decide, fun he => by
    have := h.2.2.2.2.2.1.2 he
    rw [hf] at this
    cases this⟩

/-- Without `unsigned long` wrap-around, partition `i` of `nova_init_blockmap` lies inside
`[per_list_blocks * i, per_list_blocks * (i + 1) - 1]`. -/
theorem init_partition_range (E : kernel_env) (base : nova_sb_info) (blknode : Int → Nat)
    (i : Int) (hi0 : 0 ≤ i) (hi : i < base.cpus) (hcpus : base.cpus < 2147483648)
    (hplb : 1 ≤ (nova_init_blockmap E (nova_alloc_block_free_lists base) 0
      blknode).per_list_blocks)
    (hnb : base.num_blocks < 18446744073709551616)
    (hwrap : base.num_blocks / base.cpus.toNat * i.toNat +
      (if i = 0 then base.reserved_blocks else 0) + E.data_csum_blocks_per_list +
      parity_blocks_per_list E base < 18446744073709551616) :
    (nova_init_blockmap E (nova_alloc_block_free_lists base) 0 blknode).per_list_blocks *
        i.toNat ≤
      (nova_get_free_list (nova_init_blockmap E (nova_alloc_block_free_lists base) 0 blknode)
        i).block_start ∧
    (nova_get_free_list (nova_init_blockmap E (nova_alloc_block_free_lists base) 0 blknode)
        i).block_end + 1 =
      (nova_init_blockmap E (nova_alloc_block_free_lists base) 0 blknode).per_list_blocks *
        i.toNat +
      (nova_init_blockmap E (nova_alloc_block_free_lists base) 0 blknode).per_list_blocks := by
  obtain ⟨g1, _, g3, g4, _, _⟩ := init_geometry E base blknode i hi0 hi hcpus
  rw [← g1] at g3 g4 hwrap
  have hi2 : i.toNat + 1 ≤ base.cpus.toNat := by omega
  have hmul : (nova_init_blockmap E (nova_alloc_block_free_lists base) 0
      blknode).per_list_blocks * (i.toNat + 1) ≤ base.num_blocks := by
    calc (nova_init_blockmap E (nova_alloc_block_free_lists base) 0
          blknode).per_list_blocks * (i.toNat + 1)
        ≤ (nova_init_blockmap E (nova_alloc_block_free_lists base) 0
          blknode).per_list_blocks * base.cpus.toNat := Nat.mul_le_mul_left _ hi2
      _ = base.num_blocks / base.cpus.toNat * base.cpus.toNat := by rw [g1]
      _ ≤ base.num_blocks := Nat.div_mul_le_self _ _
  rw [Nat.mul_add, Nat.mul_one] at hmul
  generalize (nova_init_blockmap E (nova_alloc_block_free_lists base) 0
    blknode).per_list_blocks = plb at *
  generalize plb * i.toNat = pi at *
  rw [g3, g4]
  unfold ul ul_sub
  omega

/-- C38 (counterexample): with 8 blocks, 2 CPUs and 6 reserved blocks, `per_list_blocks` is
4 and `nova_init_blockmap` leaves partition 0 with `block_start = 7 > block_end = 3`.  A
request on CPU 0 is served by partition 0 with block 7, but `nova_free_blocks` resolves
block 7 to partition `7 / 4 = 1`: the free is carried out on partition 1, where block 7
is still free, so it fails with `-EINVAL` and the block never returns to partition 0. -/
theorem C38_partition_ownership_amended_counterexample :
    degenerate_sbi1.per_list_blocks = 4 ∧
    serving_cpu (unbalanced_env 0) degenerate_sbi1 1 NOVA_BLOCK_TYPE_4K 0 0 = 0 ∧
    (nova_new_blocks (unbalanced_env 0) degenerate_sbi1 0 1 NOVA_BLOCK_TYPE_4K DATA 0 0
      0).blocknr = 7 ∧
    free_cpu (nova_new_blocks (unbalanced_env 0) degenerate_sbi1 0 1 NOVA_BLOCK_TYPE_4K DATA 0
      0 0).sbi 7 = 1 ∧
    (nova_free_blocks (unbalanced_env 0)
      (nova_new_blocks (unbalanced_env 0) degenerate_sbi1 0 1 NOVA_BLOCK_TYPE_4K DATA 0 0
        0).sbi (some 2000) 7 1 NOVA_BLOCK_TYPE_4K 0).1 = - EINVAL ∧
    extents (index_of (nova_free_blocks (unbalanced_env 0)
      (nova_new_blocks (unbalanced_env 0) degenerate_sbi1 0 1 NOVA_BLOCK_TYPE_4K DATA 0 0
        0).sbi (some 2000) 7 1 NOVA_BLOCK_TYPE_4K 0).2 0) = [(8, 3)] := by
  decide

/-- C38 (amended): let `nova_init_blockmap` with `recovery = 0` run on freshly allocated free
lists with an empty shared list, `cpus` fitting an `int`, `per_list_blocks ≥ 1`,
`num_blocks` an `unsigned long` and no wrap-around in the partition starts.  Then the
ranges `[block_start, block_end]` of different CPUs are disjoint (the range of a lower CPU
ends before that of a higher one starts) and every block `b` of the range of CPU `i` has
`b / per_list_blocks = i`.  If moreover `block_start ≤ block_end` in every partition, then
in every state reached by successful allocations and frees of allocated runs, every block
handed out by partition `i` and not yet freed, and every block free in partition `i`, is
resolved by `nova_free_blocks` to partition `i`. -/
theorem C38_partition_ownership_amended (E : kernel_env) (base : nova_sb_info)
    (blknode : Int → Nat) (s : nova_sb_info) (A : Int → Nat → Prop)
    (hcpus : base.cpus < 2147483648)
    (hplb : 1 ≤ (nova_init_blockmap E (nova_alloc_block_free_lists base) 0
      blknode).per_list_blocks)
    (hshared : base.shared_free_list.block_free_tree = .nil)
    (hnb : base.num_blocks < 18446744073709551616)
    (hwrap : ∀ i : Int, 0 ≤ i → i < base.cpus →
      base.num_blocks / base.cpus.toNat * i.toNat +
      (if i = 0 then base.reserved_blocks else 0) + E.data_csum_blocks_per_list +
      parity_blocks_per_list E base < 18446744073709551616)
    (hreach : reachable E (nova_init_blockmap E (nova_alloc_block_free_lists base) 0 blknode)
      s A) :
    (∀ i j : Int, 0 ≤ i → i < j → j < base.cpus →
      (nova_get_free_list (nova_init_blockmap E (nova_alloc_block_free_lists base) 0 blknode)
        i).block_end <
      (nova_get_free_list (nova_init_blockmap E (nova_alloc_block_free_lists base) 0 blknode)
        j).block_start) ∧
    (∀ (i : Int) (b : Nat), 0 ≤ i → i < base.cpus →
      (nova_get_free_list (nova_init_blockmap E (nova_alloc_block_free_lists base) 0 blknode)
        i).block_start ≤ b →
      b ≤ (nova_get_free_list (nova_init_blockmap E (nova_alloc_block_free_lists base) 0
        blknode) i).block_end →
      free_cpu (nova_init_blockmap E (nova_alloc_block_free_lists base) 0 blknode) b = i) ∧
    ((∀ i : Int, 0 ≤ i → i < base.cpus →
      (nova_get_free_list (nova_init_blockmap E (nova_alloc_block_free_lists base) 0 blknode)
        i).block_start ≤
      (nova_get_free_list (nova_init_blockmap E (nova_alloc_block_free_lists base) 0 blknode)
        i).block_end) →
      (∀ (i : Int) (b : Nat), A i b → free_cpu s b = i) ∧
      (∀ (i : Int) (b : Nat), 0 ≤ i → i < base.cpus → blk_in (index_of s i) b →
        free_cpu s b = i)) := by
  have hown : ∀ (i : Int) (b : Nat), 0 ≤ i → i < base.cpus →
      (nova_get_free_list (nova_init_blockmap E (nova_alloc_block_free_lists base) 0 blknode)
        i).block_start ≤ b →
      b ≤ (nova_get_free_list (nova_init_blockmap E (nova_alloc_block_free_lists base) 0
        blknode) i).block_end →
      free_cpu (nova_init_blockmap E (nova_alloc_block_free_lists base) 0 blknode) b = i := by
    intro i b hi0 hi hb1 hb2
    obtain ⟨r1, r2⟩ := init_partition_range E base blknode i hi0 hi hcpus hplb hnb
      (hwrap i hi0 hi)
    unfold free_cpu
    have hdiv : b / (nova_init_blockmap E (nova_alloc_block_free_lists base) 0
        blknode).per_list_blocks = i.toNat := by
      apply Nat.div_eq_of_lt_le
      · rw [Nat.mul_comm]; omega
      · rw [Nat.mul_comm, Nat.mul_add, Nat.mul_one]; omega
    rw [hdiv]
    omega
  refine ⟨?_, hown, ?_⟩
  · intro i j hi0 hij hj
    obtain ⟨_, r2⟩ := init_partition_range E base blknode i hi0 (by omega) hcpus hplb hnb
      (hwrap i hi0 (by omega))
    obtain ⟨r3, _⟩ := init_partition_range E base blknode j (by omega) hj hcpus hplb hnb
      (hwrap j (by omega) hj)
    have hle : (nova_init_blockmap E (nova_alloc_block_free_lists base) 0
        blknode).per_list_blocks * (i.toNat + 1) ≤
        (nova_init_blockmap E (nova_alloc_block_free_lists base) 0
        blknode).per_list_blocks * j.toNat := Nat.mul_le_mul_left _ (by omega)
    rw [Nat.mul_add, Nat.mul_one] at hle
    omega
  · intro hgeom
    obtain ⟨hc, hp, hb, hinv, _⟩ :=
      reachable_inv E base blknode s A hcpus hplb hshared hgeom hreach
    have hfc : ∀ b, free_cpu s b =
        free_cpu (nova_init_blockmap E (nova_alloc_block_free_lists base) 0 blknode) b := by
      intro b
      unfold free_cpu
      rw [hp]
    constructor
    · intro i b hA
      obtain ⟨hi0, hi⟩ := hinv.owner i b hA
      rw [hc] at hi
      obtain ⟨_, _, hpc, _⟩ := hinv.parts i hi0 (by rw [hc]; exact hi)
      have hr := (hpc b).1 (Or.inr hA)
      rw [(hb i hi0 hi).1, (hb i hi0 hi).2] at hr
      rw [hfc]
      exact hown i b hi0 hi hr.1 hr.2
    · intro i b hi0 hi hblk
      obtain ⟨_, _, hpc, _⟩ := hinv.parts i hi0 (by rw [hc]; exact hi)
      have hr := (hpc b).1 (Or.inl hblk)
      rw [(hb i hi0 hi).1, (hb i hi0 hi).2] at hr
      rw [hfc]
      exact hown i b hi0 hi hr.1 hr.2

/-- C38 (amended) at a concrete input: 200 blocks on 2 CPUs.  The range of CPU 0 ends at
block 99, before the range of CPU 1 starts at block 112; a request of 3 blocks on CPU 1 is
served by partition 1 with blocks 112..114, and block 113 is resolved to partition 1 when
it is freed. -/
theorem C38_partition_ownership_amended_witness :
    (nova_get_free_list (nova_init_blockmap (unbalanced_env 0)
      (nova_alloc_block_free_lists example_two_cpu_base) 0 (fun i => 1000 + i.toNat))
      0).block_end <
    (nova_get_free_list (nova_init_blockmap (unbalanced_env 0)
      (nova_alloc_block_free_lists example_two_cpu_base) 0 (fun i => 1000 + i.toNat))
      1).block_start ∧
    (nova_new_blocks (unbalanced_env 0) (nova_init_blockmap (unbalanced_env 0)
      (nova_alloc_block_free_lists example_two_cpu_base) 0 (fun i => 1000 + i.toNat))
      0 3 NOVA_BLOCK_TYPE_4K DATA 1 0 0).blocknr = 112 ∧
    free_cpu (nova_new_blocks (unbalanced_env 0) (nova_init_blockmap (unbalanced_env 0)
      (nova_alloc_block_free_lists example_two_cpu_base) 0 (fun i => 1000 + i.toNat))
      0 3 NOVA_BLOCK_TYPE_4K DATA 1 0 0).sbi 113 = 1 := by
  have h := C38_partition_ownership_amended (unbalanced_env 0) example_two_cpu_base
    (fun i => 1000 + i.toNat) _ _ (by decide) (by decide) rfl (by decide)
    (by
      intro i h0 h1
      have e : i = 0 ∨ i = 1 := by
        have : i < 2 := h1
        omega
      rcases e with e | e <;> subst e <;> decide)
    (reachable.alloc _ _ 0 3 NOVA_BLOCK_TYPE_4K DATA 1 0 0 reachable.init (by decide)
      (by decide) (by decide) (by decide))
  refine ⟨h.1 0 1 (le_refl 0) (by decide) (by decide), by decide, ?_⟩
  refine (h.2.2 ?_).1 1 113 (Or.inr ⟨by decide, by decide, by decide⟩)
  intro i h0 h1
  have e : i = 0 ∨ i = 1 := by
    have : i < 2 := h1
    omega
  rcases e with e | e <;> subst e <;> decide

/-- On a consistent free list the loop of `nova_alloc_blocks_in_free_list` takes the branch
of balloc.c 549-555 only when it stopped at no extent: the loop state is the initial one
and the request exceeds the counter. -/
theorem counter_branch_none (E : kernel_env) (fl : free_list) (btype nb nbr : Nat)
    (from_tail : Int) (hw : wf_nodes E fl.block_free_tree.inorder)
    (hcnt : fl.num_free_blocks = total_blocks fl.block_free_tree.inorder)
    (hnfb : fl.num_free_blocks < 18446744073709551616)
    (hbr : alloc_counter_branch E fl btype nb nbr from_tail) :
    (alloc_walk fl.block_free_tree from_tail
      (if from_tail = 0 then fl.first_node else fl.last_node)).find?
      (alloc_takes E btype nb) = none ∧
    nova_alloc_blocks_loop E btype from_tail
      (alloc_walk fl.block_free_tree from_tail
        (if from_tail = 0 then fl.first_node else fl.last_node))
      ⟨fl, nb, nbr, false⟩ = ⟨fl, nb, nbr, false⟩ ∧
    fl.num_free_blocks < nb := by
  obtain ⟨_, hlt⟩ := hbr
  rw [alloc_loop_find] at hlt ⊢
  cases hf : (alloc_walk fl.block_free_tree from_tail
      (if from_tail = 0 then fl.first_node else fl.last_node)).find?
      (alloc_takes E btype nb) with
  | none =>
    simp only [hf] at hlt ⊢
    exact ⟨trivial, trivial, hlt⟩
  | some curr =>
    exfalso
    simp only [hf] at hlt
    have hmem : curr ∈ fl.block_free_tree.inorder :=
      alloc_walk_subset _ _ _ _ (List.mem_of_find?_eq_some hf)
    obtain ⟨e1, e2, e3⟩ := curr_blocks_eq E fl hw hcnt hnfb curr hmem
    unfold alloc_take at hlt
    simp only [] at hlt
    split_ifs at hlt <;> dsimp only at hlt <;> omega

/-- On a consistent free list whose extents start at block 1 or later,
`nova_alloc_blocks_in_free_list` either fails with `-ENOSPC` and leaves the list and
`*new_blocknr` as they were, or returns a positive count, at most the request, with a
non-zero block number. -/
theorem alloc_fail_or_serve (E : kernel_env) (fl : free_list) (btype nb nbr : Nat)
    (from_tail : Int) (hw : wf_nodes E fl.block_free_tree.inorder)
    (hcnt : fl.num_free_blocks = total_blocks fl.block_free_tree.inorder)
    (hnfb : fl.num_free_blocks < 18446744073709551616)
    (hlow : ∀ p ∈ fl.block_free_tree.inorder, 1 ≤ p.2.range_low)
    (hnb : 1 ≤ nb) (hnb2 : nb < 9223372036854775808) :
    nova_alloc_blocks_in_free_list E fl btype nb nbr from_tail = ⟨-ENOSPC, fl, nbr⟩ ∨
    (∃ c : Nat, (nova_alloc_blocks_in_free_list E fl btype nb nbr from_tail).ret = (c : Int) ∧
      1 ≤ c ∧ c ≤ nb ∧ (0 < btype → c = nb) ∧
      (nova_alloc_blocks_in_free_list E fl btype nb nbr from_tail).new_blocknr ≠ 0) := by
  by_cases h : fl.first_node = none ∨ fl.num_free_blocks = 0
  · left
    rw [alloc_in_free_list_eq]
    simp only [h, if_true]
  · cases hf : (alloc_walk fl.block_free_tree from_tail
        (if from_tail = 0 then fl.first_node else fl.last_node)).find?
        (alloc_takes E btype nb) with
    | none =>
      left
      rw [alloc_in_free_list_eq]
      simp only [h, if_false, hf]
    | some curr =>
      right
      have hmem : curr ∈ fl.block_free_tree.inorder :=
        alloc_walk_subset _ _ _ _ (List.mem_of_find?_eq_some hf)
      obtain ⟨e1, e2, e3⟩ := curr_blocks_eq E fl hw hcnt hnfb curr hmem
      obtain ⟨d, r, t, hl, ht, heq⟩ :=
        alloc_in_free_list_found E fl btype nb nbr from_tail hw hnb h curr hf
      have hle := alloc_count_le from_tail nb curr
      have htakes : alloc_takes E btype nb curr = true := List.find?_some hf
      have hk1 : alloc_kind_of from_tail nb curr = .whole → 1 ≤ curr_blocks curr := by
        intro _; omega
      have hk2 : alloc_kind_of from_tail nb curr ≠ .whole → nb < curr_blocks curr := by
        intro hk
        unfold alloc_kind_of at hk
        by_contra hge
        exact hk (by simp [not_lt.1 hge])
      have hwl : wf_nodes E (d ++ curr :: r) := by rw [← hl]; exact hw
      obtain ⟨_, p2, p3, _⟩ := alloc_mid_props E d r curr nb
        (alloc_kind_of from_tail nb curr) hwl hnb hk1 hk2
      have hc1 : 1 ≤ alloc_count nb curr (alloc_kind_of from_tail nb curr) := by
        cases hk : alloc_kind_of from_tail nb curr with
        | whole => simp only [alloc_count]; omega
        | head => simp only [alloc_count]; exact hnb
        | tail => simp only [alloc_count]; exact hnb
      have hc2 : alloc_count nb curr (alloc_kind_of from_tail nb curr) ≤ fl.num_free_blocks := by
        cases hk : alloc_kind_of from_tail nb curr with
        | whole => simp only [alloc_count]; omega
        | head =>
          have := hk2 (by rw [hk]; simp)
          simp only [alloc_count]; omega
        | tail =>
          have := hk2 (by rw [hk]; simp)
          simp only [alloc_count]; omega
      rw [heq, if_neg (by omega)]
      have hlong := @long_of_ulong_small
        (alloc_count nb curr (alloc_kind_of from_tail nb curr)) (by omega)
      refine ⟨alloc_count nb curr (alloc_kind_of from_tail nb curr), hlong, hc1, hle,
        fun hb => alloc_count_super from_tail htakes hb, ?_⟩
      have := hlow curr hmem
      show alloc_blocknr nb curr (alloc_kind_of from_tail nb curr) ≠ 0
      omega

/-- C37 (counterexample): three states in which `num_free_blocks` is the total size of the
extents and every extent starts at block 1 or later.  (1) One extent `[1, 5]` and a request
for one 2M page (512 blocks): after two retries `nova_new_blocks` allocates anyway, the
loop skips the extent, and the branch of balloc.c 549-555 is taken.  (2) Extents
`[1, 300]` and `[400, 700]` with `first_node` NULL and a request for one 2M page: the call
returns `-ENOSPC` but has rewritten `first_node`.  (3) One extent `[1, 2^32]` and a request
for `2^32 - 28` blocks: the run is removed from the index and the count returned through
`int` is `-28 = -ENOSPC`. -/
theorem C37_failure_atomic_amended_counterexample :
    (serving_cpu (unbalanced_env 0) (single_extent_sbi 1 5) 1 NOVA_BLOCK_TYPE_2M 0 0 = 0 ∧
      alloc_counter_branch (unbalanced_env 0) (nova_get_free_list (single_extent_sbi 1 5) 0)
        NOVA_BLOCK_TYPE_2M 512 0 0 ∧
      (nova_new_blocks (unbalanced_env 0) (single_extent_sbi 1 5) 0 1 NOVA_BLOCK_TYPE_2M DATA
        0 0 0).ret = -ENOSPC) ∧
    ((nova_get_free_list example_null_first_sbi 0).num_free_blocks =
        total_blocks (index_of example_null_first_sbi 0) ∧
      (nova_get_free_list example_null_first_sbi 0).first_node = none ∧
      (nova_new_blocks (unbalanced_env 0) example_null_first_sbi 0 1 NOVA_BLOCK_TYPE_2M DATA
        0 0 0).ret = -ENOSPC ∧
      (nova_get_free_list (nova_new_blocks (unbalanced_env 0) example_null_first_sbi 0 1
        NOVA_BLOCK_TYPE_2M DATA 0 0 0).sbi 0).first_node = some 1000) ∧
    ((nova_new_blocks (unbalanced_env 0) (single_extent_sbi 1 4294967296) 0 4294967268
        NOVA_BLOCK_TYPE_4K DATA 0 0 0).ret = -ENOSPC ∧
      extents (index_of (nova_new_blocks (unbalanced_env 0) (single_extent_sbi 1 4294967296) 0
        4294967268 NOVA_BLOCK_TYPE_4K DATA 0 0 0).sbi 0) = [(4294967269, 4294967296)]) := by
  refine ⟨⟨by decide, ?_, by decide⟩, by decide, by decide⟩
  unfold alloc_counter_branch
  decide

/-- C37 (amended): let every free list of the super block have a well-formed index with
`num_free_blocks` equal to the total size of its extents (an `unsigned long`), every extent
start at block 1 or later, and `first_node` be NULL only when the index is empty.  Then
(1) in any of these lists the branch of balloc.c 549-555 is taken only when the loop
stopped at no extent, so nothing was removed and the request exceeds the counter; and
(2) for `num < 2^31`, whenever `nova_new_blocks` returns a value that is not positive, that
value is `-ENOSPC` (or `-EINVAL` for `num = 0`) and the super block (index, cached pointers
and counters of every partition) and `*blocknr` are unchanged. -/
theorem C37_failure_atomic_amended (E : kernel_env) (sbi : nova_sb_info)
    (blocknr num btype : Nat) (atype cpuid from_tail pid : Int)
    (hlen : sbi.free_lists.length = sbi.cpus.toNat) (hcpu0 : 0 ≤ cpuid) (hpid0 : 0 ≤ pid)
    (hnum : num < 2147483648)
    (hst : ∀ i : Int, wf_nodes E (index_of sbi i) ∧
      (nova_get_free_list sbi i).num_free_blocks = total_blocks (index_of sbi i) ∧
      (nova_get_free_list sbi i).num_free_blocks < 18446744073709551616 ∧
      (∀ p ∈ index_of sbi i, 1 ≤ p.2.range_low) ∧
      ((nova_get_free_list sbi i).first_node = none → index_of sbi i = [])) :
    (∀ (i : Int) (nb nbr : Nat),
      alloc_counter_branch E (nova_get_free_list sbi i) btype nb nbr from_tail →
      nova_alloc_blocks_loop E btype from_tail
        (alloc_walk (nova_get_free_list sbi i).block_free_tree from_tail
          (if from_tail = 0 then (nova_get_free_list sbi i).first_node
            else (nova_get_free_list sbi i).last_node))
        ⟨nova_get_free_list sbi i, nb, nbr, false⟩ =
        ⟨nova_get_free_list sbi i, nb, nbr, false⟩ ∧
      (nova_get_free_list sbi i).num_free_blocks < nb) ∧
    ((nova_new_blocks E sbi blocknr num btype atype cpuid from_tail pid).ret ≤ 0 →
      (nova_new_blocks E sbi blocknr num btype atype cpuid from_tail pid).sbi = sbi ∧
      (nova_new_blocks E sbi blocknr num btype atype cpuid from_tail pid).blocknr = blocknr ∧
      (nova_new_blocks E sbi blocknr num btype atype cpuid from_tail pid).ret =
        (if num = 0 then -EINVAL else -ENOSPC)) := by
  constructor
  · intro i nb nbr hbr
    obtain ⟨hw, hcnt, hnfb, _, _⟩ := hst i
    obtain ⟨_, h2, h3⟩ := counter_branch_none E (nova_get_free_list sbi i) btype nb nbr
      from_tail hw hcnt hnfb hbr
    exact ⟨h2, h3⟩
  · intro hret
    by_cases hz : num = 0
    · subst hz
      rw [new_blocks_zero]
      exact ⟨rfl, rfl, rfl⟩
    · have hnum0 : 1 ≤ num := by omega
      rw [if_neg hz]
      obtain ⟨hnb1, hnb2⟩ := @new_count_bounds num btype hnum0 (by omega)
      obtain ⟨fl0, hc0, hfl0, heq⟩ := new_blocks_eq E sbi blocknr num btype atype cpuid
        from_tail pid hlen hcpu0 hpid0 hnum0 (by omega)
      obtain ⟨hw, hcnt, hnfb, hlow, hfn⟩ := hst (serving_cpu E sbi num btype cpuid pid)
      have hfl : fl0 = nova_get_free_list sbi (serving_cpu E sbi num btype cpuid pid) := by
        rcases hfl0 with h | ⟨h1, h2⟩
        · exact h
        · have he := hfn h1
          unfold index_of at he
          rw [h2]
          unfold rb_first
          rw [he]
          generalize nova_get_free_list sbi (serving_cpu E sbi num btype cpuid pid) = fl at h1 ⊢
          cases fl
          simp only at h1
          subst h1
          rfl
      subst hfl
      rcases alloc_fail_or_serve E _ btype (new_count num btype) 0 from_tail hw hcnt hnfb hlow
        hnb1 (by omega) with ha | ⟨c, hc, hc1, hc2, hc3, hc4⟩
      · rw [heq, ha]
        have hneg : (-ENOSPC : Int) ≤ 0 := by decide
        rw [if_pos (Or.inl hneg)]
        refine ⟨?_, rfl, rfl⟩
        have hs : new_blocks_stats atype
            ⟨-ENOSPC, nova_get_free_list sbi (serving_cpu E sbi num btype cpuid pid), 0⟩ =
            nova_get_free_list sbi (serving_cpu E sbi num btype cpuid pid) := by
          have hn : ¬ ((-ENOSPC : Int) > 0) := by decide
          unfold new_blocks_stats
          exact if_neg hn
        rw [hs, set_get_free_list]
      · exfalso
        rw [heq, hc] at hret
        rw [if_neg (by
          intro h
          rcases h with h | h
          · omega
          · exact hc4 h)] at hret
        simp only [Int.toNat_ofNat] at hret
        have hk := nova_get_numblocks_pos btype
        have hq : 1 ≤ c / nova_get_numblocks btype ∧
            c / nova_get_numblocks btype < 2147483648 := by
          by_cases hb : 0 < btype
          · have := hc3 hb
            subst this
            unfold new_count
            rw [Nat.mul_div_cancel _ (by omega)]
            omega
          · have hb0 : btype = 0 := by omega
            subst hb0
            have h1 : nova_get_numblocks 0 = 1 := rfl
            have h2 : new_count num 0 = num := by unfold new_count; rw [h1]; omega
            rw [h1, Nat.div_one]
            omega
        rw [int_of_ulong_small hq.2] at hret
        omega

/-- C37 (amended) at a concrete input: the list holding only `[1, 5]` and a request for one
2M page.  The call returns `-ENOSPC` and leaves the super block and `*blocknr` as they
were. -/
theorem C37_failure_atomic_amended_witness :
    (nova_new_blocks (unbalanced_env 0) (single_extent_sbi 1 5) 7 1 NOVA_BLOCK_TYPE_2M DATA 0 0
      0).ret = -ENOSPC ∧
    (nova_new_blocks (unbalanced_env 0) (single_extent_sbi 1 5) 7 1 NOVA_BLOCK_TYPE_2M DATA 0 0
      0).sbi = single_extent_sbi 1 5 ∧
    (nova_new_blocks (unbalanced_env 0) (single_extent_sbi 1 5) 7 1 NOVA_BLOCK_TYPE_2M DATA 0 0
      0).blocknr = 7 := by
  have h := (C37_failure_atomic_amended (unbalanced_env 0) (single_extent_sbi 1 5) 7 1
    NOVA_BLOCK_TYPE_2M DATA 0 0 0 (by decide) (by decide) (by decide) (by decide)
    (by
      intro i
      by_cases hi : i < 1
      · have hc : i < (single_extent_sbi 1 5).cpus := hi
        have e : nova_get_free_list (single_extent_sbi 1 5) i =
            nova_get_free_list (single_extent_sbi 1 5) 0 := by
          have ht : i.toNat = 0 := by omega
          unfold nova_get_free_list
          rw [if_pos hc, if_pos (by decide), ht]
          rfl
        unfold index_of
        rw [e]
        exact ⟨⟨⟨by unfold ext_lt; decide, by decide⟩, by decide, by decide, by decide⟩,
          by decide, by decide, by decide, by decide⟩
      · have hc : ¬ i < (single_extent_sbi 1 5).cpus := hi
        have e : nova_get_free_list (single_extent_sbi 1 5) i =
            nova_get_free_list (single_extent_sbi 1 5) 1 := by
          unfold nova_get_free_list
          rw [if_neg hc, if_neg (by decide)]
        unfold index_of
        rw [e]
        exact ⟨⟨⟨by unfold ext_lt; decide, by decide⟩, by decide, by decide, by decide⟩,
          by decide, by decide, by decide, by decide⟩)).2 (by decide)
  exact ⟨h.2.2, h.1, h.2.1⟩

/-- The value of `free_merge` when the freed run touches neither neighbour. -/
theorem free_merge_middle (E : kernel_env) (c lo nb : Nat) (l1 l2 : List node_ptr)
    (h1 : ∀ p ∈ l1, p.2.range_high + 1 < lo) (h2 : ∀ s ∈ l2, lo + nb - 1 + 1 < s.2.range_low) :
    free_merge E c lo nb l1 l2 =
      (.middle, l1 ++ (c, nova_update_range_node_checksum E
        { range_low := lo, range_high := lo + nb - 1, csum := 0 }) :: l2) := by
  rcases List.eq_nil_or_concat' l1 with e1 | ⟨D, p, e1⟩
  · subst e1
    cases l2 with
    | nil => simp [free_merge]
    | cons s R =>
      have := h2 s (List.mem_cons_self _ _)
      simp only [free_merge, List.getLast?_nil, List.head?_cons]
      rw [if_neg (by omega)]
      rfl
  · subst e1
    have hp := h1 p (by simp)
    cases l2 with
    | nil =>
      simp only [free_merge, List.getLast?_concat, List.head?_nil]
      rw [if_neg (by omega)]
    | cons s R =>
      have := h2 s (List.mem_cons_self _ _)
      simp only [free_merge, List.getLast?_concat, List.head?_cons]
      rw [if_neg (by omega), if_neg (by omega), if_neg (by omega)]

/-- The value of `free_merge` when the freed run touches its successor only. -/
theorem free_merge_right (E : kernel_env) (c lo nb : Nat) (l1 l2 : List node_ptr)
    (s : node_ptr) (h1 : ∀ p ∈ l1, p.2.range_high + 1 < lo)
    (h2 : lo + nb - 1 + 1 = s.2.range_low) :
    free_merge E c lo nb l1 (s :: l2) =
      (.right, l1 ++ (s.1, nova_update_range_node_checksum E
        { s.2 with range_low := s.2.range_low - nb }) :: l2) := by
  rcases List.eq_nil_or_concat' l1 with e1 | ⟨D, p, e1⟩
  · subst e1
    simp only [free_merge, List.getLast?_nil, List.head?_cons]
    rw [if_pos h2]
    rfl
  · subst e1
    have hp := h1 p (by simp)
    simp only [free_merge, List.getLast?_concat, List.head?_cons]
    rw [if_neg (by omega), if_neg (by omega), if_pos h2]
    rfl

/-- The value of `free_merge` when the freed run touches its predecessor only. -/
theorem free_merge_left (E : kernel_env) (c lo nb : Nat) (l1 l2 : List node_ptr)
    (p : node_ptr) (h1 : lo = p.2.range_high + 1)
    (h2 : ∀ s ∈ l2, lo + nb - 1 + 1 < s.2.range_low) :
    free_merge E c lo nb (l1 ++ [p]) l2 =
      (.left, l1 ++ (p.1, nova_update_range_node_checksum E
        { p.2 with range_high := p.2.range_high + nb }) :: l2) := by
  cases l2 with
  | nil =>
    simp only [free_merge, List.getLast?_concat, List.head?_nil, List.dropLast_concat]
    rw [if_pos h1]
  | cons s R =>
    have := h2 s (List.mem_cons_self _ _)
    simp only [free_merge, List.getLast?_concat, List.head?_cons, List.dropLast_concat]
    rw [if_neg (by omega), if_pos h1]

/-- Freeing the run that an allocation step took from a maximally coalesced index puts the
chosen extent back: the index has the same extents, the same node addresses except that a
node removed entirely is replaced by the node passed to the free, and the free is of the
kind that undoes the allocation. -/
theorem round_trip_nodes (E : kernel_env) (d r : List node_ptr) (curr : node_ptr)
    (nb : Nat) (k : alloc_kind) (c : Nat)
    (hs : sorted_exts (d ++ curr :: r)) (hco : coalesced (d ++ curr :: r)) (hnb : 1 ≤ nb)
    (hk1 : k = .whole → curr_blocks curr = node_blocks curr)
    (hk2 : k ≠ .whole → nb < node_blocks curr) :
    ∃ x : node_ptr,
      free_nodes E (d ++ alloc_mid E nb curr k ++ r) c (alloc_blocknr nb curr k)
        (alloc_count nb curr k) =
        ((match k with
          | .whole => free_kind.middle
          | .head => free_kind.right
          | .tail => free_kind.left), d ++ x :: r) ∧
      x.1 = (if k = .whole then c else curr.1) ∧
      x.2.range_low = curr.2.range_low ∧ x.2.range_high = curr.2.range_high := by
  have hcl : curr.2.range_low ≤ curr.2.range_high := hs.2 curr (by simp)
  have hdl : ∀ p ∈ d, p.2.range_low ≤ p.2.range_high := fun p hp => hs.2 p (by simp [hp])
  have hrl : ∀ p ∈ r, p.2.range_low ≤ p.2.range_high := fun p hp => hs.2 p (by simp [hp])
  have hd : ∀ p ∈ d, p.2.range_high + 1 < curr.2.range_low := by
    intro p hp
    exact (List.pairwise_append.1 hco).2.2 p hp curr (List.mem_cons_self _ _)
  have hr : ∀ s ∈ r, curr.2.range_high + 1 < s.2.range_low := by
    intro s hs2
    exact (List.pairwise_cons.1 (List.pairwise_append.1 hco).2.1).1 s hs2
  cases k with
  | whole =>
    have hn := hk1 rfl
    simp only [alloc_mid, alloc_blocknr, alloc_count, List.append_nil, hn, node_blocks]
    have hlow : ∀ p ∈ d ++ r, p.2.range_low ≤ p.2.range_high := by
      intro p hp
      rcases List.mem_append.1 hp with h | h
      · exact hdl p h
      · exact hrl p h
    obtain ⟨b1, _⟩ := @split_unique (d ++ r) d r curr.2.range_low rfl
      (fun p hp => by have := hd p hp; omega) (fun p hp => by have := hr p hp; omega) hlow
    obtain ⟨_, a1⟩ := @split_unique (d ++ r) d r
      (curr.2.range_low + (curr.2.range_high - curr.2.range_low + 1) - 1) rfl
      (fun p hp => by have := hd p hp; omega) (fun p hp => by have := hr p hp; omega) hlow
    unfold free_nodes
    rw [← b1, ← a1, free_merge_middle E c _ _ d r hd (fun s hs2 => by have := hr s hs2; omega)]
    refine ⟨_, rfl, by simp, by simp [update_checksum_low], ?_⟩
    simp only [update_checksum_high]
    omega
  | head =>
    have hn := hk2 (by simp)
    unfold node_blocks at hn
    simp only [alloc_mid, alloc_blocknr, alloc_count, List.append_assoc, List.singleton_append]
    have hlow : ∀ p ∈ d ++ (curr.1, nova_update_range_node_checksum E
        { curr.2 with range_low := curr.2.range_low + nb }) :: r,
        p.2.range_low ≤ p.2.range_high := by
      intro p hp
      rcases List.mem_append.1 hp with h | h
      · exact hdl p h
      · rcases List.mem_cons.1 h with h | h
        · rw [h]; simp only [update_checksum_low, update_checksum_high]; omega
        · exact hrl p h
    have hright : ∀ (kk : Nat), kk < curr.2.range_low + nb →
        ∀ p ∈ (curr.1, nova_update_range_node_checksum E
          { curr.2 with range_low := curr.2.range_low + nb }) :: r, kk < p.2.range_low := by
      intro kk hkk p hp
      rcases List.mem_cons.1 hp with h | h
      · rw [h]; simp only [update_checksum_low]; exact hkk
      · have := hr p h; omega
    obtain ⟨b1, _⟩ := @split_unique _ d _ curr.2.range_low rfl
      (fun p hp => by have := hd p hp; omega) (hright _ (by omega)) hlow
    obtain ⟨_, a1⟩ := @split_unique _ d _ (curr.2.range_low + nb - 1) rfl
      (fun p hp => by have := hd p hp; omega) (hright _ (by omega)) hlow
    unfold free_nodes
    rw [← b1, ← a1, free_merge_right E c _ _ d r _ hd (by
      simp only [update_checksum_low]; omega)]
    refine ⟨_, rfl, by simp, ?_, by simp [update_checksum_high]⟩
    simp only [update_checksum_low]
    omega
  | tail =>
    have hn := hk2 (by simp)
    unfold node_blocks at hn
    simp only [alloc_mid, alloc_blocknr, alloc_count]
    have e : d ++ [(curr.1, nova_update_range_node_checksum E
        { curr.2 with range_high := curr.2.range_high - nb })] ++ r =
        (d ++ [(curr.1, nova_update_range_node_checksum E
        { curr.2 with range_high := curr.2.range_high - nb })]) ++ r := rfl
    have hlow : ∀ p ∈ (d ++ [(curr.1, nova_update_range_node_checksum E
        { curr.2 with range_high := curr.2.range_high - nb })]) ++ r,
        p.2.range_low ≤ p.2.range_high := by
      intro p hp
      rcases List.mem_append.1 hp with h | h
      · rcases List.mem_append.1 h with h | h
        · exact hdl p h
        · rw [List.mem_singleton.1 h]
          simp only [update_checksum_low, update_checksum_high]; omega
      · exact hrl p h
    have hleft : ∀ (kk : Nat), curr.2.range_high - nb < kk → curr.2.range_low ≤ kk →
        ∀ p ∈ d ++ [(curr.1, nova_update_range_node_checksum E
          { curr.2 with range_high := curr.2.range_high - nb })], p.2.range_high < kk := by
      intro kk hkk hkk2 p hp
      rcases List.mem_append.1 hp with h | h
      · have := hd p h; omega
      · rw [List.mem_singleton.1 h]; simp only [update_checksum_high]; exact hkk
    obtain ⟨b1, _⟩ := @split_unique _ _ r (curr.2.range_high + 1 - nb) rfl
      (hleft _ (by omega) (by omega)) (fun p hp => by have := hr p hp; omega) hlow
    obtain ⟨_, a1⟩ := @split_unique _ _ r (curr.2.range_high + 1 - nb + nb - 1) rfl
      (hleft _ (by omega) (by omega)) (fun p hp => by have := hr p hp; omega) hlow
    unfold free_nodes
    rw [← b1, ← a1, free_merge_left E c _ _ d r _ (by
      simp only [update_checksum_high]; omega) (fun s hs2 => by have := hr s hs2; omega)]
    refine ⟨_, rfl, by simp, by simp [update_checksum_low], ?_⟩
    simp only [update_checksum_high]
    omega

/-- An allocation step keeps exact cached pointers exact. -/
theorem alloc_result_cache (E : kernel_env) (fl : free_list) (t : rb_root) (from_tail : Int)
    (nb : Nat) (curr : node_ptr) (d r : List node_ptr)
    (hl : fl.block_free_tree.inorder = d ++ curr :: r)
    (ht : t.inorder = d ++ alloc_mid E nb curr (alloc_kind_of from_tail nb curr) ++ r)
    (hnd : ((d ++ curr :: r).map Prod.fst).Nodup) (hce : cache_exact fl) :
    cache_exact (alloc_result_fl fl t from_tail nb curr d r) := by
  obtain ⟨hf, hla⟩ := hce
  rw [hl] at hf hla
  unfold cache_exact
  simp only [alloc_result_fl]
  rw [ht, hf, hla, alloc_mid_first E d r curr _ _ hnd, alloc_mid_last E d r curr _ _ hnd]
  exact ⟨rfl, rfl⟩

/-- C36: let the free list of CPU `cpu` have a well-formed index (ascending, pairwise
disjoint extents) without adjacent extents, exact cached pointers, `num_blocknode` equal to
the number of extents and `unsigned long` counters.  If `nova_alloc_blocks_in_free_list`
returns a positive count `n` with first block `f` (either direction, whole extent or part
of one) and `nova_free_blocks` is then called on `[f, f + n - 1]` (resolved to the same
list, with a node address `c` not in the index), the free returns 0 and the list of extents,
`num_free_blocks` and `num_blocknode` are those before the allocation; the cached pointers
are exact again, so they designate the same first and last extent; and the node addresses,
`first_node` and `last_node` are the very same when the allocation left the number of nodes
unchanged or when `c` is the address of the node the allocation released. -/
theorem C36_alloc_free_round_trip (E : kernel_env) (sbi : nova_sb_info) (cpu : Int)
    (btype nb nbr : Nat) (from_tail : Int) (c : Nat) (num : Int) (btype2 : Nat) (lp : Int)
    (hlen : sbi.free_lists.length = sbi.cpus.toNat)
    (hcpu0 : 0 ≤ cpu) (hcpu : cpu < 2147483648)
    (hw : wf_nodes E (index_of sbi cpu)) (hco : coalesced (index_of sbi cpu))
    (hce : cache_exact (nova_get_free_list sbi cpu))
    (hnfb : (nova_get_free_list sbi cpu).num_free_blocks < 18446744073709551616)
    (hnode : (nova_get_free_list sbi cpu).num_blocknode = (index_of sbi cpu).length)
    (hnbn : (nova_get_free_list sbi cpu).num_blocknode < 18446744073709551616)
    (hnb : 1 ≤ nb) (hnb2 : nb < 9223372036854775808)
    (hret : 0 < (nova_alloc_blocks_in_free_list E (nova_get_free_list sbi cpu) btype nb nbr
      from_tail).ret)
    (hnum : 0 < num) (hnum2 : num < 2147483648)
    (hcount : free_count btype2 num =
      (nova_alloc_blocks_in_free_list E (nova_get_free_list sbi cpu) btype nb nbr
        from_tail).ret.toNat)
    (hown : free_cpu sbi (nova_alloc_blocks_in_free_list E (nova_get_free_list sbi cpu) btype
      nb nbr from_tail).new_blocknr = cpu)
    (hc : c ∉ (nova_alloc_blocks_in_free_list E (nova_get_free_list sbi cpu) btype nb nbr
      from_tail).fl.block_free_tree.inorder.map Prod.fst) :
    (nova_free_blocks E
      (nova_set_free_list sbi cpu (nova_alloc_blocks_in_free_list E (nova_get_free_list sbi cpu)
        btype nb nbr from_tail).fl) (some c)
      (nova_alloc_blocks_in_free_list E (nova_get_free_list sbi cpu) btype nb nbr
        from_tail).new_blocknr num btype2 lp).1 = 0 ∧
    extents (index_of (nova_free_blocks E
      (nova_set_free_list sbi cpu (nova_alloc_blocks_in_free_list E (nova_get_free_list sbi cpu)
        btype nb nbr from_tail).fl) (some c)
      (nova_alloc_blocks_in_free_list E (nova_get_free_list sbi cpu) btype nb nbr
        from_tail).new_blocknr num btype2 lp).2 cpu) = extents (index_of sbi cpu) ∧
    (nova_get_free_list (nova_free_blocks E
      (nova_set_free_list sbi cpu (nova_alloc_blocks_in_free_list E (nova_get_free_list sbi cpu)
        btype nb nbr from_tail).fl) (some c)
      (nova_alloc_blocks_in_free_list E (nova_get_free_list sbi cpu) btype nb nbr
        from_tail).new_blocknr num btype2 lp).2 cpu).num_free_blocks =
      (nova_get_free_list sbi cpu).num_free_blocks ∧
    (nova_get_free_list (nova_free_blocks E
      (nova_set_free_list sbi cpu (nova_alloc_blocks_in_free_list E (nova_get_free_list sbi cpu)
        btype nb nbr from_tail).fl) (some c)
      (nova_alloc_blocks_in_free_list E (nova_get_free_list sbi cpu) btype nb nbr
        from_tail).new_blocknr num btype2 lp).2 cpu).num_blocknode =
      (nova_get_free_list sbi cpu).num_blocknode ∧
    cache_exact (nova_get_free_list (nova_free_blocks E
      (nova_set_free_list sbi cpu (nova_alloc_blocks_in_free_list E (nova_get_free_list sbi cpu)
        btype nb nbr from_tail).fl) (some c)
      (nova_alloc_blocks_in_free_list E (nova_get_free_list sbi cpu) btype nb nbr
        from_tail).new_blocknr num btype2 lp).2 cpu) ∧
    (((nova_alloc_blocks_in_free_list E (nova_get_free_list sbi cpu) btype nb nbr
        from_tail).fl.block_free_tree.inorder.length = (index_of sbi cpu).length ∨
      c ∈ (index_of sbi cpu).map Prod.fst) →
      (index_of (nova_free_blocks E
        (nova_set_free_list sbi cpu (nova_alloc_blocks_in_free_list E
          (nova_get_free_list sbi cpu) btype nb nbr from_tail).fl) (some c)
        (nova_alloc_blocks_in_free_list E (nova_get_free_list sbi cpu) btype nb nbr
          from_tail).new_blocknr num btype2 lp).2 cpu).map Prod.fst =
        (index_of sbi cpu).map Prod.fst ∧
      (nova_get_free_list (nova_free_blocks E
        (nova_set_free_list sbi cpu (nova_alloc_blocks_in_free_list E
          (nova_get_free_list sbi cpu) btype nb nbr from_tail).fl) (some c)
        (nova_alloc_blocks_in_free_list E (nova_get_free_list sbi cpu) btype nb nbr
          from_tail).new_blocknr num btype2 lp).2 cpu).first_node =
        (nova_get_free_list sbi cpu).first_node ∧
      (nova_get_free_list (nova_free_blocks E
        (nova_set_free_list sbi cpu (nova_alloc_blocks_in_free_list E
          (nova_get_free_list sbi cpu) btype nb nbr from_tail).fl) (some c)
        (nova_alloc_blocks_in_free_list E (nova_get_free_list sbi cpu) btype nb nbr
          from_tail).new_blocknr num btype2 lp).2 cpu).last_node =
        (nova_get_free_list sbi cpu).last_node) := by
  have hidx0 : (nova_get_free_list sbi cpu).block_free_tree.inorder = index_of sbi cpu := rfl
  obtain ⟨curr, d, r, t, hf, hl, ht, hc1, hc2, heq⟩ := alloc_in_free_list_pos E
    (nova_get_free_list sbi cpu) btype nb nbr from_tail hw hnb hnb2 hret
  rw [hidx0] at hl
  rw [heq] at hcount hown hc ⊢
  simp only [Int.toNat_ofNat] at hcount
  simp only [] at hown hc ⊢
  have hwl : wf_nodes E (d ++ curr :: r) := by rw [← hl]; exact hw
  have hcol : coalesced (d ++ curr :: r) := by rw [← hl]; exact hco
  have hcm : curr ∈ d ++ curr :: r := by simp
  have hcb := curr_blocks_le (hwl.sorted.2 curr hcm) (hwl.bound curr hcm)
  have hk1 : alloc_kind_of from_tail nb curr = .whole → 1 ≤ curr_blocks curr := by
    intro hk; rw [hk] at hc1; exact hc1
  have hk2 : alloc_kind_of from_tail nb curr ≠ .whole → nb < curr_blocks curr := by
    intro hk
    unfold alloc_kind_of at hk
    by_contra hge
    exact hk (by simp [not_lt.1 hge])
  obtain ⟨p1, p2, p3, p4, _, _⟩ := alloc_mid_props E d r curr nb
    (alloc_kind_of from_tail nb curr) hwl hnb hk1 hk2
  obtain ⟨x, hx, hx1, hx2, hx3⟩ := round_trip_nodes E d r curr nb
    (alloc_kind_of from_tail nb curr) c hwl.sorted hcol hnb
    (fun hk => hcb.2 (hk1 hk)) (fun hk => by have := hk2 hk; omega)
  generalize hkd : alloc_kind_of from_tail nb curr = k at *
  generalize hfd : alloc_blocknr nb curr k = f at *
  generalize hnd : alloc_count nb curr k = n at *
  have htree : (alloc_result_fl (nova_get_free_list sbi cpu) t from_tail nb curr d
      r).block_free_tree.inorder = d ++ alloc_mid E nb curr k ++ r := by
    simp only [alloc_result_fl]; exact ht
  rw [htree] at hc
  generalize hs1 : nova_set_free_list sbi cpu
    (alloc_result_fl (nova_get_free_list sbi cpu) t from_tail nb curr d r) = sbi1
  have hget1 : nova_get_free_list sbi1 cpu =
      alloc_result_fl (nova_get_free_list sbi cpu) t from_tail nb curr d r := by
    rw [← hs1]; exact get_set_free_list _ _ _ hcpu0 hlen
  have hfields := set_free_list_fields sbi cpu
    (alloc_result_fl (nova_get_free_list sbi cpu) t from_tail nb curr d r)
  rw [hs1] at hfields
  have hlen1 : sbi1.free_lists.length = sbi1.cpus.toNat := by
    rw [hfields.2.2, hfields.1]; exact hlen
  have hfc : free_cpu sbi1 f = cpu := by
    unfold free_cpu at hown ⊢
    rw [hfields.2.1]; exact hown
  have hidx1 : index_of sbi1 cpu = d ++ alloc_mid E nb curr k ++ r := by
    unfold index_of; rw [hget1]; exact htree
  have hcpuf : f / sbi1.per_list_blocks < 2147483648 := by
    unfold free_cpu at hfc
    omega
  have hbound := hwl.bound curr hcm
  have hfree : ∀ b, f ≤ b → b < f + free_count btype2 num → ¬ blk_in (index_of sbi1
      (free_cpu sbi1 f)) b := by
    intro b hb1 hb2 hb
    rw [hfc, hidx1] at hb
    rw [hcount] at hb2
    exact ((p4 b).1 hb).2 ⟨hb1, hb2⟩
  obtain ⟨fl1, hrunf, hgetf, htreef, _, _, hnbnf, hnfbf, _, _⟩ := free_blocks_valid E sbi1 c f num
    btype2 lp hlen1 hnum hnum2 hcpuf (by rw [hfc, hidx1]; exact p1) (by rw [hcount]; omega)
    hfree
  have hpart : (nova_free_blocks E sbi1 (some c) f num btype2 lp).1 = 0 := by rw [hrunf]
  have hcache := free_blocks_cache E sbi1 c f num btype2 lp hlen1 hnum hnum2 hcpuf
    (by rw [hfc, hidx1]; exact p1) (by rw [hcount]; omega) hfree
    (by
      rw [hfc, hget1]
      exact alloc_result_cache E _ t from_tail nb curr d r hl (by rw [hkd]; exact ht)
        (by rw [← hl]; exact hw.nodup) hce)
  rw [hfc] at hgetf htreef hnbnf hnfbf hcache
  rw [hidx1, hcount, hx] at htreef hnbnf
  have hidx2 : index_of (nova_free_blocks E sbi1 (some c) f num btype2 lp).2 cpu =
      d ++ x :: r := by
    unfold index_of; rw [hgetf]; exact htreef
  refine ⟨hpart, ?_, ?_, ?_, hcache, ?_⟩
  · rw [hidx2, hl]
    simp only [extents, List.map_append, List.map_cons, hx2, hx3]
  · rw [hgetf, hnfbf, hget1, hcount]
    simp only [alloc_result_fl]
    rw [hkd, hnd]
    unfold ul ul_sub
    omega
  · rw [hgetf, hnbnf, hget1]
    simp only [alloc_result_fl]
    rw [hkd]
    have hlen0 : 1 ≤ (nova_get_free_list sbi cpu).num_blocknode := by
      rw [hnode, hl]
      simp only [List.length_append, List.length_cons]
      omega
    cases k with
    | whole =>
      simp only [free_num_blocknode, if_true]
      unfold ul ul_sub
      omega
    | head => simp [free_num_blocknode]
    | tail => simp [free_num_blocknode]
  · intro hcond
    have hxa : x.1 = curr.1 := by
      rw [hx1]
      by_cases hk : k = .whole
      · rw [if_pos hk]
        subst hk
        rcases hcond with h | h
        · rw [htree, hl] at h
          simp [alloc_mid] at h
        · rw [hl] at h
          simp only [alloc_mid, List.append_nil, List.map_append, List.mem_append,
            List.map_cons, List.mem_cons] at hc h
          rcases h with h | h | h
          · exact absurd (Or.inl h) hc
          · exact h
          · exact absurd (Or.inr h) hc
      · rw [if_neg hk]
    have haddr : (index_of (nova_free_blocks E sbi1 (some c) f num btype2 lp).2 cpu).map
        Prod.fst = (index_of sbi cpu).map Prod.fst := by
      rw [hidx2, hl]
      simp only [List.map_append, List.map_cons, hxa]
    obtain ⟨c1, c2⟩ := hcache
    obtain ⟨c3, c4⟩ := hce
    have hidxf : (nova_get_free_list (nova_free_blocks E sbi1 (some c) f num btype2 lp).2
        cpu).block_free_tree.inorder =
        index_of (nova_free_blocks E sbi1 (some c) f num btype2 lp).2 cpu := rfl
    rw [hidxf] at c1 c2
    rw [hidx0] at c3 c4
    refine ⟨haddr, ?_, ?_⟩
    · rw [c1, c3, ← List.head?_map, ← List.head?_map, haddr]
    · rw [c2, c4, ← List.getLast?_map, ← List.getLast?_map, haddr]

/-- C36 at a concrete input: the list holding only `[13, 99]`; 30 blocks of the 4K type are
allocated from the tail (blocks 70..99, the node stays) and freed again.  The extents, the
counter and both cached pointers are as before. -/
theorem C36_alloc_free_round_trip_witness :
    (nova_alloc_blocks_in_free_list (unbalanced_env 0)
      (nova_get_free_list example_sbi1 0) NOVA_BLOCK_TYPE_4K 30 0 1).new_blocknr = 70 ∧
    (nova_free_blocks (unbalanced_env 0)
      (nova_set_free_list example_sbi1 0
        (nova_alloc_blocks_in_free_list (unbalanced_env 0)
          (nova_get_free_list example_sbi1 0) NOVA_BLOCK_TYPE_4K 30 0 1).fl)
      (some 2000)
      (nova_alloc_blocks_in_free_list (unbalanced_env 0)
        (nova_get_free_list example_sbi1 0) NOVA_BLOCK_TYPE_4K 30 0 1).new_blocknr
      30 NOVA_BLOCK_TYPE_4K 0).1 = 0 ∧
    extents (index_of (nova_free_blocks (unbalanced_env 0)
      (nova_set_free_list example_sbi1 0
        (nova_alloc_blocks_in_free_list (unbalanced_env 0)
          (nova_get_free_list example_sbi1 0) NOVA_BLOCK_TYPE_4K 30 0 1).fl)
      (some 2000)
      (nova_alloc_blocks_in_free_list (unbalanced_env 0)
        (nova_get_free_list example_sbi1 0) NOVA_BLOCK_TYPE_4K 30 0 1).new_blocknr
      30 NOVA_BLOCK_TYPE_4K 0).2 0) = [(13, 99)] ∧
    (nova_get_free_list (nova_free_blocks (unbalanced_env 0)
      (nova_set_free_list example_sbi1 0
        (nova_alloc_blocks_in_free_list (unbalanced_env 0)
          (nova_get_free_list example_sbi1 0) NOVA_BLOCK_TYPE_4K 30 0 1).fl)
      (some 2000)
      (nova_alloc_blocks_in_free_list (unbalanced_env 0)
        (nova_get_free_list example_sbi1 0) NOVA_BLOCK_TYPE_4K 30 0 1).new_blocknr
      30 NOVA_BLOCK_TYPE_4K 0).2 0).num_free_blocks = 87 ∧
    (nova_get_free_list (nova_free_blocks (unbalanced_env 0)
      (nova_set_free_list example_sbi1 0
        (nova_alloc_blocks_in_free_list (unbalanced_env 0)
          (nova_get_free_list example_sbi1 0) NOVA_BLOCK_TYPE_4K 30 0 1).fl)
      (some 2000)
      (nova_alloc_blocks_in_free_list (unbalanced_env 0)
        (nova_get_free_list example_sbi1 0) NOVA_BLOCK_TYPE_4K 30 0 1).new_blocknr
      30 NOVA_BLOCK_TYPE_4K 0).2 0).first_node = (nova_get_free_list example_sbi1 0).first_node ∧
    (nova_get_free_list (nova_free_blocks (unbalanced_env 0)
      (nova_set_free_list example_sbi1 0
        (nova_alloc_blocks_in_free_list (unbalanced_env 0)
          (nova_get_free_list example_sbi1 0) NOVA_BLOCK_TYPE_4K 30 0 1).fl)
      (some 2000)
      (nova_alloc_blocks_in_free_list (unbalanced_env 0)
        (nova_get_free_list example_sbi1 0) NOVA_BLOCK_TYPE_4K 30 0 1).new_blocknr
      30 NOVA_BLOCK_TYPE_4K 0).2 0).last_node = (nova_get_free_list example_sbi1 0).last_node := by
  have h := C36_alloc_free_round_trip (unbalanced_env 0) example_sbi1 0
    NOVA_BLOCK_TYPE_4K 30 0 1 2000 30 NOVA_BLOCK_TYPE_4K 0 (by decide) (by decide) (by decide)
    ⟨⟨by unfold ext_lt; decide, by decide⟩, by decide, by decide, by decide⟩
    (by unfold coalesced; decide) (by unfold cache_exact; decide) (by decide) (by decide)
    (by decide) (by decide) (by decide) (by decide) (by decide) (by decide) (by decide)
    (by decide) (by decide)
  have h5 := h.2.2.2.2.2 (Or.inl (by decide))
  exact ⟨by decide, h.1, h.2.1.trans (by decide), h.2.2.1.trans (by decide), h5.2.1, h5.2.2⟩


/-- C19 (evaluation at the failing input): a file log of two pages whose tail, 8192, is the
first slot of the second page.  The only entry before the tail is the file-write entry at
4096 (transaction id 1, mtime 7, size 100), and it verifies, so the claim gives size 100
and mtime 7, which is what the rebuild returns when the tail is 4152, on the first page.
With the tail at 8192 the rebuild returns 0 with size 999 and mtime 8, the values of the
entry stored at the tail. -/
theorem C19_tie_break_entry_at_tail :
    spec_entries_before_tail example_tail_log (file_entry_size example_tail_log) 8192 5 4096 =
      some [4096] ∧
    example_tail_log.nova_verify_entry_csum 4096 = true ∧
    last_with_max ([4096].filterMap (timed_entry example_tail_log)) = some (1, 7, 100) ∧
    timed_entry example_tail_log 8192 = some (2, 8, 999) ∧
    rebuilt_attrs (nova_rebuild_file_inode_tree example_rebuild_env example_tail_log
      example_sb 5 (example_pi 4096 4152) 64 example_sih example_reb []) =
      some (0, 100, 7) ∧
    rebuilt_attrs (nova_rebuild_file_inode_tree example_rebuild_env example_tail_log
      example_sb 5 (example_pi 4096 8192) 64 example_sih example_reb []) =
      some (0, 999, 8) := by
  decide

end Nova
